import Mathlib

/-!
The wasp library: readers and writers of the WebAssembly binary format.

A shallow embedding of `wasp/binary/read/read_var_int.h`,
`wasp/binary/write/write_var_int.h`, `wasp/binary/read/read_vector.h`,
`wasp/binary/encoding/block_type_encoding.h`, `wasp/valid/validate_limits.h`
and the constructor of the linking section in `src/binary/read_section.cc`,
together with the error sink of `src/binary/reader_test.cc`, and the
properties of these functions stated by the specification.

Machine integers are natural numbers and integers with explicit reduction
modulo `2 ^ W`; a byte is an element of `Fin 256`.
-/

namespace wasp

/-- The type `u8` of bytes. -/
abbrev U8 := Fin 256

namespace binary

/-! ## Data model -/

/-- The byte cursor `SpanU8`: `pos` is the distance of its start from the
origin of the input buffer, `bytes` are the bytes it still holds. -/
structure SpanU8 where
  pos : Nat
  bytes : List U8
  deriving DecidableEq, Repr

/-- The number of bytes a cursor holds (`SpanU8::size`). -/
def SpanU8.size (data : SpanU8) : Nat := data.bytes.length

/-- The error sink interface `Errors` over a sink state `σ`: the three
operations `PushContext`, `PopContext` and `OnError`. -/
structure Errors (σ : Type) where
  PushContext : SpanU8 → String → σ → σ
  PopContext : σ → σ
  OnError : SpanU8 → String → σ → σ

/-- A frame of the context stack, or the final entry of an error
(`struct ErrorContext` of `reader_test.cc`). -/
structure ErrorContext where
  pos : SpanU8
  desc : String
  deriving DecidableEq, Repr

/-- The recording sink `TestErrors` of `reader_test.cc`. -/
structure TestErrors where
  context_stack : List ErrorContext
  errors : List (List ErrorContext)
  deriving DecidableEq, Repr

/-- The method `TestErrors::PushContext`: `context_stack.push_back`. -/
def TestErrors.PushContext (pos : SpanU8) (desc : String) (e : TestErrors) : TestErrors :=
  { e with context_stack := e.context_stack ++ [ErrorContext.mk pos desc] }

/-- The method `TestErrors::PopContext`: `context_stack.pop_back`. -/
def TestErrors.PopContext (e : TestErrors) : TestErrors :=
  { e with context_stack := e.context_stack.dropLast }

/-- The method `TestErrors::OnError`: a new error holding a copy of the context stack
followed by the located message. -/
def TestErrors.OnError (pos : SpanU8) (message : String) (e : TestErrors) : TestErrors :=
  { e with errors := e.errors ++ [e.context_stack ++ [ErrorContext.mk pos message]] }

/-- The recording sink as an instance of the sink interface. -/
def TestErrors.sink : Errors TestErrors where
  PushContext := TestErrors.PushContext
  PopContext := TestErrors.PopContext
  OnError := TestErrors.OnError

/-- A sink with an empty context stack and no recorded error. -/
def TestErrors.empty : TestErrors := TestErrors.mk [] []

/-- The discarding sink `ErrorsNop` of `errors_nop.h`: every handler has an
empty body. -/
def ErrorsNop : Errors Unit where
  PushContext := fun _ _ e => e
  PopContext := fun e => e
  OnError := fun _ _ e => e

/-- What a reader leaves behind: the optional value, the cursor and the
sink after the call. -/
structure ReadResult (σ α : Type) where
  value : Option α
  data : SpanU8
  errors : σ
  deriving DecidableEq, Repr

/-! ## Integer types and the constants of `VarInt<T>` -/

/-- The integer types the LEB128 readers and writers are used at. -/
inductive IntType where
  | u32
  | s32
  | s64
  deriving DecidableEq, Repr

/-- The width `sizeof(T) * 8` of an integer type. -/
def IntType.kNumBits : IntType → Nat
  | .u32 => 32
  | .s32 => 32
  | .s64 => 64

/-- The value of `std::is_signed<T>`. -/
def IntType.is_signed : IntType → Bool
  | .u32 => false
  | .s32 => true
  | .s64 => true

/-- Modelled from the spec: `VarInt<T>::kByteMask` of `var_int.h`, the seven
payload bits of a byte. -/
def kByteMask : Nat := 0x7f

/-- Modelled from the spec: `VarInt<T>::kExtendBit` of `var_int.h`, bit 7,
the continuation flag. -/
def kExtendBit : Nat := 0x80

/-- Modelled from the spec: `VarInt<T>::kSignBit` of `var_int.h`, bit 6, the
top bit of the payload. -/
def kSignBit : Nat := 0x40

/-- Modelled from the spec: `VarInt<T>::kBitsPerByte` of `var_int.h`. -/
def kBitsPerByte : Nat := 7

/-- Modelled from the spec: `VarInt<T>::kMaxBytes` of `var_int.h`, that is
`ceil(W/7)`. -/
def kMaxBytes (T : IntType) : Nat := (T.kNumBits + (kBitsPerByte - 1)) / kBitsPerByte

/-- Modelled from the spec: `VarInt<T>::kUsedBitsInLastByte` of `var_int.h`,
the bits of the `ceil(W/7)`-th byte that belong to the value. -/
def kUsedBitsInLastByte (T : IntType) : Nat := T.kNumBits - kBitsPerByte * (kMaxBytes T - 1)

/-- The constant `kLastByteMaskBits` of `ReadVarInt`. -/
def kLastByteMaskBits (T : IntType) : Nat :=
  kUsedBitsInLastByte T - (if T.is_signed then 1 else 0)

/-- The constant `kLastByteMask` of `ReadVarInt`: the complement, as a
`u8`, of `(1 << kLastByteMaskBits) - 1`. -/
def kLastByteMask (T : IntType) : Nat := 0xff ^^^ ((1 <<< kLastByteMaskBits T) - 1)

/-- The constant `kLastByteOnes` of `ReadVarInt`. -/
def kLastByteOnes (T : IntType) : Nat := kLastByteMask T &&& kByteMask

/-- The conversion `static_cast<T>` of a `W`-bit unsigned number: the
identity for an unsigned `T`, the two's complement reading for a signed
one. -/
def static_cast (T : IntType) (x : Nat) : Int :=
  if T.is_signed then
    if x % 2 ^ T.kNumBits < 2 ^ (T.kNumBits - 1) then (x % 2 ^ T.kNumBits : Nat)
    else ((x % 2 ^ T.kNumBits : Nat) : Int) - 2 ^ T.kNumBits
  else (x % 2 ^ T.kNumBits : Nat)

/-- The function `SignExtend<S>(x, N)`:
`static_cast<S>(x << (kNumBits - N - 1)) >> (kNumBits - N - 1)`, the left
shift in `W`-bit unsigned arithmetic, the right shift arithmetic. -/
def SignExtend (T : IntType) (x : Nat) (N : Nat) : Int :=
  static_cast T ((x <<< (T.kNumBits - N - 1)) % 2 ^ T.kNumBits) >>> (T.kNumBits - N - 1)

/-- The output of the format specifier `:#2x` for a byte. -/
def formatHex (n : Nat) : String := "0x" ++ String.mk (Nat.toDigits 16 n)

/-! ## Readers -/

/-- Modelled from the spec: `Read<u8>` of `read_u8.h`. It fails with
"Unable to read u8" at the cursor when the cursor is empty, and otherwise
returns the first byte and advances the cursor by one. -/
def ReadU8 {σ : Type} (E : Errors σ) (data : SpanU8) (errors : σ) : ReadResult σ U8 :=
  match data.bytes with
  | [] => ReadResult.mk none data (E.OnError data "Unable to read u8" errors)
  | b :: rest => ReadResult.mk (some b) (SpanU8.mk (data.pos + 1) rest) errors

/-- The loop `for (int i = 0;;)` of `ReadVarInt`, entered with the counter
`i` and the accumulator `result`. The first argument bounds the number of
iterations; `none` means that bound was reached. -/
def ReadVarIntLoop {σ : Type} (E : Errors σ) (T : IntType) (desc : String) :
    Nat → Nat → Nat → SpanU8 → σ → Option (ReadResult σ Int)
  | 0, _, _, _, _ => none
  | fuel + 1, i, result, data, errors =>
    match ReadU8 E data errors with
    | ReadResult.mk none data errors => some (ReadResult.mk none data errors)
    | ReadResult.mk (some b) data errors =>
      let byte : Nat := b.val
      let shift := i * 7
      let result := result ||| (((byte &&& kByteMask) <<< shift) % 2 ^ T.kNumBits)
      if i + 1 = kMaxBytes T then
        if byte &&& kLastByteMask T = 0 ∨
            (T.is_signed = true ∧ byte &&& kLastByteMask T = kLastByteOnes T) then
          some (ReadResult.mk (some (static_cast T result)) data errors)
        else
          let zero_ext := byte &&& (0xff ^^^ kLastByteMask T) &&& kByteMask
          let one_ext := (byte ||| kLastByteOnes T) &&& kByteMask
          if T.is_signed then
            some (ReadResult.mk none data (E.OnError data
              ("Last byte of " ++ desc ++ " must be sign extension: expected " ++
                formatHex zero_ext ++ " or " ++ formatHex one_ext ++ ", got " ++
                formatHex byte) errors))
          else
            some (ReadResult.mk none data (E.OnError data
              ("Last byte of " ++ desc ++ " must be zero extension: expected " ++
                formatHex zero_ext ++ ", got " ++ formatHex byte) errors))
      else if byte &&& kExtendBit = 0 then
        some (ReadResult.mk
          (some (if T.is_signed then SignExtend T result (6 + shift) else (result : Int)))
          data errors)
      else ReadVarIntLoop E T desc fuel (i + 1) result data errors

/-- The function `ReadVarInt<T>`: the context guard pushes `desc` at the
cursor of entry, the loop runs, and the guard pops on the way out. The
loop is given `kMaxBytes` iterations. -/
def ReadVarInt {σ : Type} (E : Errors σ) (T : IntType) (data : SpanU8) (errors : σ)
    (desc : String) : Option (ReadResult σ Int) :=
  match ReadVarIntLoop E T desc (kMaxBytes T) 0 0 data (E.PushContext data desc errors) with
  | none => none
  | some r => some (ReadResult.mk r.value r.data (E.PopContext r.errors))

/-! ## Writers -/

/-- The loop of `WriteVarIntLoop`. The value is an integer of the width of
`T`, so `value & kByteMask`, the low seven bits of its two's complement
representation, is its residue modulo `kByteMask + 1`, and `value >>= 7` is
the arithmetic shift. The first argument bounds the number of iterations;
`none` means that bound was reached. -/
def WriteVarIntLoop (end_cond : Int → Nat → Bool) : Nat → Int → List U8 → Option (List U8)
  | 0, _, _ => none
  | fuel + 1, value, out =>
    let byte : Nat := (value % ((kByteMask : Int) + 1)).toNat
    let value := value >>> (7 : Nat)
    if end_cond value byte then
      some (out ++ [Fin.ofNat byte])
    else
      WriteVarIntLoop end_cond fuel value (out ++ [Fin.ofNat (byte ||| kExtendBit)])

/-- The function `WriteVarInt<T>`, for unsigned and for signed `T`: the
output iterator is the list of the bytes written so far. The loop is given
`kMaxBytes` iterations. -/
def WriteVarInt (T : IntType) (value : Int) (out : List U8) : Option (List U8) :=
  if T.is_signed then
    if value < 0 then
      WriteVarIntLoop (fun value byte => value == -1 && (byte &&& kSignBit) != 0)
        (kMaxBytes T) value out
    else
      WriteVarIntLoop (fun value byte => value == 0 && (byte &&& kSignBit) == 0)
        (kMaxBytes T) value out
  else
    WriteVarIntLoop (fun value _ => value == 0) (kMaxBytes T) value out

/-- The values of type `T`. -/
def InRange (T : IntType) (x : Int) : Prop :=
  if T.is_signed then -(2 : Int) ^ (T.kNumBits - 1) ≤ x ∧ x < 2 ^ (T.kNumBits - 1)
  else 0 ≤ x ∧ x < 2 ^ T.kNumBits

instance (T : IntType) (x : Int) : Decidable (InRange T x) := by
  unfold InRange; infer_instance

/-! ## Auxiliary definitions of the proofs -/

/-- The value a terminating byte contributes. -/
def byteVal (T : IntType) (b : U8) : Int :=
  if T.is_signed = true ∧ 64 ≤ b.val then (b.val : Int) - 128 else (b.val : Int)

/-- Whether the final byte of a maximum-length encoding obeys the extension rule. -/
def lastOk (T : IntType) (b : U8) : Prop :=
  b.val &&& kLastByteMask T = 0 ∨
    (T.is_signed = true ∧ b.val &&& kLastByteMask T = kLastByteOnes T)

instance (T : IntType) (b : U8) : Decidable (lastOk T b) := by unfold lastOk; infer_instance

/-- The diagnostic of a final byte that violates the extension rule. -/
def lastByteMessage (T : IntType) (desc : String) (byte : Nat) : String :=
  if T.is_signed then
    "Last byte of " ++ desc ++ " must be sign extension: expected " ++
      formatHex (byte &&& (0xff ^^^ kLastByteMask T) &&& kByteMask) ++ " or " ++
      formatHex ((byte ||| kLastByteOnes T) &&& kByteMask) ++ ", got " ++ formatHex byte
  else
    "Last byte of " ++ desc ++ " must be zero extension: expected " ++
      formatHex (byte &&& (0xff ^^^ kLastByteMask T) &&& kByteMask) ++ ", got " ++
      formatHex byte

/-- The end condition `WriteVarInt` hands to the loop for `value`. -/
def endCond (T : IntType) (value : Int) : Int → Nat → Bool :=
  if T.is_signed then
    if value < 0 then (fun value byte => value == -1 && (byte &&& kSignBit) != 0)
    else (fun value byte => value == 0 && (byte &&& kSignBit) == 0)
  else (fun value _ => value == 0)

/-- The values the bytes from the `i`-th on can still carry. -/
def Fits (T : IntType) (i : Nat) (v : Int) : Prop :=
  if T.is_signed then
    -(2 : Int) ^ (T.kNumBits - 1 - 7 * i) ≤ v ∧ v < 2 ^ (T.kNumBits - 1 - 7 * i)
  else 0 ≤ v ∧ v < 2 ^ (T.kNumBits - 7 * i)

/-- The values whose encoding is a single byte. -/
def Stops (T : IntType) (v : Int) : Prop :=
  if T.is_signed then -64 ≤ v ∧ v < 64 else 0 ≤ v ∧ v < 128

instance (T : IntType) (i : Nat) (v : Int) : Decidable (Fits T i v) := by
  unfold Fits; infer_instance

instance (T : IntType) (v : Int) : Decidable (Stops T v) := by
  unfold Stops; infer_instance

/-- The byte the writer emits last for `v`. -/
def stopByte (v : Int) : U8 := Fin.ofNat (v % 128).toNat

/-- The byte the writer emits for `v` when more bytes follow. -/
def contByte (v : Int) : U8 := Fin.ofNat ((v % 128).toNat ||| kExtendBit)

/-- The unsigned number carried by the payloads of a byte string, seven
bits a byte, the first byte lowest. -/
def payload : List U8 → Nat
  | [] => 0
  | b :: bs => b.val % 128 + 128 * payload bs

/-- The position of the first byte whose bit 7 is clear, if there is one. -/
def firstClear : List U8 → Option Nat
  | [] => none
  | b :: bs => if b.val &&& kExtendBit = 0 then some 0 else (firstClear bs).map (fun j => j + 1)

/-- The number of bytes up to and including the first byte whose bit 7 is
clear, or `kMaxBytes` when none of the first `kMaxBytes - 1` bytes has bit 7
clear. -/
def lebLength (T : IntType) (bs : List U8) : Nat :=
  match firstClear (bs.take (kMaxBytes T - 1)) with
  | some j => j + 1
  | none => kMaxBytes T

/-- The reader `ReadVarInt<T>` accepts the byte string `bs` in full with the
value `v`: it returns `v` and leaves the cursor empty. -/
def AcceptsInFull (T : IntType) (bs : List U8) (v : Int) : Prop :=
  match ReadVarInt TestErrors.sink T (SpanU8.mk 0 bs) TestErrors.empty "" with
  | some r => r.value = some v ∧ r.data.bytes = []
  | none => False

instance (T : IntType) (bs : List U8) (v : Int) : Decidable (AcceptsInFull T bs v) := by
  unfold AcceptsInFull; split <;> infer_instance

/-! ## Counts and vectors -/

/-- Modelled from the spec: `Read<u32>` of `read.h`, the LEB128 read under
the context "u32" that the tests of `reader_test.cc` record. -/
def ReadU32 {σ : Type} (E : Errors σ) (data : SpanU8) (errors : σ) :
    Option (ReadResult σ Int) :=
  ReadVarInt E IntType.u32 data errors "u32"

/-- Modelled from the spec: `ReadCount` of `read_count.h`. It reads a LEB128
`u32`, under the context "index" that the tests of `reader_test.cc` record,
and fails with "Count is longer than the data length: N > M" at the cursor
when the count exceeds the number of bytes that remain. -/
def ReadCount {σ : Type} (E : Errors σ) (data : SpanU8) (errors : σ) :
    Option (ReadResult σ Nat) :=
  match ReadVarInt E IntType.u32 data errors "index" with
  | none => none
  | some (ReadResult.mk none data errors) => some (ReadResult.mk none data errors)
  | some (ReadResult.mk (some count) data errors) =>
    if count.toNat > data.size then
      some (ReadResult.mk none data (E.OnError data
        ("Count is longer than the data length: " ++ toString count.toNat ++ " > " ++
          toString data.size) errors))
    else some (ReadResult.mk (some count.toNat) data errors)

/-- The loop `for (u32 i = 0; i < len; ++i)` of `ReadVector`, entered with
`len - i` elements still to read and the elements read so far; `read` is
`Read<T>`. -/
def ReadVectorLoop {σ α : Type} (read : SpanU8 → σ → Option (ReadResult σ α)) :
    Nat → List α → SpanU8 → σ → Option (ReadResult σ (List α))
  | 0, result, data, errors => some (ReadResult.mk (some result) data errors)
  | n + 1, result, data, errors =>
    match read data errors with
    | none => none
    | some (ReadResult.mk none data errors) => some (ReadResult.mk none data errors)
    | some (ReadResult.mk (some elt) data errors) =>
      ReadVectorLoop read n (result ++ [elt]) data errors

/-- The function `ReadVector<T>`: the context guard pushes `desc` at the
cursor of entry, the count is read, then that many elements, and the guard
pops on the way out. -/
def ReadVector {σ α : Type} (E : Errors σ) (read : SpanU8 → σ → Option (ReadResult σ α))
    (data : SpanU8) (errors : σ) (desc : String) : Option (ReadResult σ (List α)) :=
  match ReadCount E data (E.PushContext data desc errors) with
  | none => none
  | some (ReadResult.mk none data errors) =>
    some (ReadResult.mk none data (E.PopContext errors))
  | some (ReadResult.mk (some len) data errors) =>
    match ReadVectorLoop read len [] data errors with
    | none => none
    | some r => some (ReadResult.mk r.value r.data (E.PopContext r.errors))

/-- A reader over the recording sink that always returns and leaves the
context stack as it found it. -/
def Balanced {α : Type} (read : SpanU8 → TestErrors → Option (ReadResult TestErrors α)) :
    Prop :=
  ∀ (data : SpanU8) (e : TestErrors),
    ∃ r, read data e = some r ∧ r.errors.context_stack = e.context_stack

/-- The element reads `read` performs one after the other from the cursor
`data` and the sink `errors`: each entry of the list is the value one read
returns together with the cursor and the sink it leaves, from which the next
read starts. -/
def ReadsInOrder {σ α : Type} (read : SpanU8 → σ → Option (ReadResult σ α)) :
    SpanU8 → σ → List (α × SpanU8 × σ) → Prop
  | _, _, [] => True
  | data, errors, (v, data2, errors2) :: rest =>
    read data errors = some (ReadResult.mk (some v) data2 errors2) ∧
      ReadsInOrder read data2 errors2 rest

/-- The cursor and the sink after a run of element reads: those the last
read left, or those of the start when there was no read. -/
def stateAfter {σ α : Type} : SpanU8 → σ → List (α × SpanU8 × σ) → SpanU8 × σ
  | data, errors, [] => (data, errors)
  | _, _, (_, data2, errors2) :: rest => stateAfter data2 errors2 rest

/-- The cursor `d` is the cursor `data` advanced by `k` bytes: it has not
been moved back and the bytes it holds are those of `data` after the first
`k`. -/
def Advances (data d : SpanU8) (k : Nat) : Prop :=
  k ≤ data.bytes.length ∧ d = SpanU8.mk (data.pos + k) (data.bytes.drop k)

/-! ## Encoding tables -/

/-- The feature set `Features`: for each feature, the value of its
`feature_enabled()` accessor. The list of the features, `features.def`, is
not part of the sources and is a parameter. -/
abbrev Features (F : Type) := F → Bool

/-- A row of an encoding table: `WASP_V(val, Name, str)`, which has no
feature, or `WASP_FEATURE_V(val, Name, str, feature)`. -/
structure Row (N F : Type) where
  val : U8
  Name : N
  str : String
  feature : Option F
  deriving DecidableEq, Repr

/-- The function `encoding::BlockType::Encode`: a switch over the enumerator
with one case for each row of `block_type.def`, which returns the wire value
of the row; `none` stands for the default branch `WASP_UNREACHABLE()`. The
rows of `block_type.def` are not part of the sources and are a parameter. -/
def encoding.BlockType.Encode {N F : Type} [DecidableEq N] (block_type_def : List (Row N F))
    (decoded : N) : Option U8 :=
  match block_type_def.find? (fun row => decide (row.Name = decoded)) with
  | some row => some row.val
  | none => none

/-- The function `encoding::BlockType::Decode`: a switch over the byte with
one case for each row of `block_type.def`; the case of a `WASP_V` row returns
its enumerator, the case of a `WASP_FEATURE_V` row returns it when the
feature is enabled and breaks otherwise, and after the switch the result is
`nullopt`. -/
def encoding.BlockType.Decode {N F : Type} (block_type_def : List (Row N F)) (val : U8)
    (features : Features F) : Option N :=
  match block_type_def.find? (fun row => decide (row.val = val)) with
  | some row =>
    match row.feature with
    | none => some row.Name
    | some feature => if features feature then some row.Name else none
  | none => none

/-- What the compiler requires of a table for the two switches and the
constants generated from it to be accepted: no two rows have the same wire
value, and no two rows have the same enumerator. -/
def TableWellFormed {N F : Type} (table : List (Row N F)) : Prop :=
  (table.map (fun row => row.val)).Nodup ∧ (table.map (fun row => row.Name)).Nodup

/-- The row is unconditional or its feature is enabled in `features`. -/
def RowEnabled {N F : Type} (features : Features F) (row : Row N F) : Prop :=
  row.feature = none ∨ ∃ feature, row.feature = some feature ∧ features feature = true

/-- Modelled from the spec: the features of section 6 of the specification
(`features.def` is not part of the sources). -/
inductive Feature where
  | exceptions
  | mutable_globals
  | saturating_float_to_int
  | sign_extension
  | simd
  | threads
  | bulk_memory
  | reference_types
  | multi_value
  | tail_call
  deriving DecidableEq, Repr

/-- Modelled from the spec: the enumerators of `BlockType` (`block_type.h` is
not part of the sources): the four value types and `Void`, which the tests
read, and the feature-gated value types `v128` and `anyref` the
specification names. -/
inductive BlockType where
  | I32
  | I64
  | F32
  | F64
  | V128
  | Anyref
  | Void
  deriving DecidableEq, Repr

/-- Modelled from the spec: the rows of `block_type.def`, which is not part
of the sources. The five unconditional rows are those of the test
`ReadBlockType`; the rows of `v128`, gated by `simd`, and of `anyref`, gated
by `reference_types`, follow section 6 of the specification. -/
def block_type_def : List (Row BlockType Feature) :=
  [ Row.mk 0x7f BlockType.I32 "i32" none,
    Row.mk 0x7e BlockType.I64 "i64" none,
    Row.mk 0x7d BlockType.F32 "f32" none,
    Row.mk 0x7c BlockType.F64 "f64" none,
    Row.mk 0x7b BlockType.V128 "v128" (some Feature.simd),
    Row.mk 0x6f BlockType.Anyref "anyref" (some Feature.reference_types),
    Row.mk 0x40 BlockType.Void "" none ]

/-- Modelled from the spec: the readers of the one-byte enumerators
(`Read<ValueType>`, `Read<BlockType>`, `Read<ElementType>`,
`Read<ExternalKind>`, `Read<Mutability>`), which are not part of the sources.
The context guard pushes the description `kind` at the cursor of entry, one
byte is read with `Read<u8>` and decoded with the table of the enumerator, and
a byte the table does not decode is reported as "Unknown kind: byte" at the
cursor after that byte, as the tests `ReadBlockType_Unknown` and
`ReadValueType_Unknown` record. -/
def ReadEnum {σ N : Type} (E : Errors σ) (kind : String) (decode : U8 → Option N)
    (data : SpanU8) (errors : σ) : ReadResult σ N :=
  match ReadU8 E data (E.PushContext data kind errors) with
  | ReadResult.mk none data errors => ReadResult.mk none data (E.PopContext errors)
  | ReadResult.mk (some val) data errors =>
    match decode val with
    | none =>
      ReadResult.mk none data (E.PopContext (E.OnError data
        ("Unknown " ++ kind ++ ": " ++ toString val.val) errors))
    | some decoded => ReadResult.mk (some decoded) data (E.PopContext errors)

/-- Modelled from the spec: `Read<BlockType>` of `read_block_type.h`, the
reader of a one-byte enumerator with the description "block type" and the
decoder `encoding::BlockType::Decode`. -/
def ReadBlockType {σ N F : Type} (E : Errors σ) (block_type_def : List (Row N F))
    (features : Features F) (data : SpanU8) (errors : σ) : ReadResult σ N :=
  ReadEnum E "block type" (fun val => encoding.BlockType.Decode block_type_def val features)
    data errors

/-- Modelled from the spec: the enumerators of `SectionId` (`section_id.h` is
not part of the sources), as the test `ReadSectionId` lists them; `Type_`
stands for the enumerator `Type`. -/
inductive SectionId where
  | Custom
  | Type_
  | Import
  | Function
  | Table
  | Memory
  | Global
  | Export
  | Start
  | Element
  | Code
  | Data
  deriving DecidableEq, Repr

/-- Modelled from the spec: `encoding::SectionId::Decode`, which is not part
of the sources: the values 0 to 11 are the section ids of the test
`ReadSectionId`, in that order, and every other value is unknown. -/
def encoding.SectionId.Decode (val : Nat) : Option SectionId :=
  match val with
  | 0 => some SectionId.Custom
  | 1 => some SectionId.Type_
  | 2 => some SectionId.Import
  | 3 => some SectionId.Function
  | 4 => some SectionId.Table
  | 5 => some SectionId.Memory
  | 6 => some SectionId.Global
  | 7 => some SectionId.Export
  | 8 => some SectionId.Start
  | 9 => some SectionId.Element
  | 10 => some SectionId.Code
  | 11 => some SectionId.Data
  | _ => none

/-- Modelled from the spec: `Read<SectionId>` of `read_section_id.h`, which is
not part of the sources. The context guard pushes "section" at the cursor of
entry, a LEB128 `u32` is read with `Read<u32>` and decoded, and a value that
is no section id is reported as "Unknown section: value" at the cursor after
the encoding, as the test `ReadSectionId_Unknown` records. -/
def ReadSectionId {σ : Type} (E : Errors σ) (data : SpanU8) (errors : σ) :
    Option (ReadResult σ SectionId) :=
  match ReadU32 E data (E.PushContext data "section" errors) with
  | none => none
  | some (ReadResult.mk none data errors) =>
    some (ReadResult.mk none data (E.PopContext errors))
  | some (ReadResult.mk (some val) data errors) =>
    match encoding.SectionId.Decode val.toNat with
    | none =>
      some (ReadResult.mk none data (E.PopContext (E.OnError data
        ("Unknown section: " ++ toString val.toNat) errors)))
    | some decoded => some (ReadResult.mk (some decoded) data (E.PopContext errors))

/-! ## Validation of limits -/

/-- The enumeration `Shared` of `limits.h`. -/
inductive Shared where
  | No
  | Yes
  deriving DecidableEq, Repr

/-- The structure `binary::Limits`: the fields `min`, `max` and `shared` that
the constructors of `limits.cc` initialise; `min` and `max` are `u32`. -/
structure Limits where
  min : Nat
  max : Option Nat
  shared : Shared
  deriving DecidableEq, Repr

/-- The sink of the validator, the template parameter `Errors` of
`valid::Validate`, over a sink state `σ`: the push and the pop of the context
guard `valid::ErrorsContextGuard`, and `OnError`, which takes a message and no
position. -/
structure valid.Errors (σ : Type) where
  PushContext : String → σ → σ
  PopContext : σ → σ
  OnError : String → σ → σ

/-- The function `valid::Validate(const binary::Limits&, Index max, ...)` of
`validate_limits.h`: the guard pushes "limits", the three checks are made in
order, each reporting an error and clearing `valid` when it fails, and the
guard pops on the way out. The result is `valid` and the sink after the
call; the parameters `context` and `features` are not used. -/
def valid.Validate {σ : Type} (E : valid.Errors σ) (value : Limits) (max : Nat)
    (errors : σ) : Bool × σ :=
  let errors := E.PushContext "limits" errors
  let valid := true
  let (valid, errors) :=
    if value.min > max then
      (false, E.OnError
        ("Expected minimum " ++ toString value.min ++ " to be <= " ++ toString max) errors)
    else (valid, errors)
  let (valid, errors) :=
    match value.max with
    | some value_max =>
      let (valid, errors) :=
        if value_max > max then
          (false, E.OnError
            ("Expected maximum " ++ toString value_max ++ " to be <= " ++ toString max)
            errors)
        else (valid, errors)
      if value.min > value_max then
        (false, E.OnError
          ("Expected minimum " ++ toString value.min ++ " to be <= maximum " ++
            toString value_max) errors)
      else (valid, errors)
    | none => (valid, errors)
  (valid, E.PopContext errors)

/-! ## The linking section -/

/-- Modelled from the spec: the lazy sequence `LazySequence<T>` of
`lazy_sequence.h`, which is not part of the sources: it wraps the span that
remains to be decoded; its references to the features and to the sink are
not represented. -/
structure LazySequence where
  data : SpanU8
  deriving DecidableEq, Repr

/-- The structure `LinkingSection`: the members `data`, `version` and
`subsections` that the constructor of `read_section.cc` initialises, in that
order. -/
structure LinkingSection where
  data : SpanU8
  version : Option Int
  subsections : LazySequence
  deriving DecidableEq, Repr

/-- The constructor `LinkingSection::LinkingSection` of `read_section.cc`,
which `ReadLinkingSection` calls. The member `data` is the span of entry;
`version` is read with `Read<u32>` from the parameter `data`, which the read
advances; `subsections` is built over the parameter as the read left it; and
the body reports a version that is present and is not `kVersion = 2`, at the
parameter `data`, without changing what was built. The result is the section
and the sink after the call. -/
def ReadLinkingSection {σ : Type} (E : Errors σ) (data : SpanU8) (errors : σ) :
    Option (LinkingSection × σ) :=
  match ReadU32 E data errors with
  | none => none
  | some (ReadResult.mk version data2 errors) =>
    let kVersion : Int := 2
    let linking := LinkingSection.mk data version (LazySequence.mk data2)
    match version with
    | some v =>
      if v ≠ kVersion then
        some (linking, E.OnError data2
          ("Expected linking section version: " ++ toString kVersion ++ ", got " ++
            toString v) errors)
      else some (linking, errors)
    | none => some (linking, errors)

/-! ## Raw bytes, strings and the module header -/

/-- Modelled from the spec: `ReadBytes` of `read_bytes.h`, which is not part
of the sources. It fails with "Unable to read N bytes" at the cursor, which
it leaves unchanged, when the cursor holds fewer than `N` bytes; otherwise it
returns the first `N` bytes as a sub-span that starts where the cursor
started, and advances the cursor by `N`. It pushes no frame, as the test
`ReadBytes_Fail` records. -/
def ReadBytes {σ : Type} (E : Errors σ) (data : SpanU8) (N : Nat) (errors : σ) :
    ReadResult σ SpanU8 :=
  if data.size < N then
    ReadResult.mk none data
      (E.OnError data ("Unable to read " ++ toString N ++ " bytes") errors)
  else
    ReadResult.mk (some (SpanU8.mk data.pos (data.bytes.take N)))
      (SpanU8.mk (data.pos + N) (data.bytes.drop N)) errors

/-- Modelled from the spec: `ReadString` of `read_string.h`, which is not part
of the sources: the guard pushes `desc`, the length is read with `ReadCount`
and that many bytes are taken with `ReadBytes`; the result is the borrowed
slice, as the tests `ReadString` and `ReadString_Fail` record. -/
def ReadString {σ : Type} (E : Errors σ) (data : SpanU8) (errors : σ) (desc : String) :
    Option (ReadResult σ SpanU8) :=
  match ReadCount E data (E.PushContext data desc errors) with
  | none => none
  | some (ReadResult.mk none data errors) =>
    some (ReadResult.mk none data (E.PopContext errors))
  | some (ReadResult.mk (some len) data errors) =>
    match ReadBytes E data len errors with
    | ReadResult.mk value data errors => some (ReadResult.mk value data (E.PopContext errors))

/-- Two hexadecimal digits of a byte, the output of the format specifier
`:02x`. -/
def formatHex2 (b : U8) : String :=
  String.mk [Nat.digitChar (b.val / 16), Nat.digitChar (b.val % 16)]

/-- Modelled from the spec: the formatter of `SpanU8`, which is not part of
the sources: a double quote, each byte as a backslash and two hexadecimal
digits, and a double quote, as the tests `BadMagic` and `BadVersion`
record. -/
def formatSpanU8 (bytes : List U8) : String :=
  "\"" ++ String.join (bytes.map (fun b => "\\" ++ formatHex2 b)) ++ "\""

/-- Modelled from the spec: the constant `encoding::Magic`, the four bytes
`00 61 73 6D`. -/
def encoding.Magic : List U8 := [0x00, 0x61, 0x73, 0x6d]

/-- Modelled from the spec: the constant `encoding::Version`, the four bytes
`01 00 00 00`. -/
def encoding.Version : List U8 := [0x01, 0x00, 0x00, 0x00]

/-- Modelled from the spec: `ReadBytesExpected` of `read_bytes_expected.h`,
which is not part of the sources. The guard pushes `desc` at the cursor of
entry, as many bytes as `expected` has are read with `ReadBytes`, and bytes
that differ from `expected` are reported as "Mismatch: expected ..., got ..."
at the cursor after them, as the tests `BadMagic` and `BadVersion` record.
The bytes read are returned. -/
def ReadBytesExpected {σ : Type} (E : Errors σ) (data : SpanU8) (expected : List U8)
    (errors : σ) (desc : String) : ReadResult σ SpanU8 :=
  match ReadBytes E data expected.length (E.PushContext data desc errors) with
  | ReadResult.mk none data errors => ReadResult.mk none data (E.PopContext errors)
  | ReadResult.mk (some actual) data errors =>
    if actual.bytes ≠ expected then
      ReadResult.mk (some actual) data (E.PopContext (E.OnError data
        ("Mismatch: expected " ++ formatSpanU8 expected ++ ", got " ++
          formatSpanU8 actual.bytes) errors))
    else ReadResult.mk (some actual) data (E.PopContext errors)

/-- Modelled from the spec: the structure `LazyModule` of `lazy_module.h`,
which is not part of the sources: the members `magic`, `version` and
`sections` that the test `Basic` reads. -/
structure LazyModule where
  magic : Option SpanU8
  version : Option SpanU8
  sections : LazySequence
  deriving DecidableEq, Repr

/-- Modelled from the spec: `ReadModule` of `lazy_module.h`, which is not part
of the sources. The magic is read under the frame "magic" and the version
under the frame "version", each with `ReadBytesExpected` from the cursor the
read before it left, and the sequence of the sections is built over the
cursor the two reads left. The result is the module and the sink after the
call. -/
def ReadModule {σ : Type} (E : Errors σ) (data : SpanU8) (errors : σ) : LazyModule × σ :=
  match ReadBytesExpected E data encoding.Magic errors "magic" with
  | ReadResult.mk magic data errors =>
    match ReadBytesExpected E data encoding.Version errors "version" with
    | ReadResult.mk version data errors =>
      (LazyModule.mk magic version (LazySequence.mk data), errors)

/-! ## Sections and lazy sequences -/

/-- The structure `KnownSection`: the members `id` and `data` that
`operator==` of `section.cc` compares. -/
structure KnownSection where
  id : SectionId
  data : SpanU8
  deriving DecidableEq, Repr

/-- The structure `CustomSection`: the members `name` and `data` that
`operator==` of `section.cc` compares; the name is a borrowed slice. -/
structure CustomSection where
  name : SpanU8
  data : SpanU8
  deriving DecidableEq, Repr

/-- The structure `Section`: the member `contents` that `operator==` of
`section.cc` compares, which holds a known section or a custom section, as
the test `Basic` reads it. -/
inductive Section where
  | known : KnownSection → Section
  | custom : CustomSection → Section
  deriving DecidableEq, Repr

/-- Modelled from the spec: `Read<Section>` of `read_section.h`, which is not
part of the sources. The guard pushes "section"; the id is read with
`Read<SectionId>` and the size with `ReadCount`; exactly that many bytes are
taken as the payload with `ReadBytes`; for the id `Custom` the name is read
from the front of the payload with `ReadString`, and the bytes of the payload
after the name are the data of the custom section. -/
def ReadSection {σ : Type} (E : Errors σ) (data : SpanU8) (errors : σ) :
    Option (ReadResult σ Section) :=
  match ReadSectionId E data (E.PushContext data "section" errors) with
  | none => none
  | some (ReadResult.mk none data errors) =>
    some (ReadResult.mk none data (E.PopContext errors))
  | some (ReadResult.mk (some id) data errors) =>
    match ReadCount E data errors with
    | none => none
    | some (ReadResult.mk none data errors) =>
      some (ReadResult.mk none data (E.PopContext errors))
    | some (ReadResult.mk (some length) data errors) =>
      match ReadBytes E data length errors with
      | ReadResult.mk none data errors => some (ReadResult.mk none data (E.PopContext errors))
      | ReadResult.mk (some bytes) data errors =>
        if id = SectionId.Custom then
          match ReadString E bytes errors "custom section name" with
          | none => none
          | some (ReadResult.mk none _ errors) =>
            some (ReadResult.mk none data (E.PopContext errors))
          | some (ReadResult.mk (some name) bytes errors) =>
            some (ReadResult.mk (some (Section.custom (CustomSection.mk name bytes))) data
              (E.PopContext errors))
        else
          some (ReadResult.mk (some (Section.known (KnownSection.mk id bytes))) data
            (E.PopContext errors))

/-- Modelled from the spec: the iteration of a lazy sequence
(`lazy_sequence.h` is not part of the sources), from the first element to the
end: while the span that remains is not empty one element is decoded with
`read` from its front and the span is replaced by what the decoder left; a
decode that fails ends the iteration, its errors in the sink, and yields no
element. The result is the elements yielded, in order, and the sink at the
end. The first argument bounds the number of elements; `none` means that
bound was reached, or that `read` did not return. -/
def LazySequence.elements {σ α : Type} (read : SpanU8 → σ → Option (ReadResult σ α)) :
    Nat → SpanU8 → σ → Option (List α × σ)
  | 0, _, _ => none
  | fuel + 1, data, errors =>
    if data.bytes = [] then some ([], errors)
    else
      match read data errors with
      | none => none
      | some (ReadResult.mk none _ errors) => some ([], errors)
      | some (ReadResult.mk (some value) data errors) =>
        match LazySequence.elements read fuel data errors with
        | none => none
        | some (values, errors) => some (value :: values, errors)

/-- A section as it lies in the input, for the statements about the sequence
of the sections of a module: the bytes of the id, the bytes of the size and
the payload; for a custom section the payload is the bytes of the length of
the name, the name, and the bytes after the name. -/
inductive Framed where
  | known (idBytes : List U8) (id : SectionId) (sizeBytes : List U8) (payload : List U8)
  | custom (idBytes : List U8) (sizeBytes : List U8) (lenBytes : List U8) (name : List U8)
      (rest : List U8)
  deriving DecidableEq, Repr

/-- The payload of a section as it lies in the input. -/
def Framed.payload : Framed → List U8
  | .known _ _ _ payload => payload
  | .custom _ _ lenBytes name rest => lenBytes ++ (name ++ rest)

/-- The bytes of a section as it lies in the input: the id, the size, the
payload. -/
def Framed.bytes : Framed → List U8
  | .known idBytes _ sizeBytes payload => idBytes ++ (sizeBytes ++ payload)
  | .custom idBytes sizeBytes lenBytes name rest =>
    idBytes ++ (sizeBytes ++ (lenBytes ++ (name ++ rest)))

/-- The section is well framed: the bytes of the id are a LEB128 `u32` that
decodes to the id, which for a custom section is 0 and for a known section is
not; the bytes of the size are a LEB128 `u32` whose value is the length of
the payload; and the payload of a custom section begins with a LEB128 `u32`,
the length of the name, and the name. -/
def Framed.WellFramed : Framed → Prop
  | .known idBytes id sizeBytes payload =>
    (∃ v : Int, AcceptsInFull IntType.u32 idBytes v ∧
      encoding.SectionId.Decode v.toNat = some id) ∧
    id ≠ SectionId.Custom ∧ AcceptsInFull IntType.u32 sizeBytes payload.length
  | .custom idBytes sizeBytes lenBytes name rest =>
    (∃ v : Int, AcceptsInFull IntType.u32 idBytes v ∧
      encoding.SectionId.Decode v.toNat = some SectionId.Custom) ∧
    AcceptsInFull IntType.u32 sizeBytes (lenBytes ++ (name ++ rest)).length ∧
    AcceptsInFull IntType.u32 lenBytes name.length

/-- The section that a well-framed section at the offset `pos` of the input
stands for: a known section carries its id and its payload, a custom section
its name and the bytes of the payload after the name; each span lies where
the bytes lie in the input. -/
def Framed.sectionAt (pos : Nat) : Framed → Section
  | .known idBytes id sizeBytes payload =>
    Section.known (KnownSection.mk id
      (SpanU8.mk (pos + idBytes.length + sizeBytes.length) payload))
  | .custom idBytes sizeBytes lenBytes name rest =>
    Section.custom (CustomSection.mk
      (SpanU8.mk (pos + idBytes.length + sizeBytes.length + lenBytes.length) name)
      (SpanU8.mk (pos + idBytes.length + sizeBytes.length + lenBytes.length + name.length)
        rest))

/-- The sections that a concatenation of well-framed sections, which starts
at the offset `pos` of the input, stands for, in input order. -/
def sectionsAt : Nat → List Framed → List Section
  | _, [] => []
  | pos, f :: fs => f.sectionAt pos :: sectionsAt (pos + f.bytes.length) fs

/-- The bytes of a concatenation of sections. -/
def framedBytes : List Framed → List U8
  | [] => []
  | f :: fs => f.bytes ++ framedBytes fs

/-! ## Limits, memories and lazy sections -/

/-- Modelled from the spec: the macro `WASP_TRY_READ_CONTEXT` of `macros.h`,
which is not part of the sources: a guard pushes `desc` at the cursor, the
read is made, and the frame is popped, whether the read failed or not, as the
tests `ReadLimits_PastEnd` and `ReadLocals_PastEnd` record. -/
def TryReadContext {σ α : Type} (E : Errors σ) (desc : String)
    (read : SpanU8 → σ → Option (ReadResult σ α)) (data : SpanU8) (errors : σ) :
    Option (ReadResult σ α) :=
  match read data (E.PushContext data desc errors) with
  | none => none
  | some r => some (ReadResult.mk r.value r.data (E.PopContext r.errors))

/-- Modelled from the spec: the part of `Read<Limits>` after the flags: the
minimum is read with `Read<u32>` under the frame "min" and, when the flags
say so, the maximum under the frame "max". -/
def ReadLimitsBounds {σ : Type} (E : Errors σ) (has_max : Bool) (shared : Shared)
    (data : SpanU8) (errors : σ) : Option (ReadResult σ Limits) :=
  match TryReadContext E "min" (ReadU32 E) data errors with
  | none => none
  | some (ReadResult.mk none data errors) => some (ReadResult.mk none data errors)
  | some (ReadResult.mk (some min) data errors) =>
    if has_max then
      match TryReadContext E "max" (ReadU32 E) data errors with
      | none => none
      | some (ReadResult.mk none data errors) => some (ReadResult.mk none data errors)
      | some (ReadResult.mk (some max) data errors) =>
        some (ReadResult.mk (some (Limits.mk min.toNat (some max.toNat) shared)) data errors)
    else some (ReadResult.mk (some (Limits.mk min.toNat none shared)) data errors)

/-- Modelled from the spec: `Read<Limits>` of `read_limits.h`, which is not
part of the sources. The guard pushes "limits"; the flags byte is read with
`Read<u8>` under the frame "flags" and selects the variant as section 4.3 of
the specification lists them: 0 the minimum alone, 1 the minimum and the
maximum, and, with the feature `threads`, 2 the shared minimum and maximum
and 3 the shared minimum alone. Any other flags byte is reported as
"Invalid flags value: N" at the cursor after it, as the test
`ReadLimits_BadFlags` records. -/
def ReadLimits {σ : Type} (E : Errors σ) (features : Features Feature) (data : SpanU8)
    (errors : σ) : Option (ReadResult σ Limits) :=
  match TryReadContext E "flags" (fun data errors => some (ReadU8 E data errors)) data
      (E.PushContext data "limits" errors) with
  | none => none
  | some (ReadResult.mk none data errors) =>
    some (ReadResult.mk none data (E.PopContext errors))
  | some (ReadResult.mk (some flags) data errors) =>
    let bounds : Option (Option (ReadResult σ Limits)) :=
      if flags.val = 0 then some (ReadLimitsBounds E false Shared.No data errors)
      else if flags.val = 1 then some (ReadLimitsBounds E true Shared.No data errors)
      else if flags.val = 2 ∧ features Feature.threads = true then
        some (ReadLimitsBounds E true Shared.Yes data errors)
      else if flags.val = 3 ∧ features Feature.threads = true then
        some (ReadLimitsBounds E false Shared.Yes data errors)
      else none
    match bounds with
    | none =>
      some (ReadResult.mk none data (E.PopContext (E.OnError data
        ("Invalid flags value: " ++ toString flags.val) errors)))
    | some none => none
    | some (some r) => some (ReadResult.mk r.value r.data (E.PopContext r.errors))

/-- The structure `MemoryType` of `memory_type.h`. -/
structure MemoryType where
  limits : Limits
  deriving DecidableEq, Repr

/-- The structure `Memory`: the member `memory_type` that `Write(const
Memory&, Iterator)` of `write_memory.h` writes. -/
structure Memory where
  memory_type : MemoryType
  deriving DecidableEq, Repr

/-- Modelled from the spec: `Read<MemoryType>` of `read_memory_type.h`, which
is not part of the sources: the limits, read under the frame "memory type",
as the test `ReadMemoryType_PastEnd` records. -/
def ReadMemoryType {σ : Type} (E : Errors σ) (features : Features Feature) (data : SpanU8)
    (errors : σ) : Option (ReadResult σ MemoryType) :=
  match TryReadContext E "memory type" (ReadLimits E features) data errors with
  | none => none
  | some (ReadResult.mk none data errors) => some (ReadResult.mk none data errors)
  | some (ReadResult.mk (some limits) data errors) =>
    some (ReadResult.mk (some (MemoryType.mk limits)) data errors)

/-- Modelled from the spec: `Read<Memory>` of `read_memory.h`, which is not
part of the sources: the memory type, read under the frame "memory", as the
test `ReadMemory_PastEnd` records. -/
def ReadMemory {σ : Type} (E : Errors σ) (features : Features Feature) (data : SpanU8)
    (errors : σ) : Option (ReadResult σ Memory) :=
  match TryReadContext E "memory" (ReadMemoryType E features) data errors with
  | none => none
  | some (ReadResult.mk none data errors) => some (ReadResult.mk none data errors)
  | some (ReadResult.mk (some memory_type) data errors) =>
    some (ReadResult.mk (some (Memory.mk memory_type)) data errors)

/-- The class `LazySection<T>` of `lazy_section.h`: the members `count` and
`sequence`. -/
structure LazySection where
  count : Option Nat
  sequence : LazySequence
  deriving DecidableEq, Repr

/-- The constructor `LazySection<T>::LazySection` of `lazy_section.h`, here
`create`:
`count` is read with `ReadCount` from the parameter `data`, which the read
advances, and `sequence` is built over the parameter as the read left it. The
result is the section and the sink after the call. -/
def LazySection.create {σ : Type} (E : Errors σ) (data : SpanU8) (errors : σ) :
    Option (LazySection × σ) :=
  match ReadCount E data errors with
  | none => none
  | some (ReadResult.mk count data errors) =>
    some (LazySection.mk count (LazySequence.mk data), errors)

/-- The function `ReadMemorySection(SpanU8, const Features&, Errors&)` of
`lazy_memory_section.h`, which constructs a `LazySection<Memory>` over the
data. -/
def ReadMemorySection {σ : Type} (E : Errors σ) (data : SpanU8) (errors : σ) :
    Option (LazySection × σ) :=
  LazySection.create E data errors

/-! ## Locals -/

/-- Modelled from the spec: the enumerators of `ValueType` (`value_type.h` is
not part of the sources): the four value types that the test `ReadValueType`
reads, and the feature-gated value types `v128` and `anyref` the
specification names. -/
inductive ValueType where
  | I32
  | I64
  | F32
  | F64
  | V128
  | Anyref
  deriving DecidableEq, Repr

/-- Modelled from the spec: the rows of `value_type.def`, which is not part
of the sources. The four unconditional rows are those of the test
`ReadValueType`; the rows of `v128`, gated by `simd`, and of `anyref`, gated
by `reference_types`, follow section 6 of the specification. -/
def value_type_def : List (Row ValueType Feature) :=
  [ Row.mk 0x7f ValueType.I32 "i32" none,
    Row.mk 0x7e ValueType.I64 "i64" none,
    Row.mk 0x7d ValueType.F32 "f32" none,
    Row.mk 0x7c ValueType.F64 "f64" none,
    Row.mk 0x7b ValueType.V128 "v128" (some Feature.simd),
    Row.mk 0x6f ValueType.Anyref "anyref" (some Feature.reference_types) ]

/-- Modelled from the spec: `encoding::ValueType::Encode` of
`value_type_encoding.h`, which is not part of the sources: the switch over
the enumerator that the rows of `value_type.def` generate, as those of
`block_type.def` do in `block_type_encoding.h`. The rows are a parameter. -/
def encoding.ValueType.Encode {N F : Type} [DecidableEq N] (value_type_def : List (Row N F))
    (decoded : N) : Option U8 :=
  match value_type_def.find? (fun row => decide (row.Name = decoded)) with
  | some row => some row.val
  | none => none

/-- Modelled from the spec: `encoding::ValueType::Decode` of
`value_type_encoding.h`, which is not part of the sources: the switch over
the byte that the rows of `value_type.def` generate, as those of
`block_type.def` do in `block_type_encoding.h`. -/
def encoding.ValueType.Decode {N F : Type} (value_type_def : List (Row N F)) (val : U8)
    (features : Features F) : Option N :=
  match value_type_def.find? (fun row => decide (row.val = val)) with
  | some row =>
    match row.feature with
    | none => some row.Name
    | some feature => if features feature then some row.Name else none
  | none => none

/-- Modelled from the spec: `Read<ValueType>` of `read_value_type.h`, the
reader of a one-byte enumerator with the description "value type" and the
decoder `encoding::ValueType::Decode`. -/
def ReadValueType {σ N F : Type} (E : Errors σ) (value_type_def : List (Row N F))
    (features : Features F) (data : SpanU8) (errors : σ) : ReadResult σ N :=
  ReadEnum E "value type" (fun val => encoding.ValueType.Decode value_type_def val features)
    data errors

/-- The structure `Locals`: the members `count`, a `u32`, and `type` that
`Write(const Locals&, Iterator)` of `write_locals.h` writes. The enumeration
of the value types is a parameter. -/
structure Locals (N : Type) where
  count : Nat
  type : N
  deriving DecidableEq, Repr

/-- Modelled from the spec: `Read<Locals>` of `read_locals.h`, which is not
part of the sources. The guard pushes "locals"; the count is read under the
frame "count" as an index, a LEB128 `u32` with the frame "index", and the
type under the frame "type" with `Read<ValueType>`, as the test
`ReadLocals_PastEnd` records. -/
def ReadLocals {σ N F : Type} (E : Errors σ) (value_type_def : List (Row N F))
    (features : Features F) (data : SpanU8) (errors : σ) :
    Option (ReadResult σ (Locals N)) :=
  match TryReadContext E "count"
      (fun data errors => ReadVarInt E IntType.u32 data errors "index") data
      (E.PushContext data "locals" errors) with
  | none => none
  | some (ReadResult.mk none data errors) =>
    some (ReadResult.mk none data (E.PopContext errors))
  | some (ReadResult.mk (some count) data errors) =>
    match TryReadContext E "type"
        (fun data errors => some (ReadValueType E value_type_def features data errors))
        data errors with
    | none => none
    | some (ReadResult.mk none data errors) =>
      some (ReadResult.mk none data (E.PopContext errors))
    | some (ReadResult.mk (some type) data errors) =>
      some (ReadResult.mk (some (Locals.mk count.toNat type)) data (E.PopContext errors))

/-- Modelled from the spec: `Write(u8, Iterator)` of `write_u8.h`, which is
not part of the sources: the byte is written to the output iterator, the list
of the bytes written so far. -/
def WriteU8 (value : U8) (out : List U8) : List U8 := out ++ [value]

/-- Modelled from the spec: `WriteIndex` of `write_index.h`, which is not part
of the sources: the index is written as a LEB128 `u32` with `WriteVarInt`. -/
def WriteIndex (value : Nat) (out : List U8) : Option (List U8) :=
  WriteVarInt IntType.u32 value out

/-- Modelled from the spec: `Write(ValueType, Iterator)` of
`write_value_type.h`, which is not part of the sources: the byte that
`encoding::ValueType::Encode` gives is written, as `Write(Mutability,
Iterator)` of `write_mutability.h` does for a mutability; `none` stands for
the branch `WASP_UNREACHABLE()` of `Encode`. -/
def WriteValueType {N F : Type} [DecidableEq N] (value_type_def : List (Row N F))
    (value : N) (out : List U8) : Option (List U8) :=
  match encoding.ValueType.Encode value_type_def value with
  | some val => some (WriteU8 val out)
  | none => none

/-- The function `Write(const Locals&, Iterator)` of `write_locals.h`: the
count is written with `WriteIndex`, then the type with `Write(ValueType,
Iterator)`. -/
def WriteLocals {N F : Type} [DecidableEq N] (value_type_def : List (Row N F))
    (value : Locals N) (out : List U8) : Option (List U8) :=
  match WriteIndex value.count out with
  | none => none
  | some out => WriteValueType value_type_def value.type out

/-! ## Instructions and constant expressions -/

/-- Modelled from the spec: the macro `WASP_TRY_READ` of `macros.h`, which is
not part of the sources: when the read failed the caller returns absent, with
the cursor and the sink as the read left them; otherwise it goes on with the
value read. -/
def TryRead {σ α β : Type} (r : Option (ReadResult σ α))
    (k : α → SpanU8 → σ → Option (ReadResult σ β)) : Option (ReadResult σ β) :=
  match r with
  | none => none
  | some (ReadResult.mk none data errors) => some (ReadResult.mk none data errors)
  | some (ReadResult.mk (some value) data errors) => k value data errors

/-- Modelled from the spec: the enumeration `Opcode` (`opcode.h` is not part
of the sources). An enumerator is represented by its wire form: `mk val` is
the one-byte opcode of wire value `val`, and `wide lead code` is the two-byte
opcode of a post-MVP family, the lead byte `0xFC`, `0xFD` or `0xFE` followed
by the selector `code`. -/
inductive Opcode where
  | mk (val : U8)
  | wide (lead : U8) (code : Nat)
  deriving DecidableEq, Repr

/-- The enumerator `Opcode::Unreachable`, of wire value `0x00`. -/
def Opcode.Unreachable : Opcode := Opcode.mk 0x00

/-- The enumerator `Opcode::Nop`, of wire value `0x01`. -/
def Opcode.Nop : Opcode := Opcode.mk 0x01

/-- The enumerator `Opcode::End`, of wire value `0x0b`. -/
def Opcode.End : Opcode := Opcode.mk 0x0b

/-- The enumerator `Opcode::GetGlobal`, of wire value `0x23`. -/
def Opcode.GetGlobal : Opcode := Opcode.mk 0x23

/-- The enumerator `Opcode::I32Const`, of wire value `0x41`. -/
def Opcode.I32Const : Opcode := Opcode.mk 0x41

/-- The enumerator `Opcode::I64Const`, of wire value `0x42`. -/
def Opcode.I64Const : Opcode := Opcode.mk 0x42

/-- The enumerator `Opcode::F32Const`, of wire value `0x43`. -/
def Opcode.F32Const : Opcode := Opcode.mk 0x43

/-- The enumerator `Opcode::F64Const`, of wire value `0x44`. -/
def Opcode.F64Const : Opcode := Opcode.mk 0x44

/-- The enumerator `Opcode::RefNull`, of wire value `0xd0`, a row of the
feature `reference_types`. -/
def Opcode.RefNull : Opcode := Opcode.mk 0xd0

/-- The enumerator `Opcode::RefFunc`, of wire value `0xd2`, a row of the
feature `reference_types`. -/
def Opcode.RefFunc : Opcode := Opcode.mk 0xd2

/-- Modelled from the spec: `encoding::Opcode::Decode` for a one-byte opcode,
which is not part of the sources. The rows without a feature are those that
the test `ReadOpcode` lists, of wire values `0x00` to `0x05`, `0x0b` to
`0x11`, `0x1a`, `0x1b`, `0x20` to `0x24` and `0x28` to `0xbf`. The rows with a
feature are those of the one-byte opcodes that section 6 of the specification
names: `try`, `catch`, `throw`, `rethrow` and `br_on_exn` (`0x06` to `0x0a`)
under `exceptions`; `return_call` and `return_call_indirect` (`0x12`, `0x13`)
under `tail_call`; `table.get`, `table.set` (`0x25`, `0x26`), `ref.null`,
`ref.is_null` and `ref.func` (`0xd0` to `0xd2`) under `reference_types`; and
the five sign-extension operators (`0xc0` to `0xc4`) under `sign_extension`.
The result is `none` for a byte of no row and for a row whose feature is
disabled. -/
def encoding.Opcode.Decode (val : U8) (features : Features Feature) : Option Opcode :=
  if val.val ≤ 0x05 ∨ (0x0b ≤ val.val ∧ val.val ≤ 0x11) ∨
      (0x1a ≤ val.val ∧ val.val ≤ 0x1b) ∨ (0x20 ≤ val.val ∧ val.val ≤ 0x24) ∨
      (0x28 ≤ val.val ∧ val.val ≤ 0xbf) then
    some (Opcode.mk val)
  else if 0x06 ≤ val.val ∧ val.val ≤ 0x0a then
    if features Feature.exceptions then some (Opcode.mk val) else none
  else if val.val = 0x12 ∨ val.val = 0x13 then
    if features Feature.tail_call then some (Opcode.mk val) else none
  else if val.val = 0x25 ∨ val.val = 0x26 ∨ (0xd0 ≤ val.val ∧ val.val ≤ 0xd2) then
    if features Feature.reference_types then some (Opcode.mk val) else none
  else if 0xc0 ≤ val.val ∧ val.val ≤ 0xc4 then
    if features Feature.sign_extension then some (Opcode.mk val) else none
  else none

/-- Modelled from the spec: `encoding::Opcode::IsPrefixByte`, which is not
part of the sources: whether a byte is the lead byte of a two-byte opcode
under the feature set. `0xFC` leads the saturating truncations, the bulk
memory operations and the table operations of `reference_types`, `0xFD` the
SIMD operations and `0xFE` the atomic operations; a lead byte none of whose
features is enabled is read as a one-byte opcode, and is then unknown. -/
def encoding.Opcode.IsPrefixByte (val : U8) (features : Features Feature) : Bool :=
  if val = 0xfc then
    features Feature.saturating_float_to_int || features Feature.bulk_memory ||
      features Feature.reference_types
  else if val = 0xfd then features Feature.simd
  else if val = 0xfe then features Feature.threads
  else false

/-- Modelled from the spec: `encoding::Opcode::Decode` for a two-byte opcode,
the lead byte and the selector, which is not part of the sources. Neither
the specification nor a test records the selectors; they are those of the
proposals that section 6 of the specification names. Under `0xFC`: `0x00` to
`0x07`, the saturating truncations, under `saturating_float_to_int`; `0x08`
to `0x0e`, `memory.init`, `data.drop`, `memory.copy`, `memory.fill`,
`table.init`, `elem.drop` and `table.copy`, under `bulk_memory`; `0x0f` to
`0x11`, `table.grow`, `table.size` and `table.fill`, under `reference_types`.
Under `0xFD`: `0x00` to `0xb2`, under `simd`. Under `0xFE`: `0x00` to `0x03`,
`atomic.notify`, the two waits and `atomic.fence`, and `0x10` to `0x4e`, the
atomic loads, stores and read-modify-write operations, under `threads`. -/
def encoding.Opcode.DecodePrefixed (lead : U8) (code : Nat) (features : Features Feature) :
    Option Opcode :=
  if lead = 0xfc then
    if code ≤ 0x07 then
      if features Feature.saturating_float_to_int then some (Opcode.wide lead code) else none
    else if code ≤ 0x0e then
      if features Feature.bulk_memory then some (Opcode.wide lead code) else none
    else if code ≤ 0x11 then
      if features Feature.reference_types then some (Opcode.wide lead code) else none
    else none
  else if lead = 0xfd then
    if code ≤ 0xb2 then
      if features Feature.simd then some (Opcode.wide lead code) else none
    else none
  else if lead = 0xfe then
    if code ≤ 0x03 ∨ (0x10 ≤ code ∧ code ≤ 0x4e) then
      if features Feature.threads then some (Opcode.wide lead code) else none
    else none
  else none

/-- Modelled from the spec: `Read<Opcode>` of `read_opcode.h`, which is not
part of the sources. Under the frame "opcode" one byte is read. When it is a
lead byte under the feature set, the selector is read as a LEB128 `u32` and
the two are decoded together; otherwise the byte is decoded alone. What does
not decode is reported at the cursor after it, a byte as "Unknown opcode: N",
as the test `ReadOpcode_Unknown` records, and a lead byte `P` with a selector
`C` as "Unknown opcode: P C". -/
def ReadOpcode {σ : Type} (E : Errors σ) (features : Features Feature) (data : SpanU8)
    (errors : σ) : Option (ReadResult σ Opcode) :=
  TryReadContext E "opcode"
    (fun data errors =>
      TryRead (some (ReadU8 E data errors))
        (fun val data errors =>
          if encoding.Opcode.IsPrefixByte val features then
            TryRead (ReadU32 E data errors)
              (fun code data errors =>
                match encoding.Opcode.DecodePrefixed val code.toNat features with
                | some decoded => some (ReadResult.mk (some decoded) data errors)
                | none =>
                  some (ReadResult.mk none data (E.OnError data
                    ("Unknown opcode: " ++ toString val.val ++ " " ++ toString code.toNat)
                    errors)))
          else
            match encoding.Opcode.Decode val features with
            | some decoded => some (ReadResult.mk (some decoded) data errors)
            | none =>
              some (ReadResult.mk none data (E.OnError data
                ("Unknown opcode: " ++ toString val.val) errors))))
    data errors

/-- Modelled from the spec: the immediate of an instruction, as the data
model of the specification and the test `ReadInstruction` list them: none, a
block type, an index, the immediate of `call_indirect`, the immediate of
`br_table`, the immediate of `br_on_exn`, a reserved byte, a memory argument,
a constant of type `s32`, `s64`, `f32` or `f64`, the immediates of the
`init` and of the `copy` operations of bulk memory, the immediate of the SIMD
shuffle, and, for the SIMD operations the specification names, a constant of
type `v128` and the byte that selects a lane. A floating-point or `v128`
constant is represented by the bytes that are copied into it. -/
inductive Immediate where
  | empty
  | blockType (type : BlockType)
  | index (index : Nat)
  | callIndirect (index : Nat) (reserved : U8)
  | brTable (targets : List Nat) (default_target : Nat)
  | brOnExn (target : Nat) (exception_index : Nat)
  | reserved (reserved : U8)
  | memArg (align_log2 : Nat) (offset : Nat)
  | s32 (value : Int)
  | s64 (value : Int)
  | f32 (value : List U8)
  | f64 (value : List U8)
  | v128 (value : List U8)
  | init (segment_index : Nat) (reserved : U8)
  | copy (src_reserved : U8) (dst_reserved : U8)
  | shuffle (indices : List U8)
  | lane (lane : U8)
  deriving DecidableEq, Repr

/-- Modelled from the spec: the structure `Instruction`: an opcode and its
immediate. -/
structure Instruction where
  opcode : Opcode
  immediate : Immediate
  deriving DecidableEq, Repr

/-- Modelled from the spec: `Read<Index>`, a LEB128 `u32` read under the
frame "index", as the tests `ReadCallIndirectImmediate_PastEnd` and
`ReadBrTableImmediate_PastEnd` record. -/
def ReadIndex {σ : Type} (E : Errors σ) (data : SpanU8) (errors : σ) :
    Option (ReadResult σ Int) :=
  ReadVarInt E IntType.u32 data errors "index"

/-- Modelled from the spec: `Read<s32>`, a LEB128 `s32` read under the frame
"s32", as the test `ReadS32_PastEnd` records. -/
def ReadS32 {σ : Type} (E : Errors σ) (data : SpanU8) (errors : σ) :
    Option (ReadResult σ Int) :=
  ReadVarInt E IntType.s32 data errors "s32"

/-- Modelled from the spec: `Read<s64>`, a LEB128 `s64` read under the frame
"s64", as the test `ReadS64_PastEnd` records. -/
def ReadS64 {σ : Type} (E : Errors σ) (data : SpanU8) (errors : σ) :
    Option (ReadResult σ Int) :=
  ReadVarInt E IntType.s64 data errors "s64"

/-- Modelled from the spec: `Read<f32>` and `Read<f64>`, which read exactly 4
and 8 raw bytes with `ReadBytes` under the frame `desc`, "f32" or "f64", as
the tests `ReadF32_PastEnd` and `ReadF64_PastEnd` record; the result is the
bytes read. The 16 bytes of a `v128` constant and of a shuffle immediate,
which no test reads, are read in the same way. -/
def ReadFloat {σ : Type} (E : Errors σ) (N : Nat) (desc : String) (data : SpanU8)
    (errors : σ) : Option (ReadResult σ (List U8)) :=
  TryReadContext E desc
    (fun data errors =>
      TryRead (some (ReadBytes E data N errors))
        (fun bytes data errors => some (ReadResult.mk (some bytes.bytes) data errors)))
    data errors

/-- Modelled from the spec: `ReadReserved`, which is not part of the sources:
one byte read under the frame "reserved", which must be 0; another byte is
reported as "Expected reserved byte 0, got N" at the cursor after it, as the
test `ReadInstruction_BadMemoryReserved` records. -/
def ReadReserved {σ : Type} (E : Errors σ) (data : SpanU8) (errors : σ) :
    Option (ReadResult σ U8) :=
  TryReadContext E "reserved"
    (fun data errors =>
      TryRead (some (ReadU8 E data errors))
        (fun reserved data errors =>
          if reserved.val ≠ 0 then
            some (ReadResult.mk none data (E.OnError data
              ("Expected reserved byte 0, got " ++ toString reserved.val) errors))
          else some (ReadResult.mk (some reserved) data errors)))
    data errors

/-- Modelled from the spec: `Read<MemArg>`, which is not part of the sources:
the alignment and the offset, each a `u32`. No test records the frames of its
failures; the alignment is read here under the frame "align log2" and the
offset under the frame "offset". -/
def ReadMemArg {σ : Type} (E : Errors σ) (data : SpanU8) (errors : σ) :
    Option (ReadResult σ Immediate) :=
  TryRead (TryReadContext E "align log2" (ReadU32 E) data errors)
    (fun align_log2 data errors =>
      TryRead (TryReadContext E "offset" (ReadU32 E) data errors)
        (fun offset data errors =>
          some (ReadResult.mk (some (Immediate.memArg align_log2.toNat offset.toNat))
            data errors)))

/-- Modelled from the spec: `Read<BrTableImmediate>`, which is not part of the
sources: under the frame "br_table", the vector of the targets, read with
`ReadVector` under the description "targets", and the default target, an
index read under the frame "default target", as the test
`ReadBrTableImmediate_PastEnd` records. -/
def ReadBrTableImmediate {σ : Type} (E : Errors σ) (data : SpanU8) (errors : σ) :
    Option (ReadResult σ Immediate) :=
  TryReadContext E "br_table"
    (fun data errors =>
      TryRead (ReadVector E (ReadIndex E) data errors "targets")
        (fun targets data errors =>
          TryRead (TryReadContext E "default target" (ReadIndex E) data errors)
            (fun default_target data errors =>
              some (ReadResult.mk
                (some (Immediate.brTable (targets.map Int.toNat) default_target.toNat))
                data errors))))
    data errors

/-- Modelled from the spec: `Read<CallIndirectImmediate>`, which is not part
of the sources: under the frame "call_indirect", an index and a reserved
byte, as the tests `ReadCallIndirectImmediate_PastEnd` and
`ReadCallIndirectImmediate_BadReserved` record. -/
def ReadCallIndirectImmediate {σ : Type} (E : Errors σ) (data : SpanU8) (errors : σ) :
    Option (ReadResult σ Immediate) :=
  TryReadContext E "call_indirect"
    (fun data errors =>
      TryRead (ReadIndex E data errors)
        (fun index data errors =>
          TryRead (ReadReserved E data errors)
            (fun reserved data errors =>
              some (ReadResult.mk (some (Immediate.callIndirect index.toNat reserved))
                data errors))))
    data errors

/-- Modelled from the spec: `Read<BrOnExnImmediate>`, which is not part of the
sources: the target and the index of the exception, each an index. No test
records the frames of its failures; it is read here under the frame
"br_on_exn". -/
def ReadBrOnExnImmediate {σ : Type} (E : Errors σ) (data : SpanU8) (errors : σ) :
    Option (ReadResult σ Immediate) :=
  TryReadContext E "br_on_exn"
    (fun data errors =>
      TryRead (ReadIndex E data errors)
        (fun target data errors =>
          TryRead (ReadIndex E data errors)
            (fun exception_index data errors =>
              some (ReadResult.mk
                (some (Immediate.brOnExn target.toNat exception_index.toNat))
                data errors))))
    data errors

/-- Modelled from the spec: `Read<InitImmediate>`, which is not part of the
sources: the index of the segment and a reserved byte, which must be 0. No
test records the frames of its failures; it is read here under the frame
"init immediate". -/
def ReadInitImmediate {σ : Type} (E : Errors σ) (data : SpanU8) (errors : σ) :
    Option (ReadResult σ Immediate) :=
  TryReadContext E "init immediate"
    (fun data errors =>
      TryRead (ReadIndex E data errors)
        (fun segment_index data errors =>
          TryRead (ReadReserved E data errors)
            (fun reserved data errors =>
              some (ReadResult.mk (some (Immediate.init segment_index.toNat reserved))
                data errors))))
    data errors

/-- Modelled from the spec: `Read<CopyImmediate>`, which is not part of the
sources: two reserved bytes, each of which must be 0. No test records the
frames of its failures; it is read here under the frame "copy immediate". -/
def ReadCopyImmediate {σ : Type} (E : Errors σ) (data : SpanU8) (errors : σ) :
    Option (ReadResult σ Immediate) :=
  TryReadContext E "copy immediate"
    (fun data errors =>
      TryRead (ReadReserved E data errors)
        (fun src_reserved data errors =>
          TryRead (ReadReserved E data errors)
            (fun dst_reserved data errors =>
              some (ReadResult.mk (some (Immediate.copy src_reserved dst_reserved))
                data errors))))
    data errors

/-- Modelled from the spec: the immediate that `Read<Instruction>` reads after
an opcode. After a one-byte opcode, as the test `ReadInstruction` lists the
immediates: a block type after `block`, `loop` and `if`; an index after `br`,
`br_if`, `call` and the accesses to locals and globals; the immediates of
`br_table` and of `call_indirect`; a memory argument after the loads and the
stores; a reserved byte after `memory.size` and `memory.grow`; the constant
after `i32.const`, `i64.const`, `f32.const` and `f64.const`; and nothing after
the other opcodes. The opcodes of the features, which no test reads, follow
the families the specification names: a block type after `try`; an index
after `throw`, `return_call`, `table.get`, `table.set` and `ref.func`; the
immediate of `br_on_exn`; the immediate of `call_indirect` after
`return_call_indirect`; and nothing after `catch`, `rethrow`, the
sign-extension operators, `ref.null` and `ref.is_null`. After a two-byte
opcode: under `0xFC`, the `init` immediate after `memory.init` and
`table.init`, an index after `data.drop`, `elem.drop`, `table.grow`,
`table.size` and `table.fill`, the `copy` immediate after `memory.copy` and
`table.copy`, a reserved byte after `memory.fill`, and nothing after the
saturating truncations; under `0xFD`, a memory argument after `v128.load`
and `v128.store`, 16 bytes after `v128.const` and after the shuffle, the
byte of the lane after the extractions and the replacements of a lane, and
nothing after the other operations; under `0xFE`, a reserved byte after
`atomic.fence` and a memory argument after the other operations. -/
def ReadImmediate {σ : Type} (E : Errors σ) (features : Features Feature) (opcode : Opcode)
    (data : SpanU8) (errors : σ) : Option (ReadResult σ Immediate) :=
  match opcode with
  | Opcode.mk val =>
    let v := val.val
    if v = 0x02 ∨ v = 0x03 ∨ v = 0x04 ∨ v = 0x06 then
      TryRead (some (ReadBlockType E block_type_def features data errors))
        (fun type data errors =>
          some (ReadResult.mk (some (Immediate.blockType type)) data errors))
    else if v = 0x08 ∨ v = 0x0c ∨ v = 0x0d ∨ v = 0x10 ∨ v = 0x12 ∨ (0x20 ≤ v ∧ v ≤ 0x26) ∨
        v = 0xd2 then
      TryRead (ReadIndex E data errors)
        (fun index data errors =>
          some (ReadResult.mk (some (Immediate.index index.toNat)) data errors))
    else if v = 0x0a then ReadBrOnExnImmediate E data errors
    else if v = 0x0e then ReadBrTableImmediate E data errors
    else if v = 0x11 ∨ v = 0x13 then ReadCallIndirectImmediate E data errors
    else if 0x28 ≤ v ∧ v ≤ 0x3e then ReadMemArg E data errors
    else if v = 0x3f ∨ v = 0x40 then
      TryRead (ReadReserved E data errors)
        (fun reserved data errors =>
          some (ReadResult.mk (some (Immediate.reserved reserved)) data errors))
    else if v = 0x41 then
      TryRead (ReadS32 E data errors)
        (fun value data errors =>
          some (ReadResult.mk (some (Immediate.s32 value)) data errors))
    else if v = 0x42 then
      TryRead (ReadS64 E data errors)
        (fun value data errors =>
          some (ReadResult.mk (some (Immediate.s64 value)) data errors))
    else if v = 0x43 then
      TryRead (ReadFloat E 4 "f32" data errors)
        (fun value data errors =>
          some (ReadResult.mk (some (Immediate.f32 value)) data errors))
    else if v = 0x44 then
      TryRead (ReadFloat E 8 "f64" data errors)
        (fun value data errors =>
          some (ReadResult.mk (some (Immediate.f64 value)) data errors))
    else some (ReadResult.mk (some Immediate.empty) data errors)
  | Opcode.wide lead code =>
    if lead = 0xfc then
      if code = 0x08 ∨ code = 0x0c then ReadInitImmediate E data errors
      else if code = 0x09 ∨ code = 0x0d ∨ (0x0f ≤ code ∧ code ≤ 0x11) then
        TryRead (ReadIndex E data errors)
          (fun index data errors =>
            some (ReadResult.mk (some (Immediate.index index.toNat)) data errors))
      else if code = 0x0a ∨ code = 0x0e then ReadCopyImmediate E data errors
      else if code = 0x0b then
        TryRead (ReadReserved E data errors)
          (fun reserved data errors =>
            some (ReadResult.mk (some (Immediate.reserved reserved)) data errors))
      else some (ReadResult.mk (some Immediate.empty) data errors)
    else if lead = 0xfd then
      if code ≤ 0x01 then ReadMemArg E data errors
      else if code = 0x02 then
        TryRead (ReadFloat E 16 "v128" data errors)
          (fun value data errors =>
            some (ReadResult.mk (some (Immediate.v128 value)) data errors))
      else if code = 0x03 then
        TryRead (ReadFloat E 16 "shuffle immediate" data errors)
          (fun value data errors =>
            some (ReadResult.mk (some (Immediate.shuffle value)) data errors))
      else if (0x05 ≤ code ∧ code ≤ 0x07) ∨ (0x09 ≤ code ∧ code ≤ 0x0b) ∨
          (0x0d ≤ code ∧ code ≤ 0x0e) ∨ (0x10 ≤ code ∧ code ≤ 0x11) ∨
          (0x13 ≤ code ∧ code ≤ 0x14) ∨ (0x16 ≤ code ∧ code ≤ 0x17) then
        TryRead (some (ReadU8 E data errors))
          (fun lane data errors =>
            some (ReadResult.mk (some (Immediate.lane lane)) data errors))
      else some (ReadResult.mk (some Immediate.empty) data errors)
    else if lead = 0xfe then
      if code = 0x03 then
        TryRead (ReadReserved E data errors)
          (fun reserved data errors =>
            some (ReadResult.mk (some (Immediate.reserved reserved)) data errors))
      else ReadMemArg E data errors
    else some (ReadResult.mk (some Immediate.empty) data errors)

/-- Modelled from the spec: `Read<Instruction>` of `read_instruction.h`, which
is not part of the sources: the opcode is read, then the immediate that
matches it. It pushes no frame of its own, as the test
`ReadInstruction_BadMemoryReserved` records. -/
def ReadInstruction {σ : Type} (E : Errors σ) (features : Features Feature) (data : SpanU8)
    (errors : σ) : Option (ReadResult σ Instruction) :=
  TryRead (ReadOpcode E features data errors)
    (fun opcode data errors =>
      TryRead (ReadImmediate E features opcode data errors)
        (fun immediate data errors =>
          some (ReadResult.mk (some (Instruction.mk opcode immediate)) data errors)))

/-- Modelled from the spec: the structure `ConstantExpression`, the borrowed
span of the bytes of the expression, the `end` included. -/
structure ConstantExpression where
  data : SpanU8
  deriving DecidableEq, Repr

/-- Modelled from the spec: the opcodes that a constant expression may begin
with under the feature set: `i32.const`, `i64.const`, `f32.const`,
`f64.const` and `get_global`, and, when `reference_types` is enabled,
`ref.null` and `ref.func`. -/
def Opcode.isConstant (opcode : Opcode) (features : Features Feature) : Bool :=
  opcode = Opcode.I32Const ∨ opcode = Opcode.I64Const ∨ opcode = Opcode.F32Const ∨
    opcode = Opcode.F64Const ∨ opcode = Opcode.GetGlobal ∨
    ((opcode = Opcode.RefNull ∨ opcode = Opcode.RefFunc) ∧
      features Feature.reference_types = true)

/-- Modelled from the spec: `Read<ConstantExpression>` of
`read_constant_expression.h`, which is not part of the sources. One
instruction is parsed, which must be one of `i32.const`, `i64.const`,
`f32.const`, `f64.const` and `get_global` or, when `reference_types` is
enabled, `ref.null` and `ref.func`; any other is reported as "Illegal
instruction in constant expression: " followed by the formatted instruction.
Then a second instruction is parsed, which must be `end`, or "Expected end
instruction" is reported. When there is no first instruction, because the
input is empty or the instruction does not decode, "Unexpected end of
constant expression" is reported, and when there is no second one, "Expected
end instruction". Each of these errors is located at the cursor of entry and
has no frame of the constant expression, as the tests
`ReadConstantExpression_NoEnd`, `_TooLong`, `_InvalidInstruction`,
`_IllegalInstruction` and `_PastEnd` record; a read from an empty span is not
attempted, as `_PastEnd` and `_NoEnd` record. On success the value is the span
of the bytes consumed, the `end` included, and the cursor stands after them;
on failure the cursor is the one of entry. The formatter of `Instruction`,
which `formatters.h` declares, is not part of the sources and is the
parameter `format`. -/
def ReadConstantExpression {σ : Type} (E : Errors σ) (features : Features Feature)
    (format : Instruction → String) (data : SpanU8) (errors : σ) :
    Option (ReadResult σ ConstantExpression) :=
  if data.bytes = [] then
    some (ReadResult.mk none data
      (E.OnError data "Unexpected end of constant expression" errors))
  else
    match ReadInstruction E features data errors with
    | none => none
    | some (ReadResult.mk none _ errors) =>
      some (ReadResult.mk none data
        (E.OnError data "Unexpected end of constant expression" errors))
    | some (ReadResult.mk (some instr) data2 errors) =>
      if instr.opcode.isConstant features then
        if data2.bytes = [] then
          some (ReadResult.mk none data (E.OnError data "Expected end instruction" errors))
        else
          match ReadInstruction E features data2 errors with
          | none => none
          | some (ReadResult.mk none _ errors) =>
            some (ReadResult.mk none data (E.OnError data "Expected end instruction" errors))
          | some (ReadResult.mk (some instr2) data3 errors) =>
            if instr2.opcode = Opcode.End then
              some (ReadResult.mk
                (some (ConstantExpression.mk
                  (SpanU8.mk data.pos (data.bytes.take (data3.pos - data.pos)))))
                data3 errors)
            else
              some (ReadResult.mk none data
                (E.OnError data "Expected end instruction" errors))
      else
        some (ReadResult.mk none data
          (E.OnError data
            ("Illegal instruction in constant expression: " ++ format instr) errors))

/-- An opcode byte and the bytes of its immediate that make one of the
instructions a constant expression may begin with, the immediate well formed:
`i32.const` (`0x41`) with a LEB128 `s32`, `i64.const` (`0x42`) with a LEB128
`s64`, `f32.const` (`0x43`) with 4 bytes, `f64.const` (`0x44`) with 8 bytes,
and `get_global` (`0x23`) with a LEB128 `u32`. -/
def ConstantInstruction (op : U8) (imm : List U8) : Prop :=
  (op = 0x41 ∧ ∃ v, AcceptsInFull IntType.s32 imm v) ∨
  (op = 0x42 ∧ ∃ v, AcceptsInFull IntType.s64 imm v) ∨
  (op = 0x43 ∧ imm.length = 4) ∨
  (op = 0x44 ∧ imm.length = 8) ∨
  (op = 0x23 ∧ ∃ v, AcceptsInFull IntType.u32 imm v)

/-- An opcode byte and the bytes of its immediate that make one of the
instructions a constant expression may begin with under the feature set, the
immediate well formed: those of `ConstantInstruction` and, when
`reference_types` is enabled, `ref.null` (`0xD0`), which has no immediate,
and `ref.func` (`0xD2`) with a LEB128 `u32`. -/
def PermittedInstruction (features : Features Feature) (op : U8) (imm : List U8) : Prop :=
  ConstantInstruction op imm ∨
  (features Feature.reference_types = true ∧
    ((op = 0xd0 ∧ imm = []) ∨ (op = 0xd2 ∧ ∃ v, AcceptsInFull IntType.u32 imm v)))

/-- A reader over the recording sink that always returns, leaves the context
stack as it found it, and leaves the whole sink as it found it when it
succeeds. -/
def Tidy {α : Type} (read : SpanU8 → TestErrors → Option (ReadResult TestErrors α)) : Prop :=
  ∀ (data : SpanU8) (e : TestErrors),
    ∃ r, read data e = some r ∧ r.errors.context_stack = e.context_stack ∧
      (r.value ≠ none → r.errors = e)

/-- The diagnostic of a final byte `b` that violates the extension rule, in
the words of the specification: "got" is `b` itself; "expected" is `b` with
its extension bits cleared, `b & 0x0F` for `u32`, `b & 0x07` for `s32` and
`0x00` for `s64`, and for the signed types also `b` with them set and bit 7
cleared, `(b | 0x78) & 0x7F` for `s32` and `0x7F` for `s64`. It is compared
with `lastByteMessage`, the one the code builds. -/
def extensionDiagnostic (T : IntType) (desc : String) (b : U8) : String :=
  match T with
  | .u32 =>
    "Last byte of " ++ desc ++ " must be zero extension: expected " ++
      formatHex (b.val &&& 0x0F) ++ ", got " ++ formatHex b.val
  | .s32 =>
    "Last byte of " ++ desc ++ " must be sign extension: expected " ++
      formatHex (b.val &&& 0x07) ++ " or " ++ formatHex ((b.val ||| 0x78) &&& 0x7F) ++
      ", got " ++ formatHex b.val
  | .s64 =>
    "Last byte of " ++ desc ++ " must be sign extension: expected " ++
      formatHex 0x00 ++ " or " ++ formatHex 0x7F ++ ", got " ++ formatHex b.val

/-- The messages of the conditions on limits that `value` violates for the
bound `max`, in the order `min > max`, then, when the maximum is present,
`*value.max > max` and `min > *value.max`. -/
def valid.violations (value : Limits) (max : Nat) : List String :=
  (if value.min > max then
    ["Expected minimum " ++ toString value.min ++ " to be <= " ++ toString max]
  else []) ++
  (match value.max with
  | some value_max =>
    (if value_max > max then
      ["Expected maximum " ++ toString value_max ++ " to be <= " ++ toString max]
    else []) ++
    (if value.min > value_max then
      ["Expected minimum " ++ toString value.min ++ " to be <= maximum " ++
        toString value_max]
    else [])
  | none => [])

/-- The number of the conditions on limits that `value` violates for the
bound `max`. -/
def valid.violated (value : Limits) (max : Nat) : Nat :=
  (if value.min > max then 1 else 0) +
  (match value.max with
  | some value_max =>
    (if value_max > max then 1 else 0) + (if value.min > value_max then 1 else 0)
  | none => 0)

/-- A sink of the validator that records: the stack of the descriptions
pushed, and for each error the stack at the time followed by the message. -/
structure valid.Recorded where
  context_stack : List String
  errors : List (List String)
  deriving DecidableEq, Repr

/-- The recording sink of the validator as an instance of its sink
interface. -/
def valid.Recorded.sink : valid.Errors valid.Recorded where
  PushContext := fun desc e => { e with context_stack := e.context_stack ++ [desc] }
  PopContext := fun e => { e with context_stack := e.context_stack.dropLast }
  OnError := fun message e => { e with errors := e.errors ++ [e.context_stack ++ [message]] }

/-! ## The start section -/

/-- Modelled from the spec: the structure `Start` (`start.h` is not part of
the sources): the index of the start function, as the test `ReadStart` reads
it. -/
structure Start where
  func_index : Nat
  deriving DecidableEq, Repr

/-- Modelled from the spec: `Read<Start>` of `read_start.h`, which is not part
of the sources: under the frame "start", the index of the function, a LEB128
`u32` read with `Read<Index>`. No test records the frames of its failure;
they are taken after those of `Read<Function>` in the test
`ReadFunc_PastEnd`. -/
def ReadStart {σ : Type} (E : Errors σ) (data : SpanU8) (errors : σ) :
    Option (ReadResult σ Start) :=
  TryReadContext E "start"
    (fun data errors =>
      TryRead (ReadIndex E data errors)
        (fun index data errors =>
          some (ReadResult.mk (some (Start.mk index.toNat)) data errors)))
    data errors

/-- The function `ReadStartSection(SpanU8 data, const Features&, Errors&)` of
`start_section.h`: the span is taken by value, `Read<Start>` reads from the
copy `copy`, and its result is returned. In the result, `value` is the
`StartSection` returned, `data` is the span of the caller after the call,
which no statement of the function touches, and `errors` is the sink after
the call. -/
def ReadStartSection {σ : Type} (E : Errors σ) (data : SpanU8) (errors : σ) :
    Option (ReadResult σ Start) :=
  let copy := data
  match ReadStart E copy errors with
  | none => none
  | some r => some (ReadResult.mk r.value data r.errors)

/-- The values that `k` bytes of seven payload bits carry: for a signed type
those from `-2^(7k-1)` to `2^(7k-1) - 1`, for an unsigned type those from 0
to `2^(7k) - 1`. -/
def Carries (T : IntType) (k : Nat) (v : Int) : Prop :=
  if T.is_signed then -(2 : Int) ^ (7 * k - 1) ≤ v ∧ v < 2 ^ (7 * k - 1)
  else 0 ≤ v ∧ v < 2 ^ (7 * k)

instance (T : IntType) (k : Nat) (v : Int) : Decidable (Carries T k v) := by
  unfold Carries; infer_instance

/-! ## The steps of the read loop and of the write loop -/

set_option maxRecDepth 100000 in
theorem byte_and_kByteMask (b : U8) : b.val &&& kByteMask = b.val % 128 := by
  revert b; decide

set_option maxRecDepth 100000 in
theorem byte_and_kExtendBit (b : U8) : b.val &&& kExtendBit = 0 ↔ b.val < 128 := by
  revert b; decide

set_option maxRecDepth 100000 in
theorem lastOk_iff (T : IntType) (b : U8) :
    lastOk T b ↔ (match T with
      | .u32 => b.val < 16
      | .s32 => b.val < 8 ∨ (120 ≤ b.val ∧ b.val < 128)
      | .s64 => b.val = 0 ∨ b.val = 127) := by
  cases T <;> revert b <;> decide

theorem or_shift_eq_add (W s r p : Nat) (hs : s ≤ W) (hr : r < 2 ^ s) :
    r ||| ((p <<< s) % 2 ^ W) = r + (p * 2 ^ s) % 2 ^ W := by
  have h1 : 2 ^ W = 2 ^ (W - s) * 2 ^ s := by
    rw [← pow_add]; congr 1; omega
  rw [Nat.shiftLeft_eq, h1, Nat.mul_mod_mul_right, Nat.lor_comm, Nat.add_comm,
    Nat.mul_comm (p % 2 ^ (W - s)) (2 ^ s)]
  exact (Nat.mul_add_lt_is_or hr _).symm

theorem kMaxBytes_pos (T : IntType) : 0 < kMaxBytes T := by cases T <;> decide

theorem shift_fits (T : IntType) (i : Nat) (h : i + 1 < kMaxBytes T) :
    7 * (i + 1) < T.kNumBits := by
  cases T <;> simp [kMaxBytes, IntType.kNumBits, kBitsPerByte] at h ⊢ <;> omega

theorem last_shift (T : IntType) (i : Nat) (h : i + 1 = kMaxBytes T) :
    7 * i < T.kNumBits := by
  cases T <;> simp [kMaxBytes, IntType.kNumBits, kBitsPerByte] at h ⊢ <;> omega

theorem static_cast_unsigned (T : IntType) (hT : T.is_signed = false) (x : Nat)
    (hx : x < 2 ^ T.kNumBits) : static_cast T x = (x : Int) := by
  simp [static_cast, hT, Nat.mod_eq_of_lt hx]

theorem static_cast_signed (T : IntType) (hT : T.is_signed = true) (x : Nat)
    (hx : x < 2 ^ T.kNumBits) :
    static_cast T x =
      if x < 2 ^ (T.kNumBits - 1) then (x : Int) else (x : Int) - 2 ^ T.kNumBits := by
  simp [static_cast, hT, Nat.mod_eq_of_lt hx]

theorem SignExtend_eq (T : IntType) (hT : T.is_signed = true) (x N : Nat)
    (hN : N + 1 ≤ T.kNumBits) (hx : x < 2 ^ (N + 1)) :
    SignExtend T x N = if x < 2 ^ N then (x : Int) else (x : Int) - 2 ^ (N + 1) := by
  obtain ⟨sh, hsh⟩ : ∃ sh, T.kNumBits = N + 1 + sh := ⟨T.kNumBits - (N + 1), by omega⟩
  have hsub : T.kNumBits - N - 1 = sh := by omega
  have hpos : (0 : Int) < 2 ^ sh := by positivity
  have hlt : x * 2 ^ sh < 2 ^ T.kNumBits := by
    rw [hsh, pow_add]
    exact Nat.mul_lt_mul_of_pos_right hx (by positivity)
  unfold SignExtend
  rw [hsub, Nat.shiftLeft_eq, Nat.mod_eq_of_lt hlt, static_cast_signed T hT _ hlt,
    Int.shiftRight_eq_div_pow]
  have hW1 : T.kNumBits - 1 = N + sh := by omega
  rw [hW1]
  by_cases hc : x < 2 ^ N
  · have : x * 2 ^ sh < 2 ^ (N + sh) := by
      rw [pow_add]; exact Nat.mul_lt_mul_of_pos_right hc (by positivity)
    rw [if_pos this, if_pos hc]
    push_cast
    exact Int.mul_ediv_cancel _ (ne_of_gt hpos)
  · have : ¬ x * 2 ^ sh < 2 ^ (N + sh) := by
      rw [pow_add]
      intro h
      exact hc (Nat.lt_of_mul_lt_mul_right h)
    rw [if_neg this, if_neg hc, hsh]
    push_cast
    have e : (x : Int) * 2 ^ sh - 2 ^ (N + 1 + sh) = ((x : Int) - 2 ^ (N + 1)) * 2 ^ sh := by
      rw [pow_add]; ring
    rw [e]
    exact Int.mul_ediv_cancel _ (ne_of_gt hpos)

theorem read_step_nil {σ : Type} (E : Errors σ) (T : IntType) (desc : String)
    (f i r pos : Nat) (e : σ) :
    ReadVarIntLoop E T desc (f + 1) i r (SpanU8.mk pos []) e =
      some (ReadResult.mk none (SpanU8.mk pos [])
        (E.OnError (SpanU8.mk pos []) "Unable to read u8" e)) := by
  simp [ReadVarIntLoop, ReadU8]

theorem read_step_cont {σ : Type} (E : Errors σ) (T : IntType) (desc : String)
    (f i r pos : Nat) (b : U8) (rest : List U8) (e : σ)
    (hi : i + 1 < kMaxBytes T) (hb : 128 ≤ b.val) (hr : r < 2 ^ (7 * i)) :
    ReadVarIntLoop E T desc (f + 1) i r (SpanU8.mk pos (b :: rest)) e =
      ReadVarIntLoop E T desc f (i + 1) (r + b.val % 128 * 2 ^ (7 * i))
        (SpanU8.mk (pos + 1) rest) e := by
  have hW := shift_fits T i hi
  have hne : i + 1 ≠ kMaxBytes T := by omega
  have hext : ¬ (b.val &&& kExtendBit = 0) := by
    rw [byte_and_kExtendBit]; omega
  have hlt : b.val % 128 * 2 ^ (7 * i) < 2 ^ T.kNumBits := by
    have h1 : b.val % 128 * 2 ^ (7 * i) < 2 ^ 7 * 2 ^ (7 * i) :=
      Nat.mul_lt_mul_of_pos_right (by omega) (by positivity)
    rw [← pow_add] at h1
    exact lt_of_lt_of_le h1 (Nat.pow_le_pow_right (by decide) (by omega))
  simp only [ReadVarIntLoop, ReadU8, if_neg hne, if_neg hext, byte_and_kByteMask,
    Nat.mul_comm i 7]
  rw [or_shift_eq_add _ _ _ _ (by omega) hr, Nat.mod_eq_of_lt hlt]

theorem read_step_stop {σ : Type} (E : Errors σ) (T : IntType) (desc : String)
    (f i r pos : Nat) (b : U8) (rest : List U8) (e : σ)
    (hi : i + 1 < kMaxBytes T) (hb : b.val < 128) (hr : r < 2 ^ (7 * i)) :
    ReadVarIntLoop E T desc (f + 1) i r (SpanU8.mk pos (b :: rest)) e =
      some (ReadResult.mk (some ((r : Int) + byteVal T b * 2 ^ (7 * i)))
        (SpanU8.mk (pos + 1) rest) e) := by
  have hW := shift_fits T i hi
  have hne : i + 1 ≠ kMaxBytes T := by omega
  have hext : b.val &&& kExtendBit = 0 := by
    rw [byte_and_kExtendBit]; exact hb
  have hpos : 0 < 2 ^ (7 * i) := by positivity
  have h1 : r + b.val * 2 ^ (7 * i) < 2 ^ (6 + 7 * i + 1) := by
    have e1 : 2 ^ (6 + 7 * i + 1) = 128 * 2 ^ (7 * i) := by
      rw [show 6 + 7 * i + 1 = 7 + 7 * i by omega, pow_add]; norm_num
    rw [e1]
    have : b.val * 2 ^ (7 * i) ≤ 127 * 2 ^ (7 * i) := Nat.mul_le_mul_right _ (by omega)
    omega
  have hlt : b.val % 128 * 2 ^ (7 * i) < 2 ^ T.kNumBits := by
    rw [Nat.mod_eq_of_lt hb]
    exact lt_of_le_of_lt (Nat.le_add_left _ _)
      (lt_of_lt_of_le h1 (Nat.pow_le_pow_right (by decide) (by omega)))
  simp only [ReadVarIntLoop, ReadU8, if_neg hne, if_pos hext, byte_and_kByteMask,
    Nat.mul_comm i 7]
  rw [or_shift_eq_add _ _ _ _ (by omega) hr, Nat.mod_eq_of_lt hlt, Nat.mod_eq_of_lt hb]
  congr 2
  cases hT : T.is_signed
  · simp [byteVal, hT]
  · rw [if_pos rfl, SignExtend_eq T hT _ _ (by omega) h1]
    have e2 : 2 ^ (6 + 7 * i) = 64 * 2 ^ (7 * i) := by
      rw [pow_add]; norm_num
    have e3 : ((2 : Int) ^ (6 + 7 * i + 1)) = 128 * 2 ^ (7 * i) := by
      rw [show 6 + 7 * i + 1 = 7 + 7 * i by omega, pow_add]; norm_num
    rw [e2, e3]
    by_cases hc : 64 ≤ b.val
    · have h2 : 64 * 2 ^ (7 * i) ≤ b.val * 2 ^ (7 * i) := Nat.mul_le_mul_right _ hc
      have h3 : ¬ (r + b.val * 2 ^ (7 * i) < 64 * 2 ^ (7 * i)) := by omega
      rw [if_neg h3]
      simp only [byteVal, hT, hc, and_self, if_true]
      push_cast
      congr 1
      ring
    · have h2 : b.val * 2 ^ (7 * i) ≤ 63 * 2 ^ (7 * i) := Nat.mul_le_mul_right _ (by omega)
      have h3 : r + b.val * 2 ^ (7 * i) < 64 * 2 ^ (7 * i) := by omega
      rw [if_pos h3]
      simp only [byteVal, hT, hc, and_false, if_false]
      push_cast
      rfl

theorem last_result (T : IntType) (i r : Nat) (b : U8) (hi : i + 1 = kMaxBytes T)
    (hr : r < 2 ^ (7 * i)) (hok : lastOk T b) :
    static_cast T (r + b.val % 128 * 2 ^ (7 * i) % 2 ^ T.kNumBits) =
      (r : Int) + byteVal T b * 2 ^ (7 * i) := by
  rw [lastOk_iff] at hok
  have hb := b.isLt
  cases T
  · have hi4 : i = 4 := by simp [kMaxBytes, IntType.kNumBits, kBitsPerByte] at hi; omega
    subst hi4
    simp only [static_cast, byteVal, IntType.is_signed, IntType.kNumBits]
    norm_num at hr hok ⊢
    all_goals omega
  · have hi4 : i = 4 := by simp [kMaxBytes, IntType.kNumBits, kBitsPerByte] at hi; omega
    subst hi4
    simp only [static_cast, byteVal, IntType.is_signed, IntType.kNumBits]
    norm_num at hr hok ⊢
    split_ifs <;> omega
  · have hi4 : i = 9 := by simp [kMaxBytes, IntType.kNumBits, kBitsPerByte] at hi; omega
    subst hi4
    simp only [static_cast, byteVal, IntType.is_signed, IntType.kNumBits]
    norm_num at hr hok ⊢
    split_ifs <;> omega

theorem read_step_last_ok {σ : Type} (E : Errors σ) (T : IntType) (desc : String)
    (f i r pos : Nat) (b : U8) (rest : List U8) (e : σ)
    (hi : i + 1 = kMaxBytes T) (hr : r < 2 ^ (7 * i)) (hok : lastOk T b) :
    ReadVarIntLoop E T desc (f + 1) i r (SpanU8.mk pos (b :: rest)) e =
      some (ReadResult.mk (some ((r : Int) + byteVal T b * 2 ^ (7 * i)))
        (SpanU8.mk (pos + 1) rest) e) := by
  have hW := last_shift T i hi
  have hok2 := hok
  unfold lastOk at hok2
  simp only [ReadVarIntLoop, ReadU8, if_pos hi, if_pos hok2, byte_and_kByteMask,
    Nat.mul_comm i 7]
  rw [or_shift_eq_add _ _ _ _ (by omega) hr, last_result T i r b hi hr hok]

theorem read_step_last_bad {σ : Type} (E : Errors σ) (T : IntType) (desc : String)
    (f i r pos : Nat) (b : U8) (rest : List U8) (e : σ)
    (hi : i + 1 = kMaxBytes T) (hok : ¬ lastOk T b) :
    ReadVarIntLoop E T desc (f + 1) i r (SpanU8.mk pos (b :: rest)) e =
      some (ReadResult.mk none (SpanU8.mk (pos + 1) rest)
        (E.OnError (SpanU8.mk (pos + 1) rest) (lastByteMessage T desc b.val) e)) := by
  have hok2 := hok
  unfold lastOk at hok2
  simp only [ReadVarIntLoop, ReadU8, if_pos hi, if_neg hok2]
  cases T <;> rfl

theorem WriteVarInt_eq (T : IntType) (v : Int) (out : List U8) :
    WriteVarInt T v out = WriteVarIntLoop (endCond T v) (kMaxBytes T) v out := by
  unfold WriteVarInt endCond
  split_ifs <;> rfl

theorem low7_lt (v : Int) : (v % 128).toNat < 128 := by omega

set_option maxRecDepth 100000 in
theorem and_kSignBit (x : Nat) (hx : x < 128) : (x &&& kSignBit = 0) ↔ x < 64 := by
  revert x; decide

set_option maxRecDepth 100000 in
theorem or_kExtendBit (x : Nat) (hx : x < 128) : x ||| kExtendBit = x + 128 := by
  revert x; decide

theorem endCond_shift (T : IntType) (v : Int) : endCond T (v / 128) = endCond T v := by
  unfold endCond
  have : v / 128 < 0 ↔ v < 0 := by omega
  simp only [this]

theorem endCond_iff (T : IntType) (v : Int) (hv : T.is_signed = false → 0 ≤ v) :
    endCond T v (v >>> (7 : Nat)) (v % ((kByteMask : Int) + 1)).toNat = true ↔ Stops T v := by
  have hs : v >>> (7 : Nat) = v / 128 := by rw [Int.shiftRight_eq_div_pow]; norm_num
  have hm : (v % ((kByteMask : Int) + 1)) = v % 128 := by simp [kByteMask]
  rw [hs, hm]
  have h7 := and_kSignBit (v % 128).toNat (low7_lt v)
  unfold endCond Stops
  cases hT : T.is_signed
  · have := hv hT
    simp
    omega
  · by_cases hneg : v < 0
    · simp [hneg]
      by_cases h6 : (v % 128).toNat &&& kSignBit = 0
      · have := h7.1 h6; simp [h6]; omega
      · have : ¬ (v % 128).toNat < 64 := fun h => h6 (h7.2 h)
        simp [h6]; omega
    · simp [hneg]
      by_cases h6 : (v % 128).toNat &&& kSignBit = 0
      · have := h7.1 h6; simp [h6]; omega
      · have : ¬ (v % 128).toNat < 64 := fun h => h6 (h7.2 h)
        simp [h6]; omega

theorem stopByte_val (v : Int) : (stopByte v).val = (v % 128).toNat := by
  have := low7_lt v
  simp only [stopByte, Fin.ofNat, Fin.val_mk]
  omega

theorem contByte_val (v : Int) : (contByte v).val = (v % 128).toNat + 128 := by
  have := low7_lt v
  simp only [contByte, Fin.ofNat, Fin.val_mk, or_kExtendBit _ this]
  omega

theorem write_step (T : IntType) (v : Int) (f : Nat) (out : List U8)
    (hv : T.is_signed = false → 0 ≤ v) :
    WriteVarIntLoop (endCond T v) (f + 1) v out =
      if Stops T v then some (out ++ [stopByte v])
      else WriteVarIntLoop (endCond T (v / 128)) f (v / 128) (out ++ [contByte v]) := by
  have hs : v >>> (7 : Nat) = v / 128 := by rw [Int.shiftRight_eq_div_pow]; norm_num
  have hm : (v % ((kByteMask : Int) + 1)) = v % 128 := by simp [kByteMask]
  have hc := endCond_iff T v hv
  rw [hs, hm] at hc
  rw [endCond_shift]
  by_cases h : Stops T v
  · rw [if_pos h]
    simp only [WriteVarIntLoop, hm, hs, hc.2 h, ↓reduceIte, stopByte]
  · rw [if_neg h]
    have hf : ¬ (endCond T v (v / 128) (v % 128).toNat = true) := fun hq => h (hc.1 hq)
    simp only [WriteVarIntLoop, hm, hs, hf, Bool.false_eq_true, ↓reduceIte, contByte]

theorem byteVal_stopByte (T : IntType) (v : Int) (h : Stops T v) :
    byteVal T (stopByte v) = v := by
  unfold byteVal
  rw [stopByte_val]
  unfold Stops at h
  cases hT : T.is_signed
  · simp only [hT, Bool.false_eq_true, ↓reduceIte, false_and] at h ⊢
    omega
  · simp only [hT, ↓reduceIte, true_and] at h ⊢
    split_ifs <;> omega

theorem Fits_last (T : IntType) (i : Nat) (v : Int) (hi : i + 1 = kMaxBytes T)
    (h : Fits T i v) : Stops T v ∧ lastOk T (stopByte v) := by
  rw [lastOk_iff, stopByte_val]
  unfold Fits at h
  unfold Stops
  cases T
  · have hi4 : i = 4 := by simp [kMaxBytes, IntType.kNumBits, kBitsPerByte] at hi; omega
    subst hi4
    simp only [IntType.is_signed, IntType.kNumBits] at h ⊢
    norm_num at h ⊢
    omega
  · have hi4 : i = 4 := by simp [kMaxBytes, IntType.kNumBits, kBitsPerByte] at hi; omega
    subst hi4
    simp only [IntType.is_signed, IntType.kNumBits] at h ⊢
    norm_num at h ⊢
    omega
  · have hi4 : i = 9 := by simp [kMaxBytes, IntType.kNumBits, kBitsPerByte] at hi; omega
    subst hi4
    simp only [IntType.is_signed, IntType.kNumBits] at h ⊢
    norm_num at h ⊢
    omega

theorem Fits_unsigned (T : IntType) (i : Nat) (v : Int) (h : Fits T i v) :
    T.is_signed = false → 0 ≤ v := by
  intro hT
  unfold Fits at h
  simp only [hT] at h
  exact h.1

theorem Fits_next (T : IntType) (i : Nat) (v : Int) (hi : i + 1 < kMaxBytes T)
    (h : Fits T i v) : Fits T (i + 1) (v / 128) := by
  have hW := shift_fits T i hi
  unfold Fits at h ⊢
  cases hT : T.is_signed <;> simp only [hT, Bool.false_eq_true, ↓reduceIte] at h ⊢
  · have e : (2 : Int) ^ (T.kNumBits - 7 * i) = 128 * 2 ^ (T.kNumBits - 7 * (i + 1)) := by
      rw [show T.kNumBits - 7 * i = 7 + (T.kNumBits - 7 * (i + 1)) by omega, pow_add]; norm_num
    rw [e] at h
    generalize (2 : Int) ^ (T.kNumBits - 7 * (i + 1)) = P at h ⊢
    omega
  · have e : (2 : Int) ^ (T.kNumBits - 1 - 7 * i) =
        128 * 2 ^ (T.kNumBits - 1 - 7 * (i + 1)) := by
      rw [show T.kNumBits - 1 - 7 * i = 7 + (T.kNumBits - 1 - 7 * (i + 1)) by omega, pow_add]
      norm_num
    rw [e] at h
    generalize (2 : Int) ^ (T.kNumBits - 1 - 7 * (i + 1)) = P at h ⊢
    omega

theorem acc_next (r i p : Nat) (hr : r < 2 ^ (7 * i)) (hp : p < 128) :
    r + p * 2 ^ (7 * i) < 2 ^ (7 * (i + 1)) := by
  have e1 : 2 ^ (7 * (i + 1)) = 128 * 2 ^ (7 * i) := by
    rw [show 7 * (i + 1) = 7 + 7 * i by omega, pow_add]; norm_num
  rw [e1]
  have : p * 2 ^ (7 * i) ≤ 127 * 2 ^ (7 * i) := Nat.mul_le_mul_right _ (by omega)
  omega

theorem roundtrip_loop {σ : Type} (E : Errors σ) (T : IntType) (desc : String) :
    ∀ (n i r : Nat) (v : Int) (out : List U8), i + n = kMaxBytes T → 0 < n →
      Fits T i v → r < 2 ^ (7 * i) →
      ∃ bs : List U8, WriteVarIntLoop (endCond T v) n v out = some (out ++ bs) ∧
        ∀ (pos : Nat) (rest : List U8) (e : σ),
          ReadVarIntLoop E T desc n i r (SpanU8.mk pos (bs ++ rest)) e =
            some (ReadResult.mk (some ((r : Int) + v * 2 ^ (7 * i)))
              (SpanU8.mk (pos + bs.length) rest) e) := by
  intro n
  induction n with
  | zero => intro i r v out _ h; omega
  | succ k ih =>
    intro i r v out hin _ hfit hr
    rw [write_step T v k out (Fits_unsigned T i v hfit)]
    by_cases hs : Stops T v
    · rw [if_pos hs]
      refine ⟨[stopByte v], rfl, ?_⟩
      intro pos rest e
      have hlt : (stopByte v).val < 128 := by rw [stopByte_val]; exact low7_lt v
      simp only [List.singleton_append, List.length_singleton]
      by_cases hlast : i + 1 = kMaxBytes T
      · rw [read_step_last_ok E T desc k i r pos _ rest e hlast hr
          (Fits_last T i v hlast hfit).2, byteVal_stopByte T v hs]
      · rw [read_step_stop E T desc k i r pos _ rest e (by omega) hlt hr,
          byteVal_stopByte T v hs]
    · rw [if_neg hs]
      have hi : i + 1 < kMaxBytes T := by
        by_contra hc
        exact hs (Fits_last T i v (by omega) hfit).1
      have hcv := contByte_val v
      have hl7 := low7_lt v
      have hmod : (contByte v).val % 128 = (v % 128).toNat := by omega
      have hr2 := acc_next r i ((contByte v).val % 128) hr (by omega)
      obtain ⟨bs, hw, hrd⟩ := ih (i + 1) (r + (contByte v).val % 128 * 2 ^ (7 * i)) (v / 128)
        (out ++ [contByte v]) (by omega) (by omega) (Fits_next T i v hi hfit) hr2
      refine ⟨contByte v :: bs, ?_, ?_⟩
      · rw [hw]; simp
      · intro pos rest e
        simp only [List.cons_append, List.length_cons]
        rw [read_step_cont E T desc k i r pos (contByte v) (bs ++ rest) e hi (by omega) hr,
          hrd]
        have e1 : (2 : Int) ^ (7 * (i + 1)) = 128 * 2 ^ (7 * i) := by
          rw [show 7 * (i + 1) = 7 + 7 * i by omega, pow_add]; norm_num
        have e2 : (((v % 128).toNat : Nat) : Int) = v % 128 :=
          Int.toNat_of_nonneg (Int.emod_nonneg _ (by norm_num))
        have e3 := Int.emod_add_ediv v 128
        rw [hmod, e1]
        push_cast
        rw [e2]
        congr 3
        · linear_combination (2 : Int) ^ (7 * i) * e3
        · omega

theorem stopByte_byteVal (T : IntType) (b : U8) (hb : b.val < 128) :
    stopByte (byteVal T b) = b := by
  apply Fin.ext
  rw [stopByte_val]
  unfold byteVal
  split_ifs <;> omega

theorem Stops_byteVal (T : IntType) (b : U8) (hb : b.val < 128) : Stops T (byteVal T b) := by
  unfold Stops byteVal
  cases hT : T.is_signed
  · simp only [Bool.false_eq_true, ↓reduceIte, false_and]; omega
  · simp only [↓reduceIte, true_and]; split_ifs <;> omega

theorem Fits_of_Stops (T : IntType) (i : Nat) (v : Int) (hi : i + 1 < kMaxBytes T)
    (h : Stops T v) : Fits T i v := by
  have hW := shift_fits T i hi
  unfold Stops at h
  unfold Fits
  cases hT : T.is_signed <;> simp only [hT, Bool.false_eq_true, ↓reduceIte] at h ⊢
  · have h1 : (2 : Nat) ^ 7 ≤ 2 ^ (T.kNumBits - 7 * i) :=
      Nat.pow_le_pow_right (by decide) (by omega)
    have h2 : ((2 : Nat) ^ 7 : Int) ≤ ((2 ^ (T.kNumBits - 7 * i) : Nat) : Int) := by
      exact_mod_cast h1
    push_cast at h2
    generalize (2 : Int) ^ (T.kNumBits - 7 * i) = P at h2 ⊢
    omega
  · have h1 : (2 : Nat) ^ 6 ≤ 2 ^ (T.kNumBits - 1 - 7 * i) :=
      Nat.pow_le_pow_right (by decide) (by omega)
    have h2 : ((2 : Nat) ^ 6 : Int) ≤ ((2 ^ (T.kNumBits - 1 - 7 * i) : Nat) : Int) := by
      exact_mod_cast h1
    push_cast at h2
    generalize (2 : Int) ^ (T.kNumBits - 1 - 7 * i) = P at h2 ⊢
    omega

theorem Fits_of_lastOk (T : IntType) (i : Nat) (b : U8) (hi : i + 1 = kMaxBytes T)
    (h : lastOk T b) : Fits T i (byteVal T b) ∧ b.val < 128 := by
  rw [lastOk_iff] at h
  unfold Fits byteVal
  cases T
  · have hi4 : i = 4 := by simp [kMaxBytes, IntType.kNumBits, kBitsPerByte] at hi; omega
    subst hi4
    simp only [IntType.is_signed, IntType.kNumBits] at h ⊢
    norm_num at h ⊢
    omega
  · have hi4 : i = 4 := by simp [kMaxBytes, IntType.kNumBits, kBitsPerByte] at hi; omega
    subst hi4
    simp only [IntType.is_signed, IntType.kNumBits] at h ⊢
    norm_num at h ⊢
    split_ifs <;> omega
  · have hi4 : i = 9 := by simp [kMaxBytes, IntType.kNumBits, kBitsPerByte] at hi; omega
    subst hi4
    simp only [IntType.is_signed, IntType.kNumBits] at h ⊢
    norm_num at h ⊢
    split_ifs <;> omega

theorem Fits_prev (T : IntType) (i : Nat) (p : Nat) (v1 : Int) (hi : i + 1 < kMaxBytes T)
    (hp : p < 128) (h : Fits T (i + 1) v1) : Fits T i ((p : Int) + 128 * v1) := by
  have hW := shift_fits T i hi
  unfold Fits at h ⊢
  cases hT : T.is_signed <;> simp only [hT, Bool.false_eq_true, ↓reduceIte] at h ⊢
  · have e : (2 : Int) ^ (T.kNumBits - 7 * i) = 128 * 2 ^ (T.kNumBits - 7 * (i + 1)) := by
      rw [show T.kNumBits - 7 * i = 7 + (T.kNumBits - 7 * (i + 1)) by omega, pow_add]; norm_num
    rw [e]
    generalize (2 : Int) ^ (T.kNumBits - 7 * (i + 1)) = P at h ⊢
    omega
  · have e : (2 : Int) ^ (T.kNumBits - 1 - 7 * i) =
        128 * 2 ^ (T.kNumBits - 1 - 7 * (i + 1)) := by
      rw [show T.kNumBits - 1 - 7 * i = 7 + (T.kNumBits - 1 - 7 * (i + 1)) by omega, pow_add]
      norm_num
    rw [e]
    generalize (2 : Int) ^ (T.kNumBits - 1 - 7 * (i + 1)) = P at h ⊢
    omega

theorem contByte_of (b : U8) (v1 : Int) (hb : 128 ≤ b.val) :
    contByte (((b.val % 128 : Nat) : Int) + 128 * v1) = b := by
  apply Fin.ext
  rw [contByte_val]
  have := b.isLt
  omega

theorem canon_loop {σ : Type} (E : Errors σ) (T : IntType) (desc : String) :
    ∀ (n i r : Nat) (bs : List U8) (pos : Nat) (e : σ) (val : Int) (d2 : SpanU8) (e2 : σ)
      (out : List U8),
      i + n = kMaxBytes T → 0 < n → r < 2 ^ (7 * i) →
      ReadVarIntLoop E T desc n i r (SpanU8.mk pos bs) e =
        some (ReadResult.mk (some val) d2 e2) → d2.bytes = [] →
      ∃ v : Int, Fits T i v ∧ val = (r : Int) + v * 2 ^ (7 * i) ∧
        ∃ bs2 : List U8, WriteVarIntLoop (endCond T v) n v out = some (out ++ bs2) ∧
          bs2.length ≤ bs.length ∧ (bs2.length = bs.length → bs2 = bs) := by
  intro n
  induction n with
  | zero => intro i r bs pos e val d2 e2 out _ h; omega
  | succ k ih =>
    intro i r bs pos e val d2 e2 out hin _ hr hread hd2
    cases bs with
    | nil =>
      rw [read_step_nil] at hread
      simp at hread
    | cons b rest =>
      by_cases hlast : i + 1 = kMaxBytes T
      · by_cases hok : lastOk T b
        · rw [read_step_last_ok E T desc k i r pos b rest e hlast hr hok] at hread
          simp only [Option.some.injEq, ReadResult.mk.injEq] at hread
          obtain ⟨hval, hd, _⟩ := hread
          have hrest : rest = [] := by rw [← hd] at hd2; exact hd2
          obtain ⟨hfit, hb⟩ := Fits_of_lastOk T i b hlast hok
          refine ⟨byteVal T b, hfit, hval.symm, [b], ?_, ?_, ?_⟩
          · rw [write_step T _ k out (Fits_unsigned T i _ hfit),
              if_pos (Stops_byteVal T b hb), stopByte_byteVal T b hb]
          · simp
          · intro _; rw [hrest]
        · rw [read_step_last_bad E T desc k i r pos b rest e hlast hok] at hread
          simp at hread
      · have hi : i + 1 < kMaxBytes T := by omega
        by_cases hb : b.val < 128
        · rw [read_step_stop E T desc k i r pos b rest e hi hb hr] at hread
          simp only [Option.some.injEq, ReadResult.mk.injEq] at hread
          obtain ⟨hval, hd, _⟩ := hread
          have hrest : rest = [] := by rw [← hd] at hd2; exact hd2
          have hst := Stops_byteVal T b hb
          have hfit := Fits_of_Stops T i _ hi hst
          refine ⟨byteVal T b, hfit, hval.symm, [b], ?_, ?_, ?_⟩
          · rw [write_step T _ k out (Fits_unsigned T i _ hfit), if_pos hst,
              stopByte_byteVal T b hb]
          · simp
          · intro _; rw [hrest]
        · have hb2 : 128 ≤ b.val := by omega
          rw [read_step_cont E T desc k i r pos b rest e hi hb2 hr] at hread
          have hr2 := acc_next r i (b.val % 128) hr (by omega)
          obtain ⟨v1, hfit1, hval1, bs1, hw1, hlen1, heq1⟩ :=
            ih (i + 1) _ rest (pos + 1) e val d2 e2 (out ++ [b]) (by omega) (by omega) hr2
              hread hd2
          have hfit := Fits_prev T i (b.val % 128) v1 hi (by omega) hfit1
          have hdiv : (((b.val % 128 : Nat) : Int) + 128 * v1) / 128 = v1 := by omega
          have hrestlen : 1 ≤ rest.length := by
            cases rest with
            | nil =>
              cases k with
              | zero => omega
              | succ k2 => rw [read_step_nil] at hread; simp at hread
            | cons _ _ => simp
          refine ⟨((b.val % 128 : Nat) : Int) + 128 * v1, hfit, ?_, ?_⟩
          · rw [hval1]
            have e1 : (2 : Int) ^ (7 * (i + 1)) = 128 * 2 ^ (7 * i) := by
              rw [show 7 * (i + 1) = 7 + 7 * i by omega, pow_add]; norm_num
            rw [e1]
            push_cast
            ring
          · rw [write_step T _ k out (Fits_unsigned T i _ hfit)]
            by_cases hst : Stops T (((b.val % 128 : Nat) : Int) + 128 * v1)
            · rw [if_pos hst]
              refine ⟨[_], rfl, ?_, ?_⟩
              · simp
              · intro hl; simp only [List.length_singleton, List.length_cons, List.length_nil] at hl; omega
            · rw [if_neg hst, hdiv, contByte_of b v1 hb2, hw1]
              refine ⟨b :: bs1, by simp, ?_, ?_⟩
              · simp; exact hlen1
              · intro hl
                simp at hl
                rw [heq1 hl]


theorem payload_lt (cs : List U8) : payload cs < 2 ^ (7 * cs.length) := by
  induction cs with
  | nil => simp [payload]
  | cons c cs ih =>
    have e1 : 2 ^ (7 * (c :: cs).length) = 128 * 2 ^ (7 * cs.length) := by
      rw [List.length_cons, show 7 * (cs.length + 1) = 7 + 7 * cs.length by omega, pow_add]
      norm_num
    rw [e1]
    simp only [payload]
    omega

theorem loop_cont_prefix {σ : Type} (E : Errors σ) (T : IntType) (desc : String) :
    ∀ (cs : List U8) (f i r pos : Nat) (rest : List U8) (e : σ),
      (∀ c ∈ cs, 128 ≤ c.val) → i + cs.length < kMaxBytes T → r < 2 ^ (7 * i) →
      ReadVarIntLoop E T desc (f + cs.length) i r (SpanU8.mk pos (cs ++ rest)) e =
        ReadVarIntLoop E T desc f (i + cs.length) (r + payload cs * 2 ^ (7 * i))
          (SpanU8.mk (pos + cs.length) rest) e := by
  intro cs
  induction cs with
  | nil => intro f i r pos rest e _ _ _; simp [payload]
  | cons c cs ih =>
    intro f i r pos rest e hall hlen hr
    simp only [List.length_cons] at hlen
    have hc : 128 ≤ c.val := hall c (List.mem_cons_self _ _)
    have hr2 := acc_next r i (c.val % 128) hr (by omega)
    have h1 : f + (c :: cs).length = (f + cs.length) + 1 := by simp; omega
    rw [h1, List.cons_append,
      read_step_cont E T desc (f + cs.length) i r pos c (cs ++ rest) e (by omega) hc hr,
      ih f (i + 1) _ (pos + 1) rest e (fun x hx => hall x (List.mem_cons_of_mem _ hx))
        (by omega) hr2]
    have e1 : 2 ^ (7 * (i + 1)) = 128 * 2 ^ (7 * i) := by
      rw [show 7 * (i + 1) = 7 + 7 * i by omega, pow_add]; norm_num
    have e2 : r + c.val % 128 * 2 ^ (7 * i) + payload cs * 2 ^ (7 * (i + 1)) =
        r + payload (c :: cs) * 2 ^ (7 * i) := by
      rw [e1]; simp only [payload]; ring
    rw [e2]
    simp only [List.length_cons]
    rw [show i + 1 + cs.length = i + (cs.length + 1) by omega,
      show pos + 1 + cs.length = pos + (cs.length + 1) by omega]

theorem loop_outcome {σ : Type} (E : Errors σ) (T : IntType) (desc : String) :
    ∀ (n i r pos : Nat) (bs : List U8) (e : σ),
      i + n = kMaxBytes T → 0 < n → r < 2 ^ (7 * i) →
      ∃ (cs rest : List U8), bs = cs ++ rest ∧ (∀ c ∈ cs, 128 ≤ c.val) ∧ cs.length < n ∧
        ((rest = [] ∧ ReadVarIntLoop E T desc n i r (SpanU8.mk pos bs) e =
            some (ReadResult.mk none (SpanU8.mk (pos + cs.length) [])
              (E.OnError (SpanU8.mk (pos + cs.length) []) "Unable to read u8" e))) ∨
         (∃ (b : U8) (tl : List U8), rest = b :: tl ∧
            (if cs.length + 1 = n then lastOk T b else b.val < 128) ∧
            ReadVarIntLoop E T desc n i r (SpanU8.mk pos bs) e =
              some (ReadResult.mk
                (some ((r : Int) +
                  ((payload cs : Int) + byteVal T b * 2 ^ (7 * cs.length)) * 2 ^ (7 * i)))
                (SpanU8.mk (pos + cs.length + 1) tl) e)) ∨
         (∃ (b : U8) (tl : List U8), rest = b :: tl ∧ cs.length + 1 = n ∧ ¬ lastOk T b ∧
            ReadVarIntLoop E T desc n i r (SpanU8.mk pos bs) e =
              some (ReadResult.mk none (SpanU8.mk (pos + cs.length + 1) tl)
                (E.OnError (SpanU8.mk (pos + cs.length + 1) tl)
                  (lastByteMessage T desc b.val) e)))) := by
  intro n
  induction n with
  | zero => intro i r pos bs e _ h; omega
  | succ k ih =>
    intro i r pos bs e hin _ hr
    cases bs with
    | nil =>
      exact ⟨[], [], rfl, by simp, by simp, Or.inl ⟨rfl, read_step_nil E T desc k i r pos e⟩⟩
    | cons b tl =>
      by_cases hlast : i + 1 = kMaxBytes T
      · have hk : k = 0 := by omega
        by_cases hok : lastOk T b
        · refine ⟨[], b :: tl, rfl, by simp, by simp, Or.inr (Or.inl ⟨b, tl, rfl, ?_, ?_⟩)⟩
          · simp [hk, hok]
          · rw [read_step_last_ok E T desc k i r pos b tl e hlast hr hok]
            simp [payload]
        · refine ⟨[], b :: tl, rfl, by simp, by simp,
            Or.inr (Or.inr ⟨b, tl, rfl, by simp [hk], hok, ?_⟩)⟩
          rw [read_step_last_bad E T desc k i r pos b tl e hlast hok]
          simp
      · have hi : i + 1 < kMaxBytes T := by omega
        by_cases hb : b.val < 128
        · refine ⟨[], b :: tl, rfl, by simp, by simp, Or.inr (Or.inl ⟨b, tl, rfl, ?_, ?_⟩)⟩
          · have : ¬ ([] : List U8).length + 1 = k + 1 := by simp; omega
            rw [if_neg this]; exact hb
          · rw [read_step_stop E T desc k i r pos b tl e hi hb hr]
            simp [payload]
        · have hb2 : 128 ≤ b.val := by omega
          have hr2 := acc_next r i (b.val % 128) hr (by omega)
          have e1 : (2 : Int) ^ (7 * (i + 1)) = 128 * 2 ^ (7 * i) := by
            rw [show 7 * (i + 1) = 7 + 7 * i by omega, pow_add]; norm_num
          obtain ⟨cs, rest, hbs, hall, hlen, hcase⟩ :=
            ih (i + 1) (r + b.val % 128 * 2 ^ (7 * i)) (pos + 1) tl e (by omega) (by omega) hr2
          have hall2 : ∀ c ∈ b :: cs, 128 ≤ c.val := by
            intro c hc
            rcases List.mem_cons.1 hc with h | h
            · rw [h]; exact hb2
            · exact hall c h
          have e2 : (2 : Int) ^ (7 * (b :: cs).length) = 128 * 2 ^ (7 * cs.length) := by
            rw [List.length_cons, show 7 * (cs.length + 1) = 7 + 7 * cs.length by omega,
              pow_add]
            norm_num
          have hp : pos + 1 + cs.length = pos + (b :: cs).length := by
            simp only [List.length_cons]; omega
          refine ⟨b :: cs, rest, by rw [hbs]; rfl, hall2, by simp only [List.length_cons]; omega, ?_⟩
          rw [read_step_cont E T desc k i r pos b tl e hi hb2 hr]
          rcases hcase with ⟨hnil, hrd⟩ | ⟨b2, tl2, hrest, hcond, hrd⟩ |
            ⟨b2, tl2, hrest, hlen2, hbad, hrd⟩
          · refine Or.inl ⟨hnil, ?_⟩
            rw [hrd, hp]
          · refine Or.inr (Or.inl ⟨b2, tl2, hrest, ?_, ?_⟩)
            · simp only [List.length_cons]
              by_cases hq : cs.length + 1 = k
              · rw [if_pos hq] at hcond; rw [if_pos (by omega)]; exact hcond
              · rw [if_neg hq] at hcond; rw [if_neg (by omega)]; exact hcond
            · rw [hrd, hp, e1, e2]
              simp only [payload]
              push_cast
              congr 3
              ring
          · refine Or.inr (Or.inr ⟨b2, tl2, hrest, by simp only [List.length_cons]; omega,
              hbad, ?_⟩)
            rw [hrd, hp]

/-! ## The recording sink and the context guard -/

theorem pop_push (p : SpanU8) (d : String) (e : TestErrors) :
    TestErrors.sink.PopContext (TestErrors.sink.PushContext p d e) = e := by
  cases e
  simp [TestErrors.sink, TestErrors.PopContext, TestErrors.PushContext]

theorem pop_onError_push (p q : SpanU8) (d m : String) (e : TestErrors) :
    TestErrors.sink.PopContext
        (TestErrors.sink.OnError q m (TestErrors.sink.PushContext p d e)) =
      TestErrors.mk e.context_stack
        (e.errors ++ [e.context_stack ++ [ErrorContext.mk p d, ErrorContext.mk q m]]) := by
  cases e
  simp [TestErrors.sink, TestErrors.PopContext, TestErrors.PushContext, TestErrors.OnError]

theorem InRange_Fits (T : IntType) (v : Int) (h : InRange T v) : Fits T 0 v := by
  unfold InRange at h
  unfold Fits
  simpa using h

/-- Writing a value of type `T` and reading the bytes back: the writer
emits some bytes, and the reader returns the value from them, consumes
exactly them, and leaves the sink as it found it. -/
theorem roundtrip_VarInt (T : IntType) (v : Int) (h : InRange T v) (out rest : List U8)
    (pos : Nat) (e : TestErrors) (desc : String) :
    ∃ bs : List U8, WriteVarInt T v out = some (out ++ bs) ∧
      ReadVarInt TestErrors.sink T (SpanU8.mk pos (bs ++ rest)) e desc =
        some (ReadResult.mk (some v) (SpanU8.mk (pos + bs.length) rest) e) := by
  obtain ⟨bs, hw, hr⟩ := roundtrip_loop TestErrors.sink T desc (kMaxBytes T) 0 0 v out
    (by omega) (kMaxBytes_pos T) (InRange_Fits T v h) (by simp)
  refine ⟨bs, by rw [WriteVarInt_eq, hw], ?_⟩
  unfold ReadVarInt
  rw [hr]
  simp [pop_push]

theorem Fits_InRange (T : IntType) (v : Int) (h : Fits T 0 v) : InRange T v := by
  unfold Fits at h
  unfold InRange
  simpa using h

theorem AcceptsInFull_of_read (T : IntType) (bs : List U8) (v : Int) (d : SpanU8)
    (e : TestErrors) (hd : d.bytes = [])
    (h : ReadVarInt TestErrors.sink T (SpanU8.mk 0 bs) TestErrors.empty "" =
      some (ReadResult.mk (some v) d e)) : AcceptsInFull T bs v := by
  unfold AcceptsInFull
  rw [h]
  exact ⟨rfl, hd⟩

/-! ## The claims -/

/-- C1: for every unsigned 32-bit integer `x`, `WriteVarInt<u32>(x)` produces
bytes from which `ReadVarInt<u32>` returns `x`; the read consumes exactly
those bytes, so that the cursor is empty afterwards, and it leaves the sink
as it was, so that no error is reported. -/
theorem C1_u32_roundtrip (x : Nat) (hx : x < 2 ^ 32) (pos : Nat) (e : TestErrors)
    (desc : String) :
    ∃ bs : List U8, WriteVarInt IntType.u32 (x : Int) [] = some bs ∧
      ReadVarInt TestErrors.sink IntType.u32 (SpanU8.mk pos bs) e desc =
        some (ReadResult.mk (some (x : Int)) (SpanU8.mk (pos + bs.length) []) e) := by
  have hin : InRange IntType.u32 (x : Int) := by
    unfold InRange
    simp only [IntType.is_signed, IntType.kNumBits, Bool.false_eq_true, ↓reduceIte]
    exact ⟨by omega, by exact_mod_cast hx⟩
  obtain ⟨bs, hw, hr⟩ := roundtrip_VarInt IntType.u32 (x : Int) hin [] [] pos e desc
  refine ⟨bs, by simpa using hw, ?_⟩
  simpa using hr

/-- Witness of C1 at the largest value, 4294967295. -/
theorem C1_u32_roundtrip_witness :
    (4294967295 : Nat) < 2 ^ 32 ∧
      ∃ bs : List U8, WriteVarInt IntType.u32 ((4294967295 : Nat) : Int) [] = some bs ∧
        ReadVarInt TestErrors.sink IntType.u32 (SpanU8.mk 0 bs) TestErrors.empty "u32" =
          some (ReadResult.mk (some ((4294967295 : Nat) : Int))
            (SpanU8.mk (0 + bs.length) []) TestErrors.empty) :=
  ⟨by decide, C1_u32_roundtrip 4294967295 (by decide) 0 TestErrors.empty "u32"⟩

/-- C2: for every signed type `T` of width `W` (32 or 64) and every `x` with
`-2^(W-1) ≤ x < 2^(W-1)`, the two ends included, `WriteVarInt<T>(x)` produces
bytes from which `ReadVarInt<T>` returns `x`; the read consumes exactly those
bytes and leaves the sink as it was, so that no error is reported. -/
theorem C2_signed_roundtrip (T : IntType) (hT : T.is_signed = true) (x : Int)
    (hlo : -(2 : Int) ^ (T.kNumBits - 1) ≤ x) (hhi : x < 2 ^ (T.kNumBits - 1))
    (pos : Nat) (e : TestErrors) (desc : String) :
    ∃ bs : List U8, WriteVarInt T x [] = some bs ∧
      ReadVarInt TestErrors.sink T (SpanU8.mk pos bs) e desc =
        some (ReadResult.mk (some x) (SpanU8.mk (pos + bs.length) []) e) := by
  have hin : InRange T x := by
    unfold InRange
    simp only [hT, ↓reduceIte]
    exact ⟨hlo, hhi⟩
  obtain ⟨bs, hw, hr⟩ := roundtrip_VarInt T x hin [] [] pos e desc
  refine ⟨bs, by simpa using hw, ?_⟩
  simpa using hr

/-- Witness of C2 at the minimum of `s64`, `-2^63`. -/
theorem C2_signed_roundtrip_witness :
    IntType.s64.is_signed = true ∧
      -(2 : Int) ^ (IntType.s64.kNumBits - 1) ≤ -9223372036854775808 ∧
      (-9223372036854775808 : Int) < 2 ^ (IntType.s64.kNumBits - 1) ∧
      ∃ bs : List U8, WriteVarInt IntType.s64 (-9223372036854775808) [] = some bs ∧
        ReadVarInt TestErrors.sink IntType.s64 (SpanU8.mk 0 bs) TestErrors.empty "s64" =
          some (ReadResult.mk (some (-9223372036854775808))
            (SpanU8.mk (0 + bs.length) []) TestErrors.empty) :=
  ⟨rfl, by decide, by decide,
    C2_signed_roundtrip IntType.s64 rfl (-9223372036854775808) (by decide) (by decide) 0
      TestErrors.empty "s64"⟩

/-- C3: for every type `T` and every byte string `b` that `ReadVarInt<T>`
accepts in full with a value `v`, if no strictly shorter byte string is
accepted in full with the value `v`, then `WriteVarInt<T>(v)` produces exactly
`b`. -/
theorem C3_canonical_roundtrip (T : IntType) (b : List U8) (v : Int)
    (hacc : AcceptsInFull T b v)
    (hcan : ∀ b2 : List U8, b2.length < b.length → ¬ AcceptsInFull T b2 v) :
    WriteVarInt T v [] = some b := by
  unfold AcceptsInFull ReadVarInt at hacc
  cases hl : ReadVarIntLoop TestErrors.sink T "" (kMaxBytes T) 0 0 (SpanU8.mk 0 b)
      (TestErrors.sink.PushContext (SpanU8.mk 0 b) "" TestErrors.empty) with
  | none => rw [hl] at hacc; exact hacc.elim
  | some r =>
    rw [hl] at hacc
    obtain ⟨hval, hd⟩ := hacc
    simp only at hval hd
    obtain ⟨rv, rd, re⟩ := r
    simp only at hval hd
    subst hval
    obtain ⟨v2, hfit, hv2, bs2, hw, hlen, heq⟩ :=
      canon_loop TestErrors.sink T "" (kMaxBytes T) 0 0 b 0 _ v rd re [] (by omega)
        (kMaxBytes_pos T) (by simp) hl hd
    have hvv : v = v2 := by simpa using hv2
    subst hvv
    rw [WriteVarInt_eq, hw]
    obtain ⟨bs3, hw3, hr3⟩ :=
      roundtrip_VarInt T v (Fits_InRange T v hfit) [] [] 0 TestErrors.empty ""
    rw [WriteVarInt_eq, hw] at hw3
    have h23 : bs2 = bs3 := by simpa using hw3
    subst h23
    have hacc2 : AcceptsInFull T bs2 v :=
      AcceptsInFull_of_read T bs2 v _ _ rfl (by simpa using hr3)
    have hge : ¬ bs2.length < b.length := fun hlt => hcan bs2 hlt hacc2
    have : bs2 = b := heq (by omega)
    simp [this]

/-- Witness of C3 at the two-byte encoding `C0 63` of `-3648`. -/
theorem C3_canonical_roundtrip_witness :
    AcceptsInFull IntType.s32 [0xc0, 0x63] (-3648) ∧
      WriteVarInt IntType.s32 (-3648) [] = some [0xc0, 0x63] :=
  ⟨by decide, C3_canonical_roundtrip IntType.s32 [0xc0, 0x63] (-3648) (by decide) (by
    intro b2 hlen
    match b2, hlen with
    | [], _ => decide
    | [c], _ =>
      revert c
      set_option maxRecDepth 1000000 in decide)⟩

theorem loop_prefix_zero {σ : Type} (E : Errors σ) (T : IntType) (desc : String)
    (cs : List U8) (pos : Nat) (rest : List U8) (e : σ)
    (hall : ∀ c ∈ cs, 128 ≤ c.val) (hlen : cs.length < kMaxBytes T) :
    ReadVarIntLoop E T desc (kMaxBytes T) 0 0 (SpanU8.mk pos (cs ++ rest)) e =
      ReadVarIntLoop E T desc (kMaxBytes T - cs.length - 1 + 1) cs.length (payload cs)
        (SpanU8.mk (pos + cs.length) rest) e := by
  have h := loop_cont_prefix E T desc cs (kMaxBytes T - cs.length) 0 0 pos rest e hall
    (by omega) (by simp)
  rw [show kMaxBytes T - cs.length + cs.length = kMaxBytes T by omega] at h
  rw [h]
  simp only [Nat.zero_add, Nat.mul_zero, pow_zero, Nat.mul_one]
  rw [show kMaxBytes T - cs.length - 1 + 1 = kMaxBytes T - cs.length by omega]

/-- The read of a byte string that ends before the encoding does. -/
theorem ReadVarInt_truncated {σ : Type} (E : Errors σ) (T : IntType) (cs : List U8)
    (pos : Nat) (e : σ) (desc : String)
    (hall : ∀ c ∈ cs, 128 ≤ c.val) (hlen : cs.length < kMaxBytes T) :
    ReadVarInt E T (SpanU8.mk pos cs) e desc =
      some (ReadResult.mk none (SpanU8.mk (pos + cs.length) [])
        (E.PopContext (E.OnError (SpanU8.mk (pos + cs.length) []) "Unable to read u8"
          (E.PushContext (SpanU8.mk pos cs) desc e)))) := by
  unfold ReadVarInt
  have h := loop_prefix_zero E T desc cs pos [] (E.PushContext (SpanU8.mk pos cs) desc e)
    hall hlen
  rw [List.append_nil] at h
  rw [h, read_step_nil]

/-- The read of an encoding shorter than the maximum length. -/
theorem ReadVarInt_short {σ : Type} (E : Errors σ) (T : IntType) (cs : List U8) (b : U8)
    (rest : List U8) (pos : Nat) (e : σ) (desc : String)
    (hall : ∀ c ∈ cs, 128 ≤ c.val) (hlen : cs.length + 1 < kMaxBytes T)
    (hb : b.val < 128) :
    ReadVarInt E T (SpanU8.mk pos (cs ++ b :: rest)) e desc =
      some (ReadResult.mk (some ((payload cs : Int) + byteVal T b * 2 ^ (7 * cs.length)))
        (SpanU8.mk (pos + cs.length + 1) rest)
        (E.PopContext (E.PushContext (SpanU8.mk pos (cs ++ b :: rest)) desc e))) := by
  unfold ReadVarInt
  rw [loop_prefix_zero E T desc cs pos (b :: rest) _ hall (by omega),
    read_step_stop E T desc _ _ _ _ b rest _ hlen hb (payload_lt cs)]

/-- The read of an encoding of the maximum length whose final byte obeys
the extension rule. -/
theorem ReadVarInt_last_ok {σ : Type} (E : Errors σ) (T : IntType) (cs : List U8) (b : U8)
    (rest : List U8) (pos : Nat) (e : σ) (desc : String)
    (hall : ∀ c ∈ cs, 128 ≤ c.val) (hlen : cs.length + 1 = kMaxBytes T)
    (hok : lastOk T b) :
    ReadVarInt E T (SpanU8.mk pos (cs ++ b :: rest)) e desc =
      some (ReadResult.mk (some ((payload cs : Int) + byteVal T b * 2 ^ (7 * cs.length)))
        (SpanU8.mk (pos + cs.length + 1) rest)
        (E.PopContext (E.PushContext (SpanU8.mk pos (cs ++ b :: rest)) desc e))) := by
  unfold ReadVarInt
  rw [loop_prefix_zero E T desc cs pos (b :: rest) _ hall (by omega),
    read_step_last_ok E T desc _ _ _ _ b rest _ hlen (payload_lt cs) hok]

/-- The read of an encoding of the maximum length whose final byte breaks
the extension rule. -/
theorem ReadVarInt_last_bad {σ : Type} (E : Errors σ) (T : IntType) (cs : List U8) (b : U8)
    (rest : List U8) (pos : Nat) (e : σ) (desc : String)
    (hall : ∀ c ∈ cs, 128 ≤ c.val) (hlen : cs.length + 1 = kMaxBytes T)
    (hok : ¬ lastOk T b) :
    ReadVarInt E T (SpanU8.mk pos (cs ++ b :: rest)) e desc =
      some (ReadResult.mk none (SpanU8.mk (pos + cs.length + 1) rest)
        (E.PopContext (E.OnError (SpanU8.mk (pos + cs.length + 1) rest)
          (lastByteMessage T desc b.val)
          (E.PushContext (SpanU8.mk pos (cs ++ b :: rest)) desc e)))) := by
  unfold ReadVarInt
  rw [loop_prefix_zero E T desc cs pos (b :: rest) _ hall (by omega),
    read_step_last_bad E T desc _ _ _ _ b rest _ hlen hok]

/-- Every input is a run of fewer than `kMaxBytes` continuation bytes
followed by nothing, by the byte of the maximum length, or by a byte with
bit 7 clear. -/
theorem leb_shape (T : IntType) (bs : List U8) :
    ∃ (cs rest : List U8), bs = cs ++ rest ∧ (∀ c ∈ cs, 128 ≤ c.val) ∧
      cs.length < kMaxBytes T ∧
      (rest = [] ∨ ∃ (b : U8) (tl : List U8), rest = b :: tl ∧
        (cs.length + 1 = kMaxBytes T ∨ (cs.length + 1 < kMaxBytes T ∧ b.val < 128))) := by
  obtain ⟨cs, rest, hbs, hall, hlen, hcase⟩ :=
    loop_outcome ErrorsNop T "" (kMaxBytes T) 0 0 0 bs () (by omega) (kMaxBytes_pos T)
      (by simp)
  refine ⟨cs, rest, hbs, hall, hlen, ?_⟩
  rcases hcase with ⟨hnil, _⟩ | ⟨b, tl, hrest, hcond, _⟩ | ⟨b, tl, hrest, hl, _, _⟩
  · exact Or.inl hnil
  · refine Or.inr ⟨b, tl, hrest, ?_⟩
    by_cases hq : cs.length + 1 = kMaxBytes T
    · exact Or.inl hq
    · rw [if_neg hq] at hcond
      exact Or.inr ⟨by omega, hcond⟩
  · exact Or.inr ⟨b, tl, hrest, Or.inl hl⟩

theorem drop_prefix_cons (cs : List U8) (b : U8) (tl : List U8) :
    (cs ++ b :: tl).drop (cs.length + 1) = tl := by
  induction cs with
  | nil => simp
  | cons c cs ih => simp [ih]

/-- C4, as amended: `ReadVarInt<T>` returns, and when it returns absent the
cursor is not restored but stands after every byte that was read: at the end
of the input, empty, when the input has fewer than `kMaxBytes` bytes, and
`kMaxBytes` bytes further otherwise; it equals the cursor of entry only when
the input is empty. -/
theorem C4_cursor_after_failure {σ : Type} (E : Errors σ) (T : IntType) (data : SpanU8)
    (e : σ) (desc : String) :
    ∃ r, ReadVarInt E T data e desc = some r ∧
      (r.value = none →
        ((data.bytes.length < kMaxBytes T ∧
            r.data = SpanU8.mk (data.pos + data.bytes.length) []) ∨
          (kMaxBytes T ≤ data.bytes.length ∧
            r.data = SpanU8.mk (data.pos + kMaxBytes T) (data.bytes.drop (kMaxBytes T)))) ∧
        (r.data = data ↔ data.bytes = [])) := by
  obtain ⟨pos, bs⟩ := data
  obtain ⟨cs, rest, hbs, hall, hlen, hcase⟩ := leb_shape T bs
  subst hbs
  rcases hcase with hnil | ⟨b, tl, hrest, hq⟩
  · subst hnil
    rw [List.append_nil]
    refine ⟨_, ReadVarInt_truncated E T cs pos e desc hall hlen, fun _ => ⟨Or.inl ⟨hlen, rfl⟩, ?_⟩⟩
    simp only [SpanU8.mk.injEq]
    constructor
    · rintro ⟨_, h2⟩; exact h2.symm
    · intro h; rw [h]; simp
  · subst hrest
    by_cases hlast : cs.length + 1 = kMaxBytes T
    · by_cases hok : lastOk T b
      · exact ⟨_, ReadVarInt_last_ok E T cs b tl pos e desc hall hlast hok,
          fun h => by simp at h⟩
      · refine ⟨_, ReadVarInt_last_bad E T cs b tl pos e desc hall hlast hok,
          fun _ => ⟨Or.inr ⟨by simp; omega, ?_⟩, ?_⟩⟩
        · rw [← hlast, drop_prefix_cons, Nat.add_assoc]
        · simp only [SpanU8.mk.injEq]
          constructor
          · rintro ⟨h1, _⟩; omega
          · intro h; simp at h
    · have hb : cs.length + 1 < kMaxBytes T ∧ b.val < 128 := by
        rcases hq with h | h
        · exact absurd h hlast
        · exact h
      exact ⟨_, ReadVarInt_short E T cs b tl pos e desc hall hb.1 hb.2, fun h => by simp at h⟩

/-- Counterexample to C4 as stated: on the truncated input `C0` the read of a
`u32` returns absent with the cursor one byte further, and on `F0 F0 F0 F0 12`,
whose final byte breaks the extension rule, it returns absent with the cursor
five bytes further. -/
theorem C4_counterexample :
    ReadVarInt TestErrors.sink IntType.u32 (SpanU8.mk 0 [0xc0]) TestErrors.empty "u32" =
        some (ReadResult.mk none (SpanU8.mk 1 [])
          (TestErrors.mk [] [[ErrorContext.mk (SpanU8.mk 0 [0xc0]) "u32",
            ErrorContext.mk (SpanU8.mk 1 []) "Unable to read u8"]])) ∧
      SpanU8.mk 1 [] ≠ SpanU8.mk 0 [0xc0] ∧
      ReadVarInt TestErrors.sink IntType.u32 (SpanU8.mk 0 [0xf0, 0xf0, 0xf0, 0xf0, 0x12])
          TestErrors.empty "u32" =
        some (ReadResult.mk none (SpanU8.mk 5 [])
          (TestErrors.mk [] [[ErrorContext.mk (SpanU8.mk 0 [0xf0, 0xf0, 0xf0, 0xf0, 0x12]) "u32",
            ErrorContext.mk (SpanU8.mk 5 [])
              "Last byte of u32 must be zero extension: expected 0x2, got 0x12"]])) ∧
      SpanU8.mk 5 [] ≠ SpanU8.mk 0 [0xf0, 0xf0, 0xf0, 0xf0, 0x12] := by
  decide

theorem kMaxBytes_u32 : kMaxBytes IntType.u32 = 5 := by decide

theorem kMaxBytes_s32 : kMaxBytes IntType.s32 = 5 := by decide

theorem kMaxBytes_s64 : kMaxBytes IntType.s64 = 10 := by decide

theorem bit7_set (b : U8) (h : b.val &&& 0x80 ≠ 0) : 128 ≤ b.val := by
  have := byte_and_kExtendBit b
  simp only [kExtendBit] at this
  by_contra hc
  exact h (this.2 (by omega))

theorem bit7_clear (b : U8) (h : b.val &&& 0x80 = 0) : b.val < 128 := by
  have := byte_and_kExtendBit b
  simp only [kExtendBit] at this
  exact this.1 h

theorem payload_append_single (cs : List U8) (b : U8) :
    payload (cs ++ [b]) = payload cs + b.val % 128 * 2 ^ (7 * cs.length) := by
  induction cs with
  | nil => simp [payload]
  | cons c cs ih =>
    have e1 : 2 ^ (7 * (c :: cs).length) = 128 * 2 ^ (7 * cs.length) := by
      rw [List.length_cons, show 7 * (cs.length + 1) = 7 + 7 * cs.length by omega, pow_add]
      norm_num
    rw [List.cons_append, e1]
    simp only [payload, ih]
    ring

set_option maxRecDepth 100000 in
theorem top_four_bits (b : U8) : b.val &&& 0xF0 = 0 ↔ b.val < 16 := by
  revert b; decide

/-- C5: for every five-byte input whose first four bytes have bit 7 set,
`ReadVarInt<u32>` returns a value if and only if bits 4 to 7 of the fifth
byte are all zero, and the value is then the number assembled from the five
seven-bit payloads. -/
theorem C5_u32_final_byte (b0 b1 b2 b3 b4 : U8)
    (h0 : b0.val &&& 0x80 ≠ 0) (h1 : b1.val &&& 0x80 ≠ 0) (h2 : b2.val &&& 0x80 ≠ 0)
    (h3 : b3.val &&& 0x80 ≠ 0) (pos : Nat) (e : TestErrors) (desc : String) :
    ∃ r, ReadVarInt TestErrors.sink IntType.u32 (SpanU8.mk pos [b0, b1, b2, b3, b4]) e desc =
        some r ∧
      r.value =
        if b4.val &&& 0xF0 = 0 then
          some ((b0.val % 128 + b1.val % 128 * 2 ^ 7 + b2.val % 128 * 2 ^ 14 +
            b3.val % 128 * 2 ^ 21 + b4.val % 128 * 2 ^ 28 : Nat) : Int)
        else none := by
  have hall : ∀ c ∈ [b0, b1, b2, b3], 128 ≤ c.val := by
    intro c hc
    simp only [List.mem_cons, List.mem_singleton, List.not_mem_nil, or_false] at hc
    rcases hc with h | h | h | h <;> rw [h]
    · exact bit7_set b0 h0
    · exact bit7_set b1 h1
    · exact bit7_set b2 h2
    · exact bit7_set b3 h3
  have hok : lastOk IntType.u32 b4 ↔ b4.val < 16 := lastOk_iff IntType.u32 b4
  have h16 := top_four_bits b4
  by_cases hb : b4.val < 16
  · refine ⟨_, ReadVarInt_last_ok TestErrors.sink IntType.u32 [b0, b1, b2, b3] b4 [] pos e
      desc hall (by rw [kMaxBytes_u32]; rfl) (hok.2 hb), ?_⟩
    rw [if_pos (h16.2 hb)]
    simp only [payload, byteVal, IntType.is_signed, List.length_cons, List.length_nil]
    norm_num
    omega
  · refine ⟨_, ReadVarInt_last_bad TestErrors.sink IntType.u32 [b0, b1, b2, b3] b4 [] pos e
      desc hall (by rw [kMaxBytes_u32]; rfl) (fun h => hb (hok.1 h)), ?_⟩
    rw [if_neg (fun h => hb (h16.1 h))]

/-- Witness of C5: `FF FF FF FF 0F` decodes to 4294967295, while
`FF FF FF FF 1F` and `F0 F0 F0 F0 12` are rejected. -/
theorem C5_u32_final_byte_witness :
    (∃ r, ReadVarInt TestErrors.sink IntType.u32 (SpanU8.mk 0 [0xff, 0xff, 0xff, 0xff, 0x0f])
        TestErrors.empty "u32" = some r ∧ r.value = some 4294967295) ∧
    (∃ r, ReadVarInt TestErrors.sink IntType.u32 (SpanU8.mk 0 [0xff, 0xff, 0xff, 0xff, 0x1f])
        TestErrors.empty "u32" = some r ∧ r.value = none) ∧
    (∃ r, ReadVarInt TestErrors.sink IntType.u32 (SpanU8.mk 0 [0xf0, 0xf0, 0xf0, 0xf0, 0x12])
        TestErrors.empty "u32" = some r ∧ r.value = none) := by
  refine ⟨?_, ?_, ?_⟩
  · obtain ⟨r, h, hv⟩ := C5_u32_final_byte 0xff 0xff 0xff 0xff 0x0f (by decide) (by decide)
      (by decide) (by decide) 0 TestErrors.empty "u32"
    exact ⟨r, h, hv.trans (by decide)⟩
  · obtain ⟨r, h, hv⟩ := C5_u32_final_byte 0xff 0xff 0xff 0xff 0x1f (by decide) (by decide)
      (by decide) (by decide) 0 TestErrors.empty "u32"
    exact ⟨r, h, hv.trans (by decide)⟩
  · obtain ⟨r, h, hv⟩ := C5_u32_final_byte 0xf0 0xf0 0xf0 0xf0 0x12 (by decide) (by decide)
      (by decide) (by decide) 0 TestErrors.empty "u32"
    exact ⟨r, h, hv.trans (by decide)⟩

theorem all_bit7_set (cs : List U8) (hall : ∀ c ∈ cs, c.val &&& 0x80 ≠ 0) :
    ∀ c ∈ cs, 128 ≤ c.val :=
  fun c hc => bit7_set c (hall c hc)

set_option maxRecDepth 100000 in
theorem s32_final_bits (b : U8) :
    (b.val &&& 0x80 = 0 ∧ (b.val &&& 0x78 = 0 ∨ b.val &&& 0x78 = 0x78)) ↔
      (b.val ≤ 0x07 ∨ (0x78 ≤ b.val ∧ b.val ≤ 0x7F)) := by
  revert b; decide

set_option maxRecDepth 100000 in
theorem s64_final_bits (b : U8) :
    (b.val &&& 0x80 = 0 ∧ (b.val &&& 0x7F = 0 ∨ b.val &&& 0x7F = 0x7F)) ↔
      (b.val = 0x00 ∨ b.val = 0x7F) := by
  revert b; decide

/-- C6: for a signed encoding of the maximum length (five bytes for `s32`, ten
for `s64`, every byte but the last with bit 7 set), `ReadVarInt` returns a
value if and only if bit 7 of the final byte is clear and its sign bit and
the unused bits above it are equal, that is, if and only if the final byte
lies in `0x00..0x07` or `0x78..0x7F` for `s32` and is `0x00` or `0x7F` for
`s64`; the value is negative exactly in the all-ones case. -/
theorem C6_signed_final_byte (T : IntType) (hT : T.is_signed = true) (cs : List U8) (b : U8)
    (hlen : cs.length + 1 = kMaxBytes T) (hall : ∀ c ∈ cs, c.val &&& 0x80 ≠ 0)
    (pos : Nat) (e : TestErrors) (desc : String) :
    ∃ r, ReadVarInt TestErrors.sink T (SpanU8.mk pos (cs ++ [b])) e desc = some r ∧
      (r.value.isSome = true ↔
        (match T with
          | IntType.s32 => b.val &&& 0x80 = 0 ∧ (b.val &&& 0x78 = 0 ∨ b.val &&& 0x78 = 0x78)
          | IntType.s64 => b.val &&& 0x80 = 0 ∧ (b.val &&& 0x7F = 0 ∨ b.val &&& 0x7F = 0x7F)
          | IntType.u32 => False)) ∧
      (r.value.isSome = true ↔
        (match T with
          | IntType.s32 => b.val ≤ 0x07 ∨ (0x78 ≤ b.val ∧ b.val ≤ 0x7F)
          | IntType.s64 => b.val = 0x00 ∨ b.val = 0x7F
          | IntType.u32 => False)) ∧
      (∀ v, r.value = some v →
        (v < 0 ↔
          (match T with
            | IntType.s32 => 0x78 ≤ b.val ∧ b.val ≤ 0x7F
            | IntType.s64 => b.val = 0x7F
            | IntType.u32 => False))) := by
  have hall2 := all_bit7_set cs hall
  have hiff := lastOk_iff T b
  have hp := payload_lt cs
  by_cases hok : lastOk T b
  · refine ⟨_, ReadVarInt_last_ok TestErrors.sink T cs b [] pos e desc hall2 hlen hok, ?_⟩
    have h := hiff.1 hok
    cases T
    · simp [IntType.is_signed] at hT
    · have hl : cs.length = 4 := by rw [kMaxBytes_s32] at hlen; omega
      rw [hl] at hp
      simp only [s32_final_bits, Option.isSome_some, true_iff, Option.some.injEq, hl]
      simp only at h
      refine ⟨by omega, by omega, ?_⟩
      intro v hv
      rw [← hv]
      simp only [byteVal, IntType.is_signed, true_and]
      norm_num at hp ⊢
      split_ifs <;> omega
    · have hl : cs.length = 9 := by rw [kMaxBytes_s64] at hlen; omega
      rw [hl] at hp
      simp only [s64_final_bits, Option.isSome_some, true_iff, Option.some.injEq, hl]
      simp only at h
      refine ⟨by omega, by omega, ?_⟩
      intro v hv
      rw [← hv]
      simp only [byteVal, IntType.is_signed, true_and]
      norm_num at hp ⊢
      split_ifs <;> omega
  · refine ⟨_, ReadVarInt_last_bad TestErrors.sink T cs b [] pos e desc hall2 hlen hok, ?_⟩
    have h : ¬ _ := fun hq => hok (hiff.2 hq)
    cases T
    · simp [IntType.is_signed] at hT
    · simp only [s32_final_bits, Option.isSome_none, Bool.false_eq_true, false_iff]
      simp only at h
      exact ⟨by omega, by omega, fun v hv => by simp at hv⟩
    · simp only [s64_final_bits, Option.isSome_none, Bool.false_eq_true, false_iff]
      simp only at h
      exact ⟨by omega, by omega, fun v hv => by simp at hv⟩

/-- Witness of C6: the ten-byte `s64` encoding with final byte `0x7F` is
accepted and negative. -/
theorem C6_signed_final_byte_witness :
    IntType.s64.is_signed = true ∧
    ∃ r, ReadVarInt TestErrors.sink IntType.s64
        (SpanU8.mk 0 ([0x80, 0x80, 0x80, 0x80, 0x80, 0x80, 0x80, 0x80, 0x80] ++ [0x7f]))
        TestErrors.empty "s64" = some r ∧
      (r.value.isSome = true ↔
        ((0x7f : U8).val &&& 0x80 = 0 ∧
          ((0x7f : U8).val &&& 0x7F = 0 ∨ (0x7f : U8).val &&& 0x7F = 0x7F))) ∧
      (r.value.isSome = true ↔ ((0x7f : U8).val = 0x00 ∨ (0x7f : U8).val = 0x7F)) ∧
      (∀ v, r.value = some v → (v < 0 ↔ (0x7f : U8).val = 0x7F)) :=
  ⟨rfl, C6_signed_final_byte IntType.s64 rfl
    [0x80, 0x80, 0x80, 0x80, 0x80, 0x80, 0x80, 0x80, 0x80] 0x7f (by decide)
    (by set_option maxRecDepth 100000 in decide) 0 TestErrors.empty "s64"⟩

/-- C7: for every signed encoding of `k` bytes, `k` smaller than the maximum
length, whose bytes before the last have bit 7 set and whose last byte has it
clear, `ReadVarInt` consumes exactly `k` bytes, reports nothing, and returns
the `7k`-bit payload read in two's complement: the unsigned payload `v` if bit
6 of the last byte is clear, and `v - 2^(7k)` if it is set. -/
theorem C7_signed_short (T : IntType) (hT : T.is_signed = true) (cs : List U8) (b : U8)
    (rest : List U8) (hlen : cs.length + 1 < kMaxBytes T)
    (hall : ∀ c ∈ cs, c.val &&& 0x80 ≠ 0) (hb : b.val &&& 0x80 = 0)
    (pos : Nat) (e : TestErrors) (desc : String) :
    ReadVarInt TestErrors.sink T (SpanU8.mk pos (cs ++ b :: rest)) e desc =
      some (ReadResult.mk
        (some (if b.val &&& 0x40 = 0 then (payload (cs ++ [b]) : Int)
          else (payload (cs ++ [b]) : Int) - 2 ^ (7 * (cs.length + 1))))
        (SpanU8.mk (pos + (cs.length + 1)) rest) e) := by
  have hb2 := bit7_clear b hb
  have h6 := and_kSignBit b.val hb2
  simp only [kSignBit] at h6
  rw [ReadVarInt_short TestErrors.sink T cs b rest pos e desc (all_bit7_set cs hall) hlen hb2,
    pop_push, payload_append_single, Nat.mod_eq_of_lt hb2]
  have e1 : (2 : Int) ^ (7 * (cs.length + 1)) = 128 * 2 ^ (7 * cs.length) := by
    rw [show 7 * (cs.length + 1) = 7 + 7 * cs.length by omega, pow_add]; norm_num
  rw [e1, Nat.add_assoc]
  congr 3
  by_cases hc : b.val < 64
  · rw [if_pos (h6.2 hc)]
    have : ¬ (T.is_signed = true ∧ 64 ≤ b.val) := by omega
    simp only [byteVal, this, if_false]
    push_cast
    ring
  · rw [if_neg (fun h => hc (h6.1 h))]
    have : T.is_signed = true ∧ 64 ≤ b.val := ⟨hT, by omega⟩
    simp only [byteVal, this, and_self, if_true]
    push_cast
    ring

/-- Witness of C7: the input `C0 63` yields -3648 with two bytes consumed. -/
theorem C7_signed_short_witness :
    IntType.s32.is_signed = true ∧
    ReadVarInt TestErrors.sink IntType.s32 (SpanU8.mk 0 [0xc0, 0x63]) TestErrors.empty "s32" =
      some (ReadResult.mk (some (-3648)) (SpanU8.mk 2 []) TestErrors.empty) :=
  ⟨rfl, (C7_signed_short IntType.s32 rfl [0xc0] 0x63 [] (by decide)
    (by set_option maxRecDepth 100000 in decide) (by decide) 0
    TestErrors.empty "s32").trans (by decide)⟩

/-- C8: for every `n` smaller than the maximum length of `T` and every input
of `n` bytes that all have bit 7 set, the empty input included,
`ReadVarInt<T>` with description `d`, called at offset 0 with an empty sink,
returns absent and reports exactly one error: the message "Unable to read
u8" at offset `n`, under the single context frame `(0, d)`. -/
theorem C8_truncated (T : IntType) (bs : List U8) (d : String)
    (hlen : bs.length < kMaxBytes T) (hall : ∀ c ∈ bs, c.val &&& 0x80 ≠ 0) :
    ReadVarInt TestErrors.sink T (SpanU8.mk 0 bs) TestErrors.empty d =
      some (ReadResult.mk none (SpanU8.mk bs.length [])
        (TestErrors.mk []
          [[ErrorContext.mk (SpanU8.mk 0 bs) d,
            ErrorContext.mk (SpanU8.mk bs.length []) "Unable to read u8"]])) := by
  rw [ReadVarInt_truncated TestErrors.sink T bs 0 TestErrors.empty d (all_bit7_set bs hall)
    hlen, pop_onError_push]
  simp [TestErrors.empty]

/-- Witness of C8: the nine-byte input `FE ED FE ED FE ED FE ED FE` read as an
`s64`, and the empty input read as a `u32`. -/
theorem C8_truncated_witness :
    ReadVarInt TestErrors.sink IntType.s64
        (SpanU8.mk 0 [0xfe, 0xed, 0xfe, 0xed, 0xfe, 0xed, 0xfe, 0xed, 0xfe])
        TestErrors.empty "s64" =
      some (ReadResult.mk none (SpanU8.mk 9 [])
        (TestErrors.mk []
          [[ErrorContext.mk
              (SpanU8.mk 0 [0xfe, 0xed, 0xfe, 0xed, 0xfe, 0xed, 0xfe, 0xed, 0xfe]) "s64",
            ErrorContext.mk (SpanU8.mk 9 []) "Unable to read u8"]])) ∧
    ReadVarInt TestErrors.sink IntType.u32 (SpanU8.mk 0 []) TestErrors.empty "u32" =
      some (ReadResult.mk none (SpanU8.mk 0 [])
        (TestErrors.mk []
          [[ErrorContext.mk (SpanU8.mk 0 []) "u32",
            ErrorContext.mk (SpanU8.mk 0 []) "Unable to read u8"]])) :=
  ⟨C8_truncated IntType.s64 [0xfe, 0xed, 0xfe, 0xed, 0xfe, 0xed, 0xfe, 0xed, 0xfe] "s64"
      (by decide) (by set_option maxRecDepth 100000 in decide),
    C8_truncated IntType.u32 [] "u32" (by decide)
      (by set_option maxRecDepth 100000 in decide)⟩

theorem firstClear_prefix (cs l : List U8) (hall : ∀ c ∈ cs, 128 ≤ c.val) :
    firstClear (cs ++ l) = (firstClear l).map (fun j => j + cs.length) := by
  induction cs with
  | nil => simp
  | cons c cs ih =>
    have hc : ¬ (c.val &&& kExtendBit = 0) := by
      rw [byte_and_kExtendBit]
      have := hall c (List.mem_cons_self _ _)
      omega
    rw [List.cons_append]
    simp only [firstClear, if_neg hc]
    rw [ih (fun x hx => hall x (List.mem_cons_of_mem _ hx)), Option.map_map]
    rfl

theorem lebLength_last (T : IntType) (cs : List U8) (b : U8) (tl : List U8)
    (hall : ∀ c ∈ cs, 128 ≤ c.val) (hlen : cs.length + 1 = kMaxBytes T) :
    lebLength T (cs ++ b :: tl) = cs.length + 1 := by
  have h1 : kMaxBytes T - 1 = cs.length := by omega
  have h2 := firstClear_prefix cs [] hall
  rw [List.append_nil] at h2
  unfold lebLength
  rw [h1, List.take_left, h2]
  simp [firstClear, hlen]

theorem lebLength_short (T : IntType) (cs : List U8) (b : U8) (tl : List U8)
    (hall : ∀ c ∈ cs, 128 ≤ c.val) (hlen : cs.length + 1 < kMaxBytes T)
    (hb : b.val < 128) : lebLength T (cs ++ b :: tl) = cs.length + 1 := by
  obtain ⟨m, hm⟩ : ∃ m, kMaxBytes T - 1 = cs.length + (m + 1) :=
    ⟨kMaxBytes T - 1 - cs.length - 1, by omega⟩
  have hc : b.val &&& kExtendBit = 0 := (byte_and_kExtendBit b).2 hb
  unfold lebLength
  rw [hm, List.take_append, List.take_succ_cons, firstClear_prefix cs _ hall]
  simp [firstClear, hc]

/-- C9: on every input `ReadVarInt<T>` returns, having read at most
`kMaxBytes` bytes (5 for a 32-bit `T`, 10 for a 64-bit one), and the cursor
stands after the bytes read; when it returns a value it has consumed exactly
the bytes up to and including the first byte whose bit 7 is clear, or
exactly `kMaxBytes` bytes when none of the first `kMaxBytes - 1` bytes has bit
7 clear. -/
theorem C9_bounded_read {σ : Type} (E : Errors σ) (T : IntType) (data : SpanU8) (e : σ)
    (desc : String) :
    kMaxBytes T = (if T.kNumBits = 32 then 5 else 10) ∧
    ∃ r k, ReadVarInt E T data e desc = some r ∧ k ≤ kMaxBytes T ∧
      k ≤ data.bytes.length ∧ r.data = SpanU8.mk (data.pos + k) (data.bytes.drop k) ∧
      (r.value.isSome = true → k = lebLength T data.bytes) := by
  refine ⟨by cases T <;> decide, ?_⟩
  obtain ⟨pos, bs⟩ := data
  obtain ⟨cs, rest, hbs, hall, hlen, hcase⟩ := leb_shape T bs
  subst hbs
  rcases hcase with hnil | ⟨b, tl, hrest, hq⟩
  · subst hnil
    rw [List.append_nil]
    exact ⟨_, cs.length, ReadVarInt_truncated E T cs pos e desc hall hlen, by omega,
      le_refl _, by simp, by simp⟩
  · subst hrest
    have hk : cs.length + 1 ≤ (cs ++ b :: tl).length := by simp
    by_cases hlast : cs.length + 1 = kMaxBytes T
    · by_cases hok : lastOk T b
      · exact ⟨_, cs.length + 1, ReadVarInt_last_ok E T cs b tl pos e desc hall hlast hok,
          by omega, hk, by simp only [drop_prefix_cons]; rfl,
          fun _ => (lebLength_last T cs b tl hall hlast).symm⟩
      · exact ⟨_, cs.length + 1, ReadVarInt_last_bad E T cs b tl pos e desc hall hlast hok,
          by omega, hk, by simp only [drop_prefix_cons]; rfl, fun h => by simp at h⟩
    · have hb : cs.length + 1 < kMaxBytes T ∧ b.val < 128 := by
        rcases hq with h | h
        · exact absurd h hlast
        · exact h
      exact ⟨_, cs.length + 1, ReadVarInt_short E T cs b tl pos e desc hall hb.1 hb.2,
        by omega, hk, by simp only [drop_prefix_cons]; rfl,
        fun _ => (lebLength_short T cs b tl hall hb.1 hb.2).symm⟩

theorem ReadVarInt_balanced (T : IntType) (desc : String) :
    Balanced (fun data e => ReadVarInt TestErrors.sink T data e desc) := by
  intro data e
  obtain ⟨pos, bs⟩ := data
  obtain ⟨cs, rest, hbs, hall, hlen, hcase⟩ := leb_shape T bs
  subst hbs
  rcases hcase with hnil | ⟨b, tl, hrest, hq⟩
  · subst hnil
    rw [List.append_nil]
    refine ⟨_, ReadVarInt_truncated TestErrors.sink T cs pos e desc hall hlen, ?_⟩
    rw [pop_onError_push]
  · subst hrest
    by_cases hlast : cs.length + 1 = kMaxBytes T
    · by_cases hok : lastOk T b
      · refine ⟨_, ReadVarInt_last_ok TestErrors.sink T cs b tl pos e desc hall hlast hok, ?_⟩
        rw [pop_push]
      · refine ⟨_, ReadVarInt_last_bad TestErrors.sink T cs b tl pos e desc hall hlast hok, ?_⟩
        rw [pop_onError_push]
    · have hb : cs.length + 1 < kMaxBytes T ∧ b.val < 128 := by
        rcases hq with h | h
        · exact absurd h hlast
        · exact h
      refine ⟨_, ReadVarInt_short TestErrors.sink T cs b tl pos e desc hall hb.1 hb.2, ?_⟩
      rw [pop_push]

theorem ReadCount_balanced : Balanced (ReadCount TestErrors.sink) := by
  intro data e
  obtain ⟨r, hr, hs⟩ := ReadVarInt_balanced IntType.u32 "index" data e
  simp only at hr
  obtain ⟨v, d, e2⟩ := r
  unfold ReadCount
  rw [hr]
  cases v with
  | none => exact ⟨_, rfl, hs⟩
  | some count =>
    simp only
    split_ifs
    · exact ⟨_, rfl, hs⟩
    · exact ⟨_, rfl, hs⟩

theorem ReadVectorLoop_balanced {α : Type}
    (read : SpanU8 → TestErrors → Option (ReadResult TestErrors α)) (hread : Balanced read) :
    ∀ (n : Nat) (result : List α) (data : SpanU8) (e : TestErrors),
      ∃ r, ReadVectorLoop read n result data e = some r ∧
        r.errors.context_stack = e.context_stack := by
  intro n
  induction n with
  | zero => intro result data e; exact ⟨_, rfl, rfl⟩
  | succ k ih =>
    intro result data e
    obtain ⟨r, hr, hs⟩ := hread data e
    obtain ⟨v, d, e2⟩ := r
    cases v with
    | none => exact ⟨ReadResult.mk none d e2, by simp only [ReadVectorLoop, hr], hs⟩
    | some elt =>
      obtain ⟨r2, hr2, hs2⟩ := ih (result ++ [elt]) d e2
      exact ⟨r2, by simp only [ReadVectorLoop, hr, hr2], hs2.trans hs⟩

theorem ReadVector_balanced {α : Type}
    (read : SpanU8 → TestErrors → Option (ReadResult TestErrors α)) (hread : Balanced read)
    (desc : String) :
    Balanced (fun data e => ReadVector TestErrors.sink read data e desc) := by
  intro data e
  have hpop : ∀ x : TestErrors,
      x.context_stack = e.context_stack ++ [ErrorContext.mk data desc] →
      (TestErrors.sink.PopContext x).context_stack = e.context_stack := by
    intro x hx
    simp [TestErrors.sink, TestErrors.PopContext, hx]
  obtain ⟨r, hr, hs⟩ := ReadCount_balanced data (TestErrors.sink.PushContext data desc e)
  have hs1 : r.errors.context_stack = e.context_stack ++ [ErrorContext.mk data desc] := by
    rw [hs]; rfl
  obtain ⟨v, d, e2⟩ := r
  simp only [ReadVector]
  rw [hr]
  cases v with
  | none => exact ⟨_, rfl, hpop e2 hs1⟩
  | some len =>
    obtain ⟨r2, hr2, hs2⟩ := ReadVectorLoop_balanced read hread len [] d e2
    simp only [hr2]
    exact ⟨_, rfl, hpop _ (hs2.trans hs1)⟩

/-- C10: on every input and on every exit path `ReadVarInt` returns with the
context stack of the sink identical to the stack before the call, and so
does `ReadVector` for every element reader that itself returns with the stack
unchanged; in particular a call started with an empty stack ends with an
empty stack. -/
theorem C10_context_stack_balance {α : Type}
    (read : SpanU8 → TestErrors → Option (ReadResult TestErrors α)) (hread : Balanced read)
    (T : IntType) (data : SpanU8) (e : TestErrors) (desc : String) :
    (∃ r, ReadVarInt TestErrors.sink T data e desc = some r ∧
      r.errors.context_stack = e.context_stack ∧
      (e.context_stack = [] → r.errors.context_stack = [])) ∧
    (∃ r, ReadVector TestErrors.sink read data e desc = some r ∧
      r.errors.context_stack = e.context_stack ∧
      (e.context_stack = [] → r.errors.context_stack = [])) := by
  obtain ⟨r1, h1, s1⟩ := ReadVarInt_balanced T desc data e
  obtain ⟨r2, h2, s2⟩ := ReadVector_balanced read hread desc data e
  exact ⟨⟨r1, h1, s1, fun h => s1.trans h⟩, ⟨r2, h2, s2, fun h => s2.trans h⟩⟩

/-- Witness of C10: a vector of `u32` read from `02 05 80`, whose second
element is truncated, ends with the empty stack it started with. -/
theorem C10_context_stack_balance_witness :
    Balanced (ReadU32 TestErrors.sink) ∧
    (∃ r, ReadVarInt TestErrors.sink IntType.s32 (SpanU8.mk 0 [0x02, 0x05, 0x80])
        TestErrors.empty "s32" = some r ∧
      r.errors.context_stack = TestErrors.empty.context_stack ∧
      (TestErrors.empty.context_stack = [] → r.errors.context_stack = [])) ∧
    (∃ r, ReadVector TestErrors.sink (ReadU32 TestErrors.sink) (SpanU8.mk 0 [0x02, 0x05, 0x80])
        TestErrors.empty "test" = some r ∧
      r.errors.context_stack = TestErrors.empty.context_stack ∧
      (TestErrors.empty.context_stack = [] → r.errors.context_stack = [])) :=
  ⟨ReadVarInt_balanced IntType.u32 "u32",
    (C10_context_stack_balance (ReadU32 TestErrors.sink) (ReadVarInt_balanced IntType.u32 "u32")
      IntType.s32 (SpanU8.mk 0 [0x02, 0x05, 0x80]) TestErrors.empty "s32").1,
    (C10_context_stack_balance (ReadU32 TestErrors.sink) (ReadVarInt_balanced IntType.u32 "u32")
      IntType.u32 (SpanU8.mk 0 [0x02, 0x05, 0x80]) TestErrors.empty "test").2⟩

/-! ## Vectors -/

theorem ReadVectorLoop_reads {σ α : Type} (read : SpanU8 → σ → Option (ReadResult σ α)) :
    ∀ (steps : List (α × SpanU8 × σ)) (m : Nat) (acc : List α) (d : SpanU8) (e : σ),
      ReadsInOrder read d e steps →
      ReadVectorLoop read (steps.length + m) acc d e =
        ReadVectorLoop read m (acc ++ steps.map (fun s => s.1)) (stateAfter d e steps).1
          (stateAfter d e steps).2 := by
  intro steps
  induction steps with
  | nil => intro m acc d e _; simp [stateAfter]
  | cons s rest ih =>
    intro m acc d e h
    obtain ⟨v, d2, e2⟩ := s
    obtain ⟨h1, h2⟩ := h
    rw [show ((v, d2, e2) :: rest).length + m = (rest.length + m) + 1 by
      simp only [List.length_cons]; omega]
    simp only [ReadVectorLoop, h1, stateAfter, List.map_cons]
    rw [ih m (acc ++ [v]) d2 e2 h2, List.append_assoc]
    rfl

theorem ReadVector_success {σ α : Type} (E : Errors σ)
    (read : SpanU8 → σ → Option (ReadResult σ α)) (data : SpanU8) (e : σ) (desc : String)
    (n : Nat) (d0 : SpanU8) (e0 : σ) (steps : List (α × SpanU8 × σ))
    (hcount : ReadCount E data (E.PushContext data desc e) =
      some (ReadResult.mk (some n) d0 e0))
    (hlen : steps.length = n) (hreads : ReadsInOrder read d0 e0 steps) :
    ReadVector E read data e desc =
      some (ReadResult.mk (some (steps.map (fun s => s.1))) (stateAfter d0 e0 steps).1
        (E.PopContext (stateAfter d0 e0 steps).2)) := by
  have h := ReadVectorLoop_reads read steps 0 [] d0 e0 hreads
  rw [Nat.add_zero, hlen] at h
  simp only [ReadVector, hcount, h, ReadVectorLoop, List.nil_append]

theorem ReadVector_count_fail {σ α : Type} (E : Errors σ)
    (read : SpanU8 → σ → Option (ReadResult σ α)) (data : SpanU8) (e : σ) (desc : String)
    (d1 : SpanU8) (e1 : σ)
    (hcount : ReadCount E data (E.PushContext data desc e) = some (ReadResult.mk none d1 e1)) :
    ReadVector E read data e desc = some (ReadResult.mk none d1 (E.PopContext e1)) := by
  simp only [ReadVector, hcount]

theorem ReadVector_elt_fail {σ α : Type} (E : Errors σ)
    (read : SpanU8 → σ → Option (ReadResult σ α)) (data : SpanU8) (e : σ) (desc : String)
    (n : Nat) (d0 : SpanU8) (e0 : σ) (steps : List (α × SpanU8 × σ)) (d1 : SpanU8) (e1 : σ)
    (hcount : ReadCount E data (E.PushContext data desc e) =
      some (ReadResult.mk (some n) d0 e0))
    (hlen : steps.length < n) (hreads : ReadsInOrder read d0 e0 steps)
    (hfail : read (stateAfter d0 e0 steps).1 (stateAfter d0 e0 steps).2 =
      some (ReadResult.mk none d1 e1)) :
    ReadVector E read data e desc = some (ReadResult.mk none d1 (E.PopContext e1)) := by
  obtain ⟨m, hm⟩ : ∃ m, n = steps.length + (m + 1) := ⟨n - steps.length - 1, by omega⟩
  have h := ReadVectorLoop_reads read steps (m + 1) [] d0 e0 hreads
  rw [← hm] at h
  simp only [ReadVector, hcount, h, ReadVectorLoop, hfail]

/-- The read loop of a vector either fails at some element, after a run of
successful reads, or returns all the elements. -/
theorem ReadVectorLoop_cases {σ α : Type} (read : SpanU8 → σ → Option (ReadResult σ α)) :
    ∀ (n : Nat) (acc : List α) (d : SpanU8) (e : σ) (r : ReadResult σ (List α)),
      ReadVectorLoop read n acc d e = some r →
      ∃ steps : List (α × SpanU8 × σ), ReadsInOrder read d e steps ∧
        ((steps.length = n ∧ r = ReadResult.mk (some (acc ++ steps.map (fun s => s.1)))
            (stateAfter d e steps).1 (stateAfter d e steps).2) ∨
         (steps.length < n ∧ r.value = none ∧
            read (stateAfter d e steps).1 (stateAfter d e steps).2 =
              some (ReadResult.mk none r.data r.errors))) := by
  intro n
  induction n with
  | zero =>
    intro acc d e r h
    simp only [ReadVectorLoop, Option.some.injEq] at h
    exact ⟨[], trivial, Or.inl ⟨rfl, by simp [stateAfter, ← h]⟩⟩
  | succ k ih =>
    intro acc d e r h
    cases hr : read d e with
    | none => simp [ReadVectorLoop, hr] at h
    | some r1 =>
      obtain ⟨v1, d1, e1⟩ := r1
      cases v1 with
      | none =>
        simp only [ReadVectorLoop, hr, Option.some.injEq] at h
        refine ⟨[], trivial, Or.inr ⟨by simp, by rw [← h], ?_⟩⟩
        simp only [stateAfter, hr, ← h]
      | some v =>
        simp only [ReadVectorLoop, hr] at h
        obtain ⟨steps, hs, hcase⟩ := ih (acc ++ [v]) d1 e1 r h
        refine ⟨(v, d1, e1) :: steps, ⟨hr, hs⟩, ?_⟩
        rcases hcase with ⟨hl, hres⟩ | ⟨hl, hv, hf⟩
        · refine Or.inl ⟨by simp [hl], ?_⟩
          rw [hres]
          simp [stateAfter]
        · exact Or.inr ⟨by simp only [List.length_cons]; omega, hv, hf⟩

/-- C11: if `ReadCount` yields `n` and the next `n` element reads succeed,
one after the other, with the values `v1, ..., vn`, then `ReadVector<T>`
returns exactly `[v1, ..., vn]` in that order and leaves the cursor where
the last element read left it, so that the bytes after it are untouched;
for `n = 0` the result is empty and the cursor is the one the count read
left. The sink is the one the last read left, with the frame of the vector
popped. -/
theorem C11_ReadVector_elements {σ α : Type} (E : Errors σ)
    (read : SpanU8 → σ → Option (ReadResult σ α)) (data : SpanU8) (e : σ) (desc : String)
    (n : Nat) (d0 : SpanU8) (e0 : σ) (steps : List (α × SpanU8 × σ))
    (hcount : ReadCount E data (E.PushContext data desc e) =
      some (ReadResult.mk (some n) d0 e0))
    (hlen : steps.length = n) (hreads : ReadsInOrder read d0 e0 steps) :
    ReadVector E read data e desc =
        some (ReadResult.mk (some (steps.map (fun s => s.1))) (stateAfter d0 e0 steps).1
          (E.PopContext (stateAfter d0 e0 steps).2)) ∧
      (n = 0 → ReadVector E read data e desc =
        some (ReadResult.mk (some []) d0 (E.PopContext e0))) := by
  refine ⟨ReadVector_success E read data e desc n d0 e0 steps hcount hlen hreads, ?_⟩
  intro h0
  have hnil : steps = [] := List.length_eq_zero.1 (hlen.trans h0)
  subst hnil
  exact ReadVector_success E read data e desc n d0 e0 [] hcount hlen hreads

/-- Witness of C11: the input `03 05 80 01 CC CC 0C` read as a vector of `u32`
yields `[5, 128, 206412]` with the cursor at the end of the input. -/
theorem C11_ReadVector_elements_witness :
    ReadCount TestErrors.sink (SpanU8.mk 0 [0x03, 0x05, 0x80, 0x01, 0xcc, 0xcc, 0x0c])
        (TestErrors.sink.PushContext
          (SpanU8.mk 0 [0x03, 0x05, 0x80, 0x01, 0xcc, 0xcc, 0x0c]) "test" TestErrors.empty) =
      some (ReadResult.mk (some 3) (SpanU8.mk 1 [0x05, 0x80, 0x01, 0xcc, 0xcc, 0x0c])
        (TestErrors.mk
          [ErrorContext.mk (SpanU8.mk 0 [0x03, 0x05, 0x80, 0x01, 0xcc, 0xcc, 0x0c]) "test"]
          [])) ∧
    ReadVector TestErrors.sink (ReadU32 TestErrors.sink)
        (SpanU8.mk 0 [0x03, 0x05, 0x80, 0x01, 0xcc, 0xcc, 0x0c]) TestErrors.empty "test" =
      some (ReadResult.mk (some [5, 128, 206412]) (SpanU8.mk 7 []) TestErrors.empty) ∧
    ReadVector TestErrors.sink (ReadU32 TestErrors.sink) (SpanU8.mk 0 [0x00, 0x07, 0x08])
        TestErrors.empty "test" =
      some (ReadResult.mk (some []) (SpanU8.mk 1 [0x07, 0x08]) TestErrors.empty) :=
  ⟨by decide,
    (C11_ReadVector_elements TestErrors.sink (ReadU32 TestErrors.sink)
      (SpanU8.mk 0 [0x03, 0x05, 0x80, 0x01, 0xcc, 0xcc, 0x0c]) TestErrors.empty "test" 3
      (SpanU8.mk 1 [0x05, 0x80, 0x01, 0xcc, 0xcc, 0x0c])
      (TestErrors.mk
        [ErrorContext.mk (SpanU8.mk 0 [0x03, 0x05, 0x80, 0x01, 0xcc, 0xcc, 0x0c]) "test"] [])
      [(5, SpanU8.mk 2 [0x80, 0x01, 0xcc, 0xcc, 0x0c],
          TestErrors.mk
            [ErrorContext.mk (SpanU8.mk 0 [0x03, 0x05, 0x80, 0x01, 0xcc, 0xcc, 0x0c]) "test"]
            []),
        (128, SpanU8.mk 4 [0xcc, 0xcc, 0x0c],
          TestErrors.mk
            [ErrorContext.mk (SpanU8.mk 0 [0x03, 0x05, 0x80, 0x01, 0xcc, 0xcc, 0x0c]) "test"]
            []),
        (206412, SpanU8.mk 7 [],
          TestErrors.mk
            [ErrorContext.mk (SpanU8.mk 0 [0x03, 0x05, 0x80, 0x01, 0xcc, 0xcc, 0x0c]) "test"]
            [])]
      (by decide) rfl ⟨by decide, by decide, by decide, trivial⟩).1.trans (by decide),
    ((C11_ReadVector_elements TestErrors.sink (ReadU32 TestErrors.sink)
      (SpanU8.mk 0 [0x00, 0x07, 0x08]) TestErrors.empty "test" 0 (SpanU8.mk 1 [0x07, 0x08])
      (TestErrors.mk [ErrorContext.mk (SpanU8.mk 0 [0x00, 0x07, 0x08]) "test"] []) []
      (by decide) rfl trivial).2 rfl).trans (by decide)⟩

theorem PopContext_errors (e : TestErrors) :
    TestErrors.sink.PopContext e = TestErrors.mk e.context_stack.dropLast e.errors := rfl

/-- C12: over the recording sink, `ReadVector<T>` returns absent if and only
if the count read fails or, the count being `n`, one of the first `n` element
reads fails after a run of successful ones. It then returns no vector, the
cursor is the one the failing read left, and the errors recorded are exactly
those the failing read left: `ReadVector` adds none and only pops its
frame. -/
theorem C12_ReadVector_failure {α : Type}
    (read : SpanU8 → TestErrors → Option (ReadResult TestErrors α)) (data : SpanU8)
    (e : TestErrors) (desc : String) :
    (∀ (d1 : SpanU8) (e1 : TestErrors),
      ReadCount TestErrors.sink data (TestErrors.sink.PushContext data desc e) =
        some (ReadResult.mk none d1 e1) →
      ReadVector TestErrors.sink read data e desc =
        some (ReadResult.mk none d1 (TestErrors.mk e1.context_stack.dropLast e1.errors))) ∧
    (∀ (n : Nat) (d0 : SpanU8) (e0 : TestErrors) (steps : List (α × SpanU8 × TestErrors))
        (d1 : SpanU8) (e1 : TestErrors),
      ReadCount TestErrors.sink data (TestErrors.sink.PushContext data desc e) =
        some (ReadResult.mk (some n) d0 e0) →
      steps.length < n → ReadsInOrder read d0 e0 steps →
      read (stateAfter d0 e0 steps).1 (stateAfter d0 e0 steps).2 =
        some (ReadResult.mk none d1 e1) →
      ReadVector TestErrors.sink read data e desc =
        some (ReadResult.mk none d1 (TestErrors.mk e1.context_stack.dropLast e1.errors))) ∧
    (∀ r, ReadVector TestErrors.sink read data e desc = some r → r.value = none →
      (∃ (d1 : SpanU8) (e1 : TestErrors),
        ReadCount TestErrors.sink data (TestErrors.sink.PushContext data desc e) =
          some (ReadResult.mk none d1 e1)) ∨
      (∃ (n : Nat) (d0 : SpanU8) (e0 : TestErrors) (steps : List (α × SpanU8 × TestErrors))
          (d1 : SpanU8) (e1 : TestErrors),
        ReadCount TestErrors.sink data (TestErrors.sink.PushContext data desc e) =
          some (ReadResult.mk (some n) d0 e0) ∧
        steps.length < n ∧ ReadsInOrder read d0 e0 steps ∧
        read (stateAfter d0 e0 steps).1 (stateAfter d0 e0 steps).2 =
          some (ReadResult.mk none d1 e1))) := by
  refine ⟨?_, ?_, ?_⟩
  · intro d1 e1 h
    rw [ReadVector_count_fail TestErrors.sink read data e desc d1 e1 h, PopContext_errors]
  · intro n d0 e0 steps d1 e1 hc hl hr hf
    rw [ReadVector_elt_fail TestErrors.sink read data e desc n d0 e0 steps d1 e1 hc hl hr hf,
      PopContext_errors]
  · intro r h hv
    cases hc : ReadCount TestErrors.sink data (TestErrors.sink.PushContext data desc e) with
    | none => simp [ReadVector, hc] at h
    | some c =>
      obtain ⟨cv, cd, ce⟩ := c
      cases cv with
      | none => exact Or.inl ⟨cd, ce, rfl⟩
      | some n =>
        right
        cases hl : ReadVectorLoop read n [] cd ce with
        | none => simp [ReadVector, hc, hl] at h
        | some r2 =>
          obtain ⟨steps, hs, hcase⟩ := ReadVectorLoop_cases read n [] cd ce r2 hl
          simp only [ReadVector, hc, hl, Option.some.injEq] at h
          rcases hcase with ⟨_, hres⟩ | ⟨hlt, _, hf⟩
          · rw [← h, hres] at hv
            simp at hv
          · exact ⟨n, cd, ce, steps, r2.data, r2.errors, rfl, hlt, hs, hf⟩

/-- Witness of C12: on `02 05` the count read fails and on `02 05 80` the
second element read fails; in both cases the vector is absent and the only
error is the one of the failing read. -/
theorem C12_ReadVector_failure_witness :
    ReadVector TestErrors.sink (ReadU32 TestErrors.sink) (SpanU8.mk 0 [0x02, 0x05])
        TestErrors.empty "test" =
      some (ReadResult.mk none (SpanU8.mk 1 [0x05])
        (TestErrors.mk []
          [[ErrorContext.mk (SpanU8.mk 0 [0x02, 0x05]) "test",
            ErrorContext.mk (SpanU8.mk 1 [0x05])
              "Count is longer than the data length: 2 > 1"]])) ∧
    ReadVector TestErrors.sink (ReadU32 TestErrors.sink) (SpanU8.mk 0 [0x02, 0x05, 0x80])
        TestErrors.empty "test" =
      some (ReadResult.mk none (SpanU8.mk 3 [])
        (TestErrors.mk []
          [[ErrorContext.mk (SpanU8.mk 0 [0x02, 0x05, 0x80]) "test",
            ErrorContext.mk (SpanU8.mk 2 [0x80]) "u32",
            ErrorContext.mk (SpanU8.mk 3 []) "Unable to read u8"]])) :=
  ⟨((C12_ReadVector_failure (ReadU32 TestErrors.sink) (SpanU8.mk 0 [0x02, 0x05])
      TestErrors.empty "test").1 (SpanU8.mk 1 [0x05])
      (TestErrors.mk [ErrorContext.mk (SpanU8.mk 0 [0x02, 0x05]) "test"]
        [[ErrorContext.mk (SpanU8.mk 0 [0x02, 0x05]) "test",
          ErrorContext.mk (SpanU8.mk 1 [0x05])
            "Count is longer than the data length: 2 > 1"]])
      (by decide)).trans (by decide),
    ((C12_ReadVector_failure (ReadU32 TestErrors.sink) (SpanU8.mk 0 [0x02, 0x05, 0x80])
      TestErrors.empty "test").2.1 2 (SpanU8.mk 1 [0x05, 0x80])
      (TestErrors.mk [ErrorContext.mk (SpanU8.mk 0 [0x02, 0x05, 0x80]) "test"] [])
      [(5, SpanU8.mk 2 [0x80],
        TestErrors.mk [ErrorContext.mk (SpanU8.mk 0 [0x02, 0x05, 0x80]) "test"] [])]
      (SpanU8.mk 3 [])
      (TestErrors.mk [ErrorContext.mk (SpanU8.mk 0 [0x02, 0x05, 0x80]) "test"]
        [[ErrorContext.mk (SpanU8.mk 0 [0x02, 0x05, 0x80]) "test",
          ErrorContext.mk (SpanU8.mk 2 [0x80]) "u32",
          ErrorContext.mk (SpanU8.mk 3 []) "Unable to read u8"]])
      (by decide) (by decide) ⟨by decide, trivial⟩ (by decide)).trans (by decide)⟩

/-! ## The outcomes of `ReadVarInt` -/

/-- The three outcomes of `ReadVarInt`: the input ends inside the encoding,
the encoding is read, or its final byte breaks the extension rule. -/
theorem ReadVarInt_cases {σ : Type} (E : Errors σ) (T : IntType) (pos : Nat) (bs : List U8)
    (e : σ) (desc : String) :
    (∀ c ∈ bs, 128 ≤ c.val) ∧ bs.length < kMaxBytes T ∧
        ReadVarInt E T (SpanU8.mk pos bs) e desc =
          some (ReadResult.mk none (SpanU8.mk (pos + bs.length) [])
            (E.PopContext (E.OnError (SpanU8.mk (pos + bs.length) []) "Unable to read u8"
              (E.PushContext (SpanU8.mk pos bs) desc e)))) ∨
    (∃ (cs : List U8) (b : U8) (tl : List U8), bs = cs ++ b :: tl ∧
        (∀ c ∈ cs, 128 ≤ c.val) ∧
        (cs.length + 1 = kMaxBytes T ∧ lastOk T b ∨
          cs.length + 1 < kMaxBytes T ∧ b.val < 128) ∧
        ReadVarInt E T (SpanU8.mk pos bs) e desc =
          some (ReadResult.mk (some ((payload cs : Int) + byteVal T b * 2 ^ (7 * cs.length)))
            (SpanU8.mk (pos + cs.length + 1) tl)
            (E.PopContext (E.PushContext (SpanU8.mk pos bs) desc e)))) ∨
    (∃ (cs : List U8) (b : U8) (tl : List U8), bs = cs ++ b :: tl ∧
        (∀ c ∈ cs, 128 ≤ c.val) ∧ cs.length + 1 = kMaxBytes T ∧ ¬ lastOk T b ∧
        ReadVarInt E T (SpanU8.mk pos bs) e desc =
          some (ReadResult.mk none (SpanU8.mk (pos + cs.length + 1) tl)
            (E.PopContext (E.OnError (SpanU8.mk (pos + cs.length + 1) tl)
              (lastByteMessage T desc b.val)
              (E.PushContext (SpanU8.mk pos bs) desc e))))) := by
  obtain ⟨cs, rest, hbs, hall, hlen, hcase⟩ := leb_shape T bs
  subst hbs
  rcases hcase with hnil | ⟨b, tl, hrest, hq⟩
  · subst hnil
    rw [List.append_nil]
    exact Or.inl ⟨hall, hlen, ReadVarInt_truncated E T cs pos e desc hall hlen⟩
  · subst hrest
    by_cases hlast : cs.length + 1 = kMaxBytes T
    · by_cases hok : lastOk T b
      · exact Or.inr (Or.inl ⟨cs, b, tl, rfl, hall, Or.inl ⟨hlast, hok⟩,
          ReadVarInt_last_ok E T cs b tl pos e desc hall hlast hok⟩)
      · exact Or.inr (Or.inr ⟨cs, b, tl, rfl, hall, hlast, hok,
          ReadVarInt_last_bad E T cs b tl pos e desc hall hlast hok⟩)
    · have hb : cs.length + 1 < kMaxBytes T ∧ b.val < 128 := by
        rcases hq with h | h
        · exact absurd h hlast
        · exact h
      exact Or.inr (Or.inl ⟨cs, b, tl, rfl, hall, Or.inr hb,
        ReadVarInt_short E T cs b tl pos e desc hall hb.1 hb.2⟩)

/-- A successful read of a `u32` returns a number from 0 to `2^32 - 1`. -/
theorem ReadVarInt_u32_range {σ : Type} (E : Errors σ) (data : SpanU8) (e : σ)
    (desc : String) (v : Int) (d : SpanU8) (e1 : σ)
    (h : ReadVarInt E IntType.u32 data e desc = some (ReadResult.mk (some v) d e1)) :
    0 ≤ v := by
  obtain ⟨pos, bs⟩ := data
  rcases ReadVarInt_cases E IntType.u32 pos bs e desc with ⟨_, _, h1⟩ |
    ⟨cs, b, tl, _, _, _, h1⟩ | ⟨cs, b, tl, _, _, _, _, h1⟩
  · rw [h1] at h; simp at h
  · rw [h1] at h
    simp only [Option.some.injEq, ReadResult.mk.injEq] at h
    rw [← h.1]
    simp only [byteVal, IntType.is_signed, Bool.false_eq_true, false_and, if_false]
    positivity
  · rw [h1] at h; simp at h

/-- A successful read depends only on the bytes it consumes: the bytes of
an encoding read in full are read to the same value whatever follows them,
at any offset and with any sink. -/
theorem ReadVarInt_extend {σ τ : Type} (E : Errors σ) (E2 : Errors τ) (T : IntType)
    (bs : List U8) (pos0 : Nat) (e0 : σ) (desc0 : String) (v : Int) (d : SpanU8) (e1 : σ)
    (h : ReadVarInt E T (SpanU8.mk pos0 bs) e0 desc0 = some (ReadResult.mk (some v) d e1))
    (hd : d.bytes = []) (pos : Nat) (rest : List U8) (e : τ) (desc : String) :
    ReadVarInt E2 T (SpanU8.mk pos (bs ++ rest)) e desc =
      some (ReadResult.mk (some v) (SpanU8.mk (pos + bs.length) rest)
        (E2.PopContext (E2.PushContext (SpanU8.mk pos (bs ++ rest)) desc e))) := by
  rcases ReadVarInt_cases E T pos0 bs e0 desc0 with ⟨_, _, h1⟩ |
    ⟨cs, b, tl, hbs, hall, hq, h1⟩ | ⟨cs, b, tl, _, _, _, _, h1⟩
  · rw [h1] at h; simp at h
  · rw [h1] at h
    simp only [Option.some.injEq, ReadResult.mk.injEq] at h
    obtain ⟨hv, hdd, _⟩ := h
    have htl : tl = [] := by rw [← hdd] at hd; exact hd
    subst htl
    subst hbs
    rw [List.append_assoc, List.singleton_append, List.length_append, List.length_singleton,
      ← Nat.add_assoc, ← hv]
    rcases hq with ⟨hl, hok⟩ | ⟨hl, hb⟩
    · have := ReadVarInt_last_ok E2 T cs b rest pos e desc hall hl hok
      simpa using this
    · have := ReadVarInt_short E2 T cs b rest pos e desc hall hl hb
      simpa using this
  · rw [h1] at h; simp at h

/-! ## Counts -/

theorem ReadCount_of_read {σ : Type} (E : Errors σ) (data : SpanU8) (e : σ) (v : Int)
    (d : SpanU8) (e1 : σ)
    (h : ReadVarInt E IntType.u32 data e "index" = some (ReadResult.mk (some v) d e1)) :
    ReadCount E data e =
      if d.bytes.length < v.toNat then
        some (ReadResult.mk none d (E.OnError d
          ("Count is longer than the data length: " ++ toString v.toNat ++ " > " ++
            toString d.bytes.length) e1))
      else some (ReadResult.mk (some v.toNat) d e1) := by
  simp only [ReadCount, h, SpanU8.size, gt_iff_lt]

theorem ReadCount_of_fail {σ : Type} (E : Errors σ) (data : SpanU8) (e : σ)
    (d : SpanU8) (e1 : σ)
    (h : ReadVarInt E IntType.u32 data e "index" = some (ReadResult.mk none d e1)) :
    ReadCount E data e = some (ReadResult.mk none d e1) := by
  simp only [ReadCount, h]

/-- The read `ReadVarInt` always returns. -/
theorem ReadVarInt_returns {σ : Type} (E : Errors σ) (T : IntType) (data : SpanU8) (e : σ)
    (desc : String) : ∃ r, ReadVarInt E T data e desc = some r := by
  obtain ⟨pos, bs⟩ := data
  rcases ReadVarInt_cases E T pos bs e desc with ⟨_, _, h1⟩ |
    ⟨cs, b, tl, _, _, _, h1⟩ | ⟨cs, b, tl, _, _, _, _, h1⟩
  · exact ⟨_, h1⟩
  · exact ⟨_, h1⟩
  · exact ⟨_, h1⟩

/-- C13: `ReadCount` returns `n` if and only if the leading LEB128 `u32`
decodes to `n` and `n` is at most the number of bytes that remain after it;
when the `u32` decodes to an `n` that exceeds the number `m` of bytes that
remain, `ReadCount` returns absent and reports "Count is longer than the data
length: n > m" at the cursor the LEB128 read left, just after the count
encoding; when the `u32` does not decode, `ReadCount` returns absent and
reports nothing more. -/
theorem C13_ReadCount {σ : Type} (E : Errors σ) (data : SpanU8) (e : σ) :
    (∀ (n : Nat) (d : SpanU8) (e1 : σ),
      ReadCount E data e = some (ReadResult.mk (some n) d e1) ↔
        (ReadVarInt E IntType.u32 data e "index" =
            some (ReadResult.mk (some (n : Int)) d e1) ∧
          n ≤ d.bytes.length)) ∧
    (∀ (n : Nat) (d : SpanU8) (e1 : σ),
      ReadVarInt E IntType.u32 data e "index" = some (ReadResult.mk (some (n : Int)) d e1) →
      d.bytes.length < n →
      ReadCount E data e =
        some (ReadResult.mk none d (E.OnError d
          ("Count is longer than the data length: " ++ toString n ++ " > " ++
            toString d.bytes.length) e1))) ∧
    (∀ (d : SpanU8) (e1 : σ),
      ReadVarInt E IntType.u32 data e "index" = some (ReadResult.mk none d e1) →
      ReadCount E data e = some (ReadResult.mk none d e1)) := by
  refine ⟨?_, ?_, ?_⟩
  · intro n d e1
    constructor
    · intro h
      obtain ⟨r, hr⟩ := ReadVarInt_returns E IntType.u32 data e "index"
      obtain ⟨rv, rd, re⟩ := r
      cases rv with
      | none =>
        rw [ReadCount_of_fail E data e rd re hr] at h
        simp at h
      | some v =>
        have hv := ReadVarInt_u32_range E data e "index" v rd re hr
        rw [ReadCount_of_read E data e v rd re hr] at h
        by_cases hc : rd.bytes.length < v.toNat
        · rw [if_pos hc] at h; simp at h
        · rw [if_neg hc] at h
          simp only [Option.some.injEq, ReadResult.mk.injEq] at h
          obtain ⟨h1, h2, h3⟩ := h
          subst h2 h3
          have : v = (n : Int) := by omega
          subst this
          exact ⟨hr, by omega⟩
    · rintro ⟨hr, hle⟩
      rw [ReadCount_of_read E data e (n : Int) d e1 hr, if_neg (by simp; omega)]
      simp
  · intro n d e1 hr hlt
    rw [ReadCount_of_read E data e (n : Int) d e1 hr, if_pos (by simp; omega)]
    simp
  · intro d e1 hr
    exact ReadCount_of_fail E data e d e1 hr

/-- Witness of C13: on `05 00 00 00` the count 5 exceeds the 3 bytes that
remain and the error is at offset 1; on `01 00 00 00` the count 1 is
returned with 3 bytes left. -/
theorem C13_ReadCount_witness :
    ReadCount TestErrors.sink (SpanU8.mk 0 [0x05, 0x00, 0x00, 0x00]) TestErrors.empty =
      some (ReadResult.mk none (SpanU8.mk 1 [0x00, 0x00, 0x00])
        (TestErrors.mk []
          [[ErrorContext.mk (SpanU8.mk 1 [0x00, 0x00, 0x00])
            "Count is longer than the data length: 5 > 3"]])) ∧
    ReadCount TestErrors.sink (SpanU8.mk 0 [0x01, 0x00, 0x00, 0x00]) TestErrors.empty =
      some (ReadResult.mk (some 1) (SpanU8.mk 1 [0x00, 0x00, 0x00]) TestErrors.empty) :=
  ⟨((C13_ReadCount TestErrors.sink (SpanU8.mk 0 [0x05, 0x00, 0x00, 0x00])
      TestErrors.empty).2.1 5 (SpanU8.mk 1 [0x00, 0x00, 0x00]) TestErrors.empty
      (by decide) (by decide)).trans (by decide),
    ((C13_ReadCount TestErrors.sink (SpanU8.mk 0 [0x01, 0x00, 0x00, 0x00])
      TestErrors.empty).1 1 (SpanU8.mk 1 [0x00, 0x00, 0x00]) TestErrors.empty).2
      ⟨by decide, by decide⟩⟩

/-! ## The cursor is never moved back -/

theorem Advances_trans (a b c : SpanU8) (k1 k2 : Nat) (h1 : Advances a b k1)
    (h2 : Advances b c k2) : Advances a c (k1 + k2) := by
  obtain ⟨hk1, hb⟩ := h1
  obtain ⟨hk2, hc⟩ := h2
  subst hb
  simp only [List.length_drop] at hk2
  refine ⟨by omega, ?_⟩
  rw [hc]
  simp only [List.drop_drop, SpanU8.mk.injEq]
  exact ⟨by omega, trivial⟩

theorem ReadVarInt_advances {σ : Type} (E : Errors σ) (T : IntType) (data : SpanU8) (e : σ)
    (desc : String) :
    ∃ r k, ReadVarInt E T data e desc = some r ∧ Advances data r.data k ∧
      (data.bytes ≠ [] → 1 ≤ k) := by
  obtain ⟨pos, bs⟩ := data
  rcases ReadVarInt_cases E T pos bs e desc with ⟨_, _, h1⟩ |
    ⟨cs, b, tl, hbs, _, _, h1⟩ | ⟨cs, b, tl, hbs, _, _, _, h1⟩
  · refine ⟨_, bs.length, h1, ⟨le_refl _, by simp⟩, ?_⟩
    intro hne
    cases bs with
    | nil => exact absurd rfl hne
    | cons _ _ => simp
  · subst hbs
    exact ⟨_, cs.length + 1, h1, ⟨by simp, by simp only [drop_prefix_cons]; rfl⟩,
      fun _ => by omega⟩
  · subst hbs
    exact ⟨_, cs.length + 1, h1, ⟨by simp, by simp only [drop_prefix_cons]; rfl⟩,
      fun _ => by omega⟩

theorem ReadCount_same_cursor {σ : Type} (E : Errors σ) (data : SpanU8) (e : σ) :
    ∃ c r, ReadVarInt E IntType.u32 data e "index" = some c ∧ ReadCount E data e = some r ∧
      r.data = c.data := by
  obtain ⟨c, hc⟩ := ReadVarInt_returns E IntType.u32 data e "index"
  obtain ⟨cv, cd, ce⟩ := c
  cases cv with
  | none => exact ⟨_, _, hc, ReadCount_of_fail E data e cd ce hc, rfl⟩
  | some v =>
    have h := ReadCount_of_read E data e v cd ce hc
    by_cases hq : cd.bytes.length < v.toNat
    · rw [if_pos hq] at h
      exact ⟨_, _, hc, h, rfl⟩
    · rw [if_neg hq] at h
      exact ⟨_, _, hc, h, rfl⟩

theorem ReadCount_advances {σ : Type} (E : Errors σ) (data : SpanU8) (e : σ) :
    ∃ r k, ReadCount E data e = some r ∧ Advances data r.data k ∧
      (data.bytes ≠ [] → 1 ≤ k) := by
  obtain ⟨c, r, hc, hr, hd⟩ := ReadCount_same_cursor E data e
  obtain ⟨c2, k, hc2, hadv, hk⟩ := ReadVarInt_advances E IntType.u32 data e "index"
  rw [hc] at hc2
  simp only [Option.some.injEq] at hc2
  subst hc2
  exact ⟨r, k, hr, by rw [hd]; exact hadv, hk⟩

theorem ReadVectorLoop_advances {σ : Type} (E : Errors σ) :
    ∀ (n : Nat) (acc : List Int) (d : SpanU8) (e : σ),
      ∃ r k, ReadVectorLoop (ReadU32 E) n acc d e = some r ∧ Advances d r.data k := by
  intro n
  induction n with
  | zero =>
    intro acc d e
    exact ⟨_, 0, rfl, ⟨by omega, by simp⟩⟩
  | succ m ih =>
    intro acc d e
    obtain ⟨r1, k1, h1, hadv1, _⟩ := ReadVarInt_advances E IntType.u32 d e "u32"
    obtain ⟨v1, d1, e1⟩ := r1
    cases v1 with
    | none =>
      exact ⟨ReadResult.mk none d1 e1, k1, by simp only [ReadVectorLoop, ReadU32, h1], hadv1⟩
    | some v =>
      obtain ⟨r2, k2, h2, hadv2⟩ := ih (acc ++ [v]) d1 e1
      exact ⟨r2, k1 + k2, by simp only [ReadVectorLoop, ReadU32, h1, h2],
        Advances_trans d d1 r2.data k1 k2 hadv1 hadv2⟩

theorem ReadVector_advances {σ : Type} (E : Errors σ) (data : SpanU8) (e : σ)
    (desc : String) :
    ∃ c r k j, ReadCount E data (E.PushContext data desc e) = some c ∧
      ReadVector E (ReadU32 E) data e desc = some r ∧
      Advances data c.data k ∧ Advances c.data r.data j ∧ (data.bytes ≠ [] → 1 ≤ k) := by
  obtain ⟨c, k, hc, hadv, hk⟩ := ReadCount_advances E data (E.PushContext data desc e)
  obtain ⟨cv, cd, ce⟩ := c
  cases cv with
  | none =>
    exact ⟨_, _, k, 0, hc, ReadVector_count_fail E (ReadU32 E) data e desc cd ce hc, hadv,
      ⟨by omega, by simp⟩, hk⟩
  | some n =>
    obtain ⟨r2, j, h2, hadv2⟩ := ReadVectorLoop_advances E n [] cd ce
    exact ⟨_, ReadResult.mk r2.value r2.data (E.PopContext r2.errors), k, j, hc,
      by simp only [ReadVector, hc, h2], hadv, hadv2, hk⟩

/-- C14: `ReadCount` and `ReadVector<u32>` never move the cursor back,
whether they fail or not. `ReadCount` leaves the cursor where its LEB128 read
left it; `ReadVector<u32>` leaves it at or after the cursor `ReadCount` left,
which is itself at least one byte after the cursor of entry unless the input
is empty. After `ReadCount` fails on `05 00 00 00` three bytes remain; after
`ReadVector<u32>` fails on `02 05` one byte remains, and on `02 05 80` none. -/
theorem C14_no_rewind {σ : Type} (E : Errors σ) (data : SpanU8) (e : σ) (desc : String) :
    (∃ c r, ReadVarInt E IntType.u32 data e "index" = some c ∧ ReadCount E data e = some r ∧
      r.data = c.data) ∧
    (∃ r k, ReadCount E data e = some r ∧ Advances data r.data k ∧
      (data.bytes ≠ [] → 1 ≤ k)) ∧
    (∃ c r k j, ReadCount E data (E.PushContext data desc e) = some c ∧
      ReadVector E (ReadU32 E) data e desc = some r ∧
      Advances data c.data k ∧ Advances c.data r.data j ∧ Advances data r.data (k + j) ∧
      (data.bytes ≠ [] → 1 ≤ k)) ∧
    (ReadCount TestErrors.sink (SpanU8.mk 0 [0x05, 0x00, 0x00, 0x00]) TestErrors.empty).map
        (fun r => (r.value, r.data)) = some (none, SpanU8.mk 1 [0x00, 0x00, 0x00]) ∧
    (ReadVector TestErrors.sink (ReadU32 TestErrors.sink) (SpanU8.mk 0 [0x02, 0x05])
        TestErrors.empty "test").map (fun r => (r.value, r.data)) =
      some (none, SpanU8.mk 1 [0x05]) ∧
    (ReadVector TestErrors.sink (ReadU32 TestErrors.sink) (SpanU8.mk 0 [0x02, 0x05, 0x80])
        TestErrors.empty "test").map (fun r => (r.value, r.data)) =
      some (none, SpanU8.mk 3 []) := by
  refine ⟨ReadCount_same_cursor E data e, ReadCount_advances E data e, ?_, by decide,
    by decide, by decide⟩
  obtain ⟨c, r, k, j, hc, hr, h1, h2, hk⟩ := ReadVector_advances E data e desc
  exact ⟨c, r, k, j, hc, hr, h1, h2, Advances_trans data c.data r.data k j h1 h2, hk⟩

/-! ## Encoding tables -/

theorem find_val_of_mem {N F : Type} (table : List (Row N F))
    (hnd : (table.map (fun row => row.val)).Nodup) (row : Row N F) (hmem : row ∈ table) :
    table.find? (fun r => decide (r.val = row.val)) = some row := by
  induction table with
  | nil => simp at hmem
  | cons r rest ih =>
    simp only [List.map_cons, List.nodup_cons] at hnd
    rcases List.mem_cons.1 hmem with h | h
    · subst h
      simp [List.find?]
    · have hne : ¬ r.val = row.val := by
        intro heq
        apply hnd.1
        rw [heq]
        exact List.mem_map_of_mem _ h
      simp only [List.find?, hne, decide_False]
      exact ih hnd.2 h

theorem find_Name_of_mem {N F : Type} [DecidableEq N] (table : List (Row N F))
    (hnd : (table.map (fun row => row.Name)).Nodup) (row : Row N F) (hmem : row ∈ table) :
    table.find? (fun r => decide (r.Name = row.Name)) = some row := by
  induction table with
  | nil => simp at hmem
  | cons r rest ih =>
    simp only [List.map_cons, List.nodup_cons] at hnd
    rcases List.mem_cons.1 hmem with h | h
    · subst h
      simp [List.find?]
    · have hne : ¬ r.Name = row.Name := by
        intro heq
        apply hnd.1
        rw [heq]
        exact List.mem_map_of_mem _ h
      simp only [List.find?, hne, decide_False]
      exact ih hnd.2 h

theorem Encode_of_mem {N F : Type} [DecidableEq N] (table : List (Row N F))
    (hwf : TableWellFormed table) (row : Row N F) (hmem : row ∈ table) :
    encoding.BlockType.Encode table row.Name = some row.val := by
  simp only [encoding.BlockType.Encode, find_Name_of_mem table hwf.2 row hmem]

theorem Decode_of_mem {N F : Type} (table : List (Row N F))
    (hwf : TableWellFormed table) (row : Row N F) (hmem : row ∈ table) (f : Features F) :
    encoding.BlockType.Decode table row.val f =
      match row.feature with
      | none => some row.Name
      | some feature => if f feature then some row.Name else none := by
  simp only [encoding.BlockType.Decode, find_val_of_mem table hwf.1 row hmem]

theorem Decode_none_of_not_mem {N F : Type} (table : List (Row N F)) (b : U8)
    (h : ∀ row ∈ table, row.val ≠ b) (f : Features F) :
    encoding.BlockType.Decode table b f = none := by
  have : table.find? (fun row => decide (row.val = b)) = none := by
    rw [List.find?_eq_none]
    intro row hrow
    simpa using h row hrow
  simp only [encoding.BlockType.Decode, this]

theorem Decode_some_iff {N F : Type} (table : List (Row N F)) (hwf : TableWellFormed table)
    (b : U8) (f : Features F) (e : N) :
    encoding.BlockType.Decode table b f = some e ↔
      ∃ row ∈ table, row.val = b ∧ row.Name = e ∧ RowEnabled f row := by
  constructor
  · intro h
    cases hfind : table.find? (fun row => decide (row.val = b)) with
    | none => simp [encoding.BlockType.Decode, hfind] at h
    | some row =>
      have hmem := List.mem_of_find?_eq_some hfind
      have hval : row.val = b := by simpa using List.find?_some hfind
      simp only [encoding.BlockType.Decode, hfind] at h
      cases hfeat : row.feature with
      | none =>
        simp only [hfeat, Option.some.injEq] at h
        exact ⟨row, hmem, hval, h, Or.inl hfeat⟩
      | some feature =>
        simp only [hfeat] at h
        by_cases hen : f feature = true
        · rw [if_pos hen, Option.some.injEq] at h
          exact ⟨row, hmem, hval, h, Or.inr ⟨feature, hfeat, hen⟩⟩
        · rw [if_neg hen] at h
          simp at h
  · rintro ⟨row, hmem, hval, hname, hen⟩
    rw [← hval, Decode_of_mem table hwf row hmem f, ← hname]
    rcases hen with hnone | ⟨feature, hfeat, hon⟩
    · simp only [hnone]
    · simp only [hfeat, hon, if_true]

theorem block_type_def_wf : TableWellFormed block_type_def := by
  unfold TableWellFormed block_type_def
  constructor <;> decide

theorem block_type_def_complete (e : BlockType) : ∃ row ∈ block_type_def, row.Name = e := by
  cases e <;> simp [block_type_def]

/-- C15: for a table `block_type.def` that the compiler accepts and that has
a row for every enumerator, `BlockType::Encode` is defined for every
enumerator, the default branch never being taken, and for every enumerator
whose row is unconditional or whose feature is enabled in the feature set `f`,
`Decode(Encode(e), f) = e`. With the rows the tests and the specification
give, and every feature set, `I32 = 0x7F`, `I64 = 0x7E`, `F32 = 0x7D`,
`F64 = 0x7C` and `Void = 0x40`. -/
theorem C15_BlockType_roundtrip {N F : Type} [DecidableEq N] (table : List (Row N F))
    (hwf : TableWellFormed table) (hall : ∀ e : N, ∃ row ∈ table, row.Name = e)
    (f : Features F) :
    (∀ e : N, ∃ b, encoding.BlockType.Encode table e = some b) ∧
    (∀ row ∈ table, RowEnabled f row →
      ∃ b, encoding.BlockType.Encode table row.Name = some b ∧
        encoding.BlockType.Decode table b f = some row.Name) ∧
    (∀ g : Features Feature,
      encoding.BlockType.Encode block_type_def BlockType.I32 = some 0x7F ∧
      encoding.BlockType.Decode block_type_def 0x7F g = some BlockType.I32 ∧
      encoding.BlockType.Encode block_type_def BlockType.I64 = some 0x7E ∧
      encoding.BlockType.Decode block_type_def 0x7E g = some BlockType.I64 ∧
      encoding.BlockType.Encode block_type_def BlockType.F32 = some 0x7D ∧
      encoding.BlockType.Decode block_type_def 0x7D g = some BlockType.F32 ∧
      encoding.BlockType.Encode block_type_def BlockType.F64 = some 0x7C ∧
      encoding.BlockType.Decode block_type_def 0x7C g = some BlockType.F64 ∧
      encoding.BlockType.Encode block_type_def BlockType.Void = some 0x40 ∧
      encoding.BlockType.Decode block_type_def 0x40 g = some BlockType.Void) := by
  refine ⟨?_, ?_, ?_⟩
  · intro e
    obtain ⟨row, hmem, hname⟩ := hall e
    exact ⟨row.val, by rw [← hname]; exact Encode_of_mem table hwf row hmem⟩
  · intro row hmem hen
    exact ⟨row.val, Encode_of_mem table hwf row hmem,
      (Decode_some_iff table hwf row.val f row.Name).2 ⟨row, hmem, rfl, rfl, hen⟩⟩
  · intro g
    exact ⟨rfl, rfl, rfl, rfl, rfl, rfl, rfl, rfl, rfl, rfl⟩

/-- Witness of C15: the table of the block types, with the feature set in
which only `simd` is enabled, where `V128` round-trips through `0x7B`. -/
theorem C15_BlockType_roundtrip_witness :
    TableWellFormed block_type_def ∧
    (∀ e : BlockType, ∃ row ∈ block_type_def, row.Name = e) ∧
    (∀ e : BlockType, ∃ b, encoding.BlockType.Encode block_type_def e = some b) ∧
    (∃ b, encoding.BlockType.Encode block_type_def BlockType.V128 = some b ∧
      encoding.BlockType.Decode block_type_def b (fun x => decide (x = Feature.simd)) =
        some BlockType.V128) :=
  ⟨block_type_def_wf, block_type_def_complete,
    (C15_BlockType_roundtrip block_type_def block_type_def_wf block_type_def_complete
      (fun x => decide (x = Feature.simd))).1,
    (C15_BlockType_roundtrip block_type_def block_type_def_wf block_type_def_complete
      (fun x => decide (x = Feature.simd))).2.1
      (Row.mk 0x7b BlockType.V128 "v128" (some Feature.simd)) (by simp [block_type_def])
      (Or.inr ⟨Feature.simd, rfl, by decide⟩)⟩

/-- C16: for a table `block_type.def` that the compiler accepts,
`BlockType::Decode(b, f)` returns the enumerator `e` exactly when the table
has a row with the wire value `b` and the enumerator `e` that is
unconditional or whose feature is enabled in `f`, and then `Encode(e) = b`;
it returns `nullopt` for a byte that is the wire value of no row and for the
wire value of a row whose feature is disabled. With the rows the tests and
the specification give, `0x00` and `0xFF` are `nullopt` under every feature
set. -/
theorem C16_BlockType_Decode {N F : Type} [DecidableEq N] (table : List (Row N F))
    (hwf : TableWellFormed table) (b : U8) (f : Features F) :
    (∀ e : N, encoding.BlockType.Decode table b f = some e ↔
      ∃ row ∈ table, row.val = b ∧ row.Name = e ∧ RowEnabled f row) ∧
    (∀ e : N, encoding.BlockType.Decode table b f = some e →
      encoding.BlockType.Encode table e = some b) ∧
    ((∀ row ∈ table, row.val ≠ b) → encoding.BlockType.Decode table b f = none) ∧
    (∀ row ∈ table, row.val = b →
      (∃ feature, row.feature = some feature ∧ f feature = false) →
      encoding.BlockType.Decode table b f = none) ∧
    (∀ g : Features Feature,
      encoding.BlockType.Decode block_type_def 0x00 g = none ∧
      encoding.BlockType.Decode block_type_def 0xFF g = none) := by
  refine ⟨Decode_some_iff table hwf b f, ?_,
    fun h => Decode_none_of_not_mem table b h f, ?_, ?_⟩
  · intro e h
    obtain ⟨row, hmem, hval, hname, _⟩ := (Decode_some_iff table hwf b f e).1 h
    rw [← hval, ← hname]
    exact Encode_of_mem table hwf row hmem
  · rintro row hmem hval ⟨feature, hfeat, hoff⟩
    rw [← hval, Decode_of_mem table hwf row hmem f]
    simp only [hfeat, hoff, Bool.false_eq_true, if_false]
  · intro g
    exact ⟨rfl, rfl⟩

/-- Witness of C16: in the table of the block types `0x7B` decodes to `V128`
when `simd` is enabled and to nothing when no feature is. -/
theorem C16_BlockType_Decode_witness :
    TableWellFormed block_type_def ∧
    encoding.BlockType.Decode block_type_def 0x7b (fun x => decide (x = Feature.simd)) =
      some BlockType.V128 ∧
    encoding.BlockType.Decode block_type_def 0x7b (fun _ => false) = none :=
  ⟨block_type_def_wf,
    ((C16_BlockType_Decode block_type_def block_type_def_wf 0x7b
      (fun x => decide (x = Feature.simd))).1 BlockType.V128).2
      ⟨Row.mk 0x7b BlockType.V128 "v128" (some Feature.simd), by simp [block_type_def], rfl,
        rfl, Or.inr ⟨Feature.simd, rfl, by decide⟩⟩,
    (C16_BlockType_Decode block_type_def block_type_def_wf 0x7b (fun _ => false)).2.2.2.1
      (Row.mk 0x7b BlockType.V128 "v128" (some Feature.simd)) (by simp [block_type_def]) rfl
      ⟨Feature.simd, rfl, rfl⟩⟩

/-! ## One-byte enumerators and section ids -/

theorem ReadEnum_unknown {N : Type} (kind : String) (decode : U8 → Option N) (b : U8)
    (rest : List U8) (pos : Nat) (e : TestErrors) (h : decode b = none) :
    ReadEnum TestErrors.sink kind decode (SpanU8.mk pos (b :: rest)) e =
      ReadResult.mk none (SpanU8.mk (pos + 1) rest)
        (TestErrors.mk e.context_stack
          (e.errors ++ [e.context_stack ++
            [ErrorContext.mk (SpanU8.mk pos (b :: rest)) kind,
              ErrorContext.mk (SpanU8.mk (pos + 1) rest)
                ("Unknown " ++ kind ++ ": " ++ toString b.val)]])) := by
  simp only [ReadEnum, ReadU8, h, pop_onError_push]

/-- C17: the reader of a one-byte enumerator never interprets a LEB128
continuation. For every input whose first byte `b` the decoder of the
enumerator does not decode, and so for every `b` that is the wire value of no
row of its table, the reader called at offset 0 with an empty sink returns
absent and reports exactly one error, "Unknown kind: b" at offset 1 under the
frame `(0, kind)`, whatever bytes follow; exactly one byte is consumed and the
bytes that follow remain in the cursor. The same holds of `Read<BlockType>`,
whose kind is "block type". -/
theorem C17_one_byte_enumerator {N F : Type} (kind : String) (decode : U8 → Option N)
    (table : List (Row N F)) (features : Features F) (b : U8) (rest : List U8) :
    (decode b = none →
      ReadEnum TestErrors.sink kind decode (SpanU8.mk 0 (b :: rest)) TestErrors.empty =
        ReadResult.mk none (SpanU8.mk 1 rest)
          (TestErrors.mk []
            [[ErrorContext.mk (SpanU8.mk 0 (b :: rest)) kind,
              ErrorContext.mk (SpanU8.mk 1 rest)
                ("Unknown " ++ kind ++ ": " ++ toString b.val)]])) ∧
    ((∀ row ∈ table, row.val ≠ b) →
      ReadEnum TestErrors.sink kind (fun val => encoding.BlockType.Decode table val features)
          (SpanU8.mk 0 (b :: rest)) TestErrors.empty =
        ReadResult.mk none (SpanU8.mk 1 rest)
          (TestErrors.mk []
            [[ErrorContext.mk (SpanU8.mk 0 (b :: rest)) kind,
              ErrorContext.mk (SpanU8.mk 1 rest)
                ("Unknown " ++ kind ++ ": " ++ toString b.val)]])) ∧
    ((∀ row ∈ table, row.val ≠ b) →
      ReadBlockType TestErrors.sink table features (SpanU8.mk 0 (b :: rest))
          TestErrors.empty =
        ReadResult.mk none (SpanU8.mk 1 rest)
          (TestErrors.mk []
            [[ErrorContext.mk (SpanU8.mk 0 (b :: rest)) "block type",
              ErrorContext.mk (SpanU8.mk 1 rest)
                ("Unknown block type: " ++ toString b.val)]])) := by
  refine ⟨?_, ?_, ?_⟩
  · intro h
    rw [ReadEnum_unknown kind decode b rest 0 TestErrors.empty h]
    rfl
  · intro h
    rw [ReadEnum_unknown kind _ b rest 0 TestErrors.empty
      (Decode_none_of_not_mem table b h features)]
    rfl
  · intro h
    unfold ReadBlockType
    rw [ReadEnum_unknown "block type" _ b rest 0 TestErrors.empty
      (Decode_none_of_not_mem table b h features)]
    rfl

/-- Witness of C17: the input `FF 7F` read as a block type gives "Unknown
block type: 255" at offset 1 and leaves `7F` in the cursor. -/
theorem C17_one_byte_enumerator_witness :
    (∀ row ∈ block_type_def, row.val ≠ 0xff) ∧
    ReadBlockType TestErrors.sink block_type_def (fun _ => false) (SpanU8.mk 0 [0xff, 0x7f])
        TestErrors.empty =
      ReadResult.mk none (SpanU8.mk 1 [0x7f])
        (TestErrors.mk []
          [[ErrorContext.mk (SpanU8.mk 0 [0xff, 0x7f]) "block type",
            ErrorContext.mk (SpanU8.mk 1 [0x7f]) "Unknown block type: 255"]]) :=
  ⟨by simp [block_type_def],
    ((C17_one_byte_enumerator "block type"
      (fun val => encoding.BlockType.Decode block_type_def val (fun _ => false))
      block_type_def (fun _ => false) 0xff [0x7f]).2.2 (by simp [block_type_def])).trans
      (by decide)⟩

theorem AcceptsInFull_read (T : IntType) (bs : List U8) (v : Int)
    (h : AcceptsInFull T bs v) :
    ∃ (d : SpanU8) (e1 : TestErrors), d.bytes = [] ∧
      ReadVarInt TestErrors.sink T (SpanU8.mk 0 bs) TestErrors.empty "" =
        some (ReadResult.mk (some v) d e1) := by
  unfold AcceptsInFull at h
  cases hr : ReadVarInt TestErrors.sink T (SpanU8.mk 0 bs) TestErrors.empty "" with
  | none => rw [hr] at h; exact h.elim
  | some r =>
    rw [hr] at h
    obtain ⟨rv, rd, re⟩ := r
    simp only at h
    exact ⟨rd, re, h.2, by rw [h.1]⟩

theorem ReadU32_accepted (bs : List U8) (v : Int) (h : AcceptsInFull IntType.u32 bs v)
    (pos : Nat) (rest : List U8) (e : TestErrors) :
    ReadU32 TestErrors.sink (SpanU8.mk pos (bs ++ rest)) e =
      some (ReadResult.mk (some v) (SpanU8.mk (pos + bs.length) rest) e) := by
  obtain ⟨d, e1, hd, hr⟩ := AcceptsInFull_read IntType.u32 bs v h
  unfold ReadU32
  rw [ReadVarInt_extend TestErrors.sink TestErrors.sink IntType.u32 bs 0 TestErrors.empty ""
    v d e1 hr hd pos rest e "u32", pop_push]

/-- C18: `Read<SectionId>` decodes a LEB128 `u32` and maps its value. For
every byte string that `ReadVarInt<u32>` accepts in full, canonical or not,
with a value from 0 to 11, followed by any bytes, it returns the section id
of that value, consumes exactly the encoding and reports nothing; when the
value is 12 it returns absent and reports "Unknown section: 12" just after
the encoding, under the frame "section". -/
theorem C18_ReadSectionId (bs : List U8) (v : Int) (hacc : AcceptsInFull IntType.u32 bs v)
    (rest : List U8) (pos : Nat) (e : TestErrors) :
    (0 ≤ v → v ≤ 11 →
      ∃ id,
        [SectionId.Custom, SectionId.Type_, SectionId.Import, SectionId.Function,
          SectionId.Table, SectionId.Memory, SectionId.Global, SectionId.Export,
          SectionId.Start, SectionId.Element, SectionId.Code, SectionId.Data][v.toNat]? =
            some id ∧
        ReadSectionId TestErrors.sink (SpanU8.mk pos (bs ++ rest)) e =
          some (ReadResult.mk (some id) (SpanU8.mk (pos + bs.length) rest) e)) ∧
    (v = 12 →
      ReadSectionId TestErrors.sink (SpanU8.mk pos (bs ++ rest)) e =
        some (ReadResult.mk none (SpanU8.mk (pos + bs.length) rest)
          (TestErrors.mk e.context_stack
            (e.errors ++ [e.context_stack ++
              [ErrorContext.mk (SpanU8.mk pos (bs ++ rest)) "section",
                ErrorContext.mk (SpanU8.mk (pos + bs.length) rest)
                  "Unknown section: 12"]])))) := by
  have hr := fun e2 => ReadU32_accepted bs v hacc pos rest e2
  refine ⟨?_, ?_⟩
  · intro h0 h11
    obtain ⟨n, hn⟩ : ∃ n : Nat, v = (n : Int) := ⟨v.toNat, by omega⟩
    subst hn
    have hle : n ≤ 11 := by omega
    simp only [ReadSectionId, hr, Int.toNat_ofNat]
    interval_cases n <;> simp [encoding.SectionId.Decode, pop_push]
  · intro h12
    subst h12
    simp only [ReadSectionId, hr]
    simp [encoding.SectionId.Decode, pop_onError_push]
    rfl

/-- Witness of C18: the overlong encoding `80 00` yields `Custom` with both
bytes consumed, and `0C` fails with "Unknown section: 12" at offset 1. -/
theorem C18_ReadSectionId_witness :
    AcceptsInFull IntType.u32 [0x80, 0x00] 0 ∧ AcceptsInFull IntType.u32 [0x0c] 12 ∧
    ReadSectionId TestErrors.sink (SpanU8.mk 0 [0x80, 0x00]) TestErrors.empty =
      some (ReadResult.mk (some SectionId.Custom) (SpanU8.mk 2 []) TestErrors.empty) ∧
    ReadSectionId TestErrors.sink (SpanU8.mk 0 [0x0c]) TestErrors.empty =
      some (ReadResult.mk none (SpanU8.mk 1 [])
        (TestErrors.mk []
          [[ErrorContext.mk (SpanU8.mk 0 [0x0c]) "section",
            ErrorContext.mk (SpanU8.mk 1 []) "Unknown section: 12"]])) := by
  refine ⟨by decide, by decide, ?_, ?_⟩
  · obtain ⟨id, hid, h⟩ := (C18_ReadSectionId [0x80, 0x00] 0 (by decide) [] 0
      TestErrors.empty).1 (by decide) (by decide)
    have : id = SectionId.Custom := by simpa using hid.symm
    subst this
    exact h
  · exact (C18_ReadSectionId [0x0c] 12 (by decide) [] 0 TestErrors.empty).2 rfl

/-! ## Validation of limits -/

/-- C19: `valid::Validate(limits, bound)` returns true if and only if
`limits.min <= bound` and, when `limits.max` is present, `limits.max <= bound`
and `limits.min <= limits.max`; in particular it returns false for every
`Limits` whose `max` is present and smaller than `min`, whatever the bound. -/
theorem C19_Validate_limits {σ : Type} (E : valid.Errors σ) (value : Limits) (bound : Nat)
    (errors : σ) :
    ((valid.Validate E value bound errors).1 = true ↔
      (value.min ≤ bound ∧
        ∀ value_max, value.max = some value_max →
          value_max ≤ bound ∧ value.min ≤ value_max)) ∧
    (∀ value_max, value.max = some value_max → value_max < value.min →
      (valid.Validate E value bound errors).1 = false) := by
  obtain ⟨vmin, vmax, sh⟩ := value
  cases vmax with
  | none =>
    simp only [valid.Validate]
    refine ⟨?_, fun _ h => by simp at h⟩
    by_cases h1 : vmin > bound
    · simp [h1]
    · simp [h1]; omega
  | some m =>
    simp only [valid.Validate]
    constructor
    · by_cases h1 : vmin > bound <;> by_cases h2 : m > bound <;> by_cases h3 : vmin > m <;>
        simp [h1, h2, h3]
      all_goals omega
    · intro value_max hm hlt
      simp only [Option.some.injEq] at hm
      subst hm
      have h3 : vmin > m := hlt
      by_cases h1 : vmin > bound <;> by_cases h2 : m > bound <;> simp [h1, h2, h3]

/-! ## The linking section -/

/-- C20: constructing a `LinkingSection` never aborts on a version mismatch.
For every encoding of a version `v` that `ReadVarInt<u32>` accepts in full,
followed by any bytes, the section holds the span of entry, the version `v`
and a subsection sequence over the bytes that follow the version, whatever
`v` is; when `v = 2` the sink is unchanged, and when `v != 2` exactly one
error is added, "Expected linking section version: 2, got v", located just
after the version encoding. When the version does not decode, the section
has no version and the sink is the one the failed read left: no
version-mismatch error is added. -/
theorem C20_LinkingSection_version (bs : List U8) (v : Int)
    (hacc : AcceptsInFull IntType.u32 bs v) (rest : List U8) (pos : Nat) (e : TestErrors)
    (data2 d2 : SpanU8) (e0 e2 : TestErrors) :
    ReadLinkingSection TestErrors.sink (SpanU8.mk pos (bs ++ rest)) e =
      some (LinkingSection.mk (SpanU8.mk pos (bs ++ rest)) (some v)
          (LazySequence.mk (SpanU8.mk (pos + bs.length) rest)),
        if v = 2 then e
        else TestErrors.mk e.context_stack
          (e.errors ++ [e.context_stack ++
            [ErrorContext.mk (SpanU8.mk (pos + bs.length) rest)
              ("Expected linking section version: 2, got " ++ toString v)]])) ∧
    (ReadU32 TestErrors.sink data2 e0 = some (ReadResult.mk none d2 e2) →
      ReadLinkingSection TestErrors.sink data2 e0 =
        some (LinkingSection.mk data2 none (LazySequence.mk d2), e2)) := by
  refine ⟨?_, ?_⟩
  · simp only [ReadLinkingSection, ReadU32_accepted bs v hacc pos rest e]
    by_cases h2 : v = 2
    · simp [h2]
    · simp only [ne_eq, h2, not_false_eq_true, if_true, if_false]
      rfl
  · intro h
    simp only [ReadLinkingSection, h]

/-- Witness of C20: the version 3, encoded `03`, followed by `AA`, gives one
error at offset 1 and a subsection sequence over `AA`; the version 2 gives
the same sequence and no error; the empty input gives no version and only the
error of the failed read. -/
theorem C20_LinkingSection_version_witness :
    AcceptsInFull IntType.u32 [0x03] 3 ∧ AcceptsInFull IntType.u32 [0x02] 2 ∧
    ReadLinkingSection TestErrors.sink (SpanU8.mk 0 [0x03, 0xaa]) TestErrors.empty =
      some (LinkingSection.mk (SpanU8.mk 0 [0x03, 0xaa]) (some 3)
          (LazySequence.mk (SpanU8.mk 1 [0xaa])),
        TestErrors.mk []
          [[ErrorContext.mk (SpanU8.mk 1 [0xaa])
            "Expected linking section version: 2, got 3"]]) ∧
    ReadLinkingSection TestErrors.sink (SpanU8.mk 0 [0x02, 0xaa]) TestErrors.empty =
      some (LinkingSection.mk (SpanU8.mk 0 [0x02, 0xaa]) (some 2)
          (LazySequence.mk (SpanU8.mk 1 [0xaa])), TestErrors.empty) ∧
    ReadLinkingSection TestErrors.sink (SpanU8.mk 0 []) TestErrors.empty =
      some (LinkingSection.mk (SpanU8.mk 0 []) none (LazySequence.mk (SpanU8.mk 0 [])),
        TestErrors.mk []
          [[ErrorContext.mk (SpanU8.mk 0 []) "u32",
            ErrorContext.mk (SpanU8.mk 0 []) "Unable to read u8"]]) :=
  ⟨by decide, by decide,
    ((C20_LinkingSection_version [0x03] 3 (by decide) [0xaa] 0 TestErrors.empty
      (SpanU8.mk 0 []) (SpanU8.mk 0 []) TestErrors.empty TestErrors.empty).1).trans
      (by decide),
    ((C20_LinkingSection_version [0x02] 2 (by decide) [0xaa] 0 TestErrors.empty
      (SpanU8.mk 0 []) (SpanU8.mk 0 []) TestErrors.empty TestErrors.empty).1).trans
      (by decide),
    (C20_LinkingSection_version [0x02] 2 (by decide) [] 0 TestErrors.empty
      (SpanU8.mk 0 []) (SpanU8.mk 0 []) TestErrors.empty
      (TestErrors.mk []
        [[ErrorContext.mk (SpanU8.mk 0 []) "u32",
          ErrorContext.mk (SpanU8.mk 0 []) "Unable to read u8"]])).2 (by decide)⟩

/-! ## The frames of the errors of a vector read -/

/-- Over the recording sink a read of a LEB128 number either succeeds and
leaves the sink as it found it, or fails and adds one error: the stack of
entry, the frame of the read at the cursor of entry, and the message at the
cursor the read left. -/
theorem ReadVarInt_outcome (T : IntType) (data : SpanU8) (e : TestErrors) (desc : String) :
    ∃ r, ReadVarInt TestErrors.sink T data e desc = some r ∧
      ((∃ v, r.value = some v ∧ r.errors = e) ∨
       (r.value = none ∧ ∃ msg : String,
          r.errors = TestErrors.mk e.context_stack
            (e.errors ++ [e.context_stack ++
              [ErrorContext.mk data desc, ErrorContext.mk r.data msg]]))) := by
  obtain ⟨pos, bs⟩ := data
  rcases ReadVarInt_cases TestErrors.sink T pos bs e desc with ⟨_, _, h1⟩ |
    ⟨cs, b, tl, _, _, _, h1⟩ | ⟨cs, b, tl, _, _, _, _, h1⟩
  · exact ⟨_, h1, Or.inr ⟨rfl, "Unable to read u8", by rw [pop_onError_push]⟩⟩
  · exact ⟨_, h1, Or.inl ⟨_, rfl, by rw [pop_push]⟩⟩
  · exact ⟨_, h1, Or.inr ⟨rfl, lastByteMessage T desc b.val, by rw [pop_onError_push]⟩⟩

/-- C25: `ReadBytes(n)` succeeds if and only if the cursor holds at least `n`
bytes. On success it returns the first `n` bytes as a sub-span that starts
where the cursor started, the cursor then starts `n` bytes further and holds
exactly the `len - n` bytes that remain, and the sink is untouched. On failure
it reports "Unable to read n bytes" at the cursor, returns absent and leaves
the cursor unchanged. -/
theorem C25_ReadBytes {σ : Type} (E : Errors σ) (data : SpanU8) (n : Nat) (e : σ) :
    ((ReadBytes E data n e).value.isSome = true ↔ n ≤ data.size) ∧
    (n ≤ data.size →
      ReadBytes E data n e =
        ReadResult.mk (some (SpanU8.mk data.pos (data.bytes.take n)))
          (SpanU8.mk (data.pos + n) (data.bytes.drop n)) e ∧
      (data.bytes.take n).length = n ∧
      (data.bytes.drop n).length = data.size - n ∧
      data.bytes = data.bytes.take n ++ data.bytes.drop n) ∧
    (data.size < n →
      ReadBytes E data n e =
        ReadResult.mk none data
          (E.OnError data ("Unable to read " ++ toString n ++ " bytes") e)) := by
  refine ⟨?_, ?_, ?_⟩
  · by_cases h : data.size < n
    · simp only [ReadBytes, if_pos h]
      constructor
      · intro hc; simp at hc
      · intro hc; omega
    · simp only [ReadBytes, if_neg h]
      constructor
      · intro _; omega
      · intro _; rfl
  · intro h
    have hn : ¬ data.size < n := by omega
    refine ⟨by simp only [ReadBytes, if_neg hn], ?_, ?_, ?_⟩
    · simp only [SpanU8.size] at h
      simp [List.length_take, h]
    · simp [SpanU8.size]
    · simp
  · intro h
    simp only [ReadBytes, if_pos h]

/-- Witness of C25: from `12 34 56`, reading 3 bytes returns the whole span
and empties the cursor, reading 2 bytes leaves one byte, and reading 4 bytes
fails with "Unable to read 4 bytes" at offset 0, with no frame. -/
theorem C25_ReadBytes_witness :
    ReadBytes TestErrors.sink (SpanU8.mk 0 [0x12, 0x34, 0x56]) 3 TestErrors.empty =
      ReadResult.mk (some (SpanU8.mk 0 [0x12, 0x34, 0x56])) (SpanU8.mk 3 [])
        TestErrors.empty ∧
    ReadBytes TestErrors.sink (SpanU8.mk 0 [0x12, 0x34, 0x56]) 2 TestErrors.empty =
      ReadResult.mk (some (SpanU8.mk 0 [0x12, 0x34])) (SpanU8.mk 2 [0x56])
        TestErrors.empty ∧
    ReadBytes TestErrors.sink (SpanU8.mk 0 [0x12, 0x34, 0x56]) 4 TestErrors.empty =
      ReadResult.mk none (SpanU8.mk 0 [0x12, 0x34, 0x56])
        (TestErrors.mk []
          [[ErrorContext.mk (SpanU8.mk 0 [0x12, 0x34, 0x56]) "Unable to read 4 bytes"]]) :=
  ⟨((C25_ReadBytes TestErrors.sink (SpanU8.mk 0 [0x12, 0x34, 0x56]) 3
      TestErrors.empty).2.1 (by decide)).1.trans (by decide),
    ((C25_ReadBytes TestErrors.sink (SpanU8.mk 0 [0x12, 0x34, 0x56]) 2
      TestErrors.empty).2.1 (by decide)).1.trans (by decide),
    ((C25_ReadBytes TestErrors.sink (SpanU8.mk 0 [0x12, 0x34, 0x56]) 4
      TestErrors.empty).2.2 (by decide)).trans (by decide)⟩

/-! ## The module header -/

theorem ReadBytes_append {σ : Type} (E : Errors σ) (pos : Nat) (bs rest : List U8) (e : σ) :
    ReadBytes E (SpanU8.mk pos (bs ++ rest)) bs.length e =
      ReadResult.mk (some (SpanU8.mk pos bs)) (SpanU8.mk (pos + bs.length) rest) e := by
  have hlt : ¬ (SpanU8.mk pos (bs ++ rest)).size < bs.length := by
    simp only [SpanU8.size, List.length_append]; omega
  simp only [ReadBytes, if_neg hlt, List.take_left', List.drop_left']

theorem ReadBytesExpected_read {σ : Type} (E : Errors σ) (pos : Nat) (bs rest expected : List U8)
    (e : σ) (desc : String) (h : bs.length = expected.length) :
    ReadBytesExpected E (SpanU8.mk pos (bs ++ rest)) expected e desc =
      ReadResult.mk (some (SpanU8.mk pos bs)) (SpanU8.mk (pos + bs.length) rest)
        (if bs ≠ expected then
          E.PopContext (E.OnError (SpanU8.mk (pos + bs.length) rest)
            ("Mismatch: expected " ++ formatSpanU8 expected ++ ", got " ++ formatSpanU8 bs)
            (E.PushContext (SpanU8.mk pos (bs ++ rest)) desc e))
        else E.PopContext (E.PushContext (SpanU8.mk pos (bs ++ rest)) desc e)) := by
  simp only [ReadBytesExpected, ← h, ReadBytes_append]
  by_cases hne : bs = expected
  · simp [hne]
  · simp [hne]

theorem ReadBytesExpected_short {σ : Type} (E : Errors σ) (data : SpanU8) (expected : List U8)
    (e : σ) (desc : String) (h : data.bytes.length < expected.length) :
    ReadBytesExpected E data expected e desc =
      ReadResult.mk none data
        (E.PopContext (E.OnError data
          ("Unable to read " ++ toString expected.length ++ " bytes")
          (E.PushContext data desc e))) := by
  have hlt : data.size < expected.length := h
  simp only [ReadBytesExpected, ReadBytes, if_pos hlt]

/-- C23: for every input of at least 8 bytes, `ReadModule` reports exactly one
error for each header field that does not match and none for one that does.
When the first four bytes differ from `00 61 73 6D` the error is the message
"Mismatch: expected ..., got ..." located at offset 4 under the frame
(0, "magic"); when the bytes 4 to 7 differ from `01 00 00 00` the error is
located at offset 8 under the frame (4, "version"). The version is read from
offset 4 whether or not the magic matched, and the sections start at
offset 8. -/
theorem C23_header_mismatch (m v rest : List U8) (hm : m.length = 4) (hv : v.length = 4)
    (e : TestErrors) :
    ReadModule TestErrors.sink (SpanU8.mk 0 (m ++ (v ++ rest))) e =
      (LazyModule.mk (some (SpanU8.mk 0 m)) (some (SpanU8.mk 4 v))
          (LazySequence.mk (SpanU8.mk 8 rest)),
        TestErrors.mk e.context_stack
          (e.errors ++
            (if m ≠ encoding.Magic then
              [e.context_stack ++
                [ErrorContext.mk (SpanU8.mk 0 (m ++ (v ++ rest))) "magic",
                  ErrorContext.mk (SpanU8.mk 4 (v ++ rest))
                    ("Mismatch: expected " ++ formatSpanU8 encoding.Magic ++ ", got " ++
                      formatSpanU8 m)]]
            else []) ++
            (if v ≠ encoding.Version then
              [e.context_stack ++
                [ErrorContext.mk (SpanU8.mk 4 (v ++ rest)) "version",
                  ErrorContext.mk (SpanU8.mk 8 rest)
                    ("Mismatch: expected " ++ formatSpanU8 encoding.Version ++ ", got " ++
                      formatSpanU8 v)]]
            else []))) := by
  have h1 := fun e1 : TestErrors => ReadBytesExpected_read TestErrors.sink 0 m (v ++ rest)
    encoding.Magic e1 "magic" hm
  have h2 := fun e1 : TestErrors => ReadBytesExpected_read TestErrors.sink 4 v rest
    encoding.Version e1 "version" hv
  simp only [hm, hv, Nat.zero_add] at h1 h2
  simp only [ReadModule, h1, h2]
  by_cases hm2 : m = encoding.Magic <;> by_cases hv2 : v = encoding.Version <;>
    simp [hm2, hv2, pop_push, pop_onError_push]

/-- Witness of C23: `77 61 73 6D 01 00 00 00` gives the one error of the test
`BadMagic`, and `00 61 73 6D 02 00 00 00` the one error of the test
`BadVersion`. -/
theorem C23_header_mismatch_witness :
    (ReadModule TestErrors.sink
        (SpanU8.mk 0 [0x77, 0x61, 0x73, 0x6d, 0x01, 0x00, 0x00, 0x00]) TestErrors.empty).2 =
      TestErrors.mk []
        [[ErrorContext.mk (SpanU8.mk 0 [0x77, 0x61, 0x73, 0x6d, 0x01, 0x00, 0x00, 0x00])
            "magic",
          ErrorContext.mk (SpanU8.mk 4 [0x01, 0x00, 0x00, 0x00])
            "Mismatch: expected \"\\00\\61\\73\\6d\", got \"\\77\\61\\73\\6d\""]] ∧
    (ReadModule TestErrors.sink
        (SpanU8.mk 0 [0x00, 0x61, 0x73, 0x6d, 0x02, 0x00, 0x00, 0x00]) TestErrors.empty).2 =
      TestErrors.mk []
        [[ErrorContext.mk (SpanU8.mk 4 [0x02, 0x00, 0x00, 0x00]) "version",
          ErrorContext.mk (SpanU8.mk 8 [])
            "Mismatch: expected \"\\01\\00\\00\\00\", got \"\\02\\00\\00\\00\""]] :=
  ⟨(congrArg Prod.snd (C23_header_mismatch [0x77, 0x61, 0x73, 0x6d] [0x01, 0x00, 0x00, 0x00] []
      rfl rfl TestErrors.empty)).trans (by decide),
    (congrArg Prod.snd (C23_header_mismatch [0x00, 0x61, 0x73, 0x6d] [0x02, 0x00, 0x00, 0x00] []
      rfl rfl TestErrors.empty)).trans (by decide)⟩

/-- C24: for every input shorter than 4 bytes `ReadModule` reports exactly two
errors, in this order: "Unable to read 4 bytes" at offset 0 under the frame
(0, "magic"), then "Unable to read 4 bytes" at offset 0 under the frame
(0, "version"); and for every input that is the magic followed by fewer than
4 bytes it reports exactly one error, "Unable to read 4 bytes" at offset 4
under the frame (4, "version"). -/
theorem C24_header_truncated (bs : List U8) (hlen : bs.length < 4) (e : TestErrors) :
    ReadModule TestErrors.sink (SpanU8.mk 0 bs) e =
      (LazyModule.mk none none (LazySequence.mk (SpanU8.mk 0 bs)),
        TestErrors.mk e.context_stack
          (e.errors ++
            [e.context_stack ++
              [ErrorContext.mk (SpanU8.mk 0 bs) "magic",
                ErrorContext.mk (SpanU8.mk 0 bs) "Unable to read 4 bytes"],
             e.context_stack ++
              [ErrorContext.mk (SpanU8.mk 0 bs) "version",
                ErrorContext.mk (SpanU8.mk 0 bs) "Unable to read 4 bytes"]])) ∧
    ReadModule TestErrors.sink (SpanU8.mk 0 (encoding.Magic ++ bs)) e =
      (LazyModule.mk (some (SpanU8.mk 0 encoding.Magic)) none
          (LazySequence.mk (SpanU8.mk 4 bs)),
        TestErrors.mk e.context_stack
          (e.errors ++
            [e.context_stack ++
              [ErrorContext.mk (SpanU8.mk 4 bs) "version",
                ErrorContext.mk (SpanU8.mk 4 bs) "Unable to read 4 bytes"]])) := by
  have hs := fun (d : SpanU8) (hd : d.bytes.length < 4) (e1 : TestErrors) (desc : String)
      (ex : List U8) (hex : ex.length = 4) =>
    ReadBytesExpected_short TestErrors.sink d ex e1 desc (by rw [hex]; exact hd)
  constructor
  · simp only [ReadModule, hs (SpanU8.mk 0 bs) hlen _ _ encoding.Magic rfl,
      hs (SpanU8.mk 0 bs) hlen _ _ encoding.Version rfl, pop_onError_push]
    simp [encoding.Magic, encoding.Version]
    rfl
  · have h1 := ReadBytesExpected_read TestErrors.sink 0 encoding.Magic bs encoding.Magic e
      "magic" rfl
    simp only [ReadModule, h1, hs (SpanU8.mk (0 + encoding.Magic.length) bs) hlen _ _
      encoding.Version rfl, pop_onError_push]
    simp [encoding.Magic, encoding.Version, pop_push]
    rfl

/-- Witness of C24: `00 61 73` gives the two errors of the test
`Magic_PastEnd`, and `00 61 73 6D 01` the one error of the test
`Version_PastEnd`. -/
theorem C24_header_truncated_witness :
    (ReadModule TestErrors.sink (SpanU8.mk 0 [0x00, 0x61, 0x73]) TestErrors.empty).2 =
      TestErrors.mk []
        [[ErrorContext.mk (SpanU8.mk 0 [0x00, 0x61, 0x73]) "magic",
          ErrorContext.mk (SpanU8.mk 0 [0x00, 0x61, 0x73]) "Unable to read 4 bytes"],
         [ErrorContext.mk (SpanU8.mk 0 [0x00, 0x61, 0x73]) "version",
          ErrorContext.mk (SpanU8.mk 0 [0x00, 0x61, 0x73]) "Unable to read 4 bytes"]] ∧
    (ReadModule TestErrors.sink (SpanU8.mk 0 [0x00, 0x61, 0x73, 0x6d, 0x01])
        TestErrors.empty).2 =
      TestErrors.mk []
        [[ErrorContext.mk (SpanU8.mk 4 [0x01]) "version",
          ErrorContext.mk (SpanU8.mk 4 [0x01]) "Unable to read 4 bytes"]] :=
  ⟨(congrArg Prod.snd (C24_header_truncated [0x00, 0x61, 0x73] (by decide)
      TestErrors.empty).1).trans (by decide),
    (congrArg Prod.snd (C24_header_truncated [0x01] (by decide)
      TestErrors.empty).2).trans (by decide)⟩

/-! ## The sections of a module -/

/-- An encoding that `ReadVarInt<T>` accepts in full is read, under any
description and before any bytes, with the same value; it consumes exactly the
encoding and leaves the recording sink as it found it. -/
theorem ReadVarInt_accepted (T : IntType) (bs : List U8) (v : Int)
    (h : AcceptsInFull T bs v) (pos : Nat) (rest : List U8) (e : TestErrors)
    (desc : String) :
    ReadVarInt TestErrors.sink T (SpanU8.mk pos (bs ++ rest)) e desc =
      some (ReadResult.mk (some v) (SpanU8.mk (pos + bs.length) rest) e) := by
  obtain ⟨d, e1, hd, hr⟩ := AcceptsInFull_read T bs v h
  rw [ReadVarInt_extend TestErrors.sink TestErrors.sink T bs 0 TestErrors.empty ""
    v d e1 hr hd pos rest e desc, pop_push]

theorem AcceptsInFull_ne_nil (T : IntType) (bs : List U8) (v : Int)
    (h : AcceptsInFull T bs v) : bs ≠ [] := by
  intro hnil
  subst hnil
  obtain ⟨d, e1, _, hr⟩ := AcceptsInFull_read T [] v h
  rw [ReadVarInt_truncated TestErrors.sink T [] 0 TestErrors.empty "" (by simp)
    (kMaxBytes_pos T)] at hr
  simp at hr

theorem ReadSectionId_accepted (bs : List U8) (v : Int) (id : SectionId)
    (h : AcceptsInFull IntType.u32 bs v) (hid : encoding.SectionId.Decode v.toNat = some id)
    (pos : Nat) (rest : List U8) (e : TestErrors) :
    ReadSectionId TestErrors.sink (SpanU8.mk pos (bs ++ rest)) e =
      some (ReadResult.mk (some id) (SpanU8.mk (pos + bs.length) rest) e) := by
  simp only [ReadSectionId, ReadU32, ReadVarInt_accepted IntType.u32 bs v h, hid, pop_push]

theorem ReadCount_accepted (bs : List U8) (n : Nat)
    (h : AcceptsInFull IntType.u32 bs n) (pos : Nat) (rest : List U8) (hn : n ≤ rest.length)
    (e : TestErrors) :
    ReadCount TestErrors.sink (SpanU8.mk pos (bs ++ rest)) e =
      some (ReadResult.mk (some n) (SpanU8.mk (pos + bs.length) rest) e) := by
  have hlt : ¬ (n > (SpanU8.mk (pos + bs.length) rest).size) := by
    simp only [SpanU8.size]; omega
  simp only [ReadCount, ReadVarInt_accepted IntType.u32 bs n h, Int.toNat_ofNat, if_neg hlt]

theorem ReadString_accepted (bs name : List U8)
    (h : AcceptsInFull IntType.u32 bs name.length) (pos : Nat) (rest : List U8)
    (e : TestErrors) (desc : String) :
    ReadString TestErrors.sink (SpanU8.mk pos (bs ++ (name ++ rest))) e desc =
      some (ReadResult.mk (some (SpanU8.mk (pos + bs.length) name))
        (SpanU8.mk (pos + bs.length + name.length) rest) e) := by
  simp only [ReadString, ReadCount_accepted bs name.length h pos (name ++ rest)
    (by simp) _, ReadBytes_append, pop_push]

/-- The read of a well-framed section. -/
theorem ReadSection_framed (f : Framed) (hf : f.WellFramed) (pos : Nat) (rest : List U8)
    (e : TestErrors) :
    ReadSection TestErrors.sink (SpanU8.mk pos (f.bytes ++ rest)) e =
      some (ReadResult.mk (some (f.sectionAt pos)) (SpanU8.mk (pos + f.bytes.length) rest)
        e) := by
  cases f with
  | known idBytes id sizeBytes payload =>
    obtain ⟨⟨v, hv, hid⟩, hne, hsize⟩ := hf
    simp only [Framed.bytes, List.append_assoc, ReadSection,
      ReadSectionId_accepted idBytes v id hv hid,
      ReadCount_accepted sizeBytes payload.length hsize _ (payload ++ rest) (by simp) _,
      ReadBytes_append, if_neg hne, pop_push, Framed.sectionAt, List.length_append,
      Nat.add_assoc]
  | custom idBytes sizeBytes lenBytes name tl =>
    obtain ⟨⟨v, hv, hid⟩, hsize, hlen⟩ := hf
    have hb := ReadBytes_append TestErrors.sink (pos + idBytes.length + sizeBytes.length)
      (lenBytes ++ (name ++ tl)) rest
    have hs := ReadString_accepted lenBytes name hlen
      (pos + idBytes.length + sizeBytes.length) tl
    simp only [Framed.bytes, List.append_assoc, ReadSection,
      ReadSectionId_accepted idBytes v SectionId.Custom hv hid,
      ReadCount_accepted sizeBytes (lenBytes ++ (name ++ tl)).length hsize _
        (lenBytes ++ (name ++ (tl ++ rest))) (by simp) _]
    rw [← List.append_assoc name tl rest, ← List.append_assoc lenBytes (name ++ tl) rest, hb]
    simp only [if_true, hs, pop_push, Framed.sectionAt, Option.some.injEq,
      ReadResult.mk.injEq, true_and, and_true, SpanU8.mk.injEq]
    simp only [List.length_append]
    omega

theorem Framed_bytes_ne_nil (f : Framed) (hf : f.WellFramed) : f.bytes ≠ [] := by
  cases f with
  | known idBytes id sizeBytes payload =>
    obtain ⟨⟨v, hv, _⟩, _, _⟩ := hf
    have := AcceptsInFull_ne_nil IntType.u32 idBytes v hv
    simp [Framed.bytes, this]
  | custom idBytes sizeBytes lenBytes name tl =>
    obtain ⟨⟨v, hv, _⟩, _, _⟩ := hf
    have := AcceptsInFull_ne_nil IntType.u32 idBytes v hv
    simp [Framed.bytes, this]

/-- The iteration over a concatenation of well-framed sections. -/
theorem elements_framed :
    ∀ (fs : List Framed), (∀ f ∈ fs, f.WellFramed) →
      ∀ (fuel pos : Nat) (e : TestErrors), fs.length < fuel →
        LazySequence.elements (ReadSection TestErrors.sink) fuel
            (SpanU8.mk pos (framedBytes fs)) e =
          some (sectionsAt pos fs, e) := by
  intro fs
  induction fs with
  | nil =>
    intro _ fuel pos e hfuel
    obtain ⟨k, hk⟩ : ∃ k, fuel = k + 1 := ⟨fuel - 1, by simp at hfuel; omega⟩
    subst hk
    simp [LazySequence.elements, framedBytes, sectionsAt]
  | cons f rest ih =>
    intro hwf fuel pos e hfuel
    obtain ⟨k, hk⟩ : ∃ k, fuel = k + 1 := ⟨fuel - 1, by simp at hfuel; omega⟩
    subst hk
    have hf := hwf f (List.mem_cons_self f rest)
    have hne : f.bytes ++ framedBytes rest ≠ [] := by
      simp [Framed_bytes_ne_nil f hf]
    have hrest := ih (fun g hg => hwf g (List.mem_cons_of_mem f hg)) k (pos + f.bytes.length) e
      (by simp only [List.length_cons] at hfuel; omega)
    simp only [LazySequence.elements, framedBytes, if_neg hne,
      ReadSection_framed f hf pos (framedBytes rest) e, hrest, sectionsAt]

theorem sectionsAt_get :
    ∀ (fs : List Framed) (pos i : Nat) (f : Framed), fs[i]? = some f →
      ∃ p, (sectionsAt pos fs)[i]? = some (f.sectionAt p) := by
  intro fs
  induction fs with
  | nil => intro pos i f h; simp at h
  | cons g rest ih =>
    intro pos i f h
    cases i with
    | zero =>
      simp only [List.getElem?_cons_zero, Option.some.injEq] at h
      subst h
      exact ⟨pos, by simp [sectionsAt]⟩
    | succ j =>
      simp only [List.getElem?_cons_succ] at h
      obtain ⟨p, hp⟩ := ih (pos + g.bytes.length) j f h
      exact ⟨p, by simp [sectionsAt, hp]⟩

theorem sectionsAt_length : ∀ (fs : List Framed) (pos : Nat),
    (sectionsAt pos fs).length = fs.length := by
  intro fs
  induction fs with
  | nil => intro pos; rfl
  | cons g rest ih => intro pos; simp [sectionsAt, ih]

/-- C22: for every input that is the 8-byte header followed by a
concatenation of well-framed sections, `ReadModule` reports nothing and the
sequence of its sections, which starts at offset 8, yields exactly those
sections in input order and then reaches the end with no error, given room
for one more step than there are sections. The section yielded for each
framed section is the one it stands for: a known section carries its id and
its payload, whose length is the value of the size, and a custom section its
name and the bytes of the payload after the name, whatever the bytes of the
payload are. -/
theorem C22_module_sections (fs : List Framed) (hwf : ∀ f ∈ fs, f.WellFramed)
    (e : TestErrors) (fuel : Nat) (hfuel : fs.length < fuel) :
    ReadModule TestErrors.sink
        (SpanU8.mk 0 (encoding.Magic ++ (encoding.Version ++ framedBytes fs))) e =
      (LazyModule.mk (some (SpanU8.mk 0 encoding.Magic)) (some (SpanU8.mk 4 encoding.Version))
          (LazySequence.mk (SpanU8.mk 8 (framedBytes fs))), e) ∧
    LazySequence.elements (ReadSection TestErrors.sink) fuel (SpanU8.mk 8 (framedBytes fs)) e =
      some (sectionsAt 8 fs, e) ∧
    (sectionsAt 8 fs).length = fs.length ∧
    (∀ (i : Nat) (f : Framed), fs[i]? = some f →
      ∃ p, (sectionsAt 8 fs)[i]? = some (f.sectionAt p)) ∧
    (∀ (p : Nat) (idBytes : List U8) (id : SectionId) (sizeBytes payload : List U8),
      Framed.known idBytes id sizeBytes payload ∈ fs →
      AcceptsInFull IntType.u32 sizeBytes payload.length ∧
      ∃ data, (Framed.known idBytes id sizeBytes payload).sectionAt p =
          Section.known (KnownSection.mk id data) ∧ data.bytes = payload) ∧
    (∀ (p : Nat) (idBytes sizeBytes lenBytes name rest : List U8),
      Framed.custom idBytes sizeBytes lenBytes name rest ∈ fs →
      ∃ n data, (Framed.custom idBytes sizeBytes lenBytes name rest).sectionAt p =
          Section.custom (CustomSection.mk n data) ∧ n.bytes = name ∧ data.bytes = rest) := by
  refine ⟨?_, elements_framed fs hwf fuel 8 e hfuel, sectionsAt_length fs 8,
    fun i f h => sectionsAt_get fs 8 i f h, ?_, ?_⟩
  · have h1 := ReadBytesExpected_read TestErrors.sink 0 encoding.Magic
      (encoding.Version ++ framedBytes fs) encoding.Magic e "magic" rfl
    have h2 := ReadBytesExpected_read TestErrors.sink 4 encoding.Version
      (framedBytes fs) encoding.Version e "version" rfl
    simp only [ne_eq, not_true_eq_false, if_false, pop_push] at h1 h2
    have h4 : 0 + encoding.Magic.length = 4 := rfl
    have h8 : 4 + encoding.Version.length = 8 := rfl
    rw [h4] at h1
    rw [h8] at h2
    simp only [ReadModule, h1, h2]
  · intro p idBytes id sizeBytes payload hmem
    exact ⟨(hwf _ hmem).2.2, _, rfl, rfl⟩
  · intro p idBytes sizeBytes lenBytes name rest _
    exact ⟨_, _, rfl, rfl, rfl⟩

/-- Witness of C22: the input of the test `Basic` yields its four sections,
and a type section whose payload `FF FF FF` is no vector of types is yielded
as it is, and the code section after it as well. -/
theorem C22_module_sections_witness :
    LazySequence.elements (ReadSection TestErrors.sink) 5
        (SpanU8.mk 8 [0x01, 0x03, 0x00, 0x00, 0x00, 0x01, 0x05, 0x00, 0x00, 0x00, 0x00, 0x00,
          0x0a, 0x01, 0x00, 0x00, 0x06, 0x03, 0x79, 0x75, 0x70, 0x00, 0x00])
        TestErrors.empty =
      some ([Section.known (KnownSection.mk SectionId.Type_ (SpanU8.mk 10 [0x00, 0x00, 0x00])),
          Section.known (KnownSection.mk SectionId.Type_
            (SpanU8.mk 15 [0x00, 0x00, 0x00, 0x00, 0x00])),
          Section.known (KnownSection.mk SectionId.Code (SpanU8.mk 22 [0x00])),
          Section.custom (CustomSection.mk (SpanU8.mk 26 [0x79, 0x75, 0x70])
            (SpanU8.mk 29 [0x00, 0x00]))], TestErrors.empty) ∧
    LazySequence.elements (ReadSection TestErrors.sink) 3
        (SpanU8.mk 8 [0x01, 0x03, 0xff, 0xff, 0xff, 0x0a, 0x01, 0x00]) TestErrors.empty =
      some ([Section.known (KnownSection.mk SectionId.Type_ (SpanU8.mk 10 [0xff, 0xff, 0xff])),
          Section.known (KnownSection.mk SectionId.Code (SpanU8.mk 15 [0x00]))],
        TestErrors.empty) :=
  ⟨(C22_module_sections
      [Framed.known [0x01] SectionId.Type_ [0x03] [0x00, 0x00, 0x00],
        Framed.known [0x01] SectionId.Type_ [0x05] [0x00, 0x00, 0x00, 0x00, 0x00],
        Framed.known [0x0a] SectionId.Code [0x01] [0x00],
        Framed.custom [0x00] [0x06] [0x03] [0x79, 0x75, 0x70] [0x00, 0x00]]
      (by
        intro f hf
        simp only [List.mem_cons, List.mem_singleton, List.not_mem_nil, or_false] at hf
        rcases hf with h | h | h | h <;> subst h
        · exact ⟨⟨1, by decide, rfl⟩, by decide, by decide⟩
        · exact ⟨⟨1, by decide, rfl⟩, by decide, by decide⟩
        · exact ⟨⟨10, by decide, rfl⟩, by decide, by decide⟩
        · exact ⟨⟨0, by decide, rfl⟩, by decide, by decide⟩)
      TestErrors.empty 5 (by decide)).2.1,
    (C22_module_sections
      [Framed.known [0x01] SectionId.Type_ [0x03] [0xff, 0xff, 0xff],
        Framed.known [0x0a] SectionId.Code [0x01] [0x00]]
      (by
        intro f hf
        simp only [List.mem_cons, List.mem_singleton, List.not_mem_nil, or_false] at hf
        rcases hf with h | h <;> subst h
        · exact ⟨⟨1, by decide, rfl⟩, by decide, by decide⟩
        · exact ⟨⟨10, by decide, rfl⟩, by decide, by decide⟩)
      TestErrors.empty 3 (by decide)).2.1⟩

/-! ## Limits -/

/-- C26: reading limits. A flags byte 0 followed by the LEB128 `u32` encoding
of `m` yields `Limits{min = m, max absent, shared = No}`; a flags byte 1
followed by the encodings of `m` and of `n` yields `Limits{min = m, max = n,
shared = No}`, whatever `m` and `n` are: no check that `m <= n` is made. In
both cases exactly the flags and the encodings are consumed and nothing is
reported. With the feature `threads` disabled a flags byte 2 returns absent
and reports "Invalid flags value: 2" at the offset after the flags byte, under
the frame "limits" at the offset of the flags byte. -/
theorem C26_ReadLimits (features : Features Feature) (mb nb : List U8) (m n : Nat)
    (hm : AcceptsInFull IntType.u32 mb m) (hn : AcceptsInFull IntType.u32 nb n)
    (rest : List U8) (pos : Nat) (e : TestErrors) :
    ReadLimits TestErrors.sink features (SpanU8.mk pos (0x00 :: (mb ++ rest))) e =
      some (ReadResult.mk (some (Limits.mk m none Shared.No))
        (SpanU8.mk (pos + 1 + mb.length) rest) e) ∧
    ReadLimits TestErrors.sink features (SpanU8.mk pos (0x01 :: (mb ++ (nb ++ rest)))) e =
      some (ReadResult.mk (some (Limits.mk m (some n) Shared.No))
        (SpanU8.mk (pos + 1 + mb.length + nb.length) rest) e) ∧
    (features Feature.threads = false →
      ReadLimits TestErrors.sink features (SpanU8.mk pos (0x02 :: rest)) e =
        some (ReadResult.mk none (SpanU8.mk (pos + 1) rest)
          (TestErrors.mk e.context_stack
            (e.errors ++ [e.context_stack ++
              [ErrorContext.mk (SpanU8.mk pos (0x02 :: rest)) "limits",
                ErrorContext.mk (SpanU8.mk (pos + 1) rest) "Invalid flags value: 2"]])))) := by
  refine ⟨?_, ?_, ?_⟩
  · simp [ReadLimits, TryReadContext, ReadU8, pop_push, ReadLimitsBounds, ReadU32,
      ReadVarInt_accepted IntType.u32 mb m hm]
  · simp [ReadLimits, TryReadContext, ReadU8, pop_push, ReadLimitsBounds, ReadU32,
      ReadVarInt_accepted IntType.u32 mb m hm, ReadVarInt_accepted IntType.u32 nb n hn]
  · intro ht
    simp [ReadLimits, TryReadContext, ReadU8, pop_push, ht, pop_onError_push]
    rfl

/-- Witness of C26: `01 02 E8 07` yields `Limits{2, 1000, No}`, `00 81 01`
yields `Limits{129}`, `01 05 02` yields a minimum 5 above the maximum 2, and
`02 01` with every feature disabled fails with "Invalid flags value: 2" at
offset 1 under the frame (0, "limits"). -/
theorem C26_ReadLimits_witness :
    ReadLimits TestErrors.sink (fun _ => false) (SpanU8.mk 0 [0x01, 0x02, 0xe8, 0x07])
        TestErrors.empty =
      some (ReadResult.mk (some (Limits.mk 2 (some 1000) Shared.No)) (SpanU8.mk 4 [])
        TestErrors.empty) ∧
    ReadLimits TestErrors.sink (fun _ => false) (SpanU8.mk 0 [0x00, 0x81, 0x01])
        TestErrors.empty =
      some (ReadResult.mk (some (Limits.mk 129 none Shared.No)) (SpanU8.mk 3 [])
        TestErrors.empty) ∧
    ReadLimits TestErrors.sink (fun _ => false) (SpanU8.mk 0 [0x01, 0x05, 0x02])
        TestErrors.empty =
      some (ReadResult.mk (some (Limits.mk 5 (some 2) Shared.No)) (SpanU8.mk 3 [])
        TestErrors.empty) ∧
    ReadLimits TestErrors.sink (fun _ => false) (SpanU8.mk 0 [0x02, 0x01]) TestErrors.empty =
      some (ReadResult.mk none (SpanU8.mk 1 [0x01])
        (TestErrors.mk []
          [[ErrorContext.mk (SpanU8.mk 0 [0x02, 0x01]) "limits",
            ErrorContext.mk (SpanU8.mk 1 [0x01]) "Invalid flags value: 2"]])) :=
  ⟨(C26_ReadLimits (fun _ => false) [0x02] [0xe8, 0x07] 2 1000 (by decide) (by decide) [] 0
      TestErrors.empty).2.1,
    (C26_ReadLimits (fun _ => false) [0x81, 0x01] [0x00] 129 0 (by decide) (by decide) [] 0
      TestErrors.empty).1,
    (C26_ReadLimits (fun _ => false) [0x05] [0x02] 5 2 (by decide) (by decide) [] 0
      TestErrors.empty).2.1,
    (C26_ReadLimits (fun _ => false) [0x05] [0x02] 5 2 (by decide) (by decide) [0x01] 0
      TestErrors.empty).2.2 rfl⟩

/-! ## Lazy sections -/

theorem ReadLimits_NoMax (features : Features Feature) (mb : List U8) (m : Nat)
    (hm : AcceptsInFull IntType.u32 mb m) (rest : List U8) (pos : Nat) (e : TestErrors) :
    ReadLimits TestErrors.sink features (SpanU8.mk pos (0x00 :: (mb ++ rest))) e =
      some (ReadResult.mk (some (Limits.mk m none Shared.No))
        (SpanU8.mk (pos + 1 + mb.length) rest) e) := by
  simp [ReadLimits, TryReadContext, ReadU8, pop_push, ReadLimitsBounds, ReadU32,
    ReadVarInt_accepted IntType.u32 mb m hm]

theorem ReadMemory_NoMax (features : Features Feature) (mb : List U8) (m : Nat)
    (hm : AcceptsInFull IntType.u32 mb m) (rest : List U8) (pos : Nat) (e : TestErrors) :
    ReadMemory TestErrors.sink features (SpanU8.mk pos (0x00 :: (mb ++ rest))) e =
      some (ReadResult.mk (some (Memory.mk (MemoryType.mk (Limits.mk m none Shared.No))))
        (SpanU8.mk (pos + 1 + mb.length) rest) e) := by
  simp only [ReadMemory, ReadMemoryType, TryReadContext,
    ReadLimits_NoMax features mb m hm, pop_push]

/-- C21: constructing a `LazySection<T>` sets `count` to the result of
`ReadCount` on the front of the data, leaves in the sink what that read left,
and starts the sequence of the elements at the cursor that the LEB128 read of
the count left, that is, at the first byte after the encoding of the count,
`k` bytes after the start. The count does not limit or check the iteration:
on the payload `01 00 01 00 01` of a memory section the count is 1, the
sequence yields two memories, and no error is reported. -/
theorem C21_LazySection {σ : Type} (E : Errors σ) (data : SpanU8) (e : σ)
    (features : Features Feature) :
    (∃ r c k, ReadCount E data e = some r ∧
      ReadVarInt E IntType.u32 data e "index" = some c ∧
      ReadMemorySection E data e =
        some (LazySection.mk r.value (LazySequence.mk c.data), r.errors) ∧
      Advances data c.data k ∧ (data.bytes ≠ [] → 1 ≤ k)) ∧
    ReadMemorySection TestErrors.sink (SpanU8.mk 0 [0x01, 0x00, 0x01, 0x00, 0x01])
        TestErrors.empty =
      some (LazySection.mk (some 1) (LazySequence.mk (SpanU8.mk 1 [0x00, 0x01, 0x00, 0x01])),
        TestErrors.empty) ∧
    LazySequence.elements (ReadMemory TestErrors.sink features) 3
        (SpanU8.mk 1 [0x00, 0x01, 0x00, 0x01]) TestErrors.empty =
      some ([Memory.mk (MemoryType.mk (Limits.mk 1 none Shared.No)),
          Memory.mk (MemoryType.mk (Limits.mk 1 none Shared.No))], TestErrors.empty) := by
  refine ⟨?_, by decide, ?_⟩
  · obtain ⟨c, r, hc, hr, hd⟩ := ReadCount_same_cursor E data e
    obtain ⟨c2, k, hc2, hadv, hk⟩ := ReadVarInt_advances E IntType.u32 data e "index"
    rw [hc] at hc2
    simp only [Option.some.injEq] at hc2
    subst hc2
    refine ⟨r, c, k, hr, hc, ?_, hadv, hk⟩
    obtain ⟨rv, rd, re⟩ := r
    simp only at hd
    subst hd
    simp only [ReadMemorySection, LazySection.create, hr]
  · have ha : ReadMemory TestErrors.sink features (SpanU8.mk 1 [0x00, 0x01, 0x00, 0x01])
        TestErrors.empty =
      some (ReadResult.mk (some (Memory.mk (MemoryType.mk (Limits.mk 1 none Shared.No))))
        (SpanU8.mk 3 [0x00, 0x01]) TestErrors.empty) :=
      ReadMemory_NoMax features [0x01] 1 (by decide) [0x00, 0x01] 1 TestErrors.empty
    have hb : ReadMemory TestErrors.sink features (SpanU8.mk 3 [0x00, 0x01])
        TestErrors.empty =
      some (ReadResult.mk (some (Memory.mk (MemoryType.mk (Limits.mk 1 none Shared.No))))
        (SpanU8.mk 5 []) TestErrors.empty) :=
      ReadMemory_NoMax features [0x01] 1 (by decide) [] 3 TestErrors.empty
    simp [LazySequence.elements, ha, hb]

/-! ## Locals -/

theorem ValueType_Encode_eq {N F : Type} [DecidableEq N] (table : List (Row N F)) (e : N) :
    encoding.ValueType.Encode table e = encoding.BlockType.Encode table e := rfl

theorem ValueType_Decode_eq {N F : Type} (table : List (Row N F)) (b : U8)
    (f : Features F) :
    encoding.ValueType.Decode table b f = encoding.BlockType.Decode table b f := rfl

theorem value_type_def_wf : TableWellFormed value_type_def := by
  constructor <;> decide

/-- C29: for every `Locals` value `v = {count, type}` with a count below
`2^32` and a type that has a row in `value_type.def`, a table the compiler
accepts, and is decodable under the feature set, `Write(v)` appends to the
output the LEB128 `u32` encoding of the count, which is what `WriteVarInt`
writes, followed by the wire byte of the type; and `Read<Locals>` on those
bytes, before any other bytes, returns `v`, consumes exactly those bytes and
reports nothing. -/
theorem C29_Locals_roundtrip {N F : Type} [DecidableEq N] (table : List (Row N F))
    (hwf : TableWellFormed table) (f : Features F) (count : Nat) (hcount : count < 2 ^ 32)
    (row : Row N F) (hmem : row ∈ table) (hen : RowEnabled f row)
    (out rest : List U8) (pos : Nat) (e : TestErrors) :
    ∃ bs : List U8, WriteVarInt IntType.u32 count out = some (out ++ bs) ∧
      WriteLocals table (Locals.mk count row.Name) out = some (out ++ bs ++ [row.val]) ∧
      ReadLocals TestErrors.sink table f (SpanU8.mk pos (bs ++ row.val :: rest)) e =
        some (ReadResult.mk (some (Locals.mk count row.Name))
          (SpanU8.mk (pos + bs.length + 1) rest) e) := by
  have hr : InRange IntType.u32 (count : Int) := by
    simp only [InRange, IntType.is_signed, Bool.false_eq_true, if_false, IntType.kNumBits]
    constructor
    · omega
    · exact_mod_cast hcount
  obtain ⟨bs, hw, hread⟩ := roundtrip_VarInt IntType.u32 count hr out [] 0
    TestErrors.empty ""
  rw [List.append_nil] at hread
  have hacc : AcceptsInFull IntType.u32 bs count := by
    unfold AcceptsInFull
    rw [hread]
    exact ⟨rfl, rfl⟩
  have henc : encoding.ValueType.Encode table row.Name = some row.val := by
    rw [ValueType_Encode_eq]
    exact Encode_of_mem table hwf row hmem
  have hdec : encoding.ValueType.Decode table row.val f = some row.Name := by
    rw [ValueType_Decode_eq]
    exact (Decode_some_iff table hwf row.val f row.Name).2 ⟨row, hmem, rfl, rfl, hen⟩
  refine ⟨bs, hw, ?_, ?_⟩
  · simp only [WriteLocals, WriteIndex, hw, WriteValueType, henc, WriteU8]
  · simp only [ReadLocals, TryReadContext, ReadVarInt_accepted IntType.u32 bs count hacc,
      pop_push, ReadValueType, ReadEnum, ReadU8, hdec, Int.toNat_ofNat]

/-- Witness of C29: with the rows the tests and the specification give and
every feature disabled, `Locals{320, F64}` is written as `C0 02 7C` and read
back from it, and `Locals{2, I32}` as `02 7F`. -/
theorem C29_Locals_roundtrip_witness :
    WriteLocals value_type_def (Locals.mk 320 ValueType.F64) [] = some [0xc0, 0x02, 0x7c] ∧
    ReadLocals TestErrors.sink value_type_def (fun _ => false)
        (SpanU8.mk 0 [0xc0, 0x02, 0x7c]) TestErrors.empty =
      some (ReadResult.mk (some (Locals.mk 320 ValueType.F64)) (SpanU8.mk 3 [])
        TestErrors.empty) ∧
    WriteLocals value_type_def (Locals.mk 2 ValueType.I32) [] = some [0x02, 0x7f] ∧
    ReadLocals TestErrors.sink value_type_def (fun _ => false)
        (SpanU8.mk 0 [0x02, 0x7f]) TestErrors.empty =
      some (ReadResult.mk (some (Locals.mk 2 ValueType.I32)) (SpanU8.mk 2 [])
        TestErrors.empty) := by
  obtain ⟨bs, hw, hl, hr⟩ := C29_Locals_roundtrip value_type_def value_type_def_wf
    (fun _ => false) 320 (by decide) (Row.mk 0x7c ValueType.F64 "f64" none)
    (by simp [value_type_def]) (Or.inl rfl) [] [] 0 TestErrors.empty
  have hbs : bs = [0xc0, 0x02] := by
    have h2 : WriteVarInt IntType.u32 320 [] = some [0xc0, 0x02] := by decide
    have h3 : WriteVarInt IntType.u32 ((320 : Nat) : Int) [] = some ([] ++ bs) := hw
    rw [show ((320 : Nat) : Int) = 320 from rfl, h2] at h3
    simpa using h3.symm
  subst hbs
  obtain ⟨bs2, hw2, hl2, hr2⟩ := C29_Locals_roundtrip value_type_def value_type_def_wf
    (fun _ => false) 2 (by decide) (Row.mk 0x7f ValueType.I32 "i32" none)
    (by simp [value_type_def]) (Or.inl rfl) [] [] 0 TestErrors.empty
  have hbs2 : bs2 = [0x02] := by
    have h2 : WriteVarInt IntType.u32 2 [] = some [0x02] := by decide
    have h3 : WriteVarInt IntType.u32 ((2 : Nat) : Int) [] = some ([] ++ bs2) := hw2
    rw [show ((2 : Nat) : Int) = 2 from rfl, h2] at h3
    simpa using h3.symm
  subst hbs2
  exact ⟨hl, hr, hl2, hr2⟩

/-! ## Readers that report nothing when they succeed -/

theorem Tidy_TryRead {α β : Type}
    (read : SpanU8 → TestErrors → Option (ReadResult TestErrors α))
    (k : α → SpanU8 → TestErrors → Option (ReadResult TestErrors β))
    (hread : Tidy read) (hk : ∀ v, Tidy (k v)) :
    Tidy (fun data e => TryRead (read data e) k) := by
  intro data e
  obtain ⟨r, hr, hcs, he⟩ := hread data e
  obtain ⟨rv, rd, re⟩ := r
  cases rv with
  | none =>
    refine ⟨ReadResult.mk none rd re, ?_, hcs, fun h => absurd rfl h⟩
    simp only [hr, TryRead]
  | some v =>
    have hre : re = e := he (by simp)
    subst hre
    obtain ⟨r2, hr2, hcs2, he2⟩ := hk v rd re
    refine ⟨r2, ?_, hcs2, he2⟩
    simp only [hr, TryRead, hr2]

theorem Tidy_TryReadContext {α : Type} (desc : String)
    (read : SpanU8 → TestErrors → Option (ReadResult TestErrors α)) (hread : Tidy read) :
    Tidy (TryReadContext TestErrors.sink desc read) := by
  intro data e
  obtain ⟨r, hr, hcs, he⟩ := hread data (TestErrors.sink.PushContext data desc e)
  refine ⟨ReadResult.mk r.value r.data (TestErrors.sink.PopContext r.errors), ?_, ?_, ?_⟩
  · simp only [TryReadContext, hr]
  · simp [TestErrors.sink, TestErrors.PopContext, TestErrors.PushContext] at hcs ⊢
    simp [hcs]
  · intro hv
    simp only at hv
    simp only [he hv, pop_push]

theorem Tidy_pure {α : Type} (v : α) :
    Tidy (fun data (e : TestErrors) => some (ReadResult.mk (some v) data e)) := by
  intro data e
  exact ⟨_, rfl, rfl, fun _ => rfl⟩

theorem Tidy_ReadVarInt (T : IntType) (desc : String) :
    Tidy (fun data e => ReadVarInt TestErrors.sink T data e desc) := by
  intro data e
  obtain ⟨r, hr, hcase⟩ := ReadVarInt_outcome T data e desc
  refine ⟨r, hr, ?_, ?_⟩
  · rcases hcase with ⟨_, _, he⟩ | ⟨_, _, he⟩
    · rw [he]
    · rw [he]
  · intro hv
    rcases hcase with ⟨_, _, he⟩ | ⟨hn, _⟩
    · exact he
    · exact absurd hn hv

theorem Tidy_ReadU8 : Tidy (fun data e => some (ReadU8 TestErrors.sink data e)) := by
  intro data e
  obtain ⟨pos, bs⟩ := data
  cases bs with
  | nil => exact ⟨_, rfl, rfl, fun h => absurd rfl h⟩
  | cons b tl => exact ⟨_, rfl, rfl, fun _ => rfl⟩

theorem Tidy_ReadBytes (N : Nat) :
    Tidy (fun data e => some (ReadBytes TestErrors.sink data N e)) := by
  intro data e
  by_cases h : data.size < N
  · refine ⟨ReadResult.mk none data (TestErrors.sink.OnError data
      ("Unable to read " ++ toString N ++ " bytes") e), ?_, rfl, fun hv => absurd rfl hv⟩
    simp only [ReadBytes, if_pos h]
  · refine ⟨ReadResult.mk (some (SpanU8.mk data.pos (data.bytes.take N)))
      (SpanU8.mk (data.pos + N) (data.bytes.drop N)) e, ?_, rfl, fun _ => rfl⟩
    simp only [ReadBytes, if_neg h]

theorem Tidy_ReadEnum {N : Type} (kind : String) (decode : U8 → Option N) :
    Tidy (fun data e => some (ReadEnum TestErrors.sink kind decode data e)) := by
  intro data e
  obtain ⟨pos, bs⟩ := data
  cases bs with
  | nil =>
    refine ⟨_, rfl, ?_, fun hv => ?_⟩
    · simp only [ReadEnum, ReadU8, pop_onError_push]
    · simp only [ReadEnum, ReadU8] at hv
      exact absurd rfl hv
  | cons b tl =>
    cases hd : decode b with
    | none =>
      refine ⟨_, rfl, ?_, fun hv => ?_⟩
      · simp only [ReadEnum, ReadU8, hd, pop_onError_push]
      · simp only [ReadEnum, ReadU8, hd] at hv
        exact absurd rfl hv
    | some x =>
      refine ⟨_, rfl, ?_, fun _ => ?_⟩
      · simp only [ReadEnum, ReadU8, hd, pop_push]
      · simp only [ReadEnum, ReadU8, hd, pop_push]

theorem ReadCount_eq_TryRead {σ : Type} (E : Errors σ) (data : SpanU8) (e : σ) :
    ReadCount E data e =
      TryRead (ReadVarInt E IntType.u32 data e "index")
        (fun count data errors =>
          if count.toNat > data.size then
            some (ReadResult.mk none data (E.OnError data
              ("Count is longer than the data length: " ++ toString count.toNat ++ " > " ++
                toString data.size) errors))
          else some (ReadResult.mk (some count.toNat) data errors)) := by
  unfold ReadCount TryRead
  cases ReadVarInt E IntType.u32 data e "index" with
  | none => rfl
  | some r =>
    obtain ⟨rv, rd, re⟩ := r
    cases rv <;> rfl

theorem Tidy_ReadCount : Tidy (ReadCount TestErrors.sink) := by
  have h : ReadCount TestErrors.sink = fun data e =>
      TryRead (ReadVarInt TestErrors.sink IntType.u32 data e "index")
        (fun count data errors =>
          if count.toNat > data.size then
            some (ReadResult.mk none data (TestErrors.sink.OnError data
              ("Count is longer than the data length: " ++ toString count.toNat ++ " > " ++
                toString data.size) errors))
          else some (ReadResult.mk (some count.toNat) data errors)) := by
    funext data e
    exact ReadCount_eq_TryRead TestErrors.sink data e
  rw [h]
  refine Tidy_TryRead _ _ (Tidy_ReadVarInt IntType.u32 "index") ?_
  intro v data e
  by_cases hlong : v.toNat > data.size
  · refine ⟨ReadResult.mk none data (TestErrors.sink.OnError data
      ("Count is longer than the data length: " ++ toString v.toNat ++ " > " ++
        toString data.size) e), ?_, rfl, fun hv => absurd rfl hv⟩
    simp only [if_pos hlong]
  · refine ⟨ReadResult.mk (some v.toNat) data e, ?_, rfl, fun _ => rfl⟩
    simp only [if_neg hlong]

theorem Tidy_ReadVectorLoop {α : Type}
    (read : SpanU8 → TestErrors → Option (ReadResult TestErrors α)) (hread : Tidy read) :
    ∀ (n : Nat) (acc : List α), Tidy (ReadVectorLoop read n acc) := by
  intro n
  induction n with
  | zero => intro acc data e; exact ⟨_, rfl, rfl, fun _ => rfl⟩
  | succ k ih =>
    intro acc data e
    obtain ⟨r, hr, hcs, he⟩ := hread data e
    obtain ⟨rv, rd, re⟩ := r
    cases rv with
    | none =>
      refine ⟨ReadResult.mk none rd re, ?_, hcs, fun hv => absurd rfl hv⟩
      simp only [ReadVectorLoop, hr]
    | some v =>
      have hre : re = e := he (by simp)
      subst hre
      obtain ⟨r2, hr2, hcs2, he2⟩ := ih (acc ++ [v]) rd re
      refine ⟨r2, ?_, hcs2, he2⟩
      simp only [ReadVectorLoop, hr, hr2]

theorem ReadVector_eq_TryReadContext {σ α : Type} (E : Errors σ)
    (read : SpanU8 → σ → Option (ReadResult σ α)) (data : SpanU8) (e : σ) (desc : String) :
    ReadVector E read data e desc =
      TryReadContext E desc
        (fun data errors =>
          TryRead (ReadCount E data errors)
            (fun len data errors => ReadVectorLoop read len [] data errors))
        data e := by
  unfold ReadVector TryReadContext TryRead
  beta_reduce
  cases ReadCount E data (E.PushContext data desc e) with
  | none => rfl
  | some r =>
    obtain ⟨rv, rd, re⟩ := r
    cases rv with
    | none => rfl
    | some len =>
      dsimp only
      cases ReadVectorLoop read len [] rd re <;> rfl

theorem Tidy_ReadVector {α : Type}
    (read : SpanU8 → TestErrors → Option (ReadResult TestErrors α)) (hread : Tidy read)
    (desc : String) :
    Tidy (fun data e => ReadVector TestErrors.sink read data e desc) := by
  have h : (fun data e => ReadVector TestErrors.sink read data e desc) =
      TryReadContext TestErrors.sink desc
        (fun data errors =>
          TryRead (ReadCount TestErrors.sink data errors)
            (fun len data errors => ReadVectorLoop read len [] data errors)) := by
    funext data e
    exact ReadVector_eq_TryReadContext TestErrors.sink read data e desc
  rw [h]
  exact Tidy_TryReadContext desc _
    (Tidy_TryRead _ _ Tidy_ReadCount (fun len => Tidy_ReadVectorLoop read hread len []))

theorem Tidy_ReadReserved : Tidy (ReadReserved TestErrors.sink) := by
  refine Tidy_TryReadContext "reserved" _ (Tidy_TryRead _ _ Tidy_ReadU8 ?_)
  intro v data e
  by_cases h : v.val ≠ 0
  · refine ⟨ReadResult.mk none data (TestErrors.sink.OnError data
      ("Expected reserved byte 0, got " ++ toString v.val) e), ?_, rfl,
      fun hv => absurd rfl hv⟩
    simp only [if_pos h]
  · refine ⟨ReadResult.mk (some v) data e, ?_, rfl, fun _ => rfl⟩
    simp only [if_neg h]

theorem Tidy_ReadIndexImmediate :
    Tidy (fun data e => TryRead (ReadIndex TestErrors.sink data e)
      (fun index data errors =>
        some (ReadResult.mk (some (Immediate.index index.toNat)) data errors))) :=
  Tidy_TryRead _ _ (Tidy_ReadVarInt IntType.u32 "index") (fun _ => Tidy_pure _)

theorem Tidy_ReadReservedImmediate :
    Tidy (fun data e => TryRead (ReadReserved TestErrors.sink data e)
      (fun reserved data errors =>
        some (ReadResult.mk (some (Immediate.reserved reserved)) data errors))) :=
  Tidy_TryRead _ _ Tidy_ReadReserved (fun _ => Tidy_pure _)

theorem Tidy_ReadMemArg : Tidy (ReadMemArg TestErrors.sink) :=
  Tidy_TryRead _ _ (Tidy_TryReadContext "align log2" _ (Tidy_ReadVarInt IntType.u32 "u32"))
    (fun _ => Tidy_TryRead _ _
      (Tidy_TryReadContext "offset" _ (Tidy_ReadVarInt IntType.u32 "u32"))
      (fun _ => Tidy_pure _))

theorem Tidy_ReadFloat (N : Nat) (desc : String) : Tidy (ReadFloat TestErrors.sink N desc) :=
  Tidy_TryReadContext desc _ (Tidy_TryRead _ _ (Tidy_ReadBytes N) (fun _ => Tidy_pure _))

theorem Tidy_ReadCallIndirectImmediate : Tidy (ReadCallIndirectImmediate TestErrors.sink) :=
  Tidy_TryReadContext "call_indirect" _
    (Tidy_TryRead _ _ (Tidy_ReadVarInt IntType.u32 "index")
      (fun _ => Tidy_TryRead _ _ Tidy_ReadReserved (fun _ => Tidy_pure _)))

theorem Tidy_ReadBrTableImmediate : Tidy (ReadBrTableImmediate TestErrors.sink) :=
  Tidy_TryReadContext "br_table" _
    (Tidy_TryRead _ _ (Tidy_ReadVector _ (Tidy_ReadVarInt IntType.u32 "index") "targets")
      (fun _ => Tidy_TryRead _ _
        (Tidy_TryReadContext "default target" _ (Tidy_ReadVarInt IntType.u32 "index"))
        (fun _ => Tidy_pure _)))

theorem Tidy_ReadBrOnExnImmediate : Tidy (ReadBrOnExnImmediate TestErrors.sink) :=
  Tidy_TryReadContext "br_on_exn" _
    (Tidy_TryRead _ _ (Tidy_ReadVarInt IntType.u32 "index")
      (fun _ => Tidy_TryRead _ _ (Tidy_ReadVarInt IntType.u32 "index")
        (fun _ => Tidy_pure _)))

theorem Tidy_ReadInitImmediate : Tidy (ReadInitImmediate TestErrors.sink) :=
  Tidy_TryReadContext "init immediate" _
    (Tidy_TryRead _ _ (Tidy_ReadVarInt IntType.u32 "index")
      (fun _ => Tidy_TryRead _ _ Tidy_ReadReserved (fun _ => Tidy_pure _)))

theorem Tidy_ReadCopyImmediate : Tidy (ReadCopyImmediate TestErrors.sink) :=
  Tidy_TryReadContext "copy immediate" _
    (Tidy_TryRead _ _ Tidy_ReadReserved
      (fun _ => Tidy_TryRead _ _ Tidy_ReadReserved (fun _ => Tidy_pure _)))

theorem Tidy_ReadImmediate (features : Features Feature) (opcode : Opcode) :
    Tidy (ReadImmediate TestErrors.sink features opcode) := by
  intro data e
  cases opcode with
  | mk val =>
    unfold ReadImmediate
    dsimp only
    by_cases h0 : val.val = 0x02 ∨ val.val = 0x03 ∨ val.val = 0x04 ∨ val.val = 0x06
    · rw [if_pos h0]
      exact (Tidy_TryRead _ _ (Tidy_ReadEnum _ _) (fun _ => Tidy_pure _)) data e
    rw [if_neg h0]
    by_cases h1 : val.val = 0x08 ∨ val.val = 0x0c ∨ val.val = 0x0d ∨ val.val = 0x10 ∨
        val.val = 0x12 ∨ (0x20 ≤ val.val ∧ val.val ≤ 0x26) ∨ val.val = 0xd2
    · rw [if_pos h1]
      exact Tidy_ReadIndexImmediate data e
    rw [if_neg h1]
    by_cases h2 : val.val = 0x0a
    · rw [if_pos h2]
      exact Tidy_ReadBrOnExnImmediate data e
    rw [if_neg h2]
    by_cases h3 : val.val = 0x0e
    · rw [if_pos h3]
      exact Tidy_ReadBrTableImmediate data e
    rw [if_neg h3]
    by_cases h4 : val.val = 0x11 ∨ val.val = 0x13
    · rw [if_pos h4]
      exact Tidy_ReadCallIndirectImmediate data e
    rw [if_neg h4]
    by_cases h5 : 0x28 ≤ val.val ∧ val.val ≤ 0x3e
    · rw [if_pos h5]
      exact Tidy_ReadMemArg data e
    rw [if_neg h5]
    by_cases h6 : val.val = 0x3f ∨ val.val = 0x40
    · rw [if_pos h6]
      exact Tidy_ReadReservedImmediate data e
    rw [if_neg h6]
    by_cases h7 : val.val = 0x41
    · rw [if_pos h7]
      exact (Tidy_TryRead _ _ (Tidy_ReadVarInt IntType.s32 "s32") (fun _ => Tidy_pure _))
        data e
    rw [if_neg h7]
    by_cases h8 : val.val = 0x42
    · rw [if_pos h8]
      exact (Tidy_TryRead _ _ (Tidy_ReadVarInt IntType.s64 "s64") (fun _ => Tidy_pure _))
        data e
    rw [if_neg h8]
    by_cases h9 : val.val = 0x43
    · rw [if_pos h9]
      exact (Tidy_TryRead _ _ (Tidy_ReadFloat 4 "f32") (fun _ => Tidy_pure _)) data e
    rw [if_neg h9]
    by_cases h10 : val.val = 0x44
    · rw [if_pos h10]
      exact (Tidy_TryRead _ _ (Tidy_ReadFloat 8 "f64") (fun _ => Tidy_pure _)) data e
    rw [if_neg h10]
    exact (Tidy_pure _) data e
  | wide lead code =>
    unfold ReadImmediate
    dsimp only
    by_cases hc : lead = 0xfc
    · rw [if_pos hc]
      by_cases h0 : code = 0x08 ∨ code = 0x0c
      · rw [if_pos h0]
        exact Tidy_ReadInitImmediate data e
      rw [if_neg h0]
      by_cases h1 : code = 0x09 ∨ code = 0x0d ∨ (0x0f ≤ code ∧ code ≤ 0x11)
      · rw [if_pos h1]
        exact Tidy_ReadIndexImmediate data e
      rw [if_neg h1]
      by_cases h2 : code = 0x0a ∨ code = 0x0e
      · rw [if_pos h2]
        exact Tidy_ReadCopyImmediate data e
      rw [if_neg h2]
      by_cases h3 : code = 0x0b
      · rw [if_pos h3]
        exact Tidy_ReadReservedImmediate data e
      rw [if_neg h3]
      exact (Tidy_pure _) data e
    rw [if_neg hc]
    by_cases hd : lead = 0xfd
    · rw [if_pos hd]
      by_cases h0 : code ≤ 0x01
      · rw [if_pos h0]
        exact Tidy_ReadMemArg data e
      rw [if_neg h0]
      by_cases h1 : code = 0x02
      · rw [if_pos h1]
        exact (Tidy_TryRead _ _ (Tidy_ReadFloat 16 "v128") (fun _ => Tidy_pure _)) data e
      rw [if_neg h1]
      by_cases h2 : code = 0x03
      · rw [if_pos h2]
        exact (Tidy_TryRead _ _ (Tidy_ReadFloat 16 "shuffle immediate")
          (fun _ => Tidy_pure _)) data e
      rw [if_neg h2]
      by_cases h3 : (0x05 ≤ code ∧ code ≤ 0x07) ∨ (0x09 ≤ code ∧ code ≤ 0x0b) ∨
          (0x0d ≤ code ∧ code ≤ 0x0e) ∨ (0x10 ≤ code ∧ code ≤ 0x11) ∨
          (0x13 ≤ code ∧ code ≤ 0x14) ∨ (0x16 ≤ code ∧ code ≤ 0x17)
      · rw [if_pos h3]
        exact (Tidy_TryRead _ _ Tidy_ReadU8 (fun _ => Tidy_pure _)) data e
      rw [if_neg h3]
      exact (Tidy_pure _) data e
    rw [if_neg hd]
    by_cases he : lead = 0xfe
    · rw [if_pos he]
      by_cases h0 : code = 0x03
      · rw [if_pos h0]
        exact Tidy_ReadReservedImmediate data e
      rw [if_neg h0]
      exact Tidy_ReadMemArg data e
    rw [if_neg he]
    exact (Tidy_pure _) data e

theorem Tidy_ReadOpcode (features : Features Feature) :
    Tidy (ReadOpcode TestErrors.sink features) := by
  refine Tidy_TryReadContext "opcode" _ (Tidy_TryRead _ _ Tidy_ReadU8 ?_)
  intro val
  by_cases hp : encoding.Opcode.IsPrefixByte val features = true
  · simp only [hp, if_true]
    refine Tidy_TryRead _ _ (Tidy_ReadVarInt IntType.u32 "u32") ?_
    intro code data e
    cases hd : encoding.Opcode.DecodePrefixed val code.toNat features with
    | none => exact ⟨_, rfl, rfl, fun h => absurd rfl h⟩
    | some op => exact ⟨_, rfl, rfl, fun _ => rfl⟩
  · simp only [hp, Bool.false_eq_true, if_false]
    intro data e
    cases hd : encoding.Opcode.Decode val features with
    | none => exact ⟨_, rfl, rfl, fun h => absurd rfl h⟩
    | some op => exact ⟨_, rfl, rfl, fun _ => rfl⟩

theorem Tidy_ReadInstruction (features : Features Feature) :
    Tidy (ReadInstruction TestErrors.sink features) :=
  Tidy_TryRead _ _ (Tidy_ReadOpcode features)
    (fun opcode => Tidy_TryRead _ _ (Tidy_ReadImmediate features opcode) (fun _ => Tidy_pure _))

/-! ## Constant expressions -/

theorem ReadOpcode_known (features : Features Feature) (b : U8) (op : Opcode)
    (hp : encoding.Opcode.IsPrefixByte b features = false)
    (hdec : encoding.Opcode.Decode b features = some op) (pos : Nat) (tl : List U8)
    (e : TestErrors) :
    ReadOpcode TestErrors.sink features (SpanU8.mk pos (b :: tl)) e =
      some (ReadResult.mk (some op) (SpanU8.mk (pos + 1) tl) e) := by
  simp only [ReadOpcode, TryReadContext, ReadU8, TryRead, hp, Bool.false_eq_true, if_false,
    hdec, pop_push]

theorem ReadOpcode_unknown (features : Features Feature) (b : U8)
    (hp : encoding.Opcode.IsPrefixByte b features = false)
    (hdec : encoding.Opcode.Decode b features = none) (pos : Nat) (tl : List U8)
    (e : TestErrors) :
    ReadOpcode TestErrors.sink features (SpanU8.mk pos (b :: tl)) e =
      some (ReadResult.mk none (SpanU8.mk (pos + 1) tl)
        (TestErrors.mk e.context_stack
          (e.errors ++ [e.context_stack ++
            [ErrorContext.mk (SpanU8.mk pos (b :: tl)) "opcode",
              ErrorContext.mk (SpanU8.mk (pos + 1) tl)
                ("Unknown opcode: " ++ toString b.val)]]))) := by
  simp only [ReadOpcode, TryReadContext, ReadU8, TryRead, hp, Bool.false_eq_true, if_false,
    hdec, pop_onError_push]

theorem ReadOpcode_nil (features : Features Feature) (pos : Nat) (e : TestErrors) :
    ReadOpcode TestErrors.sink features (SpanU8.mk pos []) e =
      some (ReadResult.mk none (SpanU8.mk pos [])
        (TestErrors.mk e.context_stack
          (e.errors ++ [e.context_stack ++
            [ErrorContext.mk (SpanU8.mk pos []) "opcode",
              ErrorContext.mk (SpanU8.mk pos []) "Unable to read u8"]]))) := by
  simp only [ReadOpcode, TryReadContext, ReadU8, TryRead, pop_onError_push]

theorem ReadInstruction_known (features : Features Feature) (b : U8) (op : Opcode)
    (hp : encoding.Opcode.IsPrefixByte b features = false)
    (hdec : encoding.Opcode.Decode b features = some op) (pos : Nat) (tl : List U8)
    (e : TestErrors) :
    ReadInstruction TestErrors.sink features (SpanU8.mk pos (b :: tl)) e =
      TryRead (ReadImmediate TestErrors.sink features op (SpanU8.mk (pos + 1) tl) e)
        (fun immediate data errors =>
          some (ReadResult.mk (some (Instruction.mk op immediate)) data errors)) := by
  simp only [ReadInstruction, ReadOpcode_known features b op hp hdec, TryRead]

theorem ReadInstruction_unknown (features : Features Feature) (b : U8)
    (hp : encoding.Opcode.IsPrefixByte b features = false)
    (hdec : encoding.Opcode.Decode b features = none) (pos : Nat) (tl : List U8)
    (e : TestErrors) :
    ReadInstruction TestErrors.sink features (SpanU8.mk pos (b :: tl)) e =
      some (ReadResult.mk none (SpanU8.mk (pos + 1) tl)
        (TestErrors.mk e.context_stack
          (e.errors ++ [e.context_stack ++
            [ErrorContext.mk (SpanU8.mk pos (b :: tl)) "opcode",
              ErrorContext.mk (SpanU8.mk (pos + 1) tl)
                ("Unknown opcode: " ++ toString b.val)]]))) := by
  simp only [ReadInstruction, ReadOpcode_unknown features b hp hdec, TryRead]

theorem ReadFloat_append (N : Nat) (desc : String) (bs rest : List U8) (h : bs.length = N)
    (pos : Nat) (e : TestErrors) :
    ReadFloat TestErrors.sink N desc (SpanU8.mk pos (bs ++ rest)) e =
      some (ReadResult.mk (some bs) (SpanU8.mk (pos + bs.length) rest) e) := by
  subst h
  simp only [ReadFloat, TryReadContext, ReadBytes_append, TryRead, pop_push]

theorem ReadImmediate_I32Const {σ : Type} (E : Errors σ) (features : Features Feature)
    (data : SpanU8) (e : σ) :
    ReadImmediate E features (Opcode.mk 0x41) data e =
      TryRead (ReadS32 E data e)
        (fun value data errors =>
          some (ReadResult.mk (some (Immediate.s32 value)) data errors)) := rfl

theorem ReadImmediate_I64Const {σ : Type} (E : Errors σ) (features : Features Feature)
    (data : SpanU8) (e : σ) :
    ReadImmediate E features (Opcode.mk 0x42) data e =
      TryRead (ReadS64 E data e)
        (fun value data errors =>
          some (ReadResult.mk (some (Immediate.s64 value)) data errors)) := rfl

theorem ReadImmediate_F32Const {σ : Type} (E : Errors σ) (features : Features Feature)
    (data : SpanU8) (e : σ) :
    ReadImmediate E features (Opcode.mk 0x43) data e =
      TryRead (ReadFloat E 4 "f32" data e)
        (fun value data errors =>
          some (ReadResult.mk (some (Immediate.f32 value)) data errors)) := rfl

theorem ReadImmediate_F64Const {σ : Type} (E : Errors σ) (features : Features Feature)
    (data : SpanU8) (e : σ) :
    ReadImmediate E features (Opcode.mk 0x44) data e =
      TryRead (ReadFloat E 8 "f64" data e)
        (fun value data errors =>
          some (ReadResult.mk (some (Immediate.f64 value)) data errors)) := rfl

theorem ReadImmediate_GetGlobal {σ : Type} (E : Errors σ) (features : Features Feature)
    (data : SpanU8) (e : σ) :
    ReadImmediate E features (Opcode.mk 0x23) data e =
      TryRead (ReadIndex E data e)
        (fun index data errors =>
          some (ReadResult.mk (some (Immediate.index index.toNat)) data errors)) := rfl

theorem ReadImmediate_End {σ : Type} (E : Errors σ) (features : Features Feature)
    (data : SpanU8) (e : σ) :
    ReadImmediate E features (Opcode.mk 0x0b) data e =
      some (ReadResult.mk (some Immediate.empty) data e) := rfl

theorem ReadImmediate_RefNull {σ : Type} (E : Errors σ) (features : Features Feature)
    (data : SpanU8) (e : σ) :
    ReadImmediate E features (Opcode.mk 0xd0) data e =
      some (ReadResult.mk (some Immediate.empty) data e) := rfl

theorem ReadImmediate_RefFunc {σ : Type} (E : Errors σ) (features : Features Feature)
    (data : SpanU8) (e : σ) :
    ReadImmediate E features (Opcode.mk 0xd2) data e =
      TryRead (ReadIndex E data e)
        (fun index data errors =>
          some (ReadResult.mk (some (Immediate.index index.toNat)) data errors)) := rfl

theorem Decode_RefNull (features : Features Feature) :
    encoding.Opcode.Decode 0xd0 features =
      if features Feature.reference_types then some (Opcode.mk 0xd0) else none := rfl

theorem Decode_RefFunc (features : Features Feature) :
    encoding.Opcode.Decode 0xd2 features =
      if features Feature.reference_types then some (Opcode.mk 0xd2) else none := rfl

/-- The read of an instruction a constant expression may begin with. -/
theorem ReadInstruction_constant (features : Features Feature) (op : U8) (imm : List U8)
    (h : PermittedInstruction features op imm) :
    ∃ immediate, ∀ (pos : Nat) (rest : List U8) (e : TestErrors),
      ReadInstruction TestErrors.sink features (SpanU8.mk pos (op :: (imm ++ rest))) e =
        some (ReadResult.mk (some (Instruction.mk (Opcode.mk op) immediate))
          (SpanU8.mk (pos + 1 + imm.length) rest) e) := by
  rcases h with (⟨hop, v, hv⟩ | ⟨hop, v, hv⟩ | ⟨hop, hlen⟩ | ⟨hop, hlen⟩ |
    ⟨hop, v, hv⟩) | ⟨hf, ⟨hop, himm⟩ | ⟨hop, v, hv⟩⟩
  · subst hop
    refine ⟨Immediate.s32 v, fun pos rest e => ?_⟩
    rw [ReadInstruction_known features 0x41 (Opcode.mk 0x41) rfl rfl]
    simp only [ReadImmediate_I32Const, ReadS32, ReadVarInt_accepted IntType.s32 imm v hv, TryRead]
  · subst hop
    refine ⟨Immediate.s64 v, fun pos rest e => ?_⟩
    rw [ReadInstruction_known features 0x42 (Opcode.mk 0x42) rfl rfl]
    simp only [ReadImmediate_I64Const, ReadS64, ReadVarInt_accepted IntType.s64 imm v hv, TryRead]
  · subst hop
    refine ⟨Immediate.f32 imm, fun pos rest e => ?_⟩
    rw [ReadInstruction_known features 0x43 (Opcode.mk 0x43) rfl rfl]
    simp only [ReadImmediate_F32Const, ReadFloat_append 4 "f32" imm rest hlen, TryRead]
  · subst hop
    refine ⟨Immediate.f64 imm, fun pos rest e => ?_⟩
    rw [ReadInstruction_known features 0x44 (Opcode.mk 0x44) rfl rfl]
    simp only [ReadImmediate_F64Const, ReadFloat_append 8 "f64" imm rest hlen, TryRead]
  · subst hop
    refine ⟨Immediate.index v.toNat, fun pos rest e => ?_⟩
    rw [ReadInstruction_known features 0x23 (Opcode.mk 0x23) rfl rfl]
    simp only [ReadImmediate_GetGlobal, ReadIndex, ReadVarInt_accepted IntType.u32 imm v hv,
      TryRead]
  · subst hop himm
    refine ⟨Immediate.empty, fun pos rest e => ?_⟩
    rw [ReadInstruction_known features 0xd0 (Opcode.mk 0xd0) rfl
      (by rw [Decode_RefNull, hf]; rfl)]
    simp only [ReadImmediate_RefNull, TryRead, List.nil_append, List.length_nil, Nat.add_zero]
  · subst hop
    refine ⟨Immediate.index v.toNat, fun pos rest e => ?_⟩
    rw [ReadInstruction_known features 0xd2 (Opcode.mk 0xd2) rfl
      (by rw [Decode_RefFunc, hf]; rfl)]
    simp only [ReadImmediate_RefFunc, ReadIndex, ReadVarInt_accepted IntType.u32 imm v hv,
      TryRead]

theorem ReadInstruction_End (features : Features Feature) (pos : Nat) (rest : List U8)
    (e : TestErrors) :
    ReadInstruction TestErrors.sink features (SpanU8.mk pos (0x0b :: rest)) e =
      some (ReadResult.mk (some (Instruction.mk Opcode.End Immediate.empty))
        (SpanU8.mk (pos + 1) rest) e) := by
  rw [ReadInstruction_known features 0x0b Opcode.End rfl rfl]
  simp only [Opcode.End, ReadImmediate_End, TryRead]

theorem PermittedInstruction_isConstant (features : Features Feature) (op : U8)
    (imm : List U8) (h : PermittedInstruction features op imm) :
    (Opcode.mk op).isConstant features = true := by
  rcases h with (⟨hop, _⟩ | ⟨hop, _⟩ | ⟨hop, _⟩ | ⟨hop, _⟩ | ⟨hop, _⟩) |
    ⟨hf, ⟨hop, _⟩ | ⟨hop, _⟩⟩ <;> subst hop
  · simp [Opcode.isConstant, Opcode.I32Const]
  · simp [Opcode.isConstant, Opcode.I64Const]
  · simp [Opcode.isConstant, Opcode.F32Const]
  · simp [Opcode.isConstant, Opcode.F64Const]
  · simp [Opcode.isConstant, Opcode.GetGlobal]
  · simp [Opcode.isConstant, Opcode.RefNull, hf]
  · simp [Opcode.isConstant, Opcode.RefFunc, hf]

/-- A permitted instruction immediately followed by `0x0B` is read as a
constant expression: nothing is reported, the instruction and the `end` are
consumed, and the span stored is that of the bytes consumed. -/
theorem ReadConstantExpression_permitted (features : Features Feature)
    (format : Instruction → String) (op : U8) (imm : List U8)
    (h : PermittedInstruction features op imm) (rest : List U8) (pos : Nat)
    (e : TestErrors) :
    ReadConstantExpression TestErrors.sink features format
        (SpanU8.mk pos (op :: (imm ++ 0x0b :: rest))) e =
      some (ReadResult.mk
        (some (ConstantExpression.mk (SpanU8.mk pos (op :: (imm ++ [0x0b])))))
        (SpanU8.mk (pos + 1 + imm.length + 1) rest) e) := by
  obtain ⟨immediate, hread⟩ := ReadInstruction_constant features op imm h
  have hc := PermittedInstruction_isConstant features op imm h
  have htake : (op :: (imm ++ 0x0b :: rest)).take (pos + 1 + imm.length + 1 - pos) =
      op :: (imm ++ [0x0b]) := by
    have h1 : op :: (imm ++ 0x0b :: rest) = (op :: (imm ++ [0x0b])) ++ rest := by simp
    have h2 : pos + 1 + imm.length + 1 - pos = (op :: (imm ++ [0x0b])).length := by
      simp only [List.length_cons, List.length_append, List.length_nil]; omega
    rw [h1, h2, List.take_left' rfl]
  simp only [ReadConstantExpression, reduceCtorEq, if_false, hread, hc, if_true,
    ReadInstruction_End, htake]

/-- C27: for every input that is exactly one of `i32.const`, `i64.const`,
`f32.const`, `f64.const` or `get_global` with a well-formed immediate,
immediately followed by the `end` opcode `0x0B`, and then by any bytes,
`Read<ConstantExpression>` succeeds and reports nothing; it consumes the
instruction and the `end` and nothing after them, so the whole input when
nothing follows; and the span it stores is the byte range it consumed, which
starts where the input starts and ends at the byte `0x0B`, included. -/
theorem C27_ConstantExpression (features : Features Feature) (format : Instruction → String)
    (op : U8) (imm : List U8) (h : ConstantInstruction op imm) (rest : List U8) (pos : Nat)
    (e : TestErrors) :
    ReadConstantExpression TestErrors.sink features format
        (SpanU8.mk pos (op :: (imm ++ 0x0b :: rest))) e =
      some (ReadResult.mk
        (some (ConstantExpression.mk (SpanU8.mk pos (op :: (imm ++ [0x0b])))))
        (SpanU8.mk (pos + 1 + imm.length + 1) rest) e) := by
  obtain ⟨immediate, hread⟩ := ReadInstruction_constant features op imm (Or.inl h)
  have hc := PermittedInstruction_isConstant features op imm (Or.inl h)
  have htake : (op :: (imm ++ 0x0b :: rest)).take (pos + 1 + imm.length + 1 - pos) =
      op :: (imm ++ [0x0b]) := by
    have h1 : op :: (imm ++ 0x0b :: rest) = (op :: (imm ++ [0x0b])) ++ rest := by simp
    have h2 : pos + 1 + imm.length + 1 - pos = (op :: (imm ++ [0x0b])).length := by
      simp only [List.length_cons, List.length_append, List.length_nil]; omega
    rw [h1, h2, List.take_left' rfl]
  simp only [ReadConstantExpression, reduceCtorEq, if_false, hread, hc, if_true,
    ReadInstruction_End, htake]

/-- Witness of C27: the five inputs of the test `ReadConstantExpression`. -/
theorem C27_ConstantExpression_witness :
    ConstantInstruction 0x41 [0x00] ∧
    ReadConstantExpression TestErrors.sink (fun _ => false) (fun _ => "")
        (SpanU8.mk 0 [0x41, 0x00, 0x0b]) TestErrors.empty =
      some (ReadResult.mk (some (ConstantExpression.mk (SpanU8.mk 0 [0x41, 0x00, 0x0b])))
        (SpanU8.mk 3 []) TestErrors.empty) ∧
    ReadConstantExpression TestErrors.sink (fun _ => false) (fun _ => "")
        (SpanU8.mk 0 [0x42, 0x80, 0x80, 0x80, 0x80, 0x80, 0x01, 0x0b]) TestErrors.empty =
      some (ReadResult.mk
        (some (ConstantExpression.mk
          (SpanU8.mk 0 [0x42, 0x80, 0x80, 0x80, 0x80, 0x80, 0x01, 0x0b])))
        (SpanU8.mk 8 []) TestErrors.empty) ∧
    ReadConstantExpression TestErrors.sink (fun _ => false) (fun _ => "")
        (SpanU8.mk 0 [0x43, 0x00, 0x00, 0x00, 0x00, 0x0b]) TestErrors.empty =
      some (ReadResult.mk
        (some (ConstantExpression.mk (SpanU8.mk 0 [0x43, 0x00, 0x00, 0x00, 0x00, 0x0b])))
        (SpanU8.mk 6 []) TestErrors.empty) ∧
    ReadConstantExpression TestErrors.sink (fun _ => false) (fun _ => "")
        (SpanU8.mk 0 [0x44, 0x00, 0x00, 0x00, 0x00, 0x00, 0x00, 0x00, 0x00, 0x0b])
        TestErrors.empty =
      some (ReadResult.mk
        (some (ConstantExpression.mk
          (SpanU8.mk 0 [0x44, 0x00, 0x00, 0x00, 0x00, 0x00, 0x00, 0x00, 0x00, 0x0b])))
        (SpanU8.mk 10 []) TestErrors.empty) ∧
    ReadConstantExpression TestErrors.sink (fun _ => false) (fun _ => "")
        (SpanU8.mk 0 [0x23, 0x00, 0x0b]) TestErrors.empty =
      some (ReadResult.mk (some (ConstantExpression.mk (SpanU8.mk 0 [0x23, 0x00, 0x0b])))
        (SpanU8.mk 3 []) TestErrors.empty) :=
  ⟨Or.inl ⟨rfl, 0, by decide⟩,
    C27_ConstantExpression (fun _ => false) (fun _ => "") 0x41 [0x00]
      (Or.inl ⟨rfl, 0, by decide⟩) [] 0 TestErrors.empty,
    C27_ConstantExpression (fun _ => false) (fun _ => "") 0x42
      [0x80, 0x80, 0x80, 0x80, 0x80, 0x01]
      (Or.inr (Or.inl ⟨rfl, 34359738368, by decide⟩)) [] 0 TestErrors.empty,
    C27_ConstantExpression (fun _ => false) (fun _ => "") 0x43 [0x00, 0x00, 0x00, 0x00]
      (Or.inr (Or.inr (Or.inl ⟨rfl, rfl⟩))) [] 0 TestErrors.empty,
    C27_ConstantExpression (fun _ => false) (fun _ => "") 0x44
      [0x00, 0x00, 0x00, 0x00, 0x00, 0x00, 0x00, 0x00]
      (Or.inr (Or.inr (Or.inr (Or.inl ⟨rfl, rfl⟩)))) [] 0 TestErrors.empty,
    C27_ConstantExpression (fun _ => false) (fun _ => "") 0x23 [0x00]
      (Or.inr (Or.inr (Or.inr (Or.inr ⟨rfl, 0, by decide⟩)))) [] 0 TestErrors.empty⟩

/-! ## What a successful read of a constant expression has read -/

theorem TryRead_some_inv {σ α β : Type} (r : Option (ReadResult σ α))
    (k : α → SpanU8 → σ → Option (ReadResult σ β)) (x : β) (d : SpanU8) (e : σ)
    (h : TryRead r k = some (ReadResult.mk (some x) d e)) :
    ∃ v d1 e1, r = some (ReadResult.mk (some v) d1 e1) ∧
      k v d1 e1 = some (ReadResult.mk (some x) d e) := by
  cases r with
  | none => simp [TryRead] at h
  | some r1 =>
    obtain ⟨rv, rd, re⟩ := r1
    cases rv with
    | none => simp [TryRead] at h
    | some v => exact ⟨v, rd, re, rfl, h⟩

/-- The bytes that a successful read of a LEB128 number consumed are an
encoding that `ReadVarInt<T>` accepts in full, with the value read. -/
theorem ReadVarInt_success_shape {σ : Type} (E : Errors σ) (T : IntType) (pos : Nat)
    (bs : List U8) (e : σ) (desc : String) (v : Int) (d : SpanU8) (e1 : σ)
    (h : ReadVarInt E T (SpanU8.mk pos bs) e desc = some (ReadResult.mk (some v) d e1)) :
    ∃ cs, bs = cs ++ d.bytes ∧ d.pos = pos + cs.length ∧ AcceptsInFull T cs v := by
  rcases ReadVarInt_cases E T pos bs e desc with ⟨_, _, h1⟩ |
    ⟨cs, b, tl, hbs, hall, hq, h1⟩ | ⟨cs, b, tl, _, _, _, _, h1⟩
  · rw [h1] at h; simp at h
  · rw [h1] at h
    simp only [Option.some.injEq, ReadResult.mk.injEq] at h
    obtain ⟨hv, hd, _⟩ := h
    subst hd
    refine ⟨cs ++ [b], by simp [hbs], by simp [Nat.add_assoc], ?_⟩
    have hacc : ReadVarInt TestErrors.sink T (SpanU8.mk 0 (cs ++ [b])) TestErrors.empty "" =
        some (ReadResult.mk (some v) (SpanU8.mk (0 + cs.length + 1) [])
          (TestErrors.sink.PopContext (TestErrors.sink.PushContext
            (SpanU8.mk 0 (cs ++ [b])) "" TestErrors.empty))) := by
      rw [← hv]
      rcases hq with ⟨hl, hok⟩ | ⟨hl, hb⟩
      · exact ReadVarInt_last_ok TestErrors.sink T cs b [] 0 TestErrors.empty "" hall hl hok
      · exact ReadVarInt_short TestErrors.sink T cs b [] 0 TestErrors.empty "" hall hl hb
    unfold AcceptsInFull
    rw [hacc]
    exact ⟨rfl, rfl⟩
  · rw [h1] at h; simp at h

theorem ReadFloat_success_shape (N : Nat) (desc : String) (pos : Nat) (bs : List U8)
    (e : TestErrors) (v : List U8) (d : SpanU8) (e1 : TestErrors)
    (h : ReadFloat TestErrors.sink N desc (SpanU8.mk pos bs) e =
      some (ReadResult.mk (some v) d e1)) :
    bs = v ++ d.bytes ∧ d.pos = pos + v.length ∧ v.length = N := by
  by_cases hlt : (SpanU8.mk pos bs).size < N
  · simp [ReadFloat, TryReadContext, ReadBytes, if_pos hlt, TryRead] at h
  · simp only [ReadFloat, TryReadContext, ReadBytes, if_neg hlt, TryRead, Option.some.injEq,
      ReadResult.mk.injEq] at h
    obtain ⟨hv, hd, _⟩ := h
    simp only [SpanU8.size] at hlt
    have hlen : (bs.take N).length = N := by simp [List.length_take]; omega
    subst hv hd
    exact ⟨by simp, by simp only [hlen], hlen⟩

theorem Decode_eq_mk (features : Features Feature) (b : U8) (op : Opcode)
    (h : encoding.Opcode.Decode b features = some op) : op = Opcode.mk b := by
  unfold encoding.Opcode.Decode at h
  split_ifs at h <;> simp only [Option.some.injEq, reduceCtorEq] at h <;> exact h.symm

theorem DecodePrefixed_eq_wide (features : Features Feature) (lead : U8) (code : Nat)
    (op : Opcode) (h : encoding.Opcode.DecodePrefixed lead code features = some op) :
    op = Opcode.wide lead code := by
  unfold encoding.Opcode.DecodePrefixed at h
  split_ifs at h <;> simp only [Option.some.injEq, reduceCtorEq] at h <;> exact h.symm

theorem TryReadContext_some_inv {σ α : Type} (E : Errors σ) (desc : String)
    (read : SpanU8 → σ → Option (ReadResult σ α)) (data : SpanU8) (e : σ) (r : ReadResult σ α)
    (h : TryReadContext E desc read data e = some r) :
    ∃ e0, read data (E.PushContext data desc e) = some (ReadResult.mk r.value r.data e0) := by
  unfold TryReadContext at h
  cases hr : read data (E.PushContext data desc e) with
  | none => rw [hr] at h; simp at h
  | some r0 =>
    rw [hr] at h
    simp only [Option.some.injEq] at h
    subst h
    exact ⟨r0.errors, rfl⟩

/-- An opcode that was read is the one-byte opcode of the first byte, which
alone was consumed, or a two-byte opcode that the first byte leads. -/
theorem ReadOpcode_inv (features : Features Feature) (pos : Nat) (bs : List U8)
    (e : TestErrors) (op : Opcode) (d : SpanU8) (e1 : TestErrors)
    (h : ReadOpcode TestErrors.sink features (SpanU8.mk pos bs) e =
      some (ReadResult.mk (some op) d e1)) :
    ∃ b tl, bs = b :: tl ∧
      ((op = Opcode.mk b ∧ d = SpanU8.mk (pos + 1) tl) ∨ ∃ code, op = Opcode.wide b code) := by
  cases bs with
  | nil => rw [ReadOpcode_nil] at h; simp at h
  | cons b tl =>
    refine ⟨b, tl, rfl, ?_⟩
    obtain ⟨e0, h0⟩ := TryReadContext_some_inv _ _ _ _ _ _ h
    simp only [ReadU8, TryRead] at h0
    by_cases hp : encoding.Opcode.IsPrefixByte b features = true
    · right
      rw [if_pos hp] at h0
      obtain ⟨code, d1, e2, _, hk⟩ := TryRead_some_inv _ _ _ _ _ h0
      cases hd : encoding.Opcode.DecodePrefixed b code.toNat features with
      | none => rw [hd] at hk; simp at hk
      | some op1 =>
        rw [hd] at hk
        simp only [Option.some.injEq, ReadResult.mk.injEq] at hk
        rw [← hk.1]
        exact ⟨code.toNat, DecodePrefixed_eq_wide features b code.toNat op1 hd⟩
    · left
      rw [if_neg hp] at h0
      cases hd : encoding.Opcode.Decode b features with
      | none => rw [hd] at h0; simp at h0
      | some op1 =>
        rw [hd] at h0
        simp only [Option.some.injEq, ReadResult.mk.injEq] at h0
        rw [← h0.1, ← h0.2.1]
        exact ⟨Decode_eq_mk features b op1 hd, rfl⟩

/-- The first byte of an instruction that was read is its opcode or leads it,
and the immediate of a one-byte opcode was read from the bytes after it. -/
theorem ReadInstruction_inv (features : Features Feature) (pos : Nat) (bs : List U8)
    (e : TestErrors) (instr : Instruction) (d : SpanU8) (e1 : TestErrors)
    (h : ReadInstruction TestErrors.sink features (SpanU8.mk pos bs) e =
      some (ReadResult.mk (some instr) d e1)) :
    ∃ b tl, bs = b :: tl ∧
      ((instr.opcode = Opcode.mk b ∧
        ReadImmediate TestErrors.sink features (Opcode.mk b) (SpanU8.mk (pos + 1) tl) e =
          some (ReadResult.mk (some instr.immediate) d e1)) ∨
        ∃ code, instr.opcode = Opcode.wide b code) := by
  obtain ⟨op, d0, e0, hop, hk⟩ := TryRead_some_inv _ _ _ _ _ h
  obtain ⟨imm, d1, e2, himm, hk2⟩ := TryRead_some_inv _ _ _ _ _ hk
  simp only [Option.some.injEq, ReadResult.mk.injEq] at hk2
  obtain ⟨hi, hd1, he2⟩ := hk2
  subst hi hd1 he2
  obtain ⟨r, hr, _, he⟩ := Tidy_ReadOpcode features (SpanU8.mk pos bs) e
  rw [hop] at hr
  simp only [Option.some.injEq] at hr
  subst hr
  have hee : e0 = e := he (by simp)
  subst hee
  obtain ⟨b, tl, hbs, hcase⟩ := ReadOpcode_inv features pos bs e0 op d0 e0 hop
  refine ⟨b, tl, hbs, ?_⟩
  rcases hcase with ⟨hmk, hd0⟩ | ⟨code, hw⟩
  · subst hmk hd0
    exact Or.inl ⟨rfl, himm⟩
  · exact Or.inr ⟨code, hw⟩

theorem isConstant_cases (features : Features Feature) (b : U8)
    (h : (Opcode.mk b).isConstant features = true) :
    b = 0x41 ∨ b = 0x42 ∨ b = 0x43 ∨ b = 0x44 ∨ b = 0x23 ∨
      ((b = 0xd0 ∨ b = 0xd2) ∧ features Feature.reference_types = true) := by
  simpa [Opcode.isConstant, Opcode.I32Const, Opcode.I64Const, Opcode.F32Const,
    Opcode.F64Const, Opcode.GetGlobal, Opcode.RefNull, Opcode.RefFunc] using h

theorem isConstant_wide (features : Features Feature) (lead : U8) (code : Nat) :
    (Opcode.wide lead code).isConstant features = false := by
  simp [Opcode.isConstant, Opcode.I32Const, Opcode.I64Const, Opcode.F32Const,
    Opcode.F64Const, Opcode.GetGlobal, Opcode.RefNull, Opcode.RefFunc]

/-- An instruction that was read and that a constant expression may begin
with is an opcode byte and a well-formed immediate. -/
theorem ReadInstruction_constant_inv (features : Features Feature) (pos : Nat) (bs : List U8)
    (e : TestErrors) (instr : Instruction) (d : SpanU8) (e1 : TestErrors)
    (h : ReadInstruction TestErrors.sink features (SpanU8.mk pos bs) e =
      some (ReadResult.mk (some instr) d e1))
    (hc : instr.opcode.isConstant features = true) :
    ∃ op imm, PermittedInstruction features op imm ∧ bs = op :: (imm ++ d.bytes) ∧
      d.pos = pos + 1 + imm.length := by
  obtain ⟨b, tl, hbs, hcase⟩ := ReadInstruction_inv features pos bs e instr d e1 h
  rcases hcase with ⟨hop, himm⟩ | ⟨code, hw⟩
  swap
  · rw [hw, isConstant_wide] at hc
    simp at hc
  rw [hop] at hc
  subst hbs
  rcases isConstant_cases features b hc with hb | hb | hb | hb | hb | ⟨hb | hb, hf⟩ <;>
    subst hb
  · rw [ReadImmediate_I32Const] at himm
    obtain ⟨v, d1, e2, hr, hk⟩ := TryRead_some_inv _ _ _ _ _ himm
    simp only [Option.some.injEq, ReadResult.mk.injEq] at hk
    obtain ⟨_, hd1, _⟩ := hk
    subst hd1
    obtain ⟨cs, hcs, hpos, hacc⟩ := ReadVarInt_success_shape _ _ _ _ _ _ _ _ _ hr
    exact ⟨0x41, cs, Or.inl (Or.inl ⟨rfl, v, hacc⟩), by rw [hcs], hpos⟩
  · rw [ReadImmediate_I64Const] at himm
    obtain ⟨v, d1, e2, hr, hk⟩ := TryRead_some_inv _ _ _ _ _ himm
    simp only [Option.some.injEq, ReadResult.mk.injEq] at hk
    obtain ⟨_, hd1, _⟩ := hk
    subst hd1
    obtain ⟨cs, hcs, hpos, hacc⟩ := ReadVarInt_success_shape _ _ _ _ _ _ _ _ _ hr
    exact ⟨0x42, cs, Or.inl (Or.inr (Or.inl ⟨rfl, v, hacc⟩)), by rw [hcs], hpos⟩
  · rw [ReadImmediate_F32Const] at himm
    obtain ⟨v, d1, e2, hr, hk⟩ := TryRead_some_inv _ _ _ _ _ himm
    simp only [Option.some.injEq, ReadResult.mk.injEq] at hk
    obtain ⟨_, hd1, _⟩ := hk
    subst hd1
    obtain ⟨hcs, hpos, hlen⟩ := ReadFloat_success_shape _ _ _ _ _ _ _ _ hr
    exact ⟨0x43, v, Or.inl (Or.inr (Or.inr (Or.inl ⟨rfl, hlen⟩))), by rw [hcs], hpos⟩
  · rw [ReadImmediate_F64Const] at himm
    obtain ⟨v, d1, e2, hr, hk⟩ := TryRead_some_inv _ _ _ _ _ himm
    simp only [Option.some.injEq, ReadResult.mk.injEq] at hk
    obtain ⟨_, hd1, _⟩ := hk
    subst hd1
    obtain ⟨hcs, hpos, hlen⟩ := ReadFloat_success_shape _ _ _ _ _ _ _ _ hr
    exact ⟨0x44, v, Or.inl (Or.inr (Or.inr (Or.inr (Or.inl ⟨rfl, hlen⟩)))), by rw [hcs],
      hpos⟩
  · rw [ReadImmediate_GetGlobal] at himm
    obtain ⟨v, d1, e2, hr, hk⟩ := TryRead_some_inv _ _ _ _ _ himm
    simp only [Option.some.injEq, ReadResult.mk.injEq] at hk
    obtain ⟨_, hd1, _⟩ := hk
    subst hd1
    obtain ⟨cs, hcs, hpos, hacc⟩ := ReadVarInt_success_shape _ _ _ _ _ _ _ _ _ hr
    exact ⟨0x23, cs, Or.inl (Or.inr (Or.inr (Or.inr (Or.inr ⟨rfl, v, hacc⟩)))),
      by rw [hcs], hpos⟩
  · rw [ReadImmediate_RefNull] at himm
    simp only [Option.some.injEq, ReadResult.mk.injEq] at himm
    obtain ⟨_, hd, _⟩ := himm
    subst hd
    exact ⟨0xd0, [], Or.inr ⟨hf, Or.inl ⟨rfl, rfl⟩⟩, rfl, rfl⟩
  · rw [ReadImmediate_RefFunc] at himm
    obtain ⟨v, d1, e2, hr, hk⟩ := TryRead_some_inv _ _ _ _ _ himm
    simp only [Option.some.injEq, ReadResult.mk.injEq] at hk
    obtain ⟨_, hd1, _⟩ := hk
    subst hd1
    obtain ⟨cs, hcs, hpos, hacc⟩ := ReadVarInt_success_shape _ _ _ _ _ _ _ _ _ hr
    exact ⟨0xd2, cs, Or.inr ⟨hf, Or.inr ⟨rfl, v, hacc⟩⟩, by rw [hcs], hpos⟩

/-- The first byte of an `end` instruction that was read is `0x0B`, and the
read consumed that byte alone. -/
theorem ReadInstruction_End_inv (features : Features Feature) (pos : Nat) (bs : List U8)
    (e : TestErrors) (instr : Instruction) (d : SpanU8) (e1 : TestErrors)
    (h : ReadInstruction TestErrors.sink features (SpanU8.mk pos bs) e =
      some (ReadResult.mk (some instr) d e1))
    (hend : instr.opcode = Opcode.End) :
    bs = 0x0b :: d.bytes ∧ d.pos = pos + 1 := by
  obtain ⟨b, tl, hbs, hcase⟩ := ReadInstruction_inv features pos bs e instr d e1 h
  rcases hcase with ⟨hop, himm⟩ | ⟨code, hw⟩
  swap
  · rw [hend] at hw
    simp [Opcode.End] at hw
  rw [hend] at hop
  have hb : b = 0x0b := by
    simp only [Opcode.End, Opcode.mk.injEq] at hop
    exact hop.symm
  subst hb
  rw [ReadImmediate_End] at himm
  simp only [Option.some.injEq, ReadResult.mk.injEq] at himm
  obtain ⟨_, hd, _⟩ := himm
  subst hd
  exact ⟨hbs, rfl⟩

theorem onError_eq (p : SpanU8) (m : String) (e : TestErrors) :
    TestErrors.sink.OnError p m e =
      TestErrors.mk e.context_stack (e.errors ++ [e.context_stack ++ [ErrorContext.mk p m]]) :=
  rfl

/-- A read of a constant expression always returns, with the context stack
of entry, and when it returns a value the input begins with an instruction a
constant expression may begin with, immediately followed by `0x0B`. -/
theorem ReadConstantExpression_total (features : Features Feature)
    (format : Instruction → String) (data : SpanU8) (e : TestErrors) :
    ∃ r, ReadConstantExpression TestErrors.sink features format data e = some r ∧
      r.errors.context_stack = e.context_stack ∧
      (r.value ≠ none →
        ∃ op imm rest, PermittedInstruction features op imm ∧
          data.bytes = op :: (imm ++ 0x0b :: rest)) := by
  obtain ⟨pos, bs⟩ := data
  by_cases hnil : bs = []
  · subst hnil
    refine ⟨ReadResult.mk none (SpanU8.mk pos [])
        (TestErrors.sink.OnError (SpanU8.mk pos []) "Unexpected end of constant expression"
          e),
        ?_, ?_, fun hv => absurd rfl hv⟩
    · simp only [ReadConstantExpression, if_true]
    · rfl
  obtain ⟨r1, hr1, hcs1, he1⟩ := Tidy_ReadInstruction features (SpanU8.mk pos bs) e
  obtain ⟨v1, d1, e1⟩ := r1
  cases v1 with
  | none =>
    refine ⟨ReadResult.mk none (SpanU8.mk pos bs)
        (TestErrors.sink.OnError (SpanU8.mk pos bs) "Unexpected end of constant expression"
          e1),
        ?_, ?_, fun hv => absurd rfl hv⟩
    · simp only [ReadConstantExpression, hnil, if_false, hr1]
    · exact hcs1
  | some instr =>
    have hee : e1 = e := he1 (by simp)
    subst hee
    by_cases hc : instr.opcode.isConstant features = true
    · obtain ⟨op, imm, hci, hbs, hpos⟩ :=
        ReadInstruction_constant_inv features pos bs e1 instr d1 e1 hr1 hc
      by_cases hnil2 : d1.bytes = []
      · refine ⟨ReadResult.mk none (SpanU8.mk pos bs)
          (TestErrors.sink.OnError (SpanU8.mk pos bs) "Expected end instruction"
            e1),
          ?_, ?_, fun hv => absurd rfl hv⟩
        · simp only [ReadConstantExpression, hnil, if_false, hr1, hc, if_true, hnil2]
        · rfl
      obtain ⟨r2, hr2, hcs2, he2⟩ := Tidy_ReadInstruction features d1 e1
      obtain ⟨v2, d2, e2⟩ := r2
      cases v2 with
      | none =>
        refine ⟨ReadResult.mk none (SpanU8.mk pos bs)
            (TestErrors.sink.OnError (SpanU8.mk pos bs) "Expected end instruction"
              e2),
            ?_, ?_, fun hv => absurd rfl hv⟩
        · simp only [ReadConstantExpression, hnil, if_false, hr1, hc, if_true, hnil2, hr2]
        · exact hcs2
      | some instr2 =>
        by_cases hend : instr2.opcode = Opcode.End
        · refine ⟨ReadResult.mk (some (ConstantExpression.mk
            (SpanU8.mk pos (bs.take (d2.pos - pos))))) d2 e2, ?_, hcs2, fun _ => ?_⟩
          · simp only [ReadConstantExpression, hnil, if_false, hr1, hc, if_true, hnil2, hr2,
              hend]
          · obtain ⟨d1pos, d1bytes⟩ := d1
            obtain ⟨hb2, _⟩ :=
              ReadInstruction_End_inv features d1pos d1bytes e1 instr2 d2 e2 hr2 hend
            refine ⟨op, imm, d2.bytes, hci, ?_⟩
            simp only at hbs hb2
            rw [hbs, hb2]
        · refine ⟨ReadResult.mk none (SpanU8.mk pos bs)
            (TestErrors.sink.OnError (SpanU8.mk pos bs) "Expected end instruction"
              e2),
            ?_, ?_, fun hv => absurd rfl hv⟩
          · simp only [ReadConstantExpression, hnil, if_false, hr1, hc, if_true, hnil2, hr2,
              hend]
          · exact hcs2
    · refine ⟨ReadResult.mk none (SpanU8.mk pos bs)
        (TestErrors.sink.OnError (SpanU8.mk pos bs)
          ("Illegal instruction in constant expression: " ++ format instr) e1),
        ?_, ?_, fun hv => absurd rfl hv⟩
      · simp only [ReadConstantExpression, hnil, if_false, hr1, hc, Bool.false_eq_true]
      · rfl

theorem ReadInstruction_ne_nil (features : Features Feature) (data : SpanU8) (e : TestErrors)
    (instr : Instruction) (d1 : SpanU8) (e1 : TestErrors)
    (h : ReadInstruction TestErrors.sink features data e =
      some (ReadResult.mk (some instr) d1 e1)) :
    data.bytes ≠ [] ∧ e1 = e := by
  obtain ⟨pos, bs⟩ := data
  obtain ⟨b, tl, hbs, _⟩ := ReadInstruction_inv features pos bs e instr d1 e1 h
  obtain ⟨r, hr, _, he⟩ := Tidy_ReadInstruction features (SpanU8.mk pos bs) e
  rw [h] at hr
  simp only [Option.some.injEq] at hr
  subst hr
  exact ⟨by simp [hbs], he (by simp)⟩

/-- A first instruction that is read and is none of those a constant
expression may begin with is reported as illegal. -/
theorem ReadConstantExpression_illegal (features : Features Feature)
    (format : Instruction → String) (data : SpanU8) (e : TestErrors) (instr : Instruction)
    (d1 : SpanU8) (e1 : TestErrors)
    (h : ReadInstruction TestErrors.sink features data e =
      some (ReadResult.mk (some instr) d1 e1))
    (hc : instr.opcode.isConstant features = false) :
    ReadConstantExpression TestErrors.sink features format data e =
      some (ReadResult.mk none data
        (TestErrors.mk e.context_stack
          (e.errors ++ [e.context_stack ++
            [ErrorContext.mk data
              ("Illegal instruction in constant expression: " ++ format instr)]]))) := by
  obtain ⟨hne, he⟩ := ReadInstruction_ne_nil features data e instr d1 e1 h
  subst he
  simp only [ReadConstantExpression, hne, if_false, h, hc, Bool.false_eq_true, onError_eq]

/-- An instruction a constant expression may begin with, followed by the end
of the input, is reported as lacking its `end`. -/
theorem ReadConstantExpression_no_end (features : Features Feature)
    (format : Instruction → String) (op : U8) (imm : List U8)
    (h : PermittedInstruction features op imm) (pos : Nat) (e : TestErrors) :
    ReadConstantExpression TestErrors.sink features format (SpanU8.mk pos (op :: imm)) e =
      some (ReadResult.mk none (SpanU8.mk pos (op :: imm))
        (TestErrors.mk e.context_stack
          (e.errors ++ [e.context_stack ++
            [ErrorContext.mk (SpanU8.mk pos (op :: imm)) "Expected end instruction"]]))) := by
  obtain ⟨immediate, hread⟩ := ReadInstruction_constant features op imm h
  have hr := hread pos [] e
  rw [List.append_nil] at hr
  have hc := PermittedInstruction_isConstant features op imm h
  simp only [ReadConstantExpression, reduceCtorEq, if_false, hr, hc, if_true, onError_eq]

/-- An instruction a constant expression may begin with, followed by an
instruction that is read and is not `end`, is reported as lacking its
`end`. -/
theorem ReadConstantExpression_not_end (features : Features Feature)
    (format : Instruction → String) (op : U8) (imm : List U8)
    (h : PermittedInstruction features op imm) (pos : Nat) (tl : List U8) (e : TestErrors)
    (instr2 : Instruction) (d2 : SpanU8) (e2 : TestErrors)
    (h2 : ReadInstruction TestErrors.sink features (SpanU8.mk (pos + 1 + imm.length) tl) e =
      some (ReadResult.mk (some instr2) d2 e2))
    (hend : instr2.opcode ≠ Opcode.End) :
    ReadConstantExpression TestErrors.sink features format
        (SpanU8.mk pos (op :: (imm ++ tl))) e =
      some (ReadResult.mk none (SpanU8.mk pos (op :: (imm ++ tl)))
        (TestErrors.mk e.context_stack
          (e.errors ++ [e.context_stack ++
            [ErrorContext.mk (SpanU8.mk pos (op :: (imm ++ tl)))
              "Expected end instruction"]]))) := by
  obtain ⟨immediate, hread⟩ := ReadInstruction_constant features op imm h
  have hc := PermittedInstruction_isConstant features op imm h
  obtain ⟨hne, he⟩ := ReadInstruction_ne_nil features _ e instr2 d2 e2 h2
  subst he
  simp only at hne
  simp only [ReadConstantExpression, reduceCtorEq, if_false, hread, hc, if_true, hne, h2,
    hend, onError_eq]

theorem ReadImmediate_Unreachable {σ : Type} (E : Errors σ) (features : Features Feature)
    (data : SpanU8) (e : σ) :
    ReadImmediate E features (Opcode.mk 0x00) data e =
      some (ReadResult.mk (some Immediate.empty) data e) := rfl

theorem ReadImmediate_Nop {σ : Type} (E : Errors σ) (features : Features Feature)
    (data : SpanU8) (e : σ) :
    ReadImmediate E features (Opcode.mk 0x01) data e =
      some (ReadResult.mk (some Immediate.empty) data e) := rfl

/-- A read of a constant expression returns a value exactly when the input
begins with an instruction a constant expression may begin with under the
feature set, immediately followed by `0x0B`. -/
theorem ReadConstantExpression_iff (features : Features Feature)
    (format : Instruction → String) (data : SpanU8) (e : TestErrors) :
    ∃ r, ReadConstantExpression TestErrors.sink features format data e = some r ∧
      r.errors.context_stack = e.context_stack ∧
      (r.value ≠ none ↔
        ∃ op imm rest, PermittedInstruction features op imm ∧
          data.bytes = op :: (imm ++ 0x0b :: rest)) := by
  obtain ⟨r, hr, hcs, himp⟩ := ReadConstantExpression_total features format data e
  refine ⟨r, hr, hcs, himp, ?_⟩
  rintro ⟨op, imm, rest, hp, hbs⟩
  obtain ⟨pos, bs⟩ := data
  simp only at hbs
  subst hbs
  rw [ReadConstantExpression_permitted features format op imm hp rest pos e] at hr
  simp only [Option.some.injEq] at hr
  rw [← hr]
  simp

/-- C28: `Read<ConstantExpression>` returns absent for every input that does
not begin with one permitted constant instruction immediately followed by
`end`. The permitted instructions are `i32.const`, `i64.const`, `f32.const`,
`f64.const` and `get_global` and, when the feature `reference_types` is
enabled, `ref.null` and `ref.func`. For every feature set the read always
returns, with the context stack of entry, and it returns a value if and only
if the input is an opcode byte and a well-formed immediate of a permitted
instruction, then the byte `0x0B`, then the bytes it left. A first
instruction that is read and is outside the permitted set is reported, absent
being returned, as the one error "Illegal instruction in constant
expression: " followed by the formatted instruction, at the offset of entry
and with no frame added; a permitted instruction followed by the end of the
input, or by an instruction that is read and is not `end`, is reported as the
single error "Expected end instruction" at the offset of entry. With a
formatter that prints `unreachable` as "unreachable", the input `00` gives
"Illegal instruction in constant expression: unreachable", and the inputs
`41 00 01 0B` and `41 00` give "Expected end instruction", each at offset 0.
The input `D0 0B`, `ref.null` and `end`, is read when `reference_types` is
enabled, and when it is disabled it gives absent, the byte `0xD0` being then
an unknown opcode. -/
theorem C28_ConstantExpression_failure (features : Features Feature)
    (format : Instruction → String) (data : SpanU8) (e : TestErrors) :
    (∃ r, ReadConstantExpression TestErrors.sink features format data e = some r ∧
      r.errors.context_stack = e.context_stack ∧
      (r.value ≠ none ↔
        ∃ op imm rest, PermittedInstruction features op imm ∧
          data.bytes = op :: (imm ++ 0x0b :: rest))) ∧
    (∀ (instr : Instruction) (d1 : SpanU8) (e1 : TestErrors),
      ReadInstruction TestErrors.sink features data e =
        some (ReadResult.mk (some instr) d1 e1) →
      instr.opcode.isConstant features = false →
      ReadConstantExpression TestErrors.sink features format data e =
        some (ReadResult.mk none data
          (TestErrors.mk e.context_stack
            (e.errors ++ [e.context_stack ++
              [ErrorContext.mk data
                ("Illegal instruction in constant expression: " ++ format instr)]])))) ∧
    (∀ (op : U8) (imm : List U8), PermittedInstruction features op imm →
      data.bytes = op :: imm →
      ReadConstantExpression TestErrors.sink features format data e =
        some (ReadResult.mk none data
          (TestErrors.mk e.context_stack
            (e.errors ++ [e.context_stack ++
              [ErrorContext.mk data "Expected end instruction"]])))) ∧
    (∀ (op : U8) (imm tl : List U8) (instr2 : Instruction) (d2 : SpanU8) (e2 : TestErrors),
      PermittedInstruction features op imm → data.bytes = op :: (imm ++ tl) →
      ReadInstruction TestErrors.sink features (SpanU8.mk (data.pos + 1 + imm.length) tl) e =
        some (ReadResult.mk (some instr2) d2 e2) →
      instr2.opcode ≠ Opcode.End →
      ReadConstantExpression TestErrors.sink features format data e =
        some (ReadResult.mk none data
          (TestErrors.mk e.context_stack
            (e.errors ++ [e.context_stack ++
              [ErrorContext.mk data "Expected end instruction"]])))) ∧
    (format (Instruction.mk Opcode.Unreachable Immediate.empty) = "unreachable" →
      ReadConstantExpression TestErrors.sink features format (SpanU8.mk 0 [0x00])
          TestErrors.empty =
        some (ReadResult.mk none (SpanU8.mk 0 [0x00])
          (TestErrors.mk []
            [[ErrorContext.mk (SpanU8.mk 0 [0x00])
              "Illegal instruction in constant expression: unreachable"]]))) ∧
    ReadConstantExpression TestErrors.sink features format
        (SpanU8.mk 0 [0x41, 0x00, 0x01, 0x0b]) TestErrors.empty =
      some (ReadResult.mk none (SpanU8.mk 0 [0x41, 0x00, 0x01, 0x0b])
        (TestErrors.mk []
          [[ErrorContext.mk (SpanU8.mk 0 [0x41, 0x00, 0x01, 0x0b])
            "Expected end instruction"]])) ∧
    ReadConstantExpression TestErrors.sink features format (SpanU8.mk 0 [0x41, 0x00])
        TestErrors.empty =
      some (ReadResult.mk none (SpanU8.mk 0 [0x41, 0x00])
        (TestErrors.mk []
          [[ErrorContext.mk (SpanU8.mk 0 [0x41, 0x00]) "Expected end instruction"]])) ∧
    (features Feature.reference_types = true →
      ReadConstantExpression TestErrors.sink features format (SpanU8.mk 0 [0xd0, 0x0b])
          TestErrors.empty =
        some (ReadResult.mk (some (ConstantExpression.mk (SpanU8.mk 0 [0xd0, 0x0b])))
          (SpanU8.mk 2 []) TestErrors.empty)) ∧
    (features Feature.reference_types = false →
      ReadConstantExpression TestErrors.sink features format (SpanU8.mk 0 [0xd0, 0x0b])
          TestErrors.empty =
        some (ReadResult.mk none (SpanU8.mk 0 [0xd0, 0x0b])
          (TestErrors.mk []
            [[ErrorContext.mk (SpanU8.mk 0 [0xd0, 0x0b]) "opcode",
                ErrorContext.mk (SpanU8.mk 1 [0x0b]) "Unknown opcode: 208"],
              [ErrorContext.mk (SpanU8.mk 0 [0xd0, 0x0b])
                "Unexpected end of constant expression"]]))) := by
  have hi32 : PermittedInstruction features 0x41 [0x00] :=
    Or.inl (Or.inl ⟨rfl, 0, by decide⟩)
  refine ⟨ReadConstantExpression_iff features format data e,
    fun instr d1 e1 h hc =>
      ReadConstantExpression_illegal features format data e instr d1 e1 h hc,
    ?_, ?_, ?_, ?_, ?_, ?_, ?_⟩
  · intro op imm h hbs
    obtain ⟨pos, bs⟩ := data
    simp only at hbs
    subst hbs
    exact ReadConstantExpression_no_end features format op imm h pos e
  · intro op imm tl instr2 d2 e2 h hbs h2 hend
    obtain ⟨pos, bs⟩ := data
    simp only at hbs h2
    subst hbs
    exact ReadConstantExpression_not_end features format op imm h pos tl e instr2 d2 e2 h2 hend
  · intro hfmt
    have h0 : ReadInstruction TestErrors.sink features (SpanU8.mk 0 [0x00]) TestErrors.empty =
        some (ReadResult.mk (some (Instruction.mk Opcode.Unreachable Immediate.empty))
          (SpanU8.mk 1 []) TestErrors.empty) := by
      rw [ReadInstruction_known features 0x00 Opcode.Unreachable rfl rfl]
      simp only [Opcode.Unreachable, ReadImmediate_Unreachable, TryRead]
    rw [ReadConstantExpression_illegal features format _ _ _ _ _ h0
      (by simp [Opcode.isConstant, Opcode.Unreachable, Opcode.I32Const, Opcode.I64Const,
        Opcode.F32Const, Opcode.F64Const, Opcode.GetGlobal, Opcode.RefNull,
        Opcode.RefFunc]), hfmt]
    rfl
  · have h1 : ReadInstruction TestErrors.sink features (SpanU8.mk (0 + 1 + [(0x00 : U8)].length)
        [0x01, 0x0b]) TestErrors.empty =
        some (ReadResult.mk (some (Instruction.mk Opcode.Nop Immediate.empty))
          (SpanU8.mk 3 [0x0b]) TestErrors.empty) := by
      rw [ReadInstruction_known features 0x01 Opcode.Nop rfl rfl]
      simp only [Opcode.Nop, ReadImmediate_Nop, TryRead]
      rfl
    exact ReadConstantExpression_not_end features format 0x41 [0x00] hi32 0 [0x01, 0x0b]
      TestErrors.empty _ _ _ h1 (by decide)
  · exact ReadConstantExpression_no_end features format 0x41 [0x00] hi32 0 TestErrors.empty
  · intro hf
    exact ReadConstantExpression_permitted features format 0xd0 []
      (Or.inr ⟨hf, Or.inl ⟨rfl, rfl⟩⟩) [] 0 TestErrors.empty
  · intro hf
    have hdec : encoding.Opcode.Decode 0xd0 features = none := by
      rw [Decode_RefNull, hf]
      rfl
    simp only [ReadConstantExpression, reduceCtorEq, if_false,
      ReadInstruction_unknown features 0xd0 rfl hdec, onError_eq]
    rfl

/-- Witness of C28: with every feature disabled and a formatter that prints
`unreachable` as "unreachable", the inputs `00`, `41 00 01 0B` and `41 00` of
the tests give one error each, at offset 0 and with no frame, the input `06`
gives no value, and the input `D0 0B` gives no value, `0xD0` being unknown;
with `reference_types` alone enabled the input `D0 0B` is read. -/
theorem C28_ConstantExpression_failure_witness :
    ReadConstantExpression TestErrors.sink (fun _ => false)
        (fun i => if i.opcode = Opcode.Unreachable then "unreachable" else "")
        (SpanU8.mk 0 [0x00]) TestErrors.empty =
      some (ReadResult.mk none (SpanU8.mk 0 [0x00])
        (TestErrors.mk []
          [[ErrorContext.mk (SpanU8.mk 0 [0x00])
            "Illegal instruction in constant expression: unreachable"]])) ∧
    ReadConstantExpression TestErrors.sink (fun _ => false)
        (fun i => if i.opcode = Opcode.Unreachable then "unreachable" else "")
        (SpanU8.mk 0 [0x41, 0x00, 0x01, 0x0b]) TestErrors.empty =
      some (ReadResult.mk none (SpanU8.mk 0 [0x41, 0x00, 0x01, 0x0b])
        (TestErrors.mk []
          [[ErrorContext.mk (SpanU8.mk 0 [0x41, 0x00, 0x01, 0x0b])
            "Expected end instruction"]])) ∧
    ReadConstantExpression TestErrors.sink (fun _ => false)
        (fun i => if i.opcode = Opcode.Unreachable then "unreachable" else "")
        (SpanU8.mk 0 [0x41, 0x00]) TestErrors.empty =
      some (ReadResult.mk none (SpanU8.mk 0 [0x41, 0x00])
        (TestErrors.mk []
          [[ErrorContext.mk (SpanU8.mk 0 [0x41, 0x00]) "Expected end instruction"]])) ∧
    (ReadConstantExpression TestErrors.sink (fun _ => false)
        (fun i => if i.opcode = Opcode.Unreachable then "unreachable" else "")
        (SpanU8.mk 0 [0x06]) TestErrors.empty).map (fun r => r.value) = some none ∧
    ReadConstantExpression TestErrors.sink (fun _ => false) (fun _ => "")
        (SpanU8.mk 0 [0xd0, 0x0b]) TestErrors.empty =
      some (ReadResult.mk none (SpanU8.mk 0 [0xd0, 0x0b])
        (TestErrors.mk []
          [[ErrorContext.mk (SpanU8.mk 0 [0xd0, 0x0b]) "opcode",
              ErrorContext.mk (SpanU8.mk 1 [0x0b]) "Unknown opcode: 208"],
            [ErrorContext.mk (SpanU8.mk 0 [0xd0, 0x0b])
              "Unexpected end of constant expression"]])) ∧
    ReadConstantExpression TestErrors.sink (fun f => decide (f = Feature.reference_types))
        (fun _ => "") (SpanU8.mk 0 [0xd0, 0x0b]) TestErrors.empty =
      some (ReadResult.mk (some (ConstantExpression.mk (SpanU8.mk 0 [0xd0, 0x0b])))
        (SpanU8.mk 2 []) TestErrors.empty) :=
  ⟨(C28_ConstantExpression_failure (fun _ => false)
      (fun i => if i.opcode = Opcode.Unreachable then "unreachable" else "")
      (SpanU8.mk 0 [0x00]) TestErrors.empty).2.2.2.2.1 (by decide),
    (C28_ConstantExpression_failure (fun _ => false)
      (fun i => if i.opcode = Opcode.Unreachable then "unreachable" else "")
      (SpanU8.mk 0 [0x00]) TestErrors.empty).2.2.2.2.2.1,
    (C28_ConstantExpression_failure (fun _ => false)
      (fun i => if i.opcode = Opcode.Unreachable then "unreachable" else "")
      (SpanU8.mk 0 [0x41, 0x00]) TestErrors.empty).2.2.1 0x41 [0x00]
      (Or.inl (Or.inl ⟨rfl, 0, by decide⟩)) rfl,
    by decide,
    (C28_ConstantExpression_failure (fun _ => false) (fun _ => "")
      (SpanU8.mk 0 [0xd0, 0x0b]) TestErrors.empty).2.2.2.2.2.2.2.2 rfl,
    (C28_ConstantExpression_failure (fun f => decide (f = Feature.reference_types))
      (fun _ => "") (SpanU8.mk 0 [0xd0, 0x0b]) TestErrors.empty).2.2.2.2.2.2.2.1
      (by decide)⟩

/-! ## Errors and results of `ReadVarInt` -/

/-- C32: `ReadVarInt<T>` returns absent if and only if an error was reported
to the sink during the call. The call always returns; a successful call makes
no call of `OnError`, only the push and the pop of its guard, and a failing
call makes exactly one, between the push and the pop. Over the recording sink
a successful call leaves the sink as it found it and a failing call adds
exactly one error to the list, so the result is absent exactly when the list
of the errors has changed. -/
theorem C32_absent_iff_error {σ : Type} (E : Errors σ) (T : IntType) (data : SpanU8) (s : σ)
    (e : TestErrors) (desc : String) :
    (∃ r, ReadVarInt E T data s desc = some r ∧
      (r.value ≠ none → r.errors = E.PopContext (E.PushContext data desc s)) ∧
      (r.value = none → ∃ (p : SpanU8) (m : String),
        r.errors = E.PopContext (E.OnError p m (E.PushContext data desc s)))) ∧
    (∃ r, ReadVarInt TestErrors.sink T data e desc = some r ∧
      (r.value = none ↔ r.errors.errors ≠ e.errors) ∧
      (r.value ≠ none → r.errors = e) ∧
      (r.value = none → ∃ err, r.errors.errors = e.errors ++ [err] ∧
        r.errors.context_stack = e.context_stack)) := by
  constructor
  · obtain ⟨pos, bs⟩ := data
    rcases ReadVarInt_cases E T pos bs s desc with ⟨_, _, h1⟩ |
      ⟨cs, b, tl, _, _, _, h1⟩ | ⟨cs, b, tl, _, _, _, _, h1⟩
    · exact ⟨_, h1, fun h => absurd rfl h, fun _ => ⟨_, _, rfl⟩⟩
    · exact ⟨_, h1, fun _ => rfl, fun h => by simp at h⟩
    · exact ⟨_, h1, fun h => absurd rfl h, fun _ => ⟨_, _, rfl⟩⟩
  · obtain ⟨r, hr, hcase⟩ := ReadVarInt_outcome T data e desc
    refine ⟨r, hr, ?_, ?_, ?_⟩
    · rcases hcase with ⟨v, hv, he⟩ | ⟨hv, msg, he⟩
      · rw [hv, he]
        simp
      · rw [hv, he]
        simp
    · intro hv
      rcases hcase with ⟨_, _, he⟩ | ⟨hn, _⟩
      · exact he
      · exact absurd hn hv
    · intro hv
      rcases hcase with ⟨v, hv2, _⟩ | ⟨_, msg, he⟩
      · rw [hv2] at hv
        simp at hv
      · exact ⟨_, by rw [he], by rw [he]⟩

/-- C35: `ReadVarInt<T>` depends only on the bytes it consumes. If it
succeeds on the input `b`, consuming all of `b`, with the value `v`, then for
every byte string `s` it succeeds on `b` followed by `s` with the same value
`v`, whatever the offset, the sink and the description: it leaves exactly `s`
in the cursor, makes no call of `OnError`, and leaves the recording sink as
it found it. -/
theorem C35_consumed_bytes_only {σ τ : Type} (E : Errors σ) (E2 : Errors τ) (T : IntType)
    (b : List U8) (pos0 : Nat) (e0 : σ) (desc0 : String) (v : Int) (d : SpanU8) (e1 : σ)
    (h : ReadVarInt E T (SpanU8.mk pos0 b) e0 desc0 = some (ReadResult.mk (some v) d e1))
    (hd : d.bytes = []) (s : List U8) (pos : Nat) (e2 : τ) (e : TestErrors) (desc : String) :
    ReadVarInt E2 T (SpanU8.mk pos (b ++ s)) e2 desc =
      some (ReadResult.mk (some v) (SpanU8.mk (pos + b.length) s)
        (E2.PopContext (E2.PushContext (SpanU8.mk pos (b ++ s)) desc e2))) ∧
    ReadVarInt TestErrors.sink T (SpanU8.mk pos (b ++ s)) e desc =
      some (ReadResult.mk (some v) (SpanU8.mk (pos + b.length) s) e) := by
  refine ⟨ReadVarInt_extend E E2 T b pos0 e0 desc0 v d e1 h hd pos s e2 desc, ?_⟩
  rw [ReadVarInt_extend E TestErrors.sink T b pos0 e0 desc0 v d e1 h hd pos s e desc,
    pop_push]

/-- Witness of C35: `C0 63` read as an `s32` gives -3648, and so does `C0 63`
followed by `FF 01`, which are left in the cursor. -/
theorem C35_consumed_bytes_only_witness :
    ReadVarInt TestErrors.sink IntType.s32 (SpanU8.mk 0 [0xc0, 0x63]) TestErrors.empty "s32" =
      some (ReadResult.mk (some (-3648)) (SpanU8.mk 2 []) TestErrors.empty) ∧
    ReadVarInt TestErrors.sink IntType.s32 (SpanU8.mk 0 [0xc0, 0x63, 0xff, 0x01])
        TestErrors.empty "s32" =
      some (ReadResult.mk (some (-3648)) (SpanU8.mk 2 [0xff, 0x01]) TestErrors.empty) :=
  ⟨by decide,
    (C35_consumed_bytes_only TestErrors.sink ErrorsNop IntType.s32 [0xc0, 0x63] 0
      TestErrors.empty "s32" (-3648) (SpanU8.mk 2 []) TestErrors.empty (by decide) rfl
      [0xff, 0x01] 0 () TestErrors.empty "s32").2⟩

/-! ## Monotonicity of `Decode` -/

/-- C36: `encoding::BlockType::Decode` is monotone in the feature set,
whatever the rows of `block_type.def` are. If the feature set `g` enables
every feature that `f` enables and `Decode(b, f) = e`, then `Decode(b, g) =
e`; so a byte that `g` does not decode is not decoded by `f` either, and a
byte that both decode has the same meaning under both. -/
theorem C36_Decode_monotone {N F : Type} (table : List (Row N F)) (b : U8)
    (f g : Features F) (hfg : ∀ x, f x = true → g x = true) :
    (∀ e, encoding.BlockType.Decode table b f = some e →
      encoding.BlockType.Decode table b g = some e) ∧
    (encoding.BlockType.Decode table b g = none →
      encoding.BlockType.Decode table b f = none) ∧
    (∀ e1 e2, encoding.BlockType.Decode table b f = some e1 →
      encoding.BlockType.Decode table b g = some e2 → e1 = e2) := by
  have hmono : ∀ e, encoding.BlockType.Decode table b f = some e →
      encoding.BlockType.Decode table b g = some e := by
    intro e h
    unfold encoding.BlockType.Decode at h ⊢
    cases hrow : table.find? (fun row => decide (row.val = b)) with
    | none => rw [hrow] at h; simp at h
    | some row =>
      rw [hrow] at h
      simp only at h ⊢
      cases hfeat : row.feature with
      | none => rw [hfeat] at h; exact h
      | some feature =>
        rw [hfeat] at h
        simp only at h ⊢
        by_cases hf : f feature = true
        · rw [if_pos hf] at h
          rw [if_pos (hfg feature hf)]
          exact h
        · rw [if_neg hf] at h
          simp at h
  refine ⟨hmono, ?_, ?_⟩
  · intro hg
    cases hf : encoding.BlockType.Decode table b f with
    | none => rfl
    | some e => rw [hmono e hf] at hg; simp at hg
  · intro e1 e2 h1 h2
    rw [hmono e1 h1] at h2
    exact Option.some.inj h2

/-- Witness of C36: with the rows the tests and the specification give, the
byte `0x7B` is not decoded when no feature is enabled and is `V128` when
`simd` is; the byte `0x7F` is `I32` under both. -/
theorem C36_Decode_monotone_witness :
    encoding.BlockType.Decode block_type_def 0x7b (fun _ => false) = none ∧
    encoding.BlockType.Decode block_type_def 0x7b (fun x => decide (x = Feature.simd)) =
      some BlockType.V128 ∧
    encoding.BlockType.Decode block_type_def 0x7f (fun x => decide (x = Feature.simd)) =
      some BlockType.I32 :=
  ⟨rfl, rfl,
    (C36_Decode_monotone block_type_def 0x7f (fun _ => false)
      (fun x => decide (x = Feature.simd)) (fun _ h => by simp at h)).1 BlockType.I32 rfl⟩

/-! ## The sink does not influence decoding -/

/-- Two reads, over two sinks, return the same optional value and leave the
same cursor. -/
theorem ReadVarInt_same {σ τ : Type} (E1 : Errors σ) (E2 : Errors τ) (T : IntType)
    (data : SpanU8) (e1 : σ) (e2 : τ) (desc : String) :
    ∃ (v : Option Int) (d : SpanU8) (s1 : σ) (s2 : τ),
      ReadVarInt E1 T data e1 desc = some (ReadResult.mk v d s1) ∧
      ReadVarInt E2 T data e2 desc = some (ReadResult.mk v d s2) := by
  obtain ⟨pos, bs⟩ := data
  rcases ReadVarInt_cases E1 T pos bs e1 desc with ⟨hall, hlen, h1⟩ |
    ⟨cs, b, tl, hbs, hall, hq, h1⟩ | ⟨cs, b, tl, hbs, hall, hlen, hok, h1⟩
  · exact ⟨_, _, _, _, h1, ReadVarInt_truncated E2 T bs pos e2 desc hall hlen⟩
  · subst hbs
    rcases hq with ⟨hl, hok⟩ | ⟨hl, hb⟩
    · exact ⟨_, _, _, _, h1, ReadVarInt_last_ok E2 T cs b tl pos e2 desc hall hl hok⟩
    · exact ⟨_, _, _, _, h1, ReadVarInt_short E2 T cs b tl pos e2 desc hall hl hb⟩
  · subst hbs
    exact ⟨_, _, _, _, h1, ReadVarInt_last_bad E2 T cs b tl pos e2 desc hall hlen hok⟩

theorem ReadCount_same {σ τ : Type} (E1 : Errors σ) (E2 : Errors τ) (data : SpanU8)
    (e1 : σ) (e2 : τ) :
    ∃ (v : Option Nat) (d : SpanU8) (s1 : σ) (s2 : τ),
      ReadCount E1 data e1 = some (ReadResult.mk v d s1) ∧
      ReadCount E2 data e2 = some (ReadResult.mk v d s2) := by
  obtain ⟨v, d, s1, s2, h1, h2⟩ := ReadVarInt_same E1 E2 IntType.u32 data e1 e2 "index"
  cases v with
  | none =>
    exact ⟨none, d, s1, s2, ReadCount_of_fail E1 data e1 d s1 h1,
      ReadCount_of_fail E2 data e2 d s2 h2⟩
  | some c =>
    have g1 := ReadCount_of_read E1 data e1 c d s1 h1
    have g2 := ReadCount_of_read E2 data e2 c d s2 h2
    by_cases hlong : d.bytes.length < c.toNat
    · rw [if_pos hlong] at g1 g2
      exact ⟨none, d, _, _, g1, g2⟩
    · rw [if_neg hlong] at g1 g2
      exact ⟨some c.toNat, d, _, _, g1, g2⟩

theorem ReadVectorLoop_same {σ τ α : Type}
    (read1 : SpanU8 → σ → Option (ReadResult σ α))
    (read2 : SpanU8 → τ → Option (ReadResult τ α))
    (hread : ∀ (data : SpanU8) (e1 : σ) (e2 : τ),
      ∃ (v : Option α) (d : SpanU8) (s1 : σ) (s2 : τ),
        read1 data e1 = some (ReadResult.mk v d s1) ∧
        read2 data e2 = some (ReadResult.mk v d s2)) :
    ∀ (n : Nat) (acc : List α) (data : SpanU8) (e1 : σ) (e2 : τ),
      ∃ (v : Option (List α)) (d : SpanU8) (s1 : σ) (s2 : τ),
        ReadVectorLoop read1 n acc data e1 = some (ReadResult.mk v d s1) ∧
        ReadVectorLoop read2 n acc data e2 = some (ReadResult.mk v d s2) := by
  intro n
  induction n with
  | zero => intro acc data e1 e2; exact ⟨some acc, data, e1, e2, rfl, rfl⟩
  | succ k ih =>
    intro acc data e1 e2
    obtain ⟨v, d, s1, s2, h1, h2⟩ := hread data e1 e2
    cases v with
    | none =>
      exact ⟨none, d, s1, s2, by simp only [ReadVectorLoop, h1],
        by simp only [ReadVectorLoop, h2]⟩
    | some elt =>
      obtain ⟨v2, d2, t1, t2, g1, g2⟩ := ih (acc ++ [elt]) d s1 s2
      exact ⟨v2, d2, t1, t2, by simp only [ReadVectorLoop, h1, g1],
        by simp only [ReadVectorLoop, h2, g2]⟩

theorem ReadVector_same {σ τ α : Type} (E1 : Errors σ) (E2 : Errors τ)
    (read1 : SpanU8 → σ → Option (ReadResult σ α))
    (read2 : SpanU8 → τ → Option (ReadResult τ α))
    (hread : ∀ (data : SpanU8) (e1 : σ) (e2 : τ),
      ∃ (v : Option α) (d : SpanU8) (s1 : σ) (s2 : τ),
        read1 data e1 = some (ReadResult.mk v d s1) ∧
        read2 data e2 = some (ReadResult.mk v d s2))
    (data : SpanU8) (e1 : σ) (e2 : τ) (desc : String) :
    ∃ (v : Option (List α)) (d : SpanU8) (s1 : σ) (s2 : τ),
      ReadVector E1 read1 data e1 desc = some (ReadResult.mk v d s1) ∧
      ReadVector E2 read2 data e2 desc = some (ReadResult.mk v d s2) := by
  obtain ⟨c, d, s1, s2, h1, h2⟩ := ReadCount_same E1 E2 data
    (E1.PushContext data desc e1) (E2.PushContext data desc e2)
  cases c with
  | none =>
    exact ⟨none, d, _, _, ReadVector_count_fail E1 read1 data e1 desc d s1 h1,
      ReadVector_count_fail E2 read2 data e2 desc d s2 h2⟩
  | some len =>
    obtain ⟨v, d2, t1, t2, g1, g2⟩ := ReadVectorLoop_same read1 read2 hread len [] d s1 s2
    exact ⟨v, d2, E1.PopContext t1, E2.PopContext t2,
      by simp only [ReadVector, h1, g1], by simp only [ReadVector, h2, g2]⟩

/-- C38: the error sink never influences decoding. For every input,
`ReadVarInt<T>` returns the same optional value and leaves the cursor at the
same position whether it is given the discarding sink `ErrorsNop` or any
other sink, in any state, such as the recording sink; so does `ReadVector`
for every element reader that itself returns the same value and cursor over
both sinks, and so in particular `ReadVector<u32>`. Both always return. -/
theorem C38_sink_independence {σ α : Type} (E : Errors σ) (T : IntType) (data : SpanU8)
    (e : σ) (desc : String)
    (readNop : SpanU8 → Unit → Option (ReadResult Unit α))
    (read : SpanU8 → σ → Option (ReadResult σ α)) :
    (∃ (v : Option Int) (d : SpanU8) (s : σ),
      ReadVarInt ErrorsNop T data () desc = some (ReadResult.mk v d ()) ∧
      ReadVarInt E T data e desc = some (ReadResult.mk v d s)) ∧
    (∃ (v : Option (List Int)) (d : SpanU8) (s : σ),
      ReadVector ErrorsNop (ReadU32 ErrorsNop) data () desc = some (ReadResult.mk v d ()) ∧
      ReadVector E (ReadU32 E) data e desc = some (ReadResult.mk v d s)) ∧
    ((∀ (data : SpanU8) (e1 : Unit) (e2 : σ),
        ∃ (v : Option α) (d : SpanU8) (s1 : Unit) (s2 : σ),
          readNop data e1 = some (ReadResult.mk v d s1) ∧
          read data e2 = some (ReadResult.mk v d s2)) →
      ∃ (v : Option (List α)) (d : SpanU8) (s : σ),
        ReadVector ErrorsNop readNop data () desc = some (ReadResult.mk v d ()) ∧
        ReadVector E read data e desc = some (ReadResult.mk v d s)) := by
  refine ⟨?_, ?_, ?_⟩
  · obtain ⟨v, d, _, s, h1, h2⟩ := ReadVarInt_same ErrorsNop E T data () e desc
    exact ⟨v, d, s, h1, h2⟩
  · obtain ⟨v, d, _, s, h1, h2⟩ := ReadVector_same ErrorsNop E (ReadU32 ErrorsNop) (ReadU32 E)
      (fun data e1 e2 => ReadVarInt_same ErrorsNop E IntType.u32 data e1 e2 "u32")
      data () e desc
    exact ⟨v, d, s, h1, h2⟩
  · intro hread
    obtain ⟨v, d, _, s, h1, h2⟩ := ReadVector_same ErrorsNop E readNop read hread data () e desc
    exact ⟨v, d, s, h1, h2⟩

/-- Witness of C38: on `02 05 80` the vector read fails and leaves the cursor
at offset 3 over the discarding sink as over the recording sink, and on
`C0 63` both reads of an `s32` return -3648. -/
theorem C38_sink_independence_witness :
    ReadVector ErrorsNop (ReadU32 ErrorsNop) (SpanU8.mk 0 [0x02, 0x05, 0x80]) () "test" =
      some (ReadResult.mk none (SpanU8.mk 3 []) ()) ∧
    (ReadVector TestErrors.sink (ReadU32 TestErrors.sink) (SpanU8.mk 0 [0x02, 0x05, 0x80])
      TestErrors.empty "test").map (fun r => (r.value, r.data)) =
      some (none, SpanU8.mk 3 []) ∧
    ReadVarInt ErrorsNop IntType.s32 (SpanU8.mk 0 [0xc0, 0x63]) () "s32" =
      some (ReadResult.mk (some (-3648)) (SpanU8.mk 2 []) ()) ∧
    (ReadVarInt TestErrors.sink IntType.s32 (SpanU8.mk 0 [0xc0, 0x63])
      TestErrors.empty "s32").map (fun r => (r.value, r.data)) =
      some (some (-3648), SpanU8.mk 2 []) := by
  obtain ⟨⟨v, d, s, h1, h2⟩, _, _⟩ := C38_sink_independence (α := Int) TestErrors.sink
    IntType.s32 (SpanU8.mk 0 [0xc0, 0x63]) TestErrors.empty "s32"
    (ReadU32 ErrorsNop) (ReadU32 TestErrors.sink)
  obtain ⟨_, ⟨w, d2, s2, g1, g2⟩, _⟩ := C38_sink_independence (α := Int) TestErrors.sink
    IntType.s32 (SpanU8.mk 0 [0x02, 0x05, 0x80]) TestErrors.empty "test"
    (ReadU32 ErrorsNop) (ReadU32 TestErrors.sink)
  have k1 : ReadVarInt ErrorsNop IntType.s32 (SpanU8.mk 0 [0xc0, 0x63]) () "s32" =
      some (ReadResult.mk (some (-3648)) (SpanU8.mk 2 []) ()) := by decide
  have k2 : ReadVector ErrorsNop (ReadU32 ErrorsNop) (SpanU8.mk 0 [0x02, 0x05, 0x80]) ()
      "test" = some (ReadResult.mk none (SpanU8.mk 3 []) ()) := by decide
  rw [k1] at h1
  rw [k2] at g1
  simp only [Option.some.injEq, ReadResult.mk.injEq, and_true] at h1 g1
  obtain ⟨hv, hd⟩ := h1
  obtain ⟨hw, hd2⟩ := g1
  subst hv hd hw hd2
  exact ⟨k2, by rw [g2]; rfl, k1, by rw [h2]; rfl⟩

/-! ## The diagnostic of the final byte -/

set_option maxRecDepth 100000 in
theorem zero_ext_bits (b : U8) :
    b.val &&& (0xff ^^^ kLastByteMask IntType.u32) &&& kByteMask = b.val &&& 0x0F ∧
    b.val &&& (0xff ^^^ kLastByteMask IntType.s32) &&& kByteMask = b.val &&& 0x07 ∧
    b.val &&& (0xff ^^^ kLastByteMask IntType.s64) &&& kByteMask = 0x00 := by
  revert b; decide

set_option maxRecDepth 100000 in
theorem one_ext_bits (b : U8) :
    (b.val ||| kLastByteOnes IntType.s32) &&& kByteMask = (b.val ||| 0x78) &&& 0x7F ∧
    (b.val ||| kLastByteOnes IntType.s64) &&& kByteMask = 0x7F := by
  revert b; decide

theorem lastByteMessage_eq (T : IntType) (desc : String) (b : U8) :
    lastByteMessage T desc b.val = extensionDiagnostic T desc b := by
  obtain ⟨z1, z2, z3⟩ := zero_ext_bits b
  obtain ⟨o1, o2⟩ := one_ext_bits b
  cases T
  · simp only [lastByteMessage, extensionDiagnostic, IntType.is_signed, Bool.false_eq_true,
      if_false, z1]
  · simp only [lastByteMessage, extensionDiagnostic, IntType.is_signed, if_true, z2, o1]
  · simp only [lastByteMessage, extensionDiagnostic, IntType.is_signed, if_true, z3, o2]

/-- C33: when the final byte `b` of a maximum-length LEB128 violates the
extension rule, `ReadVarInt<T>` returns absent and records one error: under
the frame of the read at the offset of entry, the diagnostic located just
past that byte, which names `b` itself as "got" and, as "expected", `b` with
its extension bits cleared (`b & 0x0F` for `u32`, `b & 0x07` for `s32`,
`0x00` for `s64`) and, for the signed types only, also `b` with them set and
bit 7 cleared (`(b | 0x78) & 0x7F` for `s32`, `0x7F` for `s64`). The final
byte is the one after `ceil(W/7) - 1` bytes that have bit 7 set, and it
violates the rule when the test of the code on it fails. -/
theorem C33_final_byte_diagnostic (T : IntType) (cs : List U8) (b : U8) (tl : List U8)
    (desc : String) (pos : Nat) (e : TestErrors)
    (hall : ∀ c ∈ cs, c.val &&& 0x80 ≠ 0) (hlen : cs.length + 1 = kMaxBytes T)
    (hbad : ¬ lastOk T b) :
    ReadVarInt TestErrors.sink T (SpanU8.mk pos (cs ++ b :: tl)) e desc =
      some (ReadResult.mk none (SpanU8.mk (pos + kMaxBytes T) tl)
        (TestErrors.mk e.context_stack
          (e.errors ++ [e.context_stack ++
            [ErrorContext.mk (SpanU8.mk pos (cs ++ b :: tl)) desc,
              ErrorContext.mk (SpanU8.mk (pos + kMaxBytes T) tl)
                (extensionDiagnostic T desc b)]]))) := by
  rw [ReadVarInt_last_bad TestErrors.sink T cs b tl pos e desc (all_bit7_set cs hall) hlen
    hbad, pop_onError_push, lastByteMessage_eq, ← hlen, Nat.add_assoc]

/-- Witness of C33: `F0 F0 F0 F0 12` as a `u32` gives "expected 0x2, got
0x12"; `F0 F0 F0 F0 15` as an `s32` gives "expected 0x5 or 0x7d, got 0x15";
and ten bytes `F0` as an `s64` give "expected 0x0 or 0x7f, got 0xf0"; each at
the offset just past the final byte, under the frame at offset 0. -/
theorem C33_final_byte_diagnostic_witness :
    ReadVarInt TestErrors.sink IntType.u32 (SpanU8.mk 0 [0xf0, 0xf0, 0xf0, 0xf0, 0x12])
        TestErrors.empty "u32" =
      some (ReadResult.mk none (SpanU8.mk 5 [])
        (TestErrors.mk []
          [[ErrorContext.mk (SpanU8.mk 0 [0xf0, 0xf0, 0xf0, 0xf0, 0x12]) "u32",
            ErrorContext.mk (SpanU8.mk 5 [])
              "Last byte of u32 must be zero extension: expected 0x2, got 0x12"]])) ∧
    ReadVarInt TestErrors.sink IntType.s32 (SpanU8.mk 0 [0xf0, 0xf0, 0xf0, 0xf0, 0x15])
        TestErrors.empty "s32" =
      some (ReadResult.mk none (SpanU8.mk 5 [])
        (TestErrors.mk []
          [[ErrorContext.mk (SpanU8.mk 0 [0xf0, 0xf0, 0xf0, 0xf0, 0x15]) "s32",
            ErrorContext.mk (SpanU8.mk 5 [])
              "Last byte of s32 must be sign extension: expected 0x5 or 0x7d, got 0x15"]])) ∧
    ReadVarInt TestErrors.sink IntType.s64
        (SpanU8.mk 0 [0xf0, 0xf0, 0xf0, 0xf0, 0xf0, 0xf0, 0xf0, 0xf0, 0xf0, 0xf0])
        TestErrors.empty "s64" =
      some (ReadResult.mk none (SpanU8.mk 10 [])
        (TestErrors.mk []
          [[ErrorContext.mk
              (SpanU8.mk 0 [0xf0, 0xf0, 0xf0, 0xf0, 0xf0, 0xf0, 0xf0, 0xf0, 0xf0, 0xf0]) "s64",
            ErrorContext.mk (SpanU8.mk 10 [])
              "Last byte of s64 must be sign extension: expected 0x0 or 0x7f, got 0xf0"]])) :=
  ⟨(C33_final_byte_diagnostic IntType.u32 [0xf0, 0xf0, 0xf0, 0xf0] 0x12 [] "u32" 0
      TestErrors.empty (by set_option maxRecDepth 100000 in decide) (by decide)
      (by decide)).trans (by decide),
    (C33_final_byte_diagnostic IntType.s32 [0xf0, 0xf0, 0xf0, 0xf0] 0x15 [] "s32" 0
      TestErrors.empty (by set_option maxRecDepth 100000 in decide) (by decide)
      (by decide)).trans (by decide),
    (C33_final_byte_diagnostic IntType.s64
      [0xf0, 0xf0, 0xf0, 0xf0, 0xf0, 0xf0, 0xf0, 0xf0, 0xf0] 0xf0 [] "s64" 0
      TestErrors.empty (by set_option maxRecDepth 100000 in decide) (by decide)
      (by decide)).trans (by decide)⟩

/-! ## The errors of the validation of limits -/

/-- C37: `valid::Validate` on limits does not stop at the first problem. The
calls it makes to the sink are the push of "limits", one `OnError` for each
violated condition among `min > bound`, `max > bound` and `min > max`, the
last two only when the maximum is present, in that order, and the pop; so the
number of the errors it reports is the number of the violated conditions. It
returns true exactly when there is none. Over a recording sink the context
stack is the same after the call as before, and each error is recorded under
the frame "limits". With `min = 10`, `max = 5` and the bound 3 it reports
three errors. -/
theorem C37_Validate_all_errors {σ : Type} (E : valid.Errors σ) (value : Limits)
    (bound : Nat) (s : σ) (e : valid.Recorded) :
    valid.Validate E value bound s =
      (decide (valid.violations value bound = []),
        E.PopContext ((valid.violations value bound).foldl (fun acc m => E.OnError m acc)
          (E.PushContext "limits" s))) ∧
    (valid.violations value bound).length = valid.violated value bound ∧
    (valid.Validate valid.Recorded.sink value bound e).2 =
      valid.Recorded.mk e.context_stack
        (e.errors ++ (valid.violations value bound).map
          (fun m => e.context_stack ++ ["limits", m])) ∧
    valid.Validate valid.Recorded.sink (Limits.mk 10 (some 5) Shared.No) 3
        (valid.Recorded.mk [] []) =
      (false, valid.Recorded.mk []
        [["limits", "Expected minimum 10 to be <= 3"],
          ["limits", "Expected maximum 5 to be <= 3"],
          ["limits", "Expected minimum 10 to be <= maximum 5"]]) := by
  have hgen : ∀ {τ : Type} (F : valid.Errors τ) (t : τ),
      valid.Validate F value bound t =
        (decide (valid.violations value bound = []),
          F.PopContext ((valid.violations value bound).foldl (fun acc m => F.OnError m acc)
            (F.PushContext "limits" t))) := by
    intro τ F t
    obtain ⟨min, max, shared⟩ := value
    cases max with
    | none =>
      by_cases h1 : min > bound <;> simp [valid.Validate, valid.violations, h1]
    | some m =>
      by_cases h1 : min > bound <;> by_cases h2 : m > bound <;> by_cases h3 : min > m <;>
        simp [valid.Validate, valid.violations, h1, h2, h3]
  refine ⟨hgen E s, ?_, ?_, by decide⟩
  · obtain ⟨min, max, shared⟩ := value
    cases max with
    | none =>
      by_cases h1 : min > bound <;> simp [valid.violations, valid.violated, h1]
    | some m =>
      by_cases h1 : min > bound <;> by_cases h2 : m > bound <;> by_cases h3 : min > m <;>
        simp [valid.violations, valid.violated, h1, h2, h3]
  · rw [hgen valid.Recorded.sink e]
    have hfold : ∀ (ms : List String) (errs : List (List String)),
        ms.foldl (fun acc m => valid.Recorded.sink.OnError m acc)
            (valid.Recorded.mk (e.context_stack ++ ["limits"]) errs) =
          valid.Recorded.mk (e.context_stack ++ ["limits"])
            (errs ++ ms.map (fun m => e.context_stack ++ ["limits", m])) := by
      intro ms
      induction ms with
      | nil => intro errs; simp
      | cons m rest ih =>
        intro errs
        simp only [List.foldl_cons, List.map_cons]
        have : valid.Recorded.sink.OnError m
            (valid.Recorded.mk (e.context_stack ++ ["limits"]) errs) =
            valid.Recorded.mk (e.context_stack ++ ["limits"])
              (errs ++ [e.context_stack ++ ["limits", m]]) := by
          simp [valid.Recorded.sink]
        rw [this, ih]
        simp
    have hpush : valid.Recorded.sink.PushContext "limits" e =
        valid.Recorded.mk (e.context_stack ++ ["limits"]) e.errors := rfl
    simp only [hpush, hfold]
    simp [valid.Recorded.sink]

/-! ## The start section -/

/-- C39: `ReadStartSection` decodes only the leading `Start` entry and
ignores whatever follows it. For every payload that is a valid start entry,
an encoding of the index that `ReadVarInt<u32>` accepts in full, followed by
arbitrary extra bytes, it returns the same `Start` value as for the entry
alone and reports nothing, the recording sink being left as it was; and the
span of the caller is the same after the call as before. -/
theorem C39_ReadStartSection (bs : List U8) (v : Int) (hacc : AcceptsInFull IntType.u32 bs v)
    (extra : List U8) (pos : Nat) (e : TestErrors) :
    ReadStartSection TestErrors.sink (SpanU8.mk pos (bs ++ extra)) e =
      some (ReadResult.mk (some (Start.mk v.toNat)) (SpanU8.mk pos (bs ++ extra)) e) ∧
    ReadStartSection TestErrors.sink (SpanU8.mk pos bs) e =
      some (ReadResult.mk (some (Start.mk v.toNat)) (SpanU8.mk pos bs) e) := by
  have h := fun (rest : List U8) (e1 : TestErrors) =>
    ReadVarInt_accepted IntType.u32 bs v hacc pos rest e1 "index"
  constructor
  · simp only [ReadStartSection, ReadStart, TryReadContext, ReadIndex, h, TryRead, pop_push]
  · have h0 := fun e1 => h [] e1
    simp only [List.append_nil] at h0
    simp only [ReadStartSection, ReadStart, TryReadContext, ReadIndex, h0, TryRead, pop_push]

/-- Witness of C39: `80 02 FF` yields `Start{256}`, as `80 02` does, with no
error, and the span still holds the three bytes. -/
theorem C39_ReadStartSection_witness :
    AcceptsInFull IntType.u32 [0x80, 0x02] 256 ∧
    ReadStartSection TestErrors.sink (SpanU8.mk 0 [0x80, 0x02, 0xff]) TestErrors.empty =
      some (ReadResult.mk (some (Start.mk 256)) (SpanU8.mk 0 [0x80, 0x02, 0xff])
        TestErrors.empty) ∧
    ReadStartSection TestErrors.sink (SpanU8.mk 0 [0x80, 0x02]) TestErrors.empty =
      some (ReadResult.mk (some (Start.mk 256)) (SpanU8.mk 0 [0x80, 0x02])
        TestErrors.empty) :=
  ⟨by decide,
    (C39_ReadStartSection [0x80, 0x02] 256 (by decide) [0xff] 0 TestErrors.empty).1,
    (C39_ReadStartSection [0x80, 0x02] 256 (by decide) [0xff] 0 TestErrors.empty).2⟩

/-! ## The shape and the length of what `WriteVarInt` writes -/

theorem Carries_one (T : IntType) (v : Int) : Carries T 1 v ↔ Stops T v := by
  unfold Carries Stops
  cases T.is_signed <;> simp

theorem Carries_succ (T : IntType) (k : Nat) (hk : 1 ≤ k) (v : Int) :
    Carries T (k + 1) v ↔ Carries T k (v / 128) := by
  unfold Carries
  cases hT : T.is_signed
  · simp only [Bool.false_eq_true, if_false]
    have e : (2 : Int) ^ (7 * (k + 1)) = 128 * 2 ^ (7 * k) := by
      rw [show 7 * (k + 1) = 7 + 7 * k by omega, pow_add]; norm_num
    rw [e]
    generalize (2 : Int) ^ (7 * k) = P
    omega
  · simp only [if_true]
    have e : (2 : Int) ^ (7 * (k + 1) - 1) = 128 * 2 ^ (7 * k - 1) := by
      rw [show 7 * (k + 1) - 1 = 7 + (7 * k - 1) by omega, pow_add]; norm_num
    rw [e]
    generalize (2 : Int) ^ (7 * k - 1) = P
    omega

theorem ediv_128_ediv (v P : Int) (hP : 0 < P) : v / (128 * P) = v / 128 / P := by
  have h1 := Int.emod_add_ediv v 128
  have h2 := Int.emod_add_ediv (v / 128) P
  have h3 := Int.emod_nonneg (v / 128) (ne_of_gt hP)
  have h4 := Int.emod_lt_of_pos (v / 128) hP
  have key := (Int.ediv_emod_unique (a := v) (b := 128 * P) (q := v / 128 / P)
    (r := v % 128 + 128 * (v / 128 % P)) (by omega)).2
    ⟨by
      have : 128 * P * (v / 128 / P) = 128 * (P * (v / 128 / P)) := by ring
      rw [this]; omega, by omega, by omega⟩
  exact key.1

/-- What the loop of the writer writes for a value that the bytes from the
`i`-th on can carry: at least one byte and no more than the iterations that
remain; as many bytes as the value needs and no fewer; each byte holds in its
low seven bits the seven bits of the value at its position; and bit 7 is set
in every byte but the last. -/
theorem write_shape (T : IntType) :
    ∀ (n i : Nat) (v : Int) (out : List U8), i + n = kMaxBytes T → 0 < n → Fits T i v →
      ∃ bs : List U8, WriteVarIntLoop (endCond T v) n v out = some (out ++ bs) ∧
        1 ≤ bs.length ∧ bs.length ≤ n ∧ Carries T bs.length v ∧
        (∀ j, 1 ≤ j → j < bs.length → ¬ Carries T j v) ∧
        (∀ (j : Nat) (b : U8), bs[j]? = some b →
          b.val % 128 = (v / 128 ^ j % 128).toNat ∧ (128 ≤ b.val ↔ j + 1 < bs.length)) := by
  intro n
  induction n with
  | zero => intro i v out _ h; omega
  | succ k ih =>
    intro i v out hin _ hfit
    rw [write_step T v k out (Fits_unsigned T i v hfit)]
    have hl7 := low7_lt v
    by_cases hs : Stops T v
    · rw [if_pos hs]
      refine ⟨[stopByte v], rfl, by simp, by simp, ?_, ?_, ?_⟩
      · simpa using (Carries_one T v).2 hs
      · intro j h1 h2
        simp at h2
        omega
      · intro j b hb
        cases j with
        | zero =>
          simp only [List.getElem?_cons_zero, Option.some.injEq] at hb
          subst hb
          rw [stopByte_val]
          simp only [pow_zero, Int.ediv_one, List.length_singleton]
          omega
        | succ j => simp at hb
    · rw [if_neg hs]
      have hi : i + 1 < kMaxBytes T := by
        by_contra hc
        exact hs (Fits_last T i v (by omega) hfit).1
      have hcv := contByte_val v
      obtain ⟨bs, hw, h1, h2, hcar, hmin, hbytes⟩ := ih (i + 1) (v / 128) (out ++ [contByte v])
        (by omega) (by omega) (Fits_next T i v hi hfit)
      refine ⟨contByte v :: bs, ?_, by simp, by simp only [List.length_cons]; omega, ?_, ?_, ?_⟩
      · rw [hw]; simp
      · simp only [List.length_cons]
        exact (Carries_succ T bs.length h1 v).2 hcar
      · intro j hj1 hj2 hc
        simp only [List.length_cons] at hj2
        obtain ⟨m, hm⟩ : ∃ m, j = m + 1 := ⟨j - 1, by omega⟩
        subst hm
        cases m with
        | zero => exact hs ((Carries_one T v).1 hc)
        | succ m =>
          exact hmin (m + 1) (by omega) (by omega)
            ((Carries_succ T (m + 1) (by omega) v).1 hc)
      · intro j b hb
        cases j with
        | zero =>
          simp only [List.getElem?_cons_zero, Option.some.injEq] at hb
          subst hb
          simp only [pow_zero, Int.ediv_one, List.length_cons]
          omega
        | succ j =>
          simp only [List.getElem?_cons_succ] at hb
          obtain ⟨hb1, hb2⟩ := hbytes j b hb
          have e : v / 128 ^ (j + 1) = v / 128 / 128 ^ j := by
            rw [pow_succ, mul_comm]
            exact ediv_128_ediv v (128 ^ j) (by positivity)
          rw [e]
          simp only [List.length_cons]
          exact ⟨hb1, by omega⟩

theorem WriteVarIntLoop_fuel (end_cond : Int → Nat → Bool) :
    ∀ (n m : Nat) (v : Int) (out r : List U8),
      WriteVarIntLoop end_cond n v out = some r →
        WriteVarIntLoop end_cond (n + m) v out = some r := by
  intro n
  induction n with
  | zero => intro m v out r h; simp [WriteVarIntLoop] at h
  | succ k ih =>
    intro m v out r h
    rw [show k + 1 + m = (k + m) + 1 by omega]
    unfold WriteVarIntLoop at h ⊢
    dsimp only at h ⊢
    split_ifs at h ⊢ with hc
    · exact h
    · exact ih m _ _ r h

set_option maxRecDepth 100000 in
theorem low_seven_bits (b : U8) : b.val &&& 0x7F = b.val % 128 := by
  revert b; decide

/-- C34: for every value of type `u32`, `s32` or `s64` the loop of
`WriteVarInt` terminates, within `ceil(W/7)` iterations, and what it appends
is a well-formed LEB128 sequence: at least one byte and at most `ceil(W/7)`
bytes (five for the 32-bit types, ten for `s64`), bit 7 set in every byte but
the last, and bit 7 clear in the last. More iterations than `ceil(W/7)` do
not change the result. -/
theorem C34_WriteVarIntLoop_well_formed (T : IntType) (v : Int) (h : InRange T v)
    (out : List U8) :
    ∃ (cs : List U8) (b : U8),
      WriteVarInt T v out = some (out ++ (cs ++ [b])) ∧
      (∀ n, kMaxBytes T ≤ n →
        WriteVarIntLoop (endCond T v) n v out = some (out ++ (cs ++ [b]))) ∧
      1 ≤ (cs ++ [b]).length ∧
      (cs ++ [b]).length ≤ kMaxBytes T ∧
      kMaxBytes T = (T.kNumBits + 6) / 7 ∧
      kMaxBytes T = (match T with | IntType.u32 => 5 | IntType.s32 => 5 | IntType.s64 => 10) ∧
      (∀ c ∈ cs, c.val &&& 0x80 ≠ 0) ∧
      b.val &&& 0x80 = 0 := by
  obtain ⟨bs, hw, h1, h2, -, -, hbytes⟩ :=
    write_shape T (kMaxBytes T) 0 v out (by omega) (kMaxBytes_pos T) (InRange_Fits T v h)
  have hne : bs ≠ [] := by
    intro hnil
    rw [hnil] at h1
    simp at h1
  obtain ⟨cs, b, rfl⟩ : ∃ cs b, bs = cs ++ [b] :=
    ⟨bs.dropLast, bs.getLast hne, (List.dropLast_append_getLast hne).symm⟩
  refine ⟨cs, b, ?_, ?_, h1, h2, rfl, by cases T <;> rfl, ?_, ?_⟩
  · rw [WriteVarInt_eq]; exact hw
  · intro n hn
    obtain ⟨m, rfl⟩ : ∃ m, n = kMaxBytes T + m := ⟨n - kMaxBytes T, by omega⟩
    exact WriteVarIntLoop_fuel _ _ m v out _ hw
  · intro c hc
    obtain ⟨j, hj, hjc⟩ := List.getElem_of_mem hc
    have hget : (cs ++ [b])[j]? = some c := by
      rw [List.getElem?_append_left hj, List.getElem?_eq_getElem hj, hjc]
    have h7 := (hbytes j c hget).2
    simp only [List.length_append, List.length_singleton] at h7
    have h128 : 128 ≤ c.val := h7.2 (by omega)
    have hb := byte_and_kExtendBit c
    simp only [kExtendBit] at hb
    intro h0
    have := hb.1 h0
    omega
  · have hget : (cs ++ [b])[cs.length]? = some b := by simp
    have h7 := (hbytes cs.length b hget).2
    simp only [List.length_append, List.length_singleton] at h7
    have hb := byte_and_kExtendBit b
    simp only [kExtendBit] at hb
    apply hb.2
    by_contra hc
    have := h7.1 (by omega)
    omega

/-- Witness of C34: 624485 as a `u32` is written as `E5 8E 26`. -/
theorem C34_WriteVarIntLoop_well_formed_witness :
    InRange IntType.u32 624485 ∧
    WriteVarInt IntType.u32 624485 [] = some [0xE5, 0x8E, 0x26] ∧
    ∃ (cs : List U8) (b : U8),
      WriteVarInt IntType.u32 624485 [] = some ([] ++ (cs ++ [b])) ∧
      (∀ n, kMaxBytes IntType.u32 ≤ n →
        WriteVarIntLoop (endCond IntType.u32 624485) n 624485 [] = some ([] ++ (cs ++ [b]))) ∧
      1 ≤ (cs ++ [b]).length ∧
      (cs ++ [b]).length ≤ kMaxBytes IntType.u32 ∧
      kMaxBytes IntType.u32 = (IntType.u32.kNumBits + 6) / 7 ∧
      kMaxBytes IntType.u32 = 5 ∧
      (∀ c ∈ cs, c.val &&& 0x80 ≠ 0) ∧
      b.val &&& 0x80 = 0 :=
  ⟨by decide, by decide, C34_WriteVarIntLoop_well_formed IntType.u32 624485 (by decide) []⟩

/-- C31: `WriteVarInt` writes the shortest encoding of a value of its type.
For an unsigned value the number of bytes is the larger of 1 and
`ceil(bitlength / 7)`; for a signed value it is the least `k ≥ 1` with
`-2^(7k-1) ≤ x < 2^(7k-1)`; and the low seven bits of the byte at position
`i` are the bits `7i .. 7i+6` of the value, that is
`floor(x / 2^(7i)) mod 128`. -/
theorem C31_WriteVarInt_shortest (T : IntType) (v : Int) (h : InRange T v) (out : List U8) :
    ∃ bs : List U8, WriteVarInt T v out = some (out ++ bs) ∧
      (T.is_signed = false → bs.length = max 1 ((Nat.size v.toNat + 6) / 7)) ∧
      (T.is_signed = true →
        1 ≤ bs.length ∧
        (-(2 : Int) ^ (7 * bs.length - 1) ≤ v ∧ v < 2 ^ (7 * bs.length - 1)) ∧
        ∀ k : Nat, 1 ≤ k → -(2 : Int) ^ (7 * k - 1) ≤ v → v < 2 ^ (7 * k - 1) →
          bs.length ≤ k) ∧
      (∀ (i : Nat) (b : U8), bs[i]? = some b →
        b.val &&& 0x7F = (v / 2 ^ (7 * i) % 128).toNat) := by
  obtain ⟨bs, hw, h1, -, hcar, hmin, hbytes⟩ :=
    write_shape T (kMaxBytes T) 0 v out (by omega) (kMaxBytes_pos T) (InRange_Fits T v h)
  refine ⟨bs, by rw [WriteVarInt_eq]; exact hw, ?_, ?_, ?_⟩
  · intro hT
    unfold Carries at hcar hmin
    simp only [hT, Bool.false_eq_true, if_false] at hcar hmin
    obtain ⟨x, rfl⟩ : ∃ x : Nat, v = (x : Int) := ⟨v.toNat, by omega⟩
    simp only [Int.toNat_ofNat]
    have hlt : x < 2 ^ (7 * bs.length) := by exact_mod_cast hcar.2
    have hsz : Nat.size x ≤ 7 * bs.length := Nat.size_le.2 hlt
    have hge : 1 < bs.length → 7 * (bs.length - 1) < Nat.size x := by
      intro hl
      apply Nat.lt_size.2
      have := hmin (bs.length - 1) (by omega) (by omega)
      by_contra hc
      apply this
      refine ⟨by omega, ?_⟩
      have : x < 2 ^ (7 * (bs.length - 1)) := by omega
      exact_mod_cast this
    by_cases hl : 1 < bs.length
    · have := hge hl
      omega
    · omega
  · intro hT
    unfold Carries at hcar hmin
    simp only [hT, if_true] at hcar hmin
    refine ⟨h1, hcar, ?_⟩
    intro k hk hlo hhi
    by_contra hc
    exact hmin k hk (by omega) ⟨hlo, hhi⟩
  · intro i b hb
    rw [low_seven_bits, (hbytes i b hb).1, show (2 : Int) ^ (7 * i) = 128 ^ i by
      rw [pow_mul]; norm_num]

/-- Witness of C31: -3648 as an `s32` is written in two bytes, `C0 63`. -/
theorem C31_WriteVarInt_shortest_witness :
    InRange IntType.s32 (-3648) ∧
    WriteVarInt IntType.s32 (-3648) [] = some [0xC0, 0x63] ∧
    ∃ bs : List U8, WriteVarInt IntType.s32 (-3648) [] = some ([] ++ bs) ∧
      (IntType.s32.is_signed = false →
        bs.length = max 1 ((Nat.size (-3648 : Int).toNat + 6) / 7)) ∧
      (IntType.s32.is_signed = true →
        1 ≤ bs.length ∧
        (-(2 : Int) ^ (7 * bs.length - 1) ≤ -3648 ∧ (-3648 : Int) < 2 ^ (7 * bs.length - 1)) ∧
        ∀ k : Nat, 1 ≤ k → -(2 : Int) ^ (7 * k - 1) ≤ -3648 →
          (-3648 : Int) < 2 ^ (7 * k - 1) → bs.length ≤ k) ∧
      (∀ (i : Nat) (b : U8), bs[i]? = some b →
        b.val &&& 0x7F = ((-3648 : Int) / 2 ^ (7 * i) % 128).toNat) :=
  ⟨by decide, by decide, C31_WriteVarInt_shortest IntType.s32 (-3648) (by decide) []⟩

end binary
end wasp
